import Mathlib

/-!
# Python-Compiler front end: lexer, symbol table, inferrer, parser

A shallow embedding of `src/Compiler.cpp`.

Conventions of the embedding.

* A `std::string` holding source text is a `List Char`; the byte `b` of the C++ string is the
  character with code `b`.  `source[i]` is `charAt source i`, which is the NUL character at
  `i = source.size()` exactly as `std::string::operator[]` is.
* A `std::vector` used as a stack (`indentStack`, `scopeStack`) is a `List` whose head is
  `back()`; a `std::vector` that is only appended to (`tokens`, `errors`) is a `List` in
  insertion order.
* `int` line numbers are `Int`, `size_t` positions and indentation widths are `Nat`;
  the only place where the width of `int` matters is `std::stoi`, modelled with `INT_MAX`.
* C++ loops whose trip count is not structurally evident take a `fuel` argument; running out of
  fuel is a separate outcome (`none` / `outOfFuel`), never confused with a normal return.
-/

namespace PyCompiler

/-! ## 1. Token types -/

/-- The C++ `enum class TokenType`. -/
inductive TokenType where
  | FalseKeyword | NoneKeyword | TrueKeyword | AndKeyword | AsKeyword | AssertKeyword
  | AsyncKeyword | AwaitKeyword | BreakKeyword | ClassKeyword | ContinueKeyword | DefKeyword
  | DelKeyword | ElifKeyword | ElseKeyword | ExceptKeyword | FinallyKeyword | ForKeyword
  | FromKeyword | GlobalKeyword | IfKeyword | ImportKeyword | InKeyword | IsKeyword
  | LambdaKeyword | NonlocalKeyword | NotKeyword | OrKeyword | PassKeyword | RaiseKeyword
  | ReturnKeyword | TryKeyword | WhileKeyword | WithKeyword | YieldKeyword
  | IDENTIFIER | NUMBER | OPERATOR | STRING_LITERAL | COMMENT | UNKNOWN
  | LeftParenthesis | RightParenthesis | LeftBracket | RightBracket | LeftBrace | RightBrace
  | Colon | Comma | Dot | Semicolon | INDENT | DEDENT
  deriving DecidableEq, Repr

/-- The C++ `struct Token`; the constructor's default `s = ""` is the default of `scope`. -/
structure Token where
  type : TokenType
  lexeme : String
  lineNumber : Int
  scope : String := ""
  deriving DecidableEq, Repr

/-- The C++ `struct Error` (a diagnostic of the lexer). -/
structure Error where
  message : String
  line : Int
  position : Nat
  deriving DecidableEq, Repr

/-- The C++ `struct ScopeInfo`. -/
structure ScopeInfo where
  name : String
  indentLevel : Nat
  deriving DecidableEq, Repr

/-! ## 2. Character helpers -/

/-- `source[i]`: the character at `i`, NUL at the end of the string. -/
def charAt (source : List Char) (i : Nat) : Char := source.getD i (Char.ofNat 0)

/-- `source.substr(start, len)`. -/
def substr (source : List Char) (start len : Nat) : String := String.mk ((source.drop start).take len)

/-- `isalpha` in the "C" locale. -/
def isalpha (c : Char) : Bool :=
  (65 ≤ c.toNat && c.toNat ≤ 90) || (97 ≤ c.toNat && c.toNat ≤ 122)

/-- `isdigit`. -/
def isdigit (c : Char) : Bool := 48 ≤ c.toNat && c.toNat ≤ 57

/-- `isalnum` in the "C" locale. -/
def isalnum (c : Char) : Bool := isalpha c || isdigit c

/-- The index reached by `while (i < source.size() && p(source[i])) i++`. -/
def scanWhile (p : Char → Bool) (source : List Char) (i : Nat) : Nat :=
  i + ((source.drop i).takeWhile p).length

/-! ## 3. Lexer tables -/

/-- `Lexer::pythonKeywords`. -/
def pythonKeywords : List (String × TokenType) :=
  [ ("False", .FalseKeyword), ("None", .NoneKeyword), ("True", .TrueKeyword),
    ("and", .AndKeyword), ("as", .AsKeyword), ("assert", .AssertKeyword),
    ("async", .AsyncKeyword), ("await", .AwaitKeyword), ("break", .BreakKeyword),
    ("class", .ClassKeyword), ("continue", .ContinueKeyword), ("def", .DefKeyword),
    ("del", .DelKeyword), ("elif", .ElifKeyword), ("else", .ElseKeyword),
    ("except", .ExceptKeyword), ("finally", .FinallyKeyword), ("for", .ForKeyword),
    ("from", .FromKeyword), ("global", .GlobalKeyword), ("if", .IfKeyword),
    ("import", .ImportKeyword), ("in", .InKeyword), ("is", .IsKeyword),
    ("lambda", .LambdaKeyword), ("nonlocal", .NonlocalKeyword), ("not", .NotKeyword),
    ("or", .OrKeyword), ("pass", .PassKeyword), ("raise", .RaiseKeyword),
    ("return", .ReturnKeyword), ("try", .TryKeyword), ("while", .WhileKeyword),
    ("with", .WithKeyword), ("yield", .YieldKeyword) ]

/-- `Lexer::operators`. -/
def operators : List String :=
  [ "+", "-", "*", "/", "%", "//", "**", "=", "==", "!=", "<", "<=", ">",
    ">=", "+=", "-=", "*=", "/=", "%=", "//=", "**=", "|", "&", "^", "~", "<<", ">>" ]

/-- `Lexer::punctuationSymbols`. -/
def punctuationSymbols : List (Char × TokenType) :=
  [ ('(', .LeftParenthesis), (')', .RightParenthesis), (':', .Colon), (',', .Comma),
    ('.', .Dot), ('[', .LeftBracket), (']', .RightBracket), (Char.ofNat 123, .LeftBrace),
    (Char.ofNat 125, .RightBrace), (';', .Semicolon) ]

/-- `Lexer::isOperatorStart`: the regex `[~+\-*/%=!<>&|^]` on one character. -/
def isOperatorStart (c : Char) : Bool :=
  c ∈ ['~', '+', '-', '*', '/', '%', '=', '!', '<', '>', '&', '|', '^']

/-! ## 4. Lexer state -/

/-- The data members of `class Lexer` that `tokenize` reads and writes. -/
structure Lexer where
  scopeStack : List ScopeInfo := []
  indentStack : List Nat := [0]
  atLineStart : Bool := true
  lineContinuation : Bool := false
  deriving DecidableEq, Repr

/-- A newly constructed `Lexer` object. -/
def Lexer.fresh : Lexer := {}

/-- The locals of `tokenize` together with the members of the `Lexer`. -/
structure LexState where
  tokens : List Token
  errors : List Error
  lineNumber : Int
  i : Nat
  indentStack : List Nat
  atLineStart : Bool
  lineContinuation : Bool
  scopeStack : List ScopeInfo
  deriving DecidableEq, Repr

/-- `tokens.push_back(t)`. -/
def LexState.push (s : LexState) (t : Token) : LexState := { s with tokens := s.tokens ++ [t] }

/-- `errors.push_back(e)`. -/
def LexState.report (s : LexState) (e : Error) : LexState := { s with errors := s.errors ++ [e] }

/-- `Lexer::getScope`: the names of the stack from `back()` to the front, joined by `@`,
or `global` for the empty stack. -/
def getScope : List ScopeInfo → String
  | [] => "global"
  | top :: below => below.foldl (fun hierarchy f => hierarchy ++ "@" ++ f.name) top.name

/-- `Lexer::skipNonLeadingWhitespace`: skip the run matched by `^[ \t\r]+`. -/
def skipNonLeadingWhitespace (source : List Char) (idx : Nat) : Nat :=
  scanWhile (fun c => c = ' ' || c = '\t' || c = '\r') source idx

/-! ## 5. Indentation engine -/

/-- `indentStack.back()`; the value on an empty vector is outside the defined behaviour of the
C++ program and is taken to be `0` here. -/
def back (indentStack : List Nat) : Nat := indentStack.headD 0

/-- The inner loop of `processIndentation`:
`while (!scopeStack.empty() && indentStack.back() <= scopeStack.back().indentLevel) scopeStack.pop_back();`
with `top = indentStack.back()`. -/
def popScopes (top : Nat) : List ScopeInfo → List ScopeInfo
  | [] => []
  | f :: below => if top ≤ f.indentLevel then popScopes top below else f :: below

/-- The loop `while (indentStack.back() > newIndent) { ... }` of `processIndentation`, run on the
indent stack given as third argument; the stack that is left is stored in the state. -/
def dedentLoop (newIndent : Nat) (lineNumber : Int) (start : Nat) : List Nat → LexState → LexState
  | [], s => { s with indentStack := [] }
  | top :: rest, s =>
    if top > newIndent then
      let s1 : LexState :=
        { s with tokens := s.tokens ++ [{ type := .DEDENT, lexeme := "", lineNumber := lineNumber }],
                 scopeStack := popScopes (back rest) s.scopeStack }
      if rest.isEmpty then
        { s1 with errors := s1.errors ++ [⟨"Dedent exceeds indentation level", lineNumber, start⟩],
                  indentStack := [0] }
      else dedentLoop newIndent lineNumber start rest s1
    else { s with indentStack := top :: rest }

/-- The comparison of `newIndent` with the top of the indent stack at the end of
`processIndentation`: push and `INDENT`, pop and `DEDENT`s, or nothing. -/
def compareIndent (newIndent : Nat) (lineNumber : Int) (start : Nat) (s : LexState) : LexState :=
  if newIndent > back s.indentStack then
    { s with indentStack := newIndent :: s.indentStack,
             tokens := s.tokens ++ [{ type := .INDENT, lexeme := "", lineNumber := lineNumber }] }
  else if newIndent < back s.indentStack then
    let s3 := dedentLoop newIndent lineNumber start s.indentStack s
    if back s3.indentStack ≠ newIndent then
      s3.report ⟨"Unindent does not match outer level", lineNumber, start⟩
    else s3
  else s

/-- `Lexer::processIndentation`. -/
def processIndentation (source : List Char) (s : LexState) : LexState :=
  let start := s.i
  let run := (source.drop s.i).takeWhile (fun c => c = ' ' || c = '\t')
  let spaces := run.count ' '
  let tabs := run.count '\t'
  let s1 : LexState := { s with i := s.i + run.length }
  let s2 : LexState :=
    if spaces > 0 ∧ tabs > 0 then
      s1.report ⟨"Mixed tabs and spaces in indentation", s.lineNumber, start⟩
    else s1
  if charAt source s2.i = '\n' then s2
  else compareIndent (tabs * 4 + spaces) s.lineNumber start s2

/-! ## 6. String literals -/

/-- How a string handler ends: it returns a string (empty when `handleTripleQuotedString` found
no triple quote) or throws `UnterminatedStringError(line, index)`. -/
inductive StrResult where
  | str (text : String)
  | unterminated (line : Int) (index : Nat)
  deriving DecidableEq, Repr

/-- The first statement of the loop body of `handleTripleQuotedString`, the chain
`if (source[idx] == '\\') idx++; else if (source[idx] == '\n') { lineNumber++; idx++; } else if
(source[idx] == '\r' && idx + 1 < source.size() && source[idx + 1] == '\n') { lineNumber++; idx++; }`:
the new `idx` and `lineNumber`. -/
def tripleSkip (source : List Char) (idx : Nat) (lineNumber : Int) : Nat × Int :=
  if charAt source idx = '\\' then (idx + 1, lineNumber)
  else if charAt source idx = '\n' then (idx + 1, lineNumber + 1)
  else if charAt source idx = '\r' ∧ idx + 1 < source.length ∧ charAt source (idx + 1) = '\n' then
    (idx + 1, lineNumber + 1)
  else (idx, lineNumber)

/-- The `while (idx + 2 < source.size())` loop of `handleTripleQuotedString`, from `idx` with the
line counter `lineNumber`; `start` is the index of the opening quote and `startLine` its line.
Returns the outcome with the final `idx` and `lineNumber`; `none` when `fuel` runs out. -/
def tripleLoop (source : List Char) (quoteChar : Char) (start : Nat) (startLine : Int) :
    Nat → Nat → Int → Option (StrResult × Nat × Int)
  | 0, _, _ => none
  | fuel + 1, idx, lineNumber =>
    if idx + 2 < source.length then
      let p := tripleSkip source idx lineNumber
      if charAt source p.1 = quoteChar ∧ charAt source (p.1 + 1) = quoteChar ∧
          charAt source (p.1 + 2) = quoteChar then
        some (.str (substr source start (p.1 + 3 - start)), p.1 + 3, p.2)
      else tripleLoop source quoteChar start startLine fuel (p.1 + 1) p.2
    else some (.unterminated startLine start, source.length, lineNumber)

/-- `Lexer::handleTripleQuotedString(source, idx, lineNumber)`; `idx` and `lineNumber` are passed
by reference, so their final values are returned also when the function throws. -/
def handleTripleQuotedString (source : List Char) (idx : Nat) (lineNumber : Int) :
    Option (StrResult × Nat × Int) :=
  if idx + 2 < source.length then
    let c := charAt source idx
    if (c = '\"' ∨ c = '\'') ∧ charAt source (idx + 1) = c ∧ charAt source (idx + 2) = c then
      tripleLoop source c idx lineNumber (source.length + 1) (idx + 3) lineNumber
    else some (.str "", idx, lineNumber)
  else some (.str "", idx, lineNumber)

/-- The `while (idx < source.size())` loop of `handleDoubleQuotedString`. -/
def doubleLoop (source : List Char) (quoteChar : Char) (start : Nat) (startLine : Int) :
    Nat → Nat → Option (StrResult × Nat)
  | 0, _ => none
  | fuel + 1, idx =>
    if idx < source.length then
      if charAt source idx = '\\' then
        doubleLoop source quoteChar start startLine fuel (idx + 1 + 1)
      else if charAt source idx = '\n' then
        some (.unterminated startLine start, idx + 1)
      else if charAt source idx = quoteChar then
        some (.str (substr source start (idx + 1 - start)), idx + 1)
      else doubleLoop source quoteChar start startLine fuel (idx + 1)
    else some (.unterminated startLine start, idx)

/-- `Lexer::handleDoubleQuotedString(source, idx, lineNumber)`; the final `idx` is returned also
when the function throws. -/
def handleDoubleQuotedString (source : List Char) (idx : Nat) (lineNumber : Int) :
    Option (StrResult × Nat) :=
  if idx < source.length then
    doubleLoop source (charAt source idx) idx lineNumber (source.length + 1) (idx + 1)
  else some (.unterminated lineNumber idx, idx)

/-! ## 7. Numeric literals -/

/-- The largest value of a 32-bit `int`. -/
def INT_MAX : Nat := 2147483647

/-- The exceptions that leave `tokenize`. -/
inductive LexExn where
  /-- `std::out_of_range` thrown by `std::stoi`. -/
  | stoiOutOfRange
  deriving DecidableEq, Repr

deriving instance DecidableEq for Except

/-- `std::stoi(num)` on a text that begins with a digit: the value of the leading run of decimal
digits, or `std::out_of_range` when that value does not fit an `int`. -/
def stoi (num : List Char) : Except LexExn Nat :=
  let value := (num.takeWhile isdigit).foldl (fun acc d => 10 * acc + (d.toNat - 48)) 0
  if value > INT_MAX then .error .stoiOutOfRange else .ok value

/-- The scanning loop of a numeric literal over the characters from `i` on:
`while (i < size && (isdigit(source[i]) || source[i] == '.')) { if (source[i] == '.' && hasDot) break;
else if (source[i] == '.') hasDot = true; i++; }`.
Returns the number of characters consumed and the final `hasDot`. -/
def scanNumber : List Char → Bool → Nat × Bool
  | [], hasDot => (0, hasDot)
  | c :: rest, hasDot =>
    if isdigit c || c = '.' then
      if c = '.' && hasDot then (0, hasDot)
      else
        let r := scanNumber rest (hasDot || c = '.')
        (r.1 + 1, r.2)
    else (0, hasDot)

/-! ## 8. The main loop of `tokenize` -/

/-- The branch of `tokenize` for a word (`isalpha(c) || c == '_'`): keyword or identifier, with
the scope push after `def` and `class`. -/
def lexWord (source : List Char) (s : LexState) : LexState :=
  let start := s.i
  let i1 := scanWhile (fun c => isalnum c || c = '_') source s.i
  let word := substr source start (i1 - start)
  match pythonKeywords.lookup word with
  | some kw =>
    if word = "def" ∨ word = "class" then
      let s1 : LexState :=
        { s with tokens := s.tokens ++ [{ type := kw, lexeme := word, lineNumber := s.lineNumber }] }
      let identifierStart := skipNonLeadingWhitespace source i1
      let i2 := scanWhile (fun c => isalnum c || c = '_') source identifierStart
      if identifierStart < i2 then
        let identifier := substr source identifierStart (i2 - identifierStart)
        let scopeStack := { name := identifier, indentLevel := back s1.indentStack } :: s1.scopeStack
        { s1 with i := i2, scopeStack := scopeStack,
                  tokens := s1.tokens ++ [{ type := .IDENTIFIER, lexeme := identifier,
                                            lineNumber := s.lineNumber, scope := getScope scopeStack }] }
      else { s1 with i := i2 }
    else
      { s with i := i1,
               tokens := s.tokens ++ [{ type := kw, lexeme := word, lineNumber := s.lineNumber }] }
  | none =>
    { s with i := i1,
             tokens := s.tokens ++ [{ type := .IDENTIFIER, lexeme := word, lineNumber := s.lineNumber,
                                      scope := getScope s.scopeStack }] }

/-- The branch of `tokenize` guarded by `isOperatorStart(c)`: the state after an operator token
was pushed, or `none` when no operator matched and control falls through. -/
def lexOperator (source : List Char) (s : LexState) : Option LexState :=
  let threeChars := substr source s.i 3
  let twoChars := substr source s.i 2
  let oneChar := String.mk [charAt source s.i]
  if s.i + 2 < source.length ∧ threeChars ∈ operators then
    some { s with i := s.i + 3,
                  tokens := s.tokens ++ [{ type := .OPERATOR, lexeme := threeChars, lineNumber := s.lineNumber }] }
  else if s.i + 1 < source.length ∧ twoChars ∈ operators then
    some { s with i := s.i + 2,
                  tokens := s.tokens ++ [{ type := .OPERATOR, lexeme := twoChars, lineNumber := s.lineNumber }] }
  else if oneChar ∈ operators then
    some { s with i := s.i + 1,
                  tokens := s.tokens ++ [{ type := .OPERATOR, lexeme := oneChar, lineNumber := s.lineNumber }] }
  else none

/-- The branch of `tokenize` for a numeric literal (`isdigit(c)`); `std::stoi` is evaluated only
when `num[0] == '0'`, as the short-circuit `&&` does. -/
def lexNumber (source : List Char) (s : LexState) : Except LexExn LexState :=
  let start := s.i
  let r := scanNumber (source.drop s.i) false
  let i1 := s.i + r.1
  let hasDot := r.2
  let num := (source.drop start).take (i1 - start)
  let emit : LexState :=
    { s with i := i1,
             tokens := s.tokens ++ [{ type := .NUMBER, lexeme := String.mk num, lineNumber := s.lineNumber }] }
  if num.headD (Char.ofNat 0) = '0' then
    match stoi num with
    | .error e => .error e
    | .ok value =>
      if value ≠ 0 ∧ ¬ hasDot then
        .ok { s with i := i1,
                     errors := s.errors ++ [⟨"leading zeros in decimal integer literals are not permitted",
                                             s.lineNumber, start⟩] }
      else .ok emit
  else .ok emit

/-- The part of the loop body of `tokenize` after the triple-quoted string attempt returned the
empty string: word, operator, quoted string, number, punctuation, invalid character. -/
def lexToken (source : List Char) (s : LexState) : Option (Except LexExn LexState) :=
  let c := charAt source s.i
  if isalpha c || c = '_' then some (.ok (lexWord source s))
  else
    match (if isOperatorStart c then lexOperator source s else none) with
    | some s1 => some (.ok s1)
    | none =>
      if c = '\"' ∨ c = '\'' then
        match handleDoubleQuotedString source s.i s.lineNumber with
        | none => none
        | some (.str text, idx) =>
          some (.ok { s with i := idx,
                             tokens := s.tokens ++ [{ type := .STRING_LITERAL, lexeme := text,
                                                      lineNumber := s.lineNumber }] })
        | some (.unterminated line index, idx) =>
          some (.ok { s with i := idx,
                             errors := s.errors ++ [⟨"Unterminated string literal", line, index⟩] })
      else if isdigit c then some (lexNumber source s)
      else
        match punctuationSymbols.lookup c with
        | some ty =>
          some (.ok { s with i := s.i + 1,
                             tokens := s.tokens ++ [{ type := ty, lexeme := String.mk [c],
                                                      lineNumber := s.lineNumber }] })
        | none =>
          some (.ok { s with i := s.i + 1, atLineStart := false,
                             errors := s.errors ++ [⟨"Invalid character '" ++ String.mk [c] ++ "'",
                                                     s.lineNumber, s.i⟩] })

/-- The state in which an iteration of the main loop of `tokenize` reads its lexeme: after
`if (atLineStart && !lineContinuation) { processIndentation(...); atLineStart = false; }` and
`skipNonLeadingWhitespace(source, i)`. -/
def beforeLexeme (source : List Char) (s : LexState) : LexState :=
  let s1 : LexState :=
    if s.atLineStart ∧ ¬ s.lineContinuation then
      { processIndentation source s with atLineStart := false }
    else s
  { s1 with i := skipNonLeadingWhitespace source s1.i }

/-- One iteration of `while (i < source.size())` in `tokenize`.  The `break` taken when the
whitespace skip reaches the end of the source is the returned state with `i ≥ source.size()`,
on which the loop stops. -/
def lexStep (source : List Char) (s : LexState) : Option (Except LexExn LexState) :=
  let s2 := beforeLexeme source s
  if s2.i ≥ source.length then some (.ok s2)
  else
    let c := charAt source s2.i
    if c = '\n' then
      some (.ok { s2 with lineNumber := s2.lineNumber + 1, i := s2.i + 1, atLineStart := true,
                          lineContinuation := false })
    else if c = '\\' ∧ s2.i + 1 < source.length ∧ charAt source (s2.i + 1) = '\n' then
      some (.ok { s2 with lineContinuation := true, i := s2.i + 2, lineNumber := s2.lineNumber + 1,
                          atLineStart := true })
    else if c = '#' then
      some (.ok { s2 with i := scanWhile (fun d => d ≠ '\n') source s2.i })
    else
      match handleTripleQuotedString source s2.i s2.lineNumber with
      | none => none
      | some (.unterminated line index, idx, lineNumber) =>
        some (.ok { s2 with i := idx, lineNumber := lineNumber,
                            errors := s2.errors ++ [⟨"Unterminated triple-quoted string", line, index⟩] })
      | some (.str triplestring, idx, lineNumber) =>
        if triplestring.length ≠ 0 then
          some (.ok { s2 with i := idx, lineNumber := lineNumber,
                              tokens := s2.tokens ++ [{ type := .STRING_LITERAL, lexeme := triplestring,
                                                        lineNumber := s2.lineNumber }] })
        else lexToken source { s2 with i := idx, lineNumber := lineNumber }

/-- The loop `while (i < source.size()) { ... }` of `tokenize`. -/
def tokenizeLoop (source : List Char) : Nat → LexState → Option (Except LexExn LexState)
  | 0, _ => none
  | fuel + 1, s =>
    if s.i < source.length then
      match lexStep source s with
      | none => none
      | some (.error e) => some (.error e)
      | some (.ok s1) => tokenizeLoop source fuel s1
    else some (.ok s)

/-- The final loop of `tokenize`: `while (indentStack.size() > 1) { pop_back; push DEDENT }`. -/
def drainIndents (lineNumber : Int) : List Nat → List Token → List Nat × List Token
  | _ :: next :: rest, tokens =>
    drainIndents lineNumber (next :: rest)
      (tokens ++ [{ type := .DEDENT, lexeme := "", lineNumber := lineNumber }])
  | indentStack, tokens => (indentStack, tokens)

/-- How a call of `tokenize` ends. -/
inductive LexResult where
  /-- Normal return: the token vector, the diagnostics appended to `errors`, and the `Lexer`
  object as the call leaves it. -/
  | returned (tokens : List Token) (errors : List Error) (lexer : Lexer)
  /-- An exception leaves `tokenize`. -/
  | threw (e : LexExn)
  /-- The model ran out of fuel. -/
  | outOfFuel
  deriving DecidableEq, Repr

/-- `Lexer::tokenize(source, errors)` called on the object `lexer` with an empty `errors` vector.
The members `indentStack`, `atLineStart`, `lineContinuation` are reset; `scopeStack` is not. -/
def tokenizeWith (fuel : Nat) (lexer : Lexer) (source : List Char) : LexResult :=
  let init : LexState :=
    { tokens := [], errors := [], lineNumber := 1, i := 0, indentStack := [0],
      atLineStart := true, lineContinuation := false, scopeStack := lexer.scopeStack }
  match tokenizeLoop source fuel init with
  | none => .outOfFuel
  | some (.error e) => .threw e
  | some (.ok s) =>
    let r := drainIndents s.lineNumber s.indentStack s.tokens
    .returned r.2 s.errors
      { scopeStack := s.scopeStack, indentStack := r.1, atLineStart := s.atLineStart,
        lineContinuation := s.lineContinuation }

/-- `Lexer::tokenize`: every iteration of the main loop advances `i`, so `source.size() + 1`
iterations are enough (see `tokenize_ne_outOfFuel`). -/
def tokenize (lexer : Lexer) (source : List Char) : LexResult :=
  tokenizeWith (source.length + 1) lexer source

/-! ## 9. Symbol table -/

/-- `SymbolTable::SymbolInfo`; the defaults are the C++ default member initialisers, and
`entry := 0` is what value-initialisation (as done by `table[key]` on a missing key) gives the
member without an initialiser. -/
structure SymbolInfo where
  entry : Nat := 0
  type : String := "unknown"
  scope : String := "unknown"
  firstAppearance : Int := -1
  usageCount : Nat := 0
  value : String := ""
  deriving DecidableEq, Repr

/-- `class SymbolTable`: the `unordered_map` is an association list in insertion order, holding
each key at most once. -/
structure SymbolTable where
  table : List (String × SymbolInfo) := []
  nextEntry : Nat := 1
  deriving DecidableEq, Repr

namespace SymbolTable

/-- `table.find(key)`: the entry stored under `key`, if any. -/
def find (t : SymbolTable) (key : String) : Option SymbolInfo := t.table.lookup key

/-- Apply `f` to the entry stored under `key` (a write through `it->second` or `table[key]`). -/
def modify (t : SymbolTable) (key : String) (f : SymbolInfo → SymbolInfo) : SymbolTable :=
  { t with table := t.table.map (fun kv => if kv.1 = key then (kv.1, f kv.2) else kv) }

/-- `table[key]` as an lvalue: a missing key is first inserted with a value-initialised entry. -/
def index (t : SymbolTable) (key : String) : SymbolTable :=
  match t.find key with
  | none => { t with table := t.table ++ [(key, {})] }
  | some _ => t

/-- `table[key].usageCount++`. -/
def bump (t : SymbolTable) (key : String) : SymbolTable :=
  (t.index key).modify key (fun info => { info with usageCount := info.usageCount + 1 })

/-- `SymbolTable::addSymbol(name, type, lineNumber, scope, val)`. -/
def addSymbol (t : SymbolTable) (name type : String) (lineNumber : Int) (scope : String)
    (val : String := "") : SymbolTable :=
  let uniqueKey := name ++ "@" ++ scope
  match t.find uniqueKey with
  | none =>
    { table := t.table ++ [(uniqueKey, { entry := t.nextEntry, type := type, scope := scope,
                                         firstAppearance := lineNumber, usageCount := 1,
                                         value := val })],
      nextEntry := t.nextEntry + 1 }
  | some _ =>
    t.modify uniqueKey (fun info =>
      { info with usageCount := info.usageCount + 1,
                  type := if info.type = "unknown" ∧ type ≠ "unknown" then type else info.type,
                  value := if val ≠ "" then val else info.value })

/-- `SymbolTable::updateType`. -/
def updateType (t : SymbolTable) (name scope newType : String) : SymbolTable :=
  let key := name ++ "@" ++ scope
  match t.find key with
  | some _ => t.modify key (fun info => { info with type := newType })
  | none => t

/-- `SymbolTable::updateValue`. -/
def updateValue (t : SymbolTable) (name scope newValue : String) : SymbolTable :=
  let key := name ++ "@" ++ scope
  match t.find key with
  | some _ => t.modify key (fun info => { info with value := newValue })
  | none => t

/-- `SymbolTable::exist`. -/
def exist (t : SymbolTable) (name scope : String) : Bool := (t.find (name ++ "@" ++ scope)).isSome

/-- `SymbolTable::getType`. -/
def getType (t : SymbolTable) (name scope : String) : String :=
  match t.find (name ++ "@" ++ scope) with
  | some info => info.type
  | none => "unknown"

/-- `SymbolTable::getValue`. -/
def getValue (t : SymbolTable) (name scope : String) : String :=
  match t.find (name ++ "@" ++ scope) with
  | some info => info.value
  | none => ""

end SymbolTable

/-! ## 10. The inferrer (`class Parser`) -/

namespace Parser

/-- `Parser::unifyTypes`. -/
def unifyTypes (t1 t2 : String) : String :=
  if t1 = "unknown" ∧ t2 = "unknown" then "unknown"
  else if t1 = "unknown" then t2
  else if t2 = "unknown" then t1
  else if t1 = "float" ∨ t2 = "float" then
    if t1 = "string" ∨ t2 = "string" ∨ t1 = "bool" ∨ t2 = "bool" then "unknown" else "float"
  else if t1 = "int" ∧ t2 = "int" then "int"
  else if t1 = "bool" ∧ t2 = "bool" then "bool"
  else if t1 = "string" ∧ t2 ≠ "string" then "unknown"
  else if t2 = "string" ∧ t1 ≠ "string" then "unknown"
  else if t1 = t2 then t1
  else "unknown"

/-- The guard `i < tokens.size() && p(tokens[i])`. -/
def tokenIs (tokens : List Token) (i : Nat) (p : Token → Bool) : Bool :=
  match tokens[i]? with
  | some tk => p tk
  | none => false

/-- The tokens passed over by `while (i < tokens.size() && tokens[i].lexeme != close) i++`. -/
def untilLexeme (close : String) (tokens : List Token) (i : Nat) : List Token :=
  (tokens.drop i).takeWhile (fun tk => tk.lexeme ≠ close)

/-- `value = value + tokens[i].lexeme` over the given tokens. -/
def appendLexemes (value : String) (run : List Token) : String :=
  run.foldl (fun v tk => v ++ tk.lexeme) value

mutual

/-- `Parser::parseExpression(i)`: returns the type, the value, the new `i` and the symbol table;
`none` when `fuel` runs out. -/
def parseExpression (tokens : List Token) :
    Nat → Nat → SymbolTable → Option (String × String × Nat × SymbolTable)
  | 0, _, _ => none
  | fuel + 1, i, st =>
    match parseOperand tokens fuel i st with
    | none => none
    | some (accumType, accumValue, i1, st1) => exprLoop tokens fuel accumType accumValue i1 st1

/-- The `while (i < tokens.size())` loop of `parseExpression`. -/
def exprLoop (tokens : List Token) :
    Nat → String → String → Nat → SymbolTable → Option (String × String × Nat × SymbolTable)
  | 0, _, _, _, _ => none
  | fuel + 1, accumType, accumValue, i, st =>
    match tokens[i]? with
    | none => some (accumType, accumValue, i, st)
    | some tk =>
      if tk.type = .OPERATOR then
        if tk.lexeme = "+" ∨ tk.lexeme = "-" ∨ tk.lexeme = "*" ∨ tk.lexeme = "/" then
          match parseOperand tokens fuel (i + 1) st with
          | none => none
          | some (nextType, _, i1, st1) =>
            exprLoop tokens fuel (unifyTypes accumType nextType) "" i1 st1
        else some (accumType, accumValue, i, st)
      else some (accumType, accumValue, i, st)

/-- `Parser::parseOperand(i)`. -/
def parseOperand (tokens : List Token) :
    Nat → Nat → SymbolTable → Option (String × String × Nat × SymbolTable)
  | 0, _, _ => none
  | fuel + 1, i, st =>
    match tokens[i]? with
    | none => some ("unknown", "", i, st)
    | some tk =>
      if tk.type = .NUMBER then
        if '.' ∈ tk.lexeme.data then some ("float", tk.lexeme, i + 1, st)
        else some ("int", tk.lexeme, i + 1, st)
      else if tk.type = .STRING_LITERAL then some ("string", tk.lexeme, i + 1, st)
      else if tk.type = .FalseKeyword ∨ tk.type = .TrueKeyword then
        if tk.lexeme = "True" ∨ tk.lexeme = "False" then some ("bool", tk.lexeme, i + 1, st)
        else some ("unknown", "", i + 1, st)
      else if tk.type = .IDENTIFIER then
        let name := tk.lexeme
        let knownType := st.getType name tk.scope
        let knownValue := st.getValue name tk.scope
        let fullName := name ++ "@" ++ tk.scope
        let st1 :=
          if ¬ st.exist fullName tk.scope then st.addSymbol name "unknown" tk.lineNumber tk.scope
          else st.bump fullName
        some (knownType, if knownType = "unknown" then "" else knownValue, i + 1, st1)
      else if tk.lexeme = "(" then
        match tupleLoop tokens fuel "(" [] (i + 1) st with
        | none => none
        | some (value, elementTypes, i1, st1) =>
          if tokenIs tokens i1 (fun t => t.lexeme = ")") then
            match elementTypes with
            | [only] => some (only, value ++ ")", i1 + 1, st1)
            | _ => some ("tuple", value ++ ")", i1 + 1, st1)
          else some ("unknown", value, i1, st1)
      else if tk.lexeme = "[" then
        let run := untilLexeme "]" tokens (i + 1)
        let i1 := i + 1 + run.length
        let i2 := if tokenIs tokens i1 (fun t => t.lexeme = "]") then i1 + 1 else i1
        some ("list", appendLexemes "[" run ++ "]", i2, st)
      else if tk.lexeme = "\x7b" then
        let run := untilLexeme "\x7d" tokens (i + 1)
        let isSet := ¬ run.any (fun t => t.lexeme = ":")
        let i1 := i + 1 + run.length
        let i2 := if tokenIs tokens i1 (fun t => t.lexeme = "\x7d") then i1 + 1 else i1
        some (if isSet then "set" else "dictionary", appendLexemes "\x7b" run ++ "\x7d", i2, st)
      else some ("unknown", "", i + 1, st)

/-- The loop `while (i < tokens.size() && tokens[i].lexeme != ")")` of `parseOperand`; returns
`value`, `elementTypes`, `i` and the symbol table as the loop leaves them. -/
def tupleLoop (tokens : List Token) :
    Nat → String → List String → Nat → SymbolTable →
      Option (String × List String × Nat × SymbolTable)
  | 0, _, _, _, _ => none
  | fuel + 1, value, elementTypes, i, st =>
    if tokenIs tokens i (fun t => t.lexeme ≠ ")") then
      match parseExpression tokens fuel i st with
      | none => none
      | some (innerType, innerValue, i1, st1) =>
        if tokenIs tokens i1 (fun t => t.lexeme = ",") then
          tupleLoop tokens fuel (value ++ (innerValue ++ ",")) (elementTypes ++ [innerType]) (i1 + 1) st1
        else some (value ++ innerValue, elementTypes ++ [innerType], i1, st1)
    else some (value, elementTypes, i, st)

end

/-- Fuel that lets `parseExpression` finish on any position of `tokens`. -/
def exprFuel (tokens : List Token) : Nat := 3 * tokens.length + 6

/-- The scan of the left-hand identifiers in `parse` over the tokens from `temp` on: the
identifiers collected and the number of tokens passed. -/
def scanLhs : List Token → List Token × Nat
  | [] => ([], 0)
  | tk :: rest =>
    if tk.type = .IDENTIFIER then
      match rest with
      | [] => ([tk], 1)
      | sep :: rest1 =>
        if sep.type = .Comma then
          let r := scanLhs rest1
          (tk :: r.1, r.2 + 2)
        else ([tk], 1)
    else ([], 0)

/-- The loop of `parse` that reads the right-hand expressions. -/
def rhsLoop (tokens : List Token) :
    Nat → Nat → SymbolTable → List (String × String) →
      Option (List (String × String) × Nat × SymbolTable)
  | 0, _, _, _ => none
  | fuel + 1, temp, st, rhsValues =>
    if temp < tokens.length then
      match parseExpression tokens (exprFuel tokens) temp st with
      | none => none
      | some (type, value, temp1, st1) =>
        if tokenIs tokens temp1 (fun t => t.type = .Comma) then
          rhsLoop tokens fuel (temp1 + 1) st1 (rhsValues ++ [(type, value)])
        else some (rhsValues ++ [(type, value)], temp1, st1)
    else some (rhsValues, temp, st)

/-- The loop `for (j = 0; j < lhsIdentifiers.size(); ++j)` of `parse`, from index `j` on. -/
def bindLoop (rhsValues : List (String × String)) : List Token → Nat → SymbolTable → SymbolTable
  | [], _, st => st
  | var :: rest, j, st =>
    let key := var.lexeme ++ "@" ++ var.scope
    let st1 :=
      if ¬ st.exist var.lexeme var.scope then st.addSymbol var.lexeme "unknown" var.lineNumber var.scope
      else st.bump key
    let st2 :=
      match rhsValues[j]? with
      | some rhs =>
        let st3 := if rhs.1 ≠ "unknown" then st1.updateType var.lexeme var.scope rhs.1 else st1
        if rhs.2 ≠ "" then st3.updateValue var.lexeme var.scope rhs.2 else st3
      | none => st1
    bindLoop rhsValues rest (j + 1) st2

/-- The local `i` and the members `symbolTable`, `lastKeyword` of the inferrer. -/
structure State where
  i : Nat
  symbolTable : SymbolTable
  lastKeyword : String
  deriving DecidableEq, Repr

/-- One iteration of `while (i < tokens.size())` in `Parser::parse`, on the token `tk = tokens[i]`. -/
def parseStep (tokens : List Token) (tk : Token) (s : State) : Option State :=
  if tk.type = .DefKeyword ∨ tk.type = .ClassKeyword then
    some { s with lastKeyword := tk.lexeme, i := s.i + 1 }
  else if tk.type = .IDENTIFIER then
    if s.lastKeyword = "def" then
      some { symbolTable := s.symbolTable.addSymbol tk.lexeme "function" tk.lineNumber tk.scope,
             lastKeyword := "", i := s.i + 1 }
    else if s.lastKeyword = "class" then
      some { symbolTable := s.symbolTable.addSymbol tk.lexeme "class" tk.lineNumber tk.scope,
             lastKeyword := "", i := s.i + 1 }
    else
      let lhs := scanLhs (tokens.drop s.i)
      let lhsIdentifiers := lhs.1
      let temp := s.i + lhs.2
      if tokenIs tokens temp (fun t => t.type = .OPERATOR ∧ t.lexeme = "=") then
        match rhsLoop tokens (tokens.length + 1) (temp + 1) s.symbolTable [] with
        | none => none
        | some (rhsValues, temp1, st1) =>
          some { s with symbolTable := bindLoop rhsValues lhsIdentifiers 0 st1, i := temp1 }
      else if tokenIs tokens (s.i + 1) (fun t => t.type = .OPERATOR ∧ t.lexeme = "=") then
        let lhsName := tk.lexeme
        let fullName := lhsName ++ "@" ++ tk.scope
        let st1 :=
          if ¬ s.symbolTable.exist fullName tk.scope then
            s.symbolTable.addSymbol lhsName "unknown" tk.lineNumber tk.scope
          else s.symbolTable.bump (lhsName ++ "@" ++ tk.scope)
        match parseExpression tokens (exprFuel tokens) (s.i + 2) st1 with
        | none => none
        | some (rhsType, rhsValue, i1, st2) =>
          let st3 := if rhsType ≠ "unknown" then st2.updateType lhsName tk.scope rhsType else st2
          let st4 := if rhsValue ≠ "" then st3.updateValue lhsName tk.scope rhsValue else st3
          some { s with symbolTable := st4, i := i1 }
      else
        let st1 :=
          if s.symbolTable.exist tk.lexeme tk.scope then
            s.symbolTable.bump (tk.lexeme ++ "@" ++ tk.scope)
          else s.symbolTable.addSymbol tk.lexeme "unknown" tk.lineNumber tk.scope
        some { s with symbolTable := st1, i := s.i + 1 }
  else some { s with i := s.i + 1 }

/-- The loop `while (i < tokens.size())` of `Parser::parse`. -/
def parseLoop (tokens : List Token) : Nat → State → Option State
  | 0, _ => none
  | fuel + 1, s =>
    match tokens[s.i]? with
    | none => some s
    | some tk =>
      match parseStep tokens tk s with
      | none => none
      | some s1 => parseLoop tokens fuel s1

/-- `Parser::parse()` of a `Parser` constructed on `tokens` and `symTable`: the symbol table it
leaves, `none` when the model runs out of fuel. -/
def parse (tokens : List Token) (symTable : SymbolTable) : Option SymbolTable :=
  (parseLoop tokens (tokens.length + 1) { i := 0, symbolTable := symTable, lastKeyword := "" }).map
    (fun s => s.symbolTable)

end Parser

/-- The driver's first two stages (`main`): tokenize `source` with a fresh `Lexer`, then run the
inferrer on the tokens with an empty symbol table. -/
def inferSource (source : List Char) : Option SymbolTable :=
  match tokenize Lexer.fresh source with
  | .returned tokens _ _ => Parser.parse tokens {}
  | _ => none

/-! ## 11. The recursive-descent parser (`class Syntax_Analyzer`) -/

/-- `tokenTypeToString`. -/
def tokenTypeToString : TokenType → String
  | .FalseKeyword => "False" | .NoneKeyword => "None" | .TrueKeyword => "True"
  | .AndKeyword => "and" | .AsKeyword => "as" | .AssertKeyword => "assert"
  | .AsyncKeyword => "async" | .AwaitKeyword => "await" | .BreakKeyword => "break"
  | .ClassKeyword => "class" | .ContinueKeyword => "continue" | .DefKeyword => "def"
  | .DelKeyword => "del" | .ElifKeyword => "elif" | .ElseKeyword => "else"
  | .ExceptKeyword => "except" | .FinallyKeyword => "finally" | .ForKeyword => "for"
  | .FromKeyword => "from" | .GlobalKeyword => "global" | .IfKeyword => "if"
  | .ImportKeyword => "import" | .InKeyword => "in" | .IsKeyword => "is"
  | .LambdaKeyword => "lambda" | .NonlocalKeyword => "nonlocal" | .NotKeyword => "not"
  | .OrKeyword => "or" | .PassKeyword => "pass" | .RaiseKeyword => "raise"
  | .ReturnKeyword => "return" | .TryKeyword => "try" | .WhileKeyword => "while"
  | .WithKeyword => "with" | .YieldKeyword => "yield"
  | .IDENTIFIER => "identifier" | .NUMBER => "number" | .STRING_LITERAL => "string literal"
  | .COMMENT => "comment" | .UNKNOWN => "unknown" | .OPERATOR => "operator"
  | .LeftParenthesis => "(" | .RightParenthesis => ")" | .LeftBracket => "["
  | .RightBracket => "]" | .LeftBrace => "\x7b" | .RightBrace => "\x7d"
  | .Colon => ":" | .Comma => "," | .Dot => "." | .Semicolon => ";"
  | .INDENT => "indent" | .DEDENT => "dedent"

/-- `class ParseTreeNode`: a label and the owned children (the `token` member is never written
or read by the parser). -/
inductive ParseTreeNode where
  | mk ( label : String) (children : List ParseTreeNode)
  deriving Repr

namespace ParseTreeNode

/-- The label of a node. -/
def text : ParseTreeNode → String
  | mk l _ => l

/-- The children of a node. -/
def children : ParseTreeNode → List ParseTreeNode
  | mk _ c => c

/-- `new ParseTreeNode(lbl)`: a node without children. -/
def leaf (lbl : String) : ParseTreeNode := mk lbl []

mutual
/-- Decision procedure for equality of parse trees. -/
def decEq : (a b : ParseTreeNode) → Decidable (a = b)
  | mk l1 c1, mk l2 c2 =>
    if hl : l1 = l2 then
      match decEqList c1 c2 with
      | isTrue hc => isTrue (by rw [hl, hc])
      | isFalse hc => isFalse (fun h => hc (by injection h))
    else isFalse (fun h => hl (by injection h))
/-- Decision procedure for equality of lists of parse trees. -/
def decEqList : (a b : List ParseTreeNode) → Decidable (a = b)
  | [], [] => isTrue rfl
  | [], _ :: _ => isFalse (fun h => by cases h)
  | _ :: _, [] => isFalse (fun h => by cases h)
  | a :: as, b :: bs =>
    match decEq a b with
    | isTrue h1 =>
      match decEqList as bs with
      | isTrue h2 => isTrue (by rw [h1, h2])
      | isFalse h2 => isFalse (fun h => h2 (by injection h))
    | isFalse h1 => isFalse (fun h => h1 (by injection h))
end

instance : DecidableEq ParseTreeNode := decEq

end ParseTreeNode

namespace Syntax_Analyzer

/-- A line written to `cerr` by `Syntax_Analyzer::error`:
`Syntax Error at line <line>: <message>`. -/
structure SyntaxError where
  line : Int
  message : String
  deriving DecidableEq, Repr

/-- The mutable state of a parse: the member `current` and the diagnostics written so far. -/
structure PState where
  current : Nat
  log : List SyntaxError
  deriving DecidableEq, Repr

/-- How the evaluation of a parser function ends. -/
inductive Outcome (α : Type) where
  /-- Normal return. -/
  | ok (value : α) (s : PState)
  /-- A `consumeError` object is propagating (`throw consumeError()`). -/
  | thrown (s : PState)
  /-- A pointer `consumeError*` is propagating (`throw new consumeError()`); the handlers
  `catch (const consumeError &)` do not match it. -/
  | thrownPointer (s : PState)
  /-- `tokens[current]` was evaluated with `current >= tokens.size()`: undefined behaviour. -/
  | outOfRange (s : PState)
  /-- The model ran out of fuel. -/
  | outOfFuel
  deriving DecidableEq, Repr

/-- A parser function: from the state at the call to the outcome. -/
def ParseM (α : Type) : Type := PState → Outcome α

instance : Monad ParseM where
  pure a := fun s => .ok a s
  bind m f := fun s =>
    match m s with
    | .ok a s1 => f a s1
    | .thrown s1 => .thrown s1
    | .thrownPointer s1 => .thrownPointer s1
    | .outOfRange s1 => .outOfRange s1
    | .outOfFuel => .outOfFuel

/-- `throw consumeError();` -/
def throwConsumeError {α : Type} : ParseM α := fun s => .thrown s

/-- `throw new consumeError();` -/
def throwPointer {α : Type} : ParseM α := fun s => .thrownPointer s

/-- The model ran out of fuel. -/
def noFuel {α : Type} : ParseM α := fun _ => .outOfFuel

/-- `try { body } catch (const consumeError &) { handler }`. -/
def tryCatch {α : Type} (body handler : ParseM α) : ParseM α := fun s =>
  match body s with
  | .thrown s1 => handler s1
  | r => r

/-- The value of `current`. -/
def getCurrent : ParseM Nat := fun s => .ok s.current s

/-- `current = c;` -/
def setCurrent (c : Nat) : ParseM Unit := fun s => .ok () { s with current := c }

/-- `currentToken()`, that is `tokens[current]`. -/
def currentToken (tokens : List Token) : ParseM Token := fun s =>
  match tokens[s.current]? with
  | some tk => .ok tk s
  | none => .outOfRange s

/-- The guard `current < tokens.size() && p(currentToken())`. -/
def currentIs (tokens : List Token) (p : Token → Bool) : ParseM Bool := fun s =>
  match tokens[s.current]? with
  | some tk => .ok (p tk) s
  | none => .ok false s

/-- `Syntax_Analyzer::error(message)`: reads `currentToken().lineNumber` and writes one line. -/
def error (tokens : List Token) (message : String) : ParseM Unit := fun s =>
  match tokens[s.current]? with
  | some tk => .ok () { s with log := s.log ++ [⟨tk.lineNumber, message⟩] }
  | none => .outOfRange s

/-- `Syntax_Analyzer::consume(expected)`. -/
def consume (tokens : List Token) (expected : TokenType) : ParseM Token := fun s =>
  match tokens[s.current]? with
  | none => .ok { type := .UNKNOWN, lexeme := "Error", lineNumber := -1, scope := "Error" } s
  | some tk =>
    if tk.type = expected then .ok tk { s with current := s.current + 1 }
    else
      .thrown { s with log := s.log ++ [⟨tk.lineNumber,
        "Expected " ++ tokenTypeToString expected ++ " but found " ++ tokenTypeToString tk.type⟩] }

/-- `Syntax_Analyzer::synchronize(lineNumber)`. -/
def synchronize (tokens : List Token) (lineNumber : Int) : ParseM Unit := fun s =>
  .ok () { s with current := s.current +
    ((tokens.drop s.current).takeWhile (fun tk => tk.lineNumber ≤ lineNumber)).length }

/-- `Syntax_Analyzer::peekToken()`. -/
def peekToken (tokens : List Token) : ParseM Token := fun s =>
  .ok ((tokens[s.current + 1]?).getD { type := .UNKNOWN, lexeme := "", lineNumber := -1, scope := "" }) s

/-- `new ParseTreeNode(consume(expected).lexeme)`. -/
def consumeLeaf (tokens : List Token) (expected : TokenType) : ParseM ParseTreeNode := do
  let tk ← consume tokens expected
  pure (ParseTreeNode.leaf tk.lexeme)

/-- The handler `catch (const consumeError &) { error(message); throw consumeError(); }` around
`body`. -/
def rethrowing {α : Type} (tokens : List Token) (message : String) (body : ParseM α) : ParseM α :=
  tryCatch body (do error tokens message; throwConsumeError)

/-- The test of `parseAssignOp` on the lexeme of the current token. -/
def isAssignOp (lexeme : String) : Bool :=
  lexeme = "=" || lexeme = "+=" || lexeme = "-=" || lexeme = "*=" || lexeme = "/=" ||
    lexeme = "%=" || lexeme = "//=" || lexeme = "**="

/-- The test of `parseOp` on the lexeme of the current token. -/
def isCompOp (lexeme : String) : Bool :=
  lexeme = "==" || lexeme = "!=" || lexeme = "<" || lexeme = ">" || lexeme = ">=" ||
    lexeme = "<=" || lexeme = "&" || lexeme = "|"

/-- `Syntax_Analyzer::parsePass`. -/
def parsePass (tokens : List Token) : ParseM ParseTreeNode :=
  rethrowing tokens "Could not parse pass statement" do
    let kw ← consumeLeaf tokens .PassKeyword
    pure (.mk "pass_statement" [kw])

/-- `Syntax_Analyzer::parseBreak`. -/
def parseBreak (tokens : List Token) : ParseM ParseTreeNode :=
  rethrowing tokens "Could not parse break" do
    let kw ← consumeLeaf tokens .BreakKeyword
    pure (.mk "break_statement" [kw])

/-- `Syntax_Analyzer::parseContinue`. -/
def parseContinue (tokens : List Token) : ParseM ParseTreeNode :=
  rethrowing tokens "Could not continue statement" do
    let kw ← consumeLeaf tokens .ContinueKeyword
    pure (.mk "continue_statement" [kw])

/-- The loop `while (currentToken().type == TokenType::Dot) { ... }` of `parseDottedName`. -/
def dottedLoop (tokens : List Token) : Nat → List ParseTreeNode → ParseM (List ParseTreeNode)
  | 0, _ => noFuel
  | fuel + 1, children => do
    let tk ← currentToken tokens
    if tk.type = .Dot then
      let dot ← consumeLeaf tokens .Dot
      let name ← consumeLeaf tokens .IDENTIFIER
      dottedLoop tokens fuel (children ++ [dot, name])
    else pure children

/-- `Syntax_Analyzer::parseDottedName`. -/
def parseDottedName (tokens : List Token) : ParseM ParseTreeNode :=
  rethrowing tokens "Could not parse dotted name" do
    let first ← consumeLeaf tokens .IDENTIFIER
    let children ← dottedLoop tokens (tokens.length + 1) [first]
    pure (.mk "dotted_name" children)

/-- The `as` clause of `parseImport`:
`if (currentToken().type == AsKeyword) { consume(AsKeyword); consume(IDENTIFIER); }`. -/
def importAs (tokens : List Token) : ParseM (List ParseTreeNode) := do
  let tk ← currentToken tokens
  if tk.type = .AsKeyword then
    let kw ← consumeLeaf tokens .AsKeyword
    let name ← consumeLeaf tokens .IDENTIFIER
    pure [kw, name]
  else pure []

/-- The loop `while (currentToken().type == TokenType::Comma) { ... }` of `parseImport`. -/
def importLoop (tokens : List Token) : Nat → List ParseTreeNode → ParseM (List ParseTreeNode)
  | 0, _ => noFuel
  | fuel + 1, children => do
    let tk ← currentToken tokens
    if tk.type = .Comma then
      let comma ← consumeLeaf tokens .Comma
      let name ← parseDottedName tokens
      let asPart ← importAs tokens
      importLoop tokens fuel (children ++ [comma, name] ++ asPart)
    else pure children

/-- `Syntax_Analyzer::parseImport`. -/
def parseImport (tokens : List Token) : ParseM ParseTreeNode :=
  rethrowing tokens "Could not parse import" do
    let tk ← currentToken tokens
    if tk.type = .ImportKeyword then
      let kw ← consumeLeaf tokens .ImportKeyword
      let name ← parseDottedName tokens
      let asPart ← importAs tokens
      let children ← importLoop tokens (tokens.length + 1) ([kw, name] ++ asPart)
      pure (.mk "import_statement" children)
    else
      let kw ← consumeLeaf tokens .FromKeyword
      let name ← parseDottedName tokens
      let imp ← consumeLeaf tokens .ImportKeyword
      let tk1 ← currentToken tokens
      if tk1.type = .IDENTIFIER then
        let what ← consumeLeaf tokens .IDENTIFIER
        let asPart ← importAs tokens
        pure (.mk "import_statement" ([kw, name, imp, what] ++ asPart))
      else if tk1.lexeme = "*" then
        let star ← consumeLeaf tokens .OPERATOR
        pure (.mk "import_statement" [kw, name, imp, star])
      else throwPointer

/-- `Syntax_Analyzer::parseOp`. -/
def parseOp (tokens : List Token) : ParseM ParseTreeNode := do
  let tk ← currentToken tokens
  if isCompOp tk.lexeme then
    let op ← rethrowing tokens "Could not COMP OP" (consumeLeaf tokens .OPERATOR)
    pure (.mk "OP" [op])
  else pure (.mk "OP" [])

/-- `Syntax_Analyzer::parseAssignOp`. -/
def parseAssignOp (tokens : List Token) : ParseM ParseTreeNode :=
  rethrowing tokens "Could not parse Assign OP" do
    if ← currentIs tokens (fun tk => tk.type = .OPERATOR) then
      let tk ← currentToken tokens
      if isAssignOp tk.lexeme then
        let op ← consumeLeaf tokens .OPERATOR
        pure (.mk "Assign_OP" [op])
      else pure (.mk "Assign_OP" [])
    else throwConsumeError

mutual

/-- `Syntax_Analyzer::parseExpression`. -/
def parseExpression (tokens : List Token) : Nat → ParseM ParseTreeNode
  | 0 => noFuel
  | fuel + 1 =>
    rethrowing tokens "Could not parse expression" do
      let first ← parseOrExpr tokens fuel
      if ← currentIs tokens (fun tk => tk.type = .IfKeyword) then
        let kwIf ← consumeLeaf tokens .IfKeyword
        let cond ← parseOrExpr tokens fuel
        let kwElse ← consumeLeaf tokens .ElseKeyword
        let rest ← parseExpression tokens fuel
        pure (.mk "expression" [first, kwIf, cond, kwElse, rest])
      else pure (.mk "expression" [first])

/-- `Syntax_Analyzer::parseOrExpr`. -/
def parseOrExpr (tokens : List Token) : Nat → ParseM ParseTreeNode
  | 0 => noFuel
  | fuel + 1 =>
    rethrowing tokens "Could not parse or expression" do
      let first ← parseAndExpr tokens fuel
      let children ← orLoop tokens fuel [first]
      pure (.mk "or_expression" children)

/-- The loop `while (current < tokens.size() && currentToken().type == OrKeyword)`. -/
def orLoop (tokens : List Token) : Nat → List ParseTreeNode → ParseM (List ParseTreeNode)
  | 0, _ => noFuel
  | fuel + 1, children => do
    if ← currentIs tokens (fun tk => tk.type = .OrKeyword) then
      let kw ← consumeLeaf tokens .OrKeyword
      let next ← parseAndExpr tokens fuel
      orLoop tokens fuel (children ++ [kw, next])
    else pure children

/-- `Syntax_Analyzer::parseAndExpr`. -/
def parseAndExpr (tokens : List Token) : Nat → ParseM ParseTreeNode
  | 0 => noFuel
  | fuel + 1 =>
    rethrowing tokens "Could not parse and expression" do
      let first ← parseNotExpr tokens fuel
      let children ← andLoop tokens fuel [first]
      pure (.mk "and_expression" children)

/-- The loop `while (current < tokens.size() && currentToken().type == AndKeyword)`. -/
def andLoop (tokens : List Token) : Nat → List ParseTreeNode → ParseM (List ParseTreeNode)
  | 0, _ => noFuel
  | fuel + 1, children => do
    if ← currentIs tokens (fun tk => tk.type = .AndKeyword) then
      let kw ← consumeLeaf tokens .AndKeyword
      let next ← parseNotExpr tokens fuel
      andLoop tokens fuel (children ++ [kw, next])
    else pure children

/-- `Syntax_Analyzer::parseNotExpr`. -/
def parseNotExpr (tokens : List Token) : Nat → ParseM ParseTreeNode
  | 0 => noFuel
  | fuel + 1 =>
    rethrowing tokens "Could not parse not expression" do
      if ← currentIs tokens (fun tk => tk.type = .NotKeyword) then
        let kw ← consumeLeaf tokens .NotKeyword
        let operand ← parseNotExpr tokens fuel
        pure (.mk "not_expression" [kw, operand])
      else
        let comparison ← parseComparison tokens fuel
        pure (.mk "not_expression" [comparison])

/-- `Syntax_Analyzer::parseComparison`. -/
def parseComparison (tokens : List Token) : Nat → ParseM ParseTreeNode
  | 0 => noFuel
  | fuel + 1 =>
    rethrowing tokens "Could not parse comparison" do
      let first ← parseArithmetic tokens fuel
      let children ← compLoop tokens fuel [first]
      pure (.mk "comparison" children)

/-- The loop `while (current < tokens.size() && currentToken().type == OPERATOR)` of
`parseComparison`. -/
def compLoop (tokens : List Token) : Nat → List ParseTreeNode → ParseM (List ParseTreeNode)
  | 0, _ => noFuel
  | fuel + 1, children => do
    if ← currentIs tokens (fun tk => tk.type = .OPERATOR) then
      let op ← parseOp tokens
      let next ← parseArithmetic tokens fuel
      compLoop tokens fuel (children ++ [op, next])
    else pure children

/-- `Syntax_Analyzer::parseArithmetic`. -/
def parseArithmetic (tokens : List Token) : Nat → ParseM ParseTreeNode
  | 0 => noFuel
  | fuel + 1 =>
    rethrowing tokens "Could not Arithmetic" do
      let first ← parseTerm tokens fuel
      let children ← arithLoop tokens fuel [first]
      pure (.mk "arithmetic" children)

/-- The loop of `parseArithmetic` over `+` and `-`. -/
def arithLoop (tokens : List Token) : Nat → List ParseTreeNode → ParseM (List ParseTreeNode)
  | 0, _ => noFuel
  | fuel + 1, children => do
    if ← currentIs tokens (fun tk => tk.type = .OPERATOR) then
      let tk ← currentToken tokens
      if tk.lexeme = "+" ∨ tk.lexeme = "-" then
        let op ← consumeLeaf tokens .OPERATOR
        let next ← parseTerm tokens fuel
        arithLoop tokens fuel (children ++ [op, next])
      else pure children
    else pure children

/-- `Syntax_Analyzer::parseTerm`. -/
def parseTerm (tokens : List Token) : Nat → ParseM ParseTreeNode
  | 0 => noFuel
  | fuel + 1 =>
    rethrowing tokens "Could not parse Term" do
      let first ← parseFactor tokens fuel
      let children ← termLoop tokens fuel [first]
      pure (.mk "term" children)

/-- The loop of `parseTerm` over `*`, `/` and `%`. -/
def termLoop (tokens : List Token) : Nat → List ParseTreeNode → ParseM (List ParseTreeNode)
  | 0, _ => noFuel
  | fuel + 1, children => do
    if ← currentIs tokens (fun tk => tk.type = .OPERATOR) then
      let tk ← currentToken tokens
      if tk.lexeme = "*" ∨ tk.lexeme = "/" ∨ tk.lexeme = "%" then
        let op ← consumeLeaf tokens .OPERATOR
        let next ← parseFactor tokens fuel
        termLoop tokens fuel (children ++ [op, next])
      else pure children
    else pure children

/-- `Syntax_Analyzer::parseArguments`. -/
def parseArguments (tokens : List Token) : Nat → ParseM ParseTreeNode
  | 0 => noFuel
  | fuel + 1 =>
    rethrowing tokens "Could not arguments" do
      let first ← parseExpression tokens fuel
      let children ← argsLoop tokens fuel [first]
      pure (.mk "arguments" children)

/-- The loop `while (current < tokens.size() && currentToken().type == Comma)` of
`parseArguments`. -/
def argsLoop (tokens : List Token) : Nat → List ParseTreeNode → ParseM (List ParseTreeNode)
  | 0, _ => noFuel
  | fuel + 1, children => do
    if ← currentIs tokens (fun tk => tk.type = .Comma) then
      let comma ← consumeLeaf tokens .Comma
      let next ← parseExpression tokens fuel
      argsLoop tokens fuel (children ++ [comma, next])
    else pure children

/-- The call suffix in `parseFactor`: `if (currentToken().type == LeftParenthesis) { consume;
if (currentToken().type != RightParenthesis) parseArguments(); consume(RightParenthesis); }`. -/
def callSuffix (tokens : List Token) : Nat → ParseM (List ParseTreeNode)
  | 0 => noFuel
  | fuel + 1 => do
    let tk ← currentToken tokens
    if tk.type = .LeftParenthesis then
      let lpar ← consumeLeaf tokens .LeftParenthesis
      let tk1 ← currentToken tokens
      if tk1.type ≠ .RightParenthesis then
        let args ← parseArguments tokens fuel
        let rpar ← consumeLeaf tokens .RightParenthesis
        pure [lpar, args, rpar]
      else
        let rpar ← consumeLeaf tokens .RightParenthesis
        pure [lpar, rpar]
    else pure []

/-- The loop `while (currentToken().type == Comma) { consume(Comma); parseExpression(); }` of
the tuple and list branches of `parseFactor`. -/
def commaLoop (tokens : List Token) : Nat → List ParseTreeNode → ParseM (List ParseTreeNode)
  | 0, _ => noFuel
  | fuel + 1, children => do
    let tk ← currentToken tokens
    if tk.type = .Comma then
      let comma ← consumeLeaf tokens .Comma
      let next ← parseExpression tokens fuel
      commaLoop tokens fuel (children ++ [comma, next])
    else pure children

/-- The loop `while (currentToken().type == Comma)` of the dictionary branch of `parseFactor`. -/
def dictLoop (tokens : List Token) : Nat → List ParseTreeNode → ParseM (List ParseTreeNode)
  | 0, _ => noFuel
  | fuel + 1, children => do
    let tk ← currentToken tokens
    if tk.type = .Comma then
      let comma ← consumeLeaf tokens .Comma
      let key ← parseExpression tokens fuel
      let colon ← consumeLeaf tokens .Colon
      let value ← parseExpression tokens fuel
      dictLoop tokens fuel (children ++ [comma, key, colon, value])
    else pure children

/-- `Syntax_Analyzer::parseFactor`. -/
def parseFactor (tokens : List Token) : Nat → ParseM ParseTreeNode
  | 0 => noFuel
  | fuel + 1 =>
    rethrowing tokens "Could not parse factor" do
      let tk ← currentToken tokens
      if tk.type = .NUMBER then
        let num ← consumeLeaf tokens .NUMBER
        pure (.mk "factor" [num])
      else if tk.type = .IDENTIFIER then
        let next ← peekToken tokens
        if next.type = .Dot then
          let name ← parseDottedName tokens
          let call ← callSuffix tokens fuel
          pure (.mk "factor" ([name] ++ call))
        else
          let name ← consumeLeaf tokens .IDENTIFIER
          let call ← callSuffix tokens fuel
          pure (.mk "factor" ([name] ++ call))
      else if tk.type = .STRING_LITERAL then
        let str ← consumeLeaf tokens .STRING_LITERAL
        pure (.mk "factor" [str])
      else if tk.type = .LeftParenthesis then
        let lpar ← consumeLeaf tokens .LeftParenthesis
        let first ← parseExpression tokens fuel
        let children ← commaLoop tokens fuel [lpar, first]
        let rpar ← consumeLeaf tokens .RightParenthesis
        pure (.mk "factor" [.mk "tuple_or_group" (children ++ [rpar])])
      else if tk.type = .FalseKeyword then
        let kw ← consumeLeaf tokens .FalseKeyword
        pure (.mk "factor" [kw])
      else if tk.type = .TrueKeyword then
        let kw ← consumeLeaf tokens .TrueKeyword
        pure (.mk "factor" [kw])
      else if tk.type = .LeftBracket then
        let lbr ← consumeLeaf tokens .LeftBracket
        let tk1 ← currentToken tokens
        if tk1.type ≠ .RightBracket then
          let first ← parseExpression tokens fuel
          let children ← commaLoop tokens fuel [lbr, first]
          let rbr ← consumeLeaf tokens .RightBracket
          pure (.mk "factor" [.mk "list_literal" (children ++ [rbr])])
        else
          let rbr ← consumeLeaf tokens .RightBracket
          pure (.mk "factor" [.mk "list_literal" [lbr, rbr]])
      else if tk.type = .LeftBrace then
        let lbr ← consumeLeaf tokens .LeftBrace
        let tk1 ← currentToken tokens
        if tk1.type ≠ .RightBrace then
          let key ← parseExpression tokens fuel
          let colon ← consumeLeaf tokens .Colon
          let value ← parseExpression tokens fuel
          let children ← dictLoop tokens fuel [lbr, key, colon, value]
          let rbr ← consumeLeaf tokens .RightBrace
          pure (.mk "factor" [.mk "dict_literal" (children ++ [rbr])])
        else
          let rbr ← consumeLeaf tokens .RightBrace
          pure (.mk "factor" [.mk "dict_literal" [lbr, rbr]])
      else do
        error tokens "Could not parse Factor"
        throwConsumeError

end

/-- `Syntax_Analyzer::parseFunctionCall`. -/
def parseFunctionCall (tokens : List Token) : Nat → ParseM ParseTreeNode
  | 0 => noFuel
  | fuel + 1 =>
    rethrowing tokens "Could not parse function call" do
      let next ← peekToken tokens
      let name ← if next.type = .Dot then parseDottedName tokens else consumeLeaf tokens .IDENTIFIER
      let lpar ← consumeLeaf tokens .LeftParenthesis
      let tk ← currentToken tokens
      let args ←
        if tk.type ≠ .RightParenthesis then (do
          let a ← parseArguments tokens fuel
          pure [a])
        else pure []
      let rpar ← consumeLeaf tokens .RightParenthesis
      if ← currentIs tokens (fun t => t.type = .IfKeyword) then
        let kwIf ← consumeLeaf tokens .IfKeyword
        let cond ← parseOrExpr tokens fuel
        let kwElse ← consumeLeaf tokens .ElseKeyword
        let rest ← parseFunctionCall tokens fuel
        pure (.mk "function_call" ([name, lpar] ++ args ++ [rpar, kwIf, cond, kwElse, rest]))
      else pure (.mk "function_call" ([name, lpar] ++ args ++ [rpar]))

/-- One target of `parseAssignmentStmt`:
`if (peekToken().type == Dot) parseDottedName(); else consume(IDENTIFIER)`. -/
def parseTarget (tokens : List Token) : ParseM ParseTreeNode := do
  let next ← peekToken tokens
  if next.type = .Dot then parseDottedName tokens else consumeLeaf tokens .IDENTIFIER

/-- The loop over further targets in `parseAssignmentStmt`. -/
def lhsLoop (tokens : List Token) : Nat → List ParseTreeNode → ParseM (List ParseTreeNode)
  | 0, _ => noFuel
  | fuel + 1, children => do
    if ← currentIs tokens (fun tk => tk.type = .Comma) then
      let comma ← consumeLeaf tokens .Comma
      let target ← parseTarget tokens
      lhsLoop tokens fuel (children ++ [comma, target])
    else pure children

/-- The loop over further right-hand expressions in `parseAssignmentStmt`. -/
def rhsLoop (tokens : List Token) : Nat → List ParseTreeNode → ParseM (List ParseTreeNode)
  | 0, _ => noFuel
  | fuel + 1, children => do
    if ← currentIs tokens (fun tk => tk.type = .Comma) then
      let comma ← consumeLeaf tokens .Comma
      let next ← parseExpression tokens fuel
      rhsLoop tokens fuel (children ++ [comma, next])
    else pure children

/-- `Syntax_Analyzer::parseAssignmentStmt`. -/
def parseAssignmentStmt (tokens : List Token) (fuel : Nat) : ParseM ParseTreeNode :=
  rethrowing tokens "Could not parse assignment" do
    let first ← parseTarget tokens
    let lhs ← lhsLoop tokens fuel [first]
    let op ← parseAssignOp tokens
    let value ← parseExpression tokens fuel
    let rhs ← rhsLoop tokens fuel [value]
    pure (.mk "assignment" [.mk "lhs" lhs, op, .mk "rhs" rhs])

/-- `Syntax_Analyzer::parseParameter`. -/
def parseParameter (tokens : List Token) (fuel : Nat) : ParseM ParseTreeNode :=
  rethrowing tokens "Could not parse parameter" do
    let name ← consumeLeaf tokens .IDENTIFIER
    if ← currentIs tokens (fun tk => tk.type = .OPERATOR ∧ tk.lexeme = "=") then
      let op ← consumeLeaf tokens .OPERATOR
      let value ← parseExpression tokens fuel
      pure (.mk "parameter" [name, op, value])
    else pure (.mk "parameter" [name])

/-- The loop over further parameters in `parseParameters`. -/
def paramsLoop (tokens : List Token) : Nat → List ParseTreeNode → ParseM (List ParseTreeNode)
  | 0, _ => noFuel
  | fuel + 1, children => do
    if ← currentIs tokens (fun tk => tk.type = .Comma) then
      let comma ← consumeLeaf tokens .Comma
      let next ← parseParameter tokens fuel
      paramsLoop tokens fuel (children ++ [comma, next])
    else pure children

/-- `Syntax_Analyzer::parseParameters` (the diagnostic text is spelled as in the source). -/
def parseParameters (tokens : List Token) (fuel : Nat) : ParseM ParseTreeNode :=
  rethrowing tokens "Could not parse paramters" do
    if ← currentIs tokens (fun tk => tk.type ≠ .RightParenthesis) then
      let first ← parseParameter tokens fuel
      let children ← paramsLoop tokens fuel [first]
      pure (.mk "parameters" children)
    else pure (.mk "parameters" [])

/-- `Syntax_Analyzer::parseReturn`; the `consume` of the keyword stands before the `try`. -/
def parseReturn (tokens : List Token) (fuel : Nat) : ParseM ParseTreeNode := do
  let kw ← consumeLeaf tokens .ReturnKeyword
  rethrowing tokens "Could not parse return statement" do
    let value ← parseExpression tokens fuel
    pure (.mk "return_statement" [kw, value])

/-- `Syntax_Analyzer::parseRaise`. -/
def parseRaise (tokens : List Token) (fuel : Nat) : ParseM ParseTreeNode :=
  rethrowing tokens "Could not parse raise statement" do
    let kw ← consumeLeaf tokens .RaiseKeyword
    let value ← parseExpression tokens fuel
    pure (.mk "raise_statement" [kw, value])

mutual

/-- `Syntax_Analyzer::parseFunction`. -/
def parseFunction (tokens : List Token) : Nat → ParseM ParseTreeNode
  | 0 => noFuel
  | fuel + 1 =>
    rethrowing tokens "Could not parse function" do
      let kw ← consumeLeaf tokens .DefKeyword
      let name ← consumeLeaf tokens .IDENTIFIER
      let lpar ← consumeLeaf tokens .LeftParenthesis
      let params ← parseParameters tokens fuel
      let rpar ← consumeLeaf tokens .RightParenthesis
      let colon ← consumeLeaf tokens .Colon
      let body ← parseBlock tokens fuel
      pure (.mk "function" [kw, name, lpar, params, rpar, colon, body])

/-- `Syntax_Analyzer::parseStatement`. -/
def parseStatement (tokens : List Token) : Nat → ParseM ParseTreeNode
  | 0 => noFuel
  | fuel + 1 =>
    rethrowing tokens "Could not parse statement" do
      let tk ← currentToken tokens
      match tk.type with
      | .IDENTIFIER =>
        let next ← peekToken tokens
        if next.type = .LeftParenthesis then
          let call ← parseFunctionCall tokens fuel
          pure (.mk "statement" [call])
        else if next.type = .Dot then
          let temp ← getCurrent
          let _ ← parseDottedName tokens
          let cur ← getCurrent
          if cur < tokens.length then
            let tk1 ← currentToken tokens
            if tk1.type = .LeftParenthesis then
              setCurrent temp
              let call ← parseFunctionCall tokens fuel
              pure (.mk "statement" [call])
            else if tk1.type = .OPERATOR ∧ tk1.lexeme = "=" then
              setCurrent temp
              let assignment ← parseAssignmentStmt tokens fuel
              pure (.mk "statement" [assignment])
            else do
              error tokens "Expected '(' or '=' after dotted name"
              throwConsumeError
          else do
            error tokens "Unexpected end after dotted name"
            throwConsumeError
        else
          let assignment ← parseAssignmentStmt tokens fuel
          pure (.mk "statement" [assignment])
      | .WhileKeyword =>
        let child ← parseWhileStmt tokens fuel
        pure (.mk "statement" [child])
      | .ForKeyword =>
        let child ← parseForStmt tokens fuel
        pure (.mk "statement" [child])
      | .IfKeyword =>
        let child ← parseConditionalStmt tokens fuel
        pure (.mk "statement" [child])
      | .ClassKeyword =>
        let child ← parseClassDef tokens fuel
        pure (.mk "statement" [child])
      | .ImportKeyword =>
        let child ← parseImport tokens
        pure (.mk "statement" [child])
      | .FromKeyword =>
        let child ← parseImport tokens
        pure (.mk "statement" [child])
      | .ReturnKeyword =>
        let child ← parseReturn tokens fuel
        pure (.mk "statement" [child])
      | .PassKeyword =>
        let child ← parsePass tokens
        pure (.mk "statement" [child])
      | .BreakKeyword =>
        let child ← parseBreak tokens
        pure (.mk "statement" [child])
      | .ContinueKeyword =>
        let child ← parseContinue tokens
        pure (.mk "statement" [child])
      | .RaiseKeyword =>
        let child ← parseRaise tokens fuel
        pure (.mk "statement" [child])
      | .TryKeyword =>
        let child ← parseTryStmt tokens fuel
        pure (.mk "statement" [child])
      | .STRING_LITERAL =>
        let child ← parseFactor tokens fuel
        pure (.mk "statement" [child])
      | _ => do
        error tokens "Cannot Parse Statement!"
        throwConsumeError

/-- The loop `while (current < tokens.size() && currentToken().type != DEDENT)` of
`parseClassBlock`, with the local `prevLine`. -/
def classLoop (tokens : List Token) : Nat → Int → List ParseTreeNode → ParseM (List ParseTreeNode)
  | 0, _, _ => noFuel
  | fuel + 1, prevLine, children => do
    if ← currentIs tokens (fun tk => tk.type ≠ .DEDENT) then
      let tk ← currentToken tokens
      let member ←
        if tk.type = .DefKeyword then parseFunction tokens fuel else parseAssignmentStmt tokens fuel
      let tk1 ← currentToken tokens
      if tk1.lineNumber ≤ prevLine then
        error tokens "Class members must be on separate lines"
        synchronize tokens tk1.lineNumber
        classLoop tokens fuel prevLine (children ++ [member])
      else classLoop tokens fuel tk1.lineNumber (children ++ [member])
    else pure children

/-- `Syntax_Analyzer::parseClassBlock`; `prevLine` is read before the `try`. -/
def parseClassBlock (tokens : List Token) : Nat → ParseM ParseTreeNode
  | 0 => noFuel
  | fuel + 1 => do
    let tk0 ← currentToken tokens
    rethrowing tokens "Could not parse class block" do
      let _ ← consume tokens .INDENT
      let children ← classLoop tokens fuel tk0.lineNumber [ParseTreeNode.leaf "INDENT"]
      let _ ← consume tokens .DEDENT
      pure (.mk "class_block" (children ++ [ParseTreeNode.leaf "DEDENT"]))

/-- The loop `while (current < tokens.size() && currentToken().type != DEDENT)` of `parseBlock`,
with the local `prevLine`. -/
def blockLoop (tokens : List Token) : Nat → Int → List ParseTreeNode → ParseM (List ParseTreeNode)
  | 0, _, _ => noFuel
  | fuel + 1, prevLine, children => do
    if ← currentIs tokens (fun tk => tk.type ≠ .DEDENT) then
      let tk ← currentToken tokens
      if tk.lineNumber ≤ prevLine then
        error tokens "Statements must be separated by NEWLINE"
        synchronize tokens tk.lineNumber
        blockLoop tokens fuel prevLine children
      else
        let statement ← parseStatement tokens fuel
        blockLoop tokens fuel tk.lineNumber (children ++ [statement])
    else pure children

/-- `Syntax_Analyzer::parseBlock`; `isSingleLine` and `prevLine` are read before the `try`. -/
def parseBlock (tokens : List Token) : Nat → ParseM ParseTreeNode
  | 0 => noFuel
  | fuel + 1 => do
    let tk0 ← currentToken tokens
    rethrowing tokens "Could not parse block" do
      if tk0.type = .INDENT then
        let _ ← consume tokens .INDENT
        let tk1 ← currentToken tokens
        let first ←
          if tk1.type = .DefKeyword then parseFunction tokens fuel else parseStatement tokens fuel
        let children ← blockLoop tokens fuel tk0.lineNumber [ParseTreeNode.leaf "INDENT", first]
        tryCatch
          (do
            let _ ← consume tokens .DEDENT
            pure (.mk "block" (children ++ [ParseTreeNode.leaf "DEDENT"])))
          (pure (.mk "block" (children ++ [ParseTreeNode.leaf "DEDENT"])))
      else
        let statement ← parseStatement tokens fuel
        pure (.mk "block" [statement])

/-- `Syntax_Analyzer::parseWhileStmt`. -/
def parseWhileStmt (tokens : List Token) : Nat → ParseM ParseTreeNode
  | 0 => noFuel
  | fuel + 1 =>
    rethrowing tokens "Could not parse while statement" do
      let kw ← consumeLeaf tokens .WhileKeyword
      let cond ← parseExpression tokens fuel
      let colon ← consumeLeaf tokens .Colon
      let body ← parseBlock tokens fuel
      pure (.mk "while_statement" [kw, cond, colon, body])

/-- `Syntax_Analyzer::parseForStmt`. -/
def parseForStmt (tokens : List Token) : Nat → ParseM ParseTreeNode
  | 0 => noFuel
  | fuel + 1 =>
    rethrowing tokens "Could not parse for statement" do
      let kw ← consumeLeaf tokens .ForKeyword
      let name ← consumeLeaf tokens .IDENTIFIER
      let kwIn ← consumeLeaf tokens .InKeyword
      let iter ← parseExpression tokens fuel
      let colon ← consumeLeaf tokens .Colon
      let body ← parseBlock tokens fuel
      pure (.mk "for_statement" [kw, name, kwIn, iter, colon, body])

/-- The loop over `except` clauses in `parseTryStmt`. -/
def exceptLoop (tokens : List Token) : Nat → List ParseTreeNode → ParseM (List ParseTreeNode)
  | 0, _ => noFuel
  | fuel + 1, children => do
    if ← currentIs tokens (fun tk => tk.type = .ExceptKeyword) then
      let kw ← consumeLeaf tokens .ExceptKeyword
      let tk ← currentToken tokens
      let name ←
        if tk.type = .IDENTIFIER then (do
          let exc ← consumeLeaf tokens .IDENTIFIER
          let tk1 ← currentToken tokens
          if tk1.type = .AsKeyword then
            let kwAs ← consumeLeaf tokens .AsKeyword
            let bound ← consumeLeaf tokens .IDENTIFIER
            pure [exc, kwAs, bound]
          else pure [exc])
        else pure []
      let colon ← consumeLeaf tokens .Colon
      let body ← parseBlock tokens fuel
      exceptLoop tokens fuel (children ++ [.mk "except_clause" ([kw] ++ name ++ [colon, body])])
    else pure children

/-- `Syntax_Analyzer::parseTryStmt`. -/
def parseTryStmt (tokens : List Token) : Nat → ParseM ParseTreeNode
  | 0 => noFuel
  | fuel + 1 =>
    rethrowing tokens "Could not parse try statement" do
      let kw ← consumeLeaf tokens .TryKeyword
      let colon ← consumeLeaf tokens .Colon
      let body ← parseBlock tokens fuel
      let children ← exceptLoop tokens fuel [kw, colon, body]
      let elseClause ←
        if ← currentIs tokens (fun tk => tk.type = .ElseKeyword) then (do
          let kwElse ← consumeLeaf tokens .ElseKeyword
          let colon1 ← consumeLeaf tokens .Colon
          let body1 ← parseBlock tokens fuel
          pure [ParseTreeNode.mk "else_clause" [kwElse, colon1, body1]])
        else pure []
      let finallyClause ←
        if ← currentIs tokens (fun tk => tk.type = .FinallyKeyword) then (do
          let kwFinally ← consumeLeaf tokens .FinallyKeyword
          let colon2 ← consumeLeaf tokens .Colon
          let body2 ← parseBlock tokens fuel
          pure [ParseTreeNode.mk "finally_clause" [kwFinally, colon2, body2]])
        else pure []
      pure (.mk "try_statement" (children ++ elseClause ++ finallyClause))

/-- `Syntax_Analyzer::parseClassDef`. -/
def parseClassDef (tokens : List Token) : Nat → ParseM ParseTreeNode
  | 0 => noFuel
  | fuel + 1 =>
    rethrowing tokens "Could not parse class def" do
      let kw ← consumeLeaf tokens .ClassKeyword
      let name ← consumeLeaf tokens .IDENTIFIER
      let tk ← currentToken tokens
      let base ←
        if tk.type = .LeftParenthesis then (do
          let lpar ← consumeLeaf tokens .LeftParenthesis
          let parent ← consumeLeaf tokens .IDENTIFIER
          let rpar ← consumeLeaf tokens .RightParenthesis
          pure [lpar, parent, rpar])
        else pure []
      let colon ← consumeLeaf tokens .Colon
      let body ← parseClassBlock tokens fuel
      pure (.mk "class_def" ([kw, name] ++ base ++ [colon, body]))

/-- The loop over `elif` clauses in `parseConditionalStmt`. -/
def elifLoop (tokens : List Token) : Nat → List ParseTreeNode → ParseM (List ParseTreeNode)
  | 0, _ => noFuel
  | fuel + 1, children => do
    if ← currentIs tokens (fun tk => tk.type = .ElifKeyword) then
      let clause ← rethrowing tokens "Could not parse elif" (do
        let kw ← consumeLeaf tokens .ElifKeyword
        let cond ← parseExpression tokens fuel
        let colon ← consumeLeaf tokens .Colon
        let body ← parseBlock tokens fuel
        pure (ParseTreeNode.mk "elif_clause" [kw, cond, colon, body]))
      elifLoop tokens fuel (children ++ [clause])
    else pure children

/-- `Syntax_Analyzer::parseConditionalStmt`. -/
def parseConditionalStmt (tokens : List Token) : Nat → ParseM ParseTreeNode
  | 0 => noFuel
  | fuel + 1 => do
    let head ← rethrowing tokens "Could not parse conditional" (do
      let kw ← consumeLeaf tokens .IfKeyword
      let cond ← parseExpression tokens fuel
      let colon ← consumeLeaf tokens .Colon
      let body ← parseBlock tokens fuel
      pure [kw, cond, colon, body])
    let children ← elifLoop tokens fuel head
    if ← currentIs tokens (fun tk => tk.type = .ElseKeyword) then
      let clause ← rethrowing tokens "Could not parse else" (do
        let kwElse ← consumeLeaf tokens .ElseKeyword
        let colon ← consumeLeaf tokens .Colon
        let body ← parseBlock tokens fuel
        pure (ParseTreeNode.mk "else_clause" [kwElse, colon, body]))
      pure (.mk "conditional_statement" (children ++ [clause]))
    else pure (.mk "conditional_statement" children)

end

/-- The body of the `try` block in the loop of `parseProgram`, entered with `current = cur`:
the child added to the program node, or `none` after the `continue`. -/
def programItem (tokens : List Token) (fuel : Nat) (cur : Nat) : ParseM (Option ParseTreeNode) := do
  let tk ← currentToken tokens
  let prev := tokens.getD (cur - 1) tk
  if cur ≠ 0 ∧ tk.lineNumber ≤ prev.lineNumber ∧ prev.type ≠ .DEDENT then
    error tokens "Statements must be separated by NEWLINE"
    synchronize tokens tk.lineNumber
    pure none
  else
    if tk.type = .DEDENT then
      let _ ← consume tokens .DEDENT
    let tk1 ← currentToken tokens
    if tk1.type = .DefKeyword then
      let child ← parseFunction tokens fuel
      pure (some child)
    else
      let child ← parseStatement tokens fuel
      pure (some child)

/-- The loop `while (current < tokens.size())` of `parseProgram`. -/
def programLoop (tokens : List Token) (depth : Nat) :
    Nat → List ParseTreeNode → ParseM ParseTreeNode
  | 0, _ => noFuel
  | fuel + 1, children => do
    let cur ← getCurrent
    if cur < tokens.length then
      let item ← tryCatch (programItem tokens depth cur) (do
        let tk ← currentToken tokens
        synchronize tokens tk.lineNumber
        pure none)
      programLoop tokens depth fuel (children ++ item.toList)
    else pure (.mk "program" children)

/-- Fuel for the nested grammar rules: generous for every token list. -/
def depthFuel (tokens : List Token) : Nat := 20 * tokens.length + 40

/-- `Syntax_Analyzer::parseProgram()` on an analyzer whose `tokens` member was set to `tokens`
and whose `current` is `0`. -/
def parseProgram (tokens : List Token) : Outcome ParseTreeNode :=
  programLoop tokens (depthFuel tokens) (tokens.length + 1) [] { current := 0, log := [] }

end Syntax_Analyzer

/-! ## 12. Predicates used by the statements -/

/-- Number of `INDENT` tokens of a token list. -/
def countIndent (tokens : List Token) : Nat := tokens.countP (fun t => t.type = .INDENT)

/-- Number of `DEDENT` tokens of a token list. -/
def countDedent (tokens : List Token) : Nat := tokens.countP (fun t => t.type = .DEDENT)

/-- In every prefix there are at least as many `INDENT` as `DEDENT` tokens. -/
def PrefixBalanced (tokens : List Token) : Prop :=
  ∀ k, countDedent (tokens.take k) ≤ countIndent (tokens.take k)

/-- The indent stack has `0` at the bottom. -/
def BottomZero (indentStack : List Nat) : Prop := indentStack.getLast? = some 0

/-- The layout invariant relating a token list and an indent stack. -/
def Layout (tokens : List Token) (indentStack : List Nat) : Prop :=
  BottomZero indentStack ∧
  countIndent tokens = countDedent tokens + (indentStack.length - 1) ∧
  PrefixBalanced tokens

/-- The state `s1` differs from `s` in the layout-relevant parts only by tokens that are neither
`INDENT` nor `DEDENT`. -/
def Quiet (s s1 : LexState) : Prop :=
  s1.indentStack = s.indentStack ∧
  ∃ extra, s1.tokens = s.tokens ++ extra ∧ ∀ t ∈ extra, t.type ≠ .INDENT ∧ t.type ≠ .DEDENT


/-- The eleven type tags of the specification. -/
def typeTags : List String :=
  ["unknown", "int", "float", "string", "bool", "list", "tuple", "set", "dictionary",
   "function", "class"]

/-- The reference function `u(a, b)` of the specification (section 4.2, "Type unification
rules"), its five rules applied in order. -/
def specUnify (a b : String) : String :=
  -- 1. Both `unknown` give `unknown`; if one is `unknown`, return the other.
  if a = "unknown" ∧ b = "unknown" then "unknown"
  else if a = "unknown" then b
  else if b = "unknown" then a
  -- 2. Either is `float` and neither is `string`/`bool`: `float`.
  else if (a = "float" ∨ b = "float") ∧ ¬ (a = "string" ∨ b = "string" ∨ a = "bool" ∨ b = "bool") then
    "float"
  -- 3. Both `int`: `int`; both `bool`: `bool`; both `string`: `string`.
  else if a = "int" ∧ b = "int" then "int"
  else if a = "bool" ∧ b = "bool" then "bool"
  else if a = "string" ∧ b = "string" then "string"
  -- 4. Mixed `string` with anything else: `unknown`.
  else if a = "string" ∨ b = "string" then "unknown"
  -- 5. Otherwise if equal, that type, else `unknown`.
  else if a = b then a
  else "unknown"

/-- A token that is neither `INDENT` nor `DEDENT`. -/
def isContent (t : Token) : Bool := t.type ≠ .INDENT && t.type ≠ .DEDENT

/-- The text of the re-lexing round trip: the lexemes of the tokens that are neither `INDENT` nor
`DEDENT`, in order, joined by single spaces. -/
def joinLexemes (tokens : List Token) : List Char :=
  (" ".intercalate ((tokens.filter isContent).map (fun t => t.lexeme))).toList

/-- The (kind, lexeme) pairs of the tokens that are neither `INDENT` nor `DEDENT`. -/
def kindsAndLexemes (tokens : List Token) : List (TokenType × String) :=
  (tokens.filter isContent).map (fun t => (t.type, t.lexeme))



mutual
/-- The labels of all nodes of a parse tree, in preorder. -/
def ParseTreeNode.texts : ParseTreeNode → List String
  | .mk l c => l :: ParseTreeNode.textsOfList c
/-- The labels of all nodes of a list of parse trees. -/
def ParseTreeNode.textsOfList : List ParseTreeNode → List String
  | [] => []
  | a :: rest => ParseTreeNode.texts a ++ ParseTreeNode.textsOfList rest
end



/-- The condition of the specification on the text after the opening quote `q` of a single-line
string: a bare newline or the end of the source comes before the matching unescaped closing
quote.  A backslash escapes the character after it (a quote or a newline after a backslash is
neither closing nor bare). -/
def unterminatedAfter (q : Char) : List Char → Bool
  | [] => true
  | [c] => if c = '\\' then true else if c = '\n' then true else if c = q then false else true
  | c :: d :: rest =>
    if c = '\\' then unterminatedAfter q rest
    else if c = '\n' then true
    else if c = q then false
    else unterminatedAfter q (d :: rest)


/-- From the state `s` to the state `s1` the line counter does not decrease, and the tokens of
`s1` are those of `s` followed by tokens whose line numbers are non-decreasing and lie between
the two values of the line counter. -/
def LineStep (s s1 : LexState) : Prop :=
  s.lineNumber ≤ s1.lineNumber ∧
  ∃ extra, s1.tokens = s.tokens ++ extra ∧
    extra.Pairwise (fun a b => a.lineNumber ≤ b.lineNumber) ∧
    ∀ t ∈ extra, s.lineNumber ≤ t.lineNumber ∧ t.lineNumber ≤ s1.lineNumber



/-- The kinds, lexemes and scopes of a token list (the line numbers left out). -/
def kindsLexemesScopes (tokens : List Token) : List (TokenType × String × String) :=
  tokens.map (fun t => (t.type, t.lexeme, t.scope))

/-- The split of a key in `SymbolTable::printSymbols`:
`auto at = key.find('@'); name = key.substr(0, at); scope = key.substr(at + 1);`.
When the key holds no `@`, `at` is `npos`, `substr(0, npos)` is the whole key and `at + 1` wraps
to `0`, so both parts are the whole key. -/
def splitKey (key : String) : String × String :=
  let pos := (key.data.takeWhile (fun c => c ≠ '@')).length
  if pos < key.data.length then (String.mk (key.data.take pos), String.mk (key.data.drop (pos + 1)))
  else (key, key)


/-- The indent stack (top first) has `0` at the bottom and is strictly increasing from the bottom
to the top. -/
def StackOk (indentStack : List Nat) : Prop :=
  indentStack.getLast? = some 0 ∧ indentStack.Pairwise (fun upper lower => lower < upper)

/-- The state in which `tokenize`, called on the object `lexer`, enters its main loop. -/
def initialState (lexer : Lexer) : LexState :=
  { tokens := [], errors := [], lineNumber := 1, i := 0, indentStack := [0],
    atLineStart := true, lineContinuation := false, scopeStack := lexer.scopeStack }

/-- The state of `tokenize` after at most `n` iterations of its main loop (fewer when the loop
ends earlier), started in the state `s`. -/
def lexSteps (source : List Char) : Nat → LexState → Option (Except LexExn LexState)
  | 0, s => some (.ok s)
  | n + 1, s =>
    if s.i < source.length then
      match lexStep source s with
      | none => none
      | some (.error e) => some (.error e)
      | some (.ok s1) => lexSteps source n s1
    else some (.ok s)


/-- The diagnostics that `processIndentation` can record. -/
def indentationMessages : List String :=
  ["Mixed tabs and spaces in indentation", "Unindent does not match outer level",
   "Dedent exceeds indentation level"]


/-- The number of newline characters among the first `i` characters of the source. -/
def newlinesBefore (source : List Char) (i : Nat) : Nat := (source.take i).count '\n'


/-- Every frame of the scope stack has a non-empty name. -/
def NamedFrames (frames : List ScopeInfo) : Prop := ∀ f ∈ frames, f.name ≠ ""

/-- The shape of a token's `scope` and `lexeme` fields: an `IDENTIFIER` has a non-empty scope,
every other token an empty one, and an `INDENT` or `DEDENT` has an empty lexeme. -/
def ScopeShape (t : Token) : Prop :=
  (t.type = .IDENTIFIER → t.scope ≠ "") ∧ (t.type ≠ .IDENTIFIER → t.scope = "") ∧
    (t.type = .INDENT ∨ t.type = .DEDENT → t.lexeme = "")


/-- Every entry of the symbol table has a usage count of at least 1. -/
def SymbolTable.Counted (t : SymbolTable) : Prop := ∀ kv ∈ t.table, 1 ≤ kv.2.usageCount


/-- A lexeme branch of the main loop keeps the `lineContinuation` flag, and the tokens it pushes
carry the value the line counter had when the branch was entered. -/
def OnLine (s s1 : LexState) : Prop :=
  s1.lineContinuation = s.lineContinuation ∧
  ∃ extra, s1.tokens = s.tokens ++ extra ∧ ∀ t ∈ extra, t.lineNumber = s.lineNumber

/-- The iteration of the main loop of `tokenize` entered in state `s` takes the branch
`if (c == '\n')`: after the indentation and whitespace handling the cursor is inside the source
and stands on a newline. -/
def readsNewline (source : List Char) (s : LexState) : Prop :=
  (beforeLexeme source s).i < source.length ∧ charAt source (beforeLexeme source s).i = '\n'

/-- What holds between a state `s` of the main loop and a later state `sn` while the lexer stays
on a continued line: the flag `lineContinuation` is set, the indent stack is the same, the tokens
pushed since are neither INDENT nor DEDENT and carry line numbers between the line counter's
values in `s` and in `sn`, and none of the diagnostics recorded since is an indentation
diagnostic. -/
def Continued (s sn : LexState) : Prop :=
  sn.lineContinuation = true ∧ sn.indentStack = s.indentStack ∧
  s.lineNumber ≤ sn.lineNumber ∧
  (∃ toks, sn.tokens = s.tokens ++ toks ∧
    ∀ t ∈ toks, t.type ≠ .INDENT ∧ t.type ≠ .DEDENT ∧
      s.lineNumber ≤ t.lineNumber ∧ t.lineNumber ≤ sn.lineNumber) ∧
  ∃ errs, sn.errors = s.errors ++ errs ∧ ∀ e ∈ errs, e.message ∉ indentationMessages

/-- The leading run of spaces and tabs that the counting loop of `processIndentation` passes,
from the cursor `i` on. -/
def leadingWhitespace (source : List Char) (i : Nat) : List Char :=
  (source.drop i).takeWhile (fun c => c = ' ' || c = '\t')

/-- The value `newIndent = tabs * 4 + spaces` that `processIndentation` computes for the line
whose leading whitespace starts at `i`. -/
def indentWidth (source : List Char) (i : Nat) : Nat :=
  (leadingWhitespace source i).count '\t' * 4 + (leadingWhitespace source i).count ' '

/-- The diagnostics of the check `if (spaces > 0 && tabs > 0)` of `processIndentation`. -/
def mixedDiagnostics (source : List Char) (i : Nat) (lineNumber : Int) : List Error :=
  if (leadingWhitespace source i).count ' ' > 0 ∧ (leadingWhitespace source i).count '\t' > 0 then
    [⟨"Mixed tabs and spaces in indentation", lineNumber, i⟩]
  else []


/-- The longest match of the specification: `lexeme` belongs to the operator set and is a prefix
of the source from `i` on, it has at most three characters, and no member of the operator set
that is a prefix of the source from `i` on is longer. -/
def LongestOperatorAt (source : List Char) (i : Nat) (lexeme : String) : Prop :=
  lexeme ∈ operators ∧ lexeme.data <+: source.drop i ∧ lexeme.length ≤ 3 ∧
    ∀ p ∈ operators, p.data <+: source.drop i → p.length ≤ lexeme.length



/-- The scope frames that are popped when the top of the indent stack becomes `top`: from the
innermost frame outwards, the frames whose `indentLevel` is at least `top`, up to the first frame
whose level is smaller. -/
def framesBelow (top : Nat) (frames : List ScopeInfo) : List ScopeInfo :=
  frames.dropWhile (fun f => decide (top ≤ f.indentLevel))

/-- The type tags of numeric chains: `unknown`, `int` and `float`. -/
def numericTags : List String := ["unknown", "int", "float"]

/-- The pattern `[A-Za-z_][A-Za-z0-9_]*` of the specification. -/
def matchesIdentifier (lexeme : String) : Bool :=
  match lexeme.data with
  | [] => false
  | c :: rest => (isalpha c || c = '_') && rest.all (fun d => isalnum d || d = '_')

/-- The text `num = source.substr(start, i - start)` of the numeric literal that the scanning
loop of `tokenize` reads from `start` on. -/
def numberLiteral (source : List Char) (start : Nat) : List Char :=
  (source.drop start).take (scanNumber (source.drop start) false).1

/-- The condition of the specification for the leading-zero diagnostic: the literal has more
than one character, begins with `0`, holds no `.`, and denotes a non-zero integer (one of its
digits is not `0`). -/
def leadingZeroInteger (num : List Char) : Bool :=
  decide (1 < num.length) && decide (num.head? = some '0') && !(num.contains '.') &&
    num.any (fun c => c ≠ '0')

/-- The line number of the character at index `i` of the source, as the specification counts
lines: one more than the number of newline characters before it. -/
def lineOf (source : List Char) (i : Nat) : Int := 1 + (newlinesBefore source i : Int)


/-! # Theorems -/

/-! ## Layout tokens: `INDENT` / `DEDENT` balance -/

theorem countIndent_append (a b : List Token) :
    countIndent (a ++ b) = countIndent a + countIndent b := by
  simp [countIndent, List.countP_append]

theorem countDedent_append (a b : List Token) :
    countDedent (a ++ b) = countDedent a + countDedent b := by
  simp [countDedent, List.countP_append]

theorem countIndent_quiet {l : List Token} (h : ∀ t ∈ l, t.type ≠ .INDENT ∧ t.type ≠ .DEDENT) :
    countIndent l = 0 := by
  simp only [countIndent, List.countP_eq_zero]
  intro t ht
  simpa using (h t ht).1

theorem countDedent_quiet {l : List Token} (h : ∀ t ∈ l, t.type ≠ .INDENT ∧ t.type ≠ .DEDENT) :
    countDedent l = 0 := by
  simp only [countDedent, List.countP_eq_zero]
  intro t ht
  simpa using (h t ht).2

theorem countDedent_take_le (l : List Token) (k : Nat) :
    countDedent (l.take k) ≤ countDedent l := by
  have h := List.Sublist.countP_le (fun t : Token => decide (t.type = .DEDENT)) (List.take_sublist k l)
  simpa [countDedent] using h

/-- Appending tokens keeps prefixes balanced as soon as the whole list has enough `INDENT`s. -/
theorem PrefixBalanced.append {tokens extra : List Token} (h : PrefixBalanced tokens)
    (hx : countDedent tokens + countDedent extra ≤ countIndent tokens) :
    PrefixBalanced (tokens ++ extra) := by
  intro k
  rw [List.take_append_eq_append_take, countDedent_append, countIndent_append]
  by_cases hk : k ≤ tokens.length
  · have h0 : k - tokens.length = 0 := by omega
    have := h k
    simp [h0, countDedent, countIndent] at *
    exact this
  · have hfull : tokens.take k = tokens := List.take_of_length_le (by omega)
    rw [hfull]
    have := countDedent_take_le extra (k - tokens.length)
    omega

theorem Layout.quiet {s s1 : LexState} (h : Layout s.tokens s.indentStack) (q : Quiet s s1) :
    Layout s1.tokens s1.indentStack := by
  obtain ⟨hstk, extra, htok, hx⟩ := q
  obtain ⟨hb, hc, hp⟩ := h
  rw [hstk, htok]
  refine ⟨hb, ?_, ?_⟩
  · rw [countIndent_append, countDedent_append, countIndent_quiet hx, countDedent_quiet hx]
    omega
  · apply hp.append
    rw [countDedent_quiet hx]
    omega

theorem Quiet.refl (s : LexState) : Quiet s s := ⟨rfl, [], by simp, by simp⟩

theorem Quiet.trans {a b c : LexState} (h1 : Quiet a b) (h2 : Quiet b c) : Quiet a c := by
  obtain ⟨e1, x1, t1, q1⟩ := h1
  obtain ⟨e2, x2, t2, q2⟩ := h2
  refine ⟨e2.trans e1, x1 ++ x2, by rw [t2, t1, List.append_assoc], ?_⟩
  intro t ht
  rcases List.mem_append.1 ht with h | h
  · exact q1 t h
  · exact q2 t h

theorem lookup_mem_values {α β : Type} [BEq α] (l : List (α × β)) (k : α) (v : β)
    (h : l.lookup k = some v) : v ∈ l.map Prod.snd := by
  induction l with
  | nil => simp [List.lookup] at h
  | cons kv rest ih =>
    obtain ⟨k1, v1⟩ := kv
    simp only [List.lookup] at h
    split at h
    · simp at h
      simp [h]
    · simp [ih h]

theorem pythonKeywords_quiet (w : String) (kw : TokenType) (h : pythonKeywords.lookup w = some kw) :
    kw ≠ .INDENT ∧ kw ≠ .DEDENT := by
  have hall : ∀ v ∈ pythonKeywords.map Prod.snd, v ≠ TokenType.INDENT ∧ v ≠ TokenType.DEDENT := by
    decide
  exact hall kw (lookup_mem_values _ _ _ h)

theorem punctuationSymbols_quiet (c : Char) (ty : TokenType)
    (h : punctuationSymbols.lookup c = some ty) : ty ≠ .INDENT ∧ ty ≠ .DEDENT := by
  have hall : ∀ v ∈ punctuationSymbols.map Prod.snd, v ≠ TokenType.INDENT ∧ v ≠ TokenType.DEDENT := by
    decide
  exact hall ty (lookup_mem_values _ _ _ h)

/-- A state update that appends one non-layout token and keeps the indent stack is quiet. -/
theorem Quiet.of_push {s s1 : LexState} (t : Token) (hstk : s1.indentStack = s.indentStack)
    (htok : s1.tokens = s.tokens ++ [t]) (ht : t.type ≠ .INDENT ∧ t.type ≠ .DEDENT) : Quiet s s1 :=
  ⟨hstk, [t], htok, by simpa using ht⟩

/-- A state update that keeps tokens and indent stack is quiet. -/
theorem Quiet.of_same {s s1 : LexState} (hstk : s1.indentStack = s.indentStack)
    (htok : s1.tokens = s.tokens) : Quiet s s1 :=
  ⟨hstk, [], by simpa using htok, by simp⟩

theorem lexWord_quiet (source : List Char) (s : LexState) : Quiet s (lexWord source s) := by
  unfold lexWord
  simp only
  split
  · rename_i kw hkw
    have hq := pythonKeywords_quiet _ _ hkw
    split
    · split
      · refine ⟨rfl, _, List.append_assoc _ _ _, ?_⟩
        intro t ht
        simp at ht
        rcases ht with rfl | rfl
        · exact hq
        · simp
      · exact Quiet.of_push _ rfl rfl hq
    · exact Quiet.of_push _ rfl rfl hq
  · exact Quiet.of_push _ rfl rfl (by simp)

theorem lexOperator_quiet (source : List Char) (s s1 : LexState)
    (h : lexOperator source s = some s1) : Quiet s s1 := by
  unfold lexOperator at h
  simp only at h
  split at h
  · cases h; exact Quiet.of_push _ rfl rfl (by simp)
  · split at h
    · cases h; exact Quiet.of_push _ rfl rfl (by simp)
    · split at h
      · cases h; exact Quiet.of_push _ rfl rfl (by simp)
      · cases h

theorem lexNumber_quiet (source : List Char) (s s1 : LexState)
    (h : lexNumber source s = .ok s1) : Quiet s s1 := by
  unfold lexNumber at h
  simp only at h
  split at h
  · split at h
    · cases h
    · split at h
      · cases h; exact Quiet.of_same rfl rfl
      · cases h; exact Quiet.of_push _ rfl rfl (by simp)
  · cases h; exact Quiet.of_push _ rfl rfl (by simp)

theorem lexToken_quiet (source : List Char) (s s1 : LexState)
    (h : lexToken source s = some (.ok s1)) : Quiet s s1 := by
  unfold lexToken at h
  simp only at h
  split at h
  · cases h; exact lexWord_quiet source s
  · split at h
    · rename_i s2 hop
      cases h
      split at hop
      · exact lexOperator_quiet source s _ hop
      · cases hop
    · split at h
      · split at h
        · cases h
        · cases h; exact Quiet.of_push _ rfl rfl (by simp)
        · cases h; exact Quiet.of_same rfl rfl
      · split at h
        · simp only [Option.some.injEq] at h
          exact lexNumber_quiet source s s1 h
        · split at h
          · rename_i ty hty
            cases h; exact Quiet.of_push _ rfl rfl (punctuationSymbols_quiet _ _ hty)
          · cases h; exact Quiet.of_same rfl rfl

theorem BottomZero.length_pos {l : List Nat} (h : BottomZero l) : 1 ≤ l.length := by
  cases l with
  | nil => simp [BottomZero] at h
  | cons a t => simp

theorem BottomZero.cons {l : List Nat} (h : BottomZero l) (a : Nat) : BottomZero (a :: l) := by
  cases l with
  | nil => simp [BottomZero] at h
  | cons b t => simpa [BottomZero, List.getLast?_cons_cons] using h

theorem BottomZero.tail {a b : Nat} {l : List Nat} (h : BottomZero (a :: b :: l)) :
    BottomZero (b :: l) := by
  simpa [BottomZero, List.getLast?_cons_cons] using h

theorem BottomZero.single {a : Nat} (h : BottomZero [a]) : a = 0 := by
  simpa [BottomZero] using h

/-- The DEDENT loop keeps the layout invariant. -/
theorem dedentLoop_layout (newIndent : Nat) (lineNumber : Int) (start : Nat) :
    ∀ (stack : List Nat) (s : LexState), BottomZero stack →
      countIndent s.tokens = countDedent s.tokens + (stack.length - 1) →
      PrefixBalanced s.tokens →
      Layout (dedentLoop newIndent lineNumber start stack s).tokens
        (dedentLoop newIndent lineNumber start stack s).indentStack := by
  intro stack
  induction stack with
  | nil => intro s hb; simp [BottomZero] at hb
  | cons top rest ih =>
    intro s hb hc hp
    unfold dedentLoop
    split
    · rename_i hgt
      cases rest with
      | nil => have := hb.single; omega
      | cons b t =>
        simp only [List.isEmpty_cons, Bool.false_eq_true, ↓reduceIte]
        apply ih
        · exact hb.tail
        · simp only [countIndent_append, countDedent_append]
          simp [countIndent, countDedent] at hc ⊢
          omega
        · apply hp.append
          simp [countIndent, countDedent] at hc ⊢
          omega
    · exact ⟨hb, hc, hp⟩

theorem compareIndent_layout (newIndent : Nat) (lineNumber : Int) (start : Nat) (s : LexState)
    (h : Layout s.tokens s.indentStack) :
    Layout (compareIndent newIndent lineNumber start s).tokens
      (compareIndent newIndent lineNumber start s).indentStack := by
  obtain ⟨hb, hc, hp⟩ := h
  unfold compareIndent
  split
  · refine ⟨hb.cons _, ?_, ?_⟩
    · have := hb.length_pos
      simp only [countIndent_append, countDedent_append, List.length_cons]
      simp [countIndent, countDedent] at hc ⊢
      omega
    · apply hp.append
      simp [countIndent, countDedent] at hc ⊢
      omega
  · split
    · have hl := dedentLoop_layout newIndent lineNumber start s.indentStack s hb hc hp
      simp only
      split
      · exact hl
      · exact hl
    · exact ⟨hb, hc, hp⟩

theorem processIndentation_layout (source : List Char) (s : LexState)
    (h : Layout s.tokens s.indentStack) :
    Layout (processIndentation source s).tokens (processIndentation source s).indentStack := by
  unfold processIndentation
  simp only
  split
  · split
    · exact h
    · apply compareIndent_layout; exact h
  · split
    · exact h
    · apply compareIndent_layout; exact h

theorem beforeLexeme_layout (source : List Char) (s : LexState)
    (h : Layout s.tokens s.indentStack) :
    Layout (beforeLexeme source s).tokens (beforeLexeme source s).indentStack := by
  unfold beforeLexeme
  simp only
  split
  · exact processIndentation_layout source s h
  · exact h

/-- One iteration of the main loop keeps the layout invariant. -/
theorem lexStep_layout (source : List Char) (s s1 : LexState)
    (h : Layout s.tokens s.indentStack) (hs : lexStep source s = some (.ok s1)) :
    Layout s1.tokens s1.indentStack := by
  unfold lexStep at hs
  simp only at hs
  have h1 := beforeLexeme_layout source s h
  generalize beforeLexeme source s = sa at hs h1
  split at hs
  · cases hs; exact h1
  · split at hs
    · cases hs; exact h1
    · split at hs
      · cases hs; exact h1
      · split at hs
        · cases hs; exact h1
        · split at hs
          · cases hs
          · cases hs; exact h1
          · split at hs
            · cases hs
              exact Layout.quiet (s := sa) h1 (Quiet.of_push _ rfl rfl (by simp))
            · have hq := lexToken_quiet source _ s1 hs
              exact Layout.quiet (s := { sa with i := _, lineNumber := _ }) h1 hq

theorem tokenizeLoop_layout (source : List Char) :
    ∀ (fuel : Nat) (s s1 : LexState), Layout s.tokens s.indentStack →
      tokenizeLoop source fuel s = some (.ok s1) → Layout s1.tokens s1.indentStack := by
  intro fuel
  induction fuel with
  | zero => intro s s1 _ h; simp [tokenizeLoop] at h
  | succ n ih =>
    intro s s1 hl h
    unfold tokenizeLoop at h
    split at h
    · split at h
      · cases h
      · cases h
      · rename_i s2 hstep
        exact ih s2 s1 (lexStep_layout source s s2 hl hstep) h
    · cases h; exact hl

/-- The final drain emits one `DEDENT` per stacked level above the bottom. -/
theorem drainIndents_balanced (lineNumber : Int) :
    ∀ (stack : List Nat) (tokens : List Token),
      countIndent tokens = countDedent tokens + (stack.length - 1) → PrefixBalanced tokens →
      countIndent (drainIndents lineNumber stack tokens).2 =
          countDedent (drainIndents lineNumber stack tokens).2 ∧
        PrefixBalanced (drainIndents lineNumber stack tokens).2 := by
  intro stack
  induction stack with
  | nil =>
    intro tokens hc hp
    simp only [drainIndents]
    exact ⟨by simpa using hc, hp⟩
  | cons top rest ih =>
    intro tokens hc hp
    cases rest with
    | nil =>
      simp only [drainIndents]
      exact ⟨by simpa using hc, hp⟩
    | cons b t =>
      simp only [drainIndents]
      apply ih
      · simp only [countIndent_append, countDedent_append]
        simp [countIndent, countDedent] at hc ⊢
        omega
      · apply hp.append
        simp [countIndent, countDedent] at hc ⊢
        omega

/-- C1. On every source on which `tokenize` returns (whatever `Lexer` object it is called on), the
token list has as many `INDENT` as `DEDENT` tokens, and in every prefix of it the `DEDENT` tokens
never outnumber the `INDENT` tokens. -/
theorem tokenize_indent_dedent_balanced (lexer : Lexer) (source : List Char)
    (tokens : List Token) (errors : List Error) (lexer1 : Lexer)
    (h : tokenize lexer source = .returned tokens errors lexer1) :
    countIndent tokens = countDedent tokens ∧
      ∀ k, countDedent (tokens.take k) ≤ countIndent (tokens.take k) := by
  unfold tokenize tokenizeWith at h
  simp only at h
  split at h
  · cases h
  · cases h
  · rename_i s hloop
    have hl := tokenizeLoop_layout source _ _ s
      (⟨by simp [BottomZero], by simp [countIndent, countDedent], by
        intro k; simp [countIndent, countDedent]⟩) hloop
    obtain ⟨_, hc, hp⟩ := hl
    have hd := drainIndents_balanced s.lineNumber s.indentStack s.tokens hc hp
    injection h with h1 h2 h3
    rw [← h1]
    exact hd


/-! ## Termination of `tokenize` -/

theorem scanWhile_ge (p : Char → Bool) (source : List Char) (i : Nat) : i ≤ scanWhile p source i := by
  simp [scanWhile]

theorem scanWhile_gt (p : Char → Bool) (source : List Char) (i : Nat) (hi : i < source.length)
    (hp : p (charAt source i) = true) : i < scanWhile p source i := by
  have hd : source.drop i = source[i] :: source.drop (i + 1) := List.drop_eq_getElem_cons hi
  have hc : charAt source i = source[i] := by
    simp [charAt, List.getD_eq_getElem?_getD, List.getElem?_eq_getElem hi]
  rw [hc] at hp
  unfold scanWhile
  rw [hd, List.takeWhile_cons, if_pos hp, List.length_cons]
  omega

theorem charAt_of_length_le (source : List Char) (i : Nat) (hi : source.length ≤ i) :
    charAt source i = Char.ofNat 0 := by
  simp [charAt, List.getD_eq_getElem?_getD, List.getElem?_eq_none hi]

theorem tripleSkip_bounds (source : List Char) (idx : Nat) (line : Int) :
    idx ≤ (tripleSkip source idx line).1 ∧ (tripleSkip source idx line).1 ≤ idx + 1 := by
  unfold tripleSkip
  split
  · simp
  · split
    · simp
    · split
      · simp
      · simp

theorem tripleLoop_some (source : List Char) (q : Char) (start : Nat) (startLine : Int) :
    ∀ (fuel idx : Nat) (line : Int), idx ≤ source.length → source.length - idx < fuel →
      ∃ r idx1 line1, tripleLoop source q start startLine fuel idx line = some (r, idx1, line1) ∧
        idx ≤ idx1 := by
  intro fuel
  induction fuel with
  | zero => intro idx line _ h; omega
  | succ n ih =>
    intro idx line hle hf
    unfold tripleLoop
    have hb := tripleSkip_bounds source idx line
    split
    · rename_i hlt
      simp only
      split
      · exact ⟨_, _, _, rfl, by omega⟩
      · obtain ⟨r, i2, l2, h2, hge⟩ := ih ((tripleSkip source idx line).1 + 1)
          (tripleSkip source idx line).2 (by omega) (by omega)
        exact ⟨r, i2, l2, h2, by omega⟩
    · exact ⟨_, _, _, rfl, hle⟩

theorem handleTripleQuotedString_some (source : List Char) (idx : Nat) (line : Int) :
    ∃ r idx1 line1, handleTripleQuotedString source idx line = some (r, idx1, line1) ∧
      idx ≤ idx1 ∧ (r ≠ .str "" → idx < idx1) := by
  unfold handleTripleQuotedString
  split
  · simp only
    split
    · obtain ⟨r, i1, l1, h1, hge⟩ := tripleLoop_some source (charAt source idx) idx line
        (source.length + 1) (idx + 3) line (by omega) (by omega)
      exact ⟨r, i1, l1, h1, by omega, fun _ => by omega⟩
    · exact ⟨_, _, _, rfl, le_refl _, fun h => absurd rfl h⟩
  · exact ⟨_, _, _, rfl, le_refl _, fun h => absurd rfl h⟩

theorem doubleLoop_some (source : List Char) (q : Char) (start : Nat) (startLine : Int) :
    ∀ (fuel idx : Nat), source.length < fuel + idx → 0 < fuel →
      ∃ r idx1, doubleLoop source q start startLine fuel idx = some (r, idx1) ∧ idx ≤ idx1 := by
  intro fuel
  induction fuel with
  | zero => intro idx _ h; omega
  | succ n ih =>
    intro idx hf _
    unfold doubleLoop
    split
    · rename_i hlt
      split
      · obtain ⟨r, i2, h2, hge⟩ := ih (idx + 1 + 1) (by omega) (by omega)
        exact ⟨r, i2, h2, by omega⟩
      · split
        · exact ⟨_, _, rfl, by omega⟩
        · split
          · exact ⟨_, _, rfl, by omega⟩
          · obtain ⟨r, i2, h2, hge⟩ := ih (idx + 1) (by omega) (by omega)
            exact ⟨r, i2, h2, by omega⟩
    · exact ⟨_, _, rfl, le_refl _⟩

theorem handleDoubleQuotedString_some (source : List Char) (idx : Nat) (line : Int)
    (hi : idx < source.length) :
    ∃ r idx1, handleDoubleQuotedString source idx line = some (r, idx1) ∧ idx < idx1 := by
  unfold handleDoubleQuotedString
  rw [if_pos hi]
  obtain ⟨r, i1, h1, hge⟩ := doubleLoop_some source (charAt source idx) idx line
    (source.length + 1) (idx + 1) (by omega) (by omega)
  exact ⟨r, i1, h1, by omega⟩

theorem scanNumber_pos (source : List Char) (i : Nat) (hi : i < source.length)
    (hd : isdigit (charAt source i) = true) : 0 < (scanNumber (source.drop i) false).1 := by
  have hdrop : source.drop i = source[i] :: source.drop (i + 1) := List.drop_eq_getElem_cons hi
  have hc : charAt source i = source[i] := by
    simp [charAt, List.getD_eq_getElem?_getD, List.getElem?_eq_getElem hi]
  rw [hc] at hd
  rw [hdrop]
  simp [scanNumber, hd]

theorem isalpha_lt (source : List Char) (i : Nat)
    (h : (isalpha (charAt source i) || decide (charAt source i = '_')) = true) :
    i < source.length := by
  by_contra hge
  rw [charAt_of_length_le source i (by omega)] at h
  revert h
  decide

theorem isdigit_lt (source : List Char) (i : Nat) (h : isdigit (charAt source i) = true) :
    i < source.length := by
  by_contra hge
  rw [charAt_of_length_le source i (by omega)] at h
  revert h
  decide

theorem quote_lt (source : List Char) (i : Nat)
    (h : charAt source i = '\"' ∨ charAt source i = '\'') : i < source.length := by
  by_contra hge
  rw [charAt_of_length_le source i (by omega)] at h
  revert h
  decide

theorem lexWord_progress (source : List Char) (s : LexState)
    (h : (isalpha (charAt source s.i) || decide (charAt source s.i = '_')) = true) :
    s.i < (lexWord source s).i := by
  have hlt := isalpha_lt source s.i h
  have h1 : s.i < scanWhile (fun c => isalnum c || decide (c = '_')) source s.i := by
    apply scanWhile_gt _ _ _ hlt
    simp only [isalnum, Bool.or_eq_true, decide_eq_true_eq] at h ⊢
    rcases h with h | h
    · exact Or.inl (Or.inl h)
    · exact Or.inr h
  unfold lexWord
  simp only
  split
  · split
    · have h2 := scanWhile_ge (fun c => c = ' ' || c = '\t' || c = '\r') source
        (scanWhile (fun c => isalnum c || decide (c = '_')) source s.i)
      have h3 := scanWhile_ge (fun c => isalnum c || decide (c = '_')) source
        (skipNonLeadingWhitespace source (scanWhile (fun c => isalnum c || decide (c = '_')) source s.i))
      unfold skipNonLeadingWhitespace at *
      split
      · simp only; omega
      · simp only; omega
    · exact h1
  · exact h1

theorem lexOperator_progress (source : List Char) (s s1 : LexState)
    (h : lexOperator source s = some s1) : s.i < s1.i := by
  unfold lexOperator at h
  simp only at h
  split at h
  · cases h; simp
  · split at h
    · cases h; simp
    · split at h
      · cases h; simp
      · cases h

theorem lexNumber_progress (source : List Char) (s s1 : LexState)
    (hd : isdigit (charAt source s.i) = true) (h : lexNumber source s = .ok s1) : s.i < s1.i := by
  have hpos := scanNumber_pos source s.i (isdigit_lt source s.i hd) hd
  unfold lexNumber at h
  simp only at h
  split at h
  · split at h
    · cases h
    · split at h
      · cases h; simp only; omega
      · cases h; simp only; omega
  · cases h; simp only; omega

theorem lexToken_some (source : List Char) (s : LexState) :
    ∃ r, lexToken source s = some r ∧ ∀ s1, r = .ok s1 → s.i < s1.i := by
  unfold lexToken
  simp only
  split
  · rename_i hw
    exact ⟨_, rfl, fun s1 h => by cases h; exact lexWord_progress source s hw⟩
  · split
    · rename_i s2 hop
      refine ⟨_, rfl, fun s1 h => ?_⟩
      cases h
      split at hop
      · exact lexOperator_progress source s _ hop
      · cases hop
    · split
      · rename_i hq
        obtain ⟨r, idx1, hr, hlt⟩ := handleDoubleQuotedString_some source s.i s.lineNumber
          (quote_lt source s.i hq)
        rw [hr]
        cases r with
        | str text => exact ⟨_, rfl, fun s1 h => by cases h; exact hlt⟩
        | unterminated line index => exact ⟨_, rfl, fun s1 h => by cases h; exact hlt⟩
      · split
        · rename_i hd
          exact ⟨_, rfl, fun s1 h => lexNumber_progress source s s1 hd h⟩
        · split
          · exact ⟨_, rfl, fun s1 h => by cases h; simp⟩
          · exact ⟨_, rfl, fun s1 h => by cases h; simp⟩

theorem dedentLoop_i (newIndent : Nat) (lineNumber : Int) (start : Nat) :
    ∀ (stack : List Nat) (s : LexState),
      (dedentLoop newIndent lineNumber start stack s).i = s.i := by
  intro stack
  induction stack with
  | nil => intro s; simp [dedentLoop]
  | cons top rest ih =>
    intro s
    unfold dedentLoop
    split
    · simp only
      split
      · rfl
      · rw [ih]
    · rfl

theorem compareIndent_i (newIndent : Nat) (lineNumber : Int) (start : Nat) (s : LexState) :
    (compareIndent newIndent lineNumber start s).i = s.i := by
  unfold compareIndent
  split
  · rfl
  · split
    · simp only
      split
      · simp [LexState.report, dedentLoop_i]
      · exact dedentLoop_i _ _ _ _ _
    · rfl

theorem processIndentation_i (source : List Char) (s : LexState) :
    s.i ≤ (processIndentation source s).i := by
  unfold processIndentation
  simp only
  split
  · split
    · simp [LexState.report]
    · rw [compareIndent_i]; simp [LexState.report]
  · split
    · simp
    · rw [compareIndent_i]; simp

theorem beforeLexeme_i (source : List Char) (s : LexState) :
    s.i ≤ (beforeLexeme source s).i := by
  unfold beforeLexeme
  simp only
  have h2 := fun j => scanWhile_ge (fun c => c = ' ' || c = '\t' || c = '\r') source j
  unfold skipNonLeadingWhitespace
  split
  · have := processIndentation_i source s
    have := h2 (processIndentation source s).i
    simp only
    omega
  · exact h2 s.i

theorem lexStep_some (source : List Char) (s : LexState) (hi : s.i < source.length) :
    ∃ r, lexStep source s = some r ∧ ∀ s1, r = .ok s1 → s.i < s1.i := by
  unfold lexStep
  simp only
  have h1 := beforeLexeme_i source s
  generalize beforeLexeme source s = sa at h1
  split
  · rename_i hge
    exact ⟨_, rfl, fun s1 h => by cases h; omega⟩
  · rename_i hlt
    split
    · exact ⟨_, rfl, fun s1 h => by cases h; simp only; omega⟩
    · split
      · exact ⟨_, rfl, fun s1 h => by cases h; simp only; omega⟩
      · split
        · rename_i hc
          have h3 := scanWhile_gt (fun d => d ≠ '\n') source sa.i (by omega)
            (by rw [hc]; decide)
          exact ⟨_, rfl, fun s1 h => by cases h; simp only; omega⟩
        · obtain ⟨r, idx1, line1, hr, hge, hgt⟩ :=
            handleTripleQuotedString_some source sa.i sa.lineNumber
          simp only [hr]
          cases r with
          | unterminated line index =>
            exact ⟨_, rfl, fun s1 h => by
              cases h
              have := hgt (by simp)
              simp only; omega⟩
          | str text =>
            simp only
            split
            · rename_i hne
              refine ⟨_, rfl, fun s1 h => ?_⟩
              cases h
              have := hgt (by
                intro hh
                cases hh
                exact hne rfl)
              simp only; omega
            · obtain ⟨r2, hr2, hp2⟩ := lexToken_some source
                { sa with i := idx1, lineNumber := line1 }
              refine ⟨r2, ?_, fun s1 h => ?_⟩
              · simpa using hr2
              · have := hp2 s1 h
                simp only at this
                omega

theorem tokenizeLoop_some (source : List Char) :
    ∀ (fuel : Nat) (s : LexState), source.length - s.i < fuel →
      tokenizeLoop source fuel s ≠ none := by
  intro fuel
  induction fuel with
  | zero => intro s h; omega
  | succ n ih =>
    intro s hf
    unfold tokenizeLoop
    split
    · rename_i hlt
      obtain ⟨r, hr, hp⟩ := lexStep_some source s hlt
      rw [hr]
      cases r with
      | error e => simp
      | ok s1 =>
        simp only
        have := hp s1 rfl
        exact ih s1 (by omega)
    · simp

/-- `tokenize` never runs out of fuel: on every source it returns or throws. -/
theorem tokenize_ne_outOfFuel (lexer : Lexer) (source : List Char) :
    tokenize lexer source ≠ .outOfFuel := by
  unfold tokenize tokenizeWith
  simp only
  have h := tokenizeLoop_some source (source.length + 1)
    { tokens := [], errors := [], lineNumber := 1, i := 0, indentStack := [0],
      atLineStart := true, lineContinuation := false, scopeStack := lexer.scopeStack }
    (by simp)
  split
  · rename_i hnone
    exact absurd hnone h
  · simp
  · simp

/-! ## Symbol table -/

namespace SymbolTable

theorem lookup_cons_self (l : List (String × SymbolInfo)) (k : String) (v : SymbolInfo) :
    ((k, v) :: l).lookup k = some v := by
  simp [List.lookup]

theorem lookup_cons_ne (l : List (String × SymbolInfo)) (k k1 : String) (v : SymbolInfo)
    (h : k1 ≠ k) : ((k, v) :: l).lookup k1 = l.lookup k1 := by
  have hb : (k1 == k) = false := by simpa using h
  simp [List.lookup, hb]

theorem lookup_append_single (l : List (String × SymbolInfo)) (k k1 : String) (v : SymbolInfo) :
    (l ++ [(k, v)]).lookup k1 =
      match l.lookup k1 with
      | some x => some x
      | none => if k1 = k then some v else none := by
  induction l with
  | nil =>
    by_cases h : k1 = k
    · subst h
      simp [lookup_cons_self]
    · simp [lookup_cons_ne _ _ _ _ h, h]
  | cons kv rest ih =>
    obtain ⟨k2, v2⟩ := kv
    by_cases h : k1 = k2
    · subst h
      simp [lookup_cons_self]
    · rw [List.cons_append, lookup_cons_ne _ _ _ _ h, lookup_cons_ne _ _ _ _ h]
      exact ih

theorem lookup_map_modify (l : List (String × SymbolInfo)) (key k : String)
    (f : SymbolInfo → SymbolInfo) :
    (l.map (fun kv => if kv.1 = key then (kv.1, f kv.2) else kv)).lookup k =
      if k = key then (l.lookup k).map f else l.lookup k := by
  induction l with
  | nil => simp [List.lookup]
  | cons kv rest ih =>
    obtain ⟨k2, v2⟩ := kv
    rw [List.map_cons]
    by_cases hk : k2 = key
    · rw [if_pos hk]
      by_cases h : k = k2
      · subst h
        rw [lookup_cons_self, lookup_cons_self, if_pos hk]
        rfl
      · rw [lookup_cons_ne _ _ _ _ h, lookup_cons_ne _ _ _ _ h]
        exact ih
    · rw [if_neg hk]
      by_cases h : k = k2
      · subst h
        rw [lookup_cons_self, lookup_cons_self, if_neg hk]
      · rw [lookup_cons_ne _ _ _ _ h, lookup_cons_ne _ _ _ _ h]
        exact ih

theorem find_modify (t : SymbolTable) (key k : String) (f : SymbolInfo → SymbolInfo) :
    (t.modify key f).find k = if k = key then (t.find k).map f else t.find k := by
  simp only [modify, find]
  exact lookup_map_modify t.table key k f

end SymbolTable


/-! ## Claims -/

/-! ### Evaluations on concrete sources -/

theorem tokenize_scenario_def_f :
    tokenize Lexer.fresh "def f():\n    x = 1\n    return x".toList =
      .returned
        [⟨.DefKeyword, "def", 1, ""⟩, ⟨.IDENTIFIER, "f", 1, "f"⟩, ⟨.LeftParenthesis, "(", 1, ""⟩,
         ⟨.RightParenthesis, ")", 1, ""⟩, ⟨.Colon, ":", 1, ""⟩, ⟨.INDENT, "", 2, ""⟩,
         ⟨.IDENTIFIER, "x", 2, "f"⟩, ⟨.OPERATOR, "=", 2, ""⟩, ⟨.NUMBER, "1", 2, ""⟩,
         ⟨.ReturnKeyword, "return", 3, ""⟩, ⟨.IDENTIFIER, "x", 3, "f"⟩, ⟨.DEDENT, "", 3, ""⟩]
        [] ⟨[⟨"f", 0⟩], [0], false, false⟩ := by
  decide!

theorem inferSource_scenario_def_f :
    inferSource "def f():\n    x = 1\n    return x".toList =
      some ⟨[("f@f", ⟨1, "function", "f", 1, 1, ""⟩), ("x@f", ⟨2, "int", "f", 2, 2, "1"⟩)], 3⟩ := by
  decide!

theorem inferSource_scenario_nested :
    inferSource "def outer():\n    def inner():\n        y = \"s\"".toList =
      some ⟨[("outer@outer", ⟨1, "function", "outer", 1, 1, ""⟩),
             ("inner@inner@outer", ⟨2, "function", "inner@outer", 2, 1, ""⟩),
             ("y@inner@outer", ⟨3, "string", "inner@outer", 3, 1, "\"s\""⟩)], 4⟩ := by
  decide!

theorem tokenize_def_pass_fresh :
    tokenize Lexer.fresh "def f():\n    pass".toList =
      .returned
        [⟨.DefKeyword, "def", 1, ""⟩, ⟨.IDENTIFIER, "f", 1, "f"⟩, ⟨.LeftParenthesis, "(", 1, ""⟩,
         ⟨.RightParenthesis, ")", 1, ""⟩, ⟨.Colon, ":", 1, ""⟩, ⟨.INDENT, "", 2, ""⟩,
         ⟨.PassKeyword, "pass", 2, ""⟩, ⟨.DEDENT, "", 2, ""⟩]
        [] ⟨[⟨"f", 0⟩], [0], false, false⟩ := by
  decide!

theorem tokenize_def_pass_reused :
    tokenize ⟨[⟨"f", 0⟩], [0], false, false⟩ "def f():\n    pass".toList =
      .returned
        [⟨.DefKeyword, "def", 1, ""⟩, ⟨.IDENTIFIER, "f", 1, "f@f"⟩, ⟨.LeftParenthesis, "(", 1, ""⟩,
         ⟨.RightParenthesis, ")", 1, ""⟩, ⟨.Colon, ":", 1, ""⟩, ⟨.INDENT, "", 2, ""⟩,
         ⟨.PassKeyword, "pass", 2, ""⟩, ⟨.DEDENT, "", 2, ""⟩]
        [] ⟨[⟨"f", 0⟩, ⟨"f", 0⟩], [0], false, false⟩ := by
  decide!

theorem tokenize_from_import_number :
    tokenize Lexer.fresh "from m import 1".toList =
      .returned
        [⟨.FromKeyword, "from", 1, ""⟩, ⟨.IDENTIFIER, "m", 1, "global"⟩,
         ⟨.ImportKeyword, "import", 1, ""⟩, ⟨.NUMBER, "1", 1, ""⟩]
        [] ⟨[], [0], false, false⟩ := by
  decide!

theorem inferSource_same_name_nested :
    inferSource "def f():\n    def f():\n        y = 1\n    z = y".toList =
      some ⟨[("f@f", ⟨1, "function", "f", 1, 1, ""⟩),
             ("f@f@f", ⟨2, "function", "f@f", 2, 1, ""⟩),
             ("y@f@f", ⟨3, "int", "f@f", 3, 1, "1"⟩),
             ("y@f", ⟨0, "unknown", "unknown", -1, 1, ""⟩),
             ("z@f", ⟨4, "unknown", "f", 4, 1, ""⟩)], 5⟩ := by
  decide!

/-! ### Scope paths -/

theorem pythonKeywords_not_identifier (w : String) (kw : TokenType)
    (h : pythonKeywords.lookup w = some kw) : kw ≠ .IDENTIFIER := by
  have hall : ∀ v ∈ pythonKeywords.map Prod.snd, v ≠ TokenType.IDENTIFIER := by decide
  exact hall kw (lookup_mem_values _ _ _ h)

theorem pythonKeywords_def_class (w : String) (kw : TokenType)
    (h : pythonKeywords.lookup w = some kw) (hw : w = "def" ∨ w = "class") :
    kw = .DefKeyword ∨ kw = .ClassKeyword := by
  rcases hw with rfl | rfl
  · left
    have h1 : pythonKeywords.lookup "def" = some TokenType.DefKeyword := by decide
    rw [h1] at h
    exact (Option.some.inj h).symm
  · right
    have h1 : pythonKeywords.lookup "class" = some TokenType.ClassKeyword := by decide
    rw [h1] at h
    exact (Option.some.inj h).symm

/-! ### The claims -/

theorem tokenize_indent_dedent_balanced_witness :
    tokenize Lexer.fresh "def f():\n    x = 1\n    return x".toList =
        .returned
          [⟨.DefKeyword, "def", 1, ""⟩, ⟨.IDENTIFIER, "f", 1, "f"⟩, ⟨.LeftParenthesis, "(", 1, ""⟩,
           ⟨.RightParenthesis, ")", 1, ""⟩, ⟨.Colon, ":", 1, ""⟩, ⟨.INDENT, "", 2, ""⟩,
           ⟨.IDENTIFIER, "x", 2, "f"⟩, ⟨.OPERATOR, "=", 2, ""⟩, ⟨.NUMBER, "1", 2, ""⟩,
           ⟨.ReturnKeyword, "return", 3, ""⟩, ⟨.IDENTIFIER, "x", 3, "f"⟩, ⟨.DEDENT, "", 3, ""⟩]
          [] ⟨[⟨"f", 0⟩], [0], false, false⟩ ∧
      (countIndent
          [⟨.DefKeyword, "def", 1, ""⟩, ⟨.IDENTIFIER, "f", 1, "f"⟩, ⟨.LeftParenthesis, "(", 1, ""⟩,
           ⟨.RightParenthesis, ")", 1, ""⟩, ⟨.Colon, ":", 1, ""⟩, ⟨.INDENT, "", 2, ""⟩,
           ⟨.IDENTIFIER, "x", 2, "f"⟩, ⟨.OPERATOR, "=", 2, ""⟩, ⟨.NUMBER, "1", 2, ""⟩,
           ⟨.ReturnKeyword, "return", 3, ""⟩, ⟨.IDENTIFIER, "x", 3, "f"⟩, ⟨.DEDENT, "", 3, ""⟩] =
        countDedent
          [⟨.DefKeyword, "def", 1, ""⟩, ⟨.IDENTIFIER, "f", 1, "f"⟩, ⟨.LeftParenthesis, "(", 1, ""⟩,
           ⟨.RightParenthesis, ")", 1, ""⟩, ⟨.Colon, ":", 1, ""⟩, ⟨.INDENT, "", 2, ""⟩,
           ⟨.IDENTIFIER, "x", 2, "f"⟩, ⟨.OPERATOR, "=", 2, ""⟩, ⟨.NUMBER, "1", 2, ""⟩,
           ⟨.ReturnKeyword, "return", 3, ""⟩, ⟨.IDENTIFIER, "x", 3, "f"⟩, ⟨.DEDENT, "", 3, ""⟩]) :=
  ⟨tokenize_scenario_def_f,
    (tokenize_indent_dedent_balanced _ _ _ _ _ tokenize_scenario_def_f).1⟩

/-- C2 (as stated, refuted). For the source `def f():` / `x = 1` / `return x` it is not the case
that the symbol table holds `f@global` with type `function` together with `x@f` of type `int` and
value `1`: the key `f@global` is absent. -/
theorem scenario_def_f_no_f_at_global :
    ¬ ∃ st, inferSource "def f():\n    x = 1\n    return x".toList = some st ∧
      (∃ info, st.find "f@global" = some info ∧ info.type = "function") ∧
      (∃ info, st.find "x@f" = some info ∧ info.type = "int" ∧ info.value = "1") := by
  rintro ⟨st, h, ⟨info, hf, _⟩, _⟩
  rw [inferSource_scenario_def_f] at h
  cases h
  have hnone : SymbolTable.find
      ⟨[("f@f", ⟨1, "function", "f", 1, 1, ""⟩), ("x@f", ⟨2, "int", "f", 2, 2, "1"⟩)], 3⟩
      "f@global" = none := by decide!
  rw [hnone] at hf
  cases hf

/-- C2 (amended). For the source `def f():` / `x = 1` / `return x`, after `tokenize` on a fresh
`Lexer` and the inferrer, the symbol table holds the key `f@f` with type `function` (the name of a
function is scoped inside the function) and the key `x@f` with type `int` and value `1`. -/
theorem scenario_def_f_symbols :
    ∃ st, inferSource "def f():\n    x = 1\n    return x".toList = some st ∧
      (∃ info, st.find "f@f" = some info ∧ info.type = "function") ∧
      (∃ info, st.find "x@f" = some info ∧ info.type = "int" ∧ info.value = "1") :=
  ⟨_, inferSource_scenario_def_f,
    ⟨⟨1, "function", "f", 1, 1, ""⟩, by decide!, rfl⟩,
    ⟨⟨2, "int", "f", 2, 2, "1"⟩, by decide!, rfl, rfl⟩⟩

/-- C3 (as stated, refuted). For the nested source `def outer():` / `def inner():` / `y = "s"` it
is not the case that the symbol table holds `outer@global`, `inner@outer` (functions) and
`y@inner@outer` (string, value `"s"`): the key `outer@global` is absent. -/
theorem scenario_nested_no_outer_at_global :
    ¬ ∃ st, inferSource "def outer():\n    def inner():\n        y = \"s\"".toList = some st ∧
      (∃ info, st.find "outer@global" = some info ∧ info.type = "function") ∧
      (∃ info, st.find "inner@outer" = some info ∧ info.type = "function") ∧
      (∃ info, st.find "y@inner@outer" = some info ∧ info.type = "string" ∧
        info.value = "\"s\"") := by
  rintro ⟨st, h, ⟨info, hf, _⟩, _⟩
  rw [inferSource_scenario_nested] at h
  cases h
  have hnone : SymbolTable.find
      ⟨[("outer@outer", ⟨1, "function", "outer", 1, 1, ""⟩),
        ("inner@inner@outer", ⟨2, "function", "inner@outer", 2, 1, ""⟩),
        ("y@inner@outer", ⟨3, "string", "inner@outer", 3, 1, "\"s\""⟩)], 4⟩
      "outer@global" = none := by decide!
  rw [hnone] at hf
  cases hf

/-- C3 (amended). For the nested source `def outer():` / `def inner():` / `y = "s"`, after
`tokenize` on a fresh `Lexer` and the inferrer, the symbol table holds `outer@outer` with type
`function`, `inner@inner@outer` with type `function`, and `y@inner@outer` with type `string` and
value `"s"` (quotes included). -/
theorem scenario_nested_symbols :
    ∃ st, inferSource "def outer():\n    def inner():\n        y = \"s\"".toList = some st ∧
      (∃ info, st.find "outer@outer" = some info ∧ info.type = "function") ∧
      (∃ info, st.find "inner@inner@outer" = some info ∧ info.type = "function") ∧
      (∃ info, st.find "y@inner@outer" = some info ∧ info.type = "string" ∧
        info.value = "\"s\"") :=
  ⟨_, inferSource_scenario_nested,
    ⟨⟨1, "function", "outer", 1, 1, ""⟩, by decide!, rfl⟩,
    ⟨⟨2, "function", "inner@outer", 2, 1, ""⟩, by decide!, rfl⟩,
    ⟨⟨3, "string", "inner@outer", 3, 1, "\"s\""⟩, by decide!, rfl, rfl⟩⟩

theorem dedentLoop_tokens (newIndent : Nat) (lineNumber : Int) (start : Nat) :
    ∀ (stack : List Nat) (s : LexState),
      ∃ layout, (dedentLoop newIndent lineNumber start stack s).tokens = s.tokens ++ layout ∧
        ∀ t ∈ layout, t.type = .INDENT ∨ t.type = .DEDENT := by
  intro stack
  induction stack with
  | nil => intro s; exact ⟨[], by simp [dedentLoop], by simp⟩
  | cons top rest ih =>
    intro s
    unfold dedentLoop
    split
    · simp only
      split
      · exact ⟨[_], rfl, by simp⟩
      · obtain ⟨layout, h1, h2⟩ := ih
          { s with tokens := s.tokens ++ [{ type := .DEDENT, lexeme := "", lineNumber := lineNumber }],
                   scopeStack := popScopes (back rest) s.scopeStack }
        refine ⟨{ type := .DEDENT, lexeme := "", lineNumber := lineNumber } :: layout, ?_, ?_⟩
        · rw [h1]; simp
        · intro t ht
          rcases List.mem_cons.1 ht with rfl | ht
          · exact Or.inr rfl
          · exact h2 t ht
    · exact ⟨[], by simp, by simp⟩

theorem compareIndent_tokens (newIndent : Nat) (lineNumber : Int) (start : Nat) (s : LexState) :
    ∃ layout, (compareIndent newIndent lineNumber start s).tokens = s.tokens ++ layout ∧
      ∀ t ∈ layout, t.type = .INDENT ∨ t.type = .DEDENT := by
  unfold compareIndent
  split
  · exact ⟨[_], rfl, by simp⟩
  · split
    · obtain ⟨layout, h1, h2⟩ := dedentLoop_tokens newIndent lineNumber start s.indentStack s
      simp only
      split
      · exact ⟨layout, by simpa [LexState.report] using h1, h2⟩
      · exact ⟨layout, h1, h2⟩
    · exact ⟨[], by simp, by simp⟩

theorem processIndentation_tokens (source : List Char) (s : LexState) :
    ∃ layout, (processIndentation source s).tokens = s.tokens ++ layout ∧
      ∀ t ∈ layout, t.type = .INDENT ∨ t.type = .DEDENT := by
  unfold processIndentation
  simp only
  split
  · split
    · exact ⟨[], by simp [LexState.report], by simp⟩
    · obtain ⟨layout, h1, h2⟩ := compareIndent_tokens _ _ _ _
      exact ⟨layout, by rw [h1]; simp [LexState.report], h2⟩
  · split
    · exact ⟨[], by simp, by simp⟩
    · obtain ⟨layout, h1, h2⟩ := compareIndent_tokens _ _ _ _
      exact ⟨layout, by rw [h1], h2⟩

theorem beforeLexeme_tokens (source : List Char) (s : LexState) :
    ∃ layout, (beforeLexeme source s).tokens = s.tokens ++ layout ∧
      ∀ t ∈ layout, t.type = .INDENT ∨ t.type = .DEDENT := by
  unfold beforeLexeme
  simp only
  split
  · exact processIndentation_tokens source s
  · exact ⟨[], by simp, by simp⟩

theorem punctuationSymbols_not_identifier (c : Char) (ty : TokenType)
    (h : punctuationSymbols.lookup c = some ty) : ty ≠ .IDENTIFIER := by
  have hall : ∀ v ∈ punctuationSymbols.map Prod.snd, v ≠ TokenType.IDENTIFIER := by decide
  exact hall ty (lookup_mem_values _ _ _ h)

theorem lexOperator_tokens (source : List Char) (s s1 : LexState)
    (h : lexOperator source s = some s1) :
    ∃ t, s1.tokens = s.tokens ++ [t] ∧ t.type ≠ .IDENTIFIER := by
  unfold lexOperator at h
  simp only at h
  split at h
  · cases h; exact ⟨_, rfl, by simp⟩
  · split at h
    · cases h; exact ⟨_, rfl, by simp⟩
    · split at h
      · cases h; exact ⟨_, rfl, by simp⟩
      · cases h

theorem lexNumber_tokens (source : List Char) (s s1 : LexState)
    (h : lexNumber source s = .ok s1) :
    s1.tokens = s.tokens ∨ ∃ t, s1.tokens = s.tokens ++ [t] ∧ t.type ≠ .IDENTIFIER := by
  unfold lexNumber at h
  simp only at h
  split at h
  · split at h
    · cases h
    · split at h
      · cases h; exact Or.inl rfl
      · cases h; exact Or.inr ⟨_, rfl, by simp⟩
  · cases h; exact Or.inr ⟨_, rfl, by simp⟩

/-- C5 (failing input). Tokenizing `def f():` / `pass` on a fresh `Lexer` and then again on the
same `Lexer` object returns two different token lists: the scope stack left by the first call is
not reset, so the second `f` is scoped `f@f`. -/
theorem tokenize_reuse_changes_tokens :
    ∃ tokens1 errors1 lexer1 tokens2 errors2 lexer2,
      tokenize Lexer.fresh "def f():\n    pass".toList = .returned tokens1 errors1 lexer1 ∧
      tokenize lexer1 "def f():\n    pass".toList = .returned tokens2 errors2 lexer2 ∧
      tokens1 ≠ tokens2 :=
  ⟨_, _, _, _, _, _, tokenize_def_pass_fresh, tokenize_def_pass_reused, by decide!⟩

/-- C6 (failing input). On the source `09999999999` the call of `tokenize` does not return: the
`std::out_of_range` thrown by `std::stoi` leaves it. -/
theorem tokenize_leading_zero_overflow_throws :
    tokenize Lexer.fresh "09999999999".toList = .threw .stoiOutOfRange := by
  decide!

/-- C7 (failing input). On the tokens of `from m import 1` the call of `parseProgram` does not
return a program node: the pointer thrown by `throw new consumeError()` in `parseImport` is caught
by no handler and leaves `parseProgram`. -/
theorem parseProgram_from_import_number_escapes :
    ∃ tokens errors lexer s,
      tokenize Lexer.fresh "from m import 1".toList = .returned tokens errors lexer ∧
      Syntax_Analyzer.parseProgram tokens = .thrownPointer s :=
  ⟨_, _, _, ⟨3, []⟩, tokenize_from_import_number, by decide!⟩

/-- C8 (as stated, refuted). With the cursor at the end of the token list `consume` does not
raise the recovery signal: it returns a placeholder token. -/
theorem consume_at_end_does_not_raise :
    Syntax_Analyzer.consume [] .IDENTIFIER ⟨0, []⟩ = .ok ⟨.UNKNOWN, "Error", -1, "Error"⟩ ⟨0, []⟩ ∧
      ¬ ∃ s1, Syntax_Analyzer.consume [] .IDENTIFIER ⟨0, []⟩ = .thrown s1 := by
  refine ⟨rfl, ?_⟩
  rintro ⟨s1, h⟩
  cases h

/-- C8 (amended). `consume(expected)` returns the current token and advances the cursor by
exactly one precisely when a current token exists and its kind equals `expected`; when a current
token exists and its kind differs it raises the recovery signal and leaves the cursor unchanged;
when the cursor is at the end of the token list it raises nothing and returns the placeholder
token `(UNKNOWN, "Error", -1, "Error")`, leaving the cursor unchanged. -/
theorem consume_contract (tokens : List Token) (expected : TokenType)
    (s : Syntax_Analyzer.PState) :
    (∀ tk, tokens[s.current]? = some tk → tk.type = expected →
      Syntax_Analyzer.consume tokens expected s = .ok tk { s with current := s.current + 1 }) ∧
    (∀ tk, tokens[s.current]? = some tk → tk.type ≠ expected →
      ∃ s1, Syntax_Analyzer.consume tokens expected s = .thrown s1 ∧ s1.current = s.current) ∧
    (tokens.length ≤ s.current →
      Syntax_Analyzer.consume tokens expected s = .ok ⟨.UNKNOWN, "Error", -1, "Error"⟩ s) ∧
    (∀ tk s1, Syntax_Analyzer.consume tokens expected s = .ok tk s1 →
      s1.current = s.current + 1 → tokens[s.current]? = some tk ∧ tk.type = expected) := by
  refine ⟨?_, ?_, ?_, ?_⟩
  · intro tk h ht
    simp [Syntax_Analyzer.consume, h, ht]
  · intro tk h ht
    simp [Syntax_Analyzer.consume, h, ht]
  · intro h
    have hn : tokens[s.current]? = none := List.getElem?_eq_none h
    simp [Syntax_Analyzer.consume, hn]
  · intro tk s1 h hcur
    unfold Syntax_Analyzer.consume at h
    split at h
    · cases h
      omega
    · rename_i tk1 htk1
      split at h
      · rename_i hty
        cases h
        exact ⟨htk1, hty⟩
      · cases h

theorem consume_contract_witness :
    Syntax_Analyzer.consume [⟨.IDENTIFIER, "x", 1, "global"⟩] .IDENTIFIER ⟨0, []⟩ =
        .ok ⟨.IDENTIFIER, "x", 1, "global"⟩ ⟨1, []⟩ ∧
      (∃ s1, Syntax_Analyzer.consume [⟨.IDENTIFIER, "x", 1, "global"⟩] .Colon ⟨0, []⟩ = .thrown s1 ∧
        s1.current = 0) ∧
      Syntax_Analyzer.consume [⟨.IDENTIFIER, "x", 1, "global"⟩] .IDENTIFIER ⟨1, []⟩ =
        .ok ⟨.UNKNOWN, "Error", -1, "Error"⟩ ⟨1, []⟩ :=
  ⟨(consume_contract [⟨.IDENTIFIER, "x", 1, "global"⟩] .IDENTIFIER ⟨0, []⟩).1 _ rfl rfl,
   (consume_contract [⟨.IDENTIFIER, "x", 1, "global"⟩] .Colon ⟨0, []⟩).2.1 _ rfl (by decide),
   (consume_contract [⟨.IDENTIFIER, "x", 1, "global"⟩] .IDENTIFIER ⟨1, []⟩).2.2.1 (by decide)⟩

/-- C9 (failing input). After `tokenize` and the inferrer on `def f():` / `def f():` / `y = 1` /
`z = y` the table holds five symbols whose entry ids are, in insertion order, 1, 2, 3, 0, 4: the
id 0 is outside 1..5 and no symbol has id 5. -/
theorem inferSource_entry_ids_not_dense :
    ∃ st, inferSource "def f():\n    def f():\n        y = 1\n    z = y".toList = some st ∧
      st.table.map (fun kv => kv.2.entry) = [1, 2, 3, 0, 4] :=
  ⟨_, inferSource_same_name_nested, by decide!⟩

/-- C10. `addSymbol(name, type, line, scope, val)` with `key = name@scope`: on an absent key it
appends one entry with entry id `nextEntry` (which grows by one), usage count 1 and the given type,
scope, line and value; on a present key it adds one to the usage count, replaces the type only
when the stored type is `unknown` and the given one is not, replaces the value only when `val` is
non-empty, and keeps entry id, first line, scope and `nextEntry`; every other key keeps its
entry. -/
theorem addSymbol_contract (t : SymbolTable) (name type : String) (line : Int)
    (scope val : String) :
    (t.find (name ++ "@" ++ scope) = none →
      (t.addSymbol name type line scope val).find (name ++ "@" ++ scope) =
          some { entry := t.nextEntry, type := type, scope := scope, firstAppearance := line,
                 usageCount := 1, value := val } ∧
        (t.addSymbol name type line scope val).nextEntry = t.nextEntry + 1 ∧
        (t.addSymbol name type line scope val).table.length = t.table.length + 1) ∧
    (∀ info, t.find (name ++ "@" ++ scope) = some info →
      (t.addSymbol name type line scope val).find (name ++ "@" ++ scope) =
          some { entry := info.entry,
                 type := if info.type = "unknown" ∧ type ≠ "unknown" then type else info.type,
                 scope := info.scope, firstAppearance := info.firstAppearance,
                 usageCount := info.usageCount + 1,
                 value := if val ≠ "" then val else info.value } ∧
        (t.addSymbol name type line scope val).nextEntry = t.nextEntry ∧
        (t.addSymbol name type line scope val).table.length = t.table.length) ∧
    (∀ k, k ≠ name ++ "@" ++ scope →
      (t.addSymbol name type line scope val).find k = t.find k) := by
  refine ⟨?_, ?_, ?_⟩
  · intro h
    simp only [SymbolTable.addSymbol, h]
    refine ⟨?_, trivial, by simp⟩
    simp only [SymbolTable.find] at h ⊢
    rw [SymbolTable.lookup_append_single, h]
    simp
  · intro info h
    simp only [SymbolTable.addSymbol, h]
    refine ⟨?_, rfl, by simp [SymbolTable.modify]⟩
    rw [SymbolTable.find_modify, if_pos rfl, h]
    rfl
  · intro k hk
    unfold SymbolTable.addSymbol
    simp only
    split
    · rename_i h
      simp only [SymbolTable.find] at h ⊢
      rw [SymbolTable.lookup_append_single]
      simp only [hk, ↓reduceIte]
      cases List.lookup k t.table <;> rfl
    · rw [SymbolTable.find_modify, if_neg hk]

theorem addSymbol_contract_witness :
    (SymbolTable.addSymbol {} "x" "unknown" 1 "global" "").find "x@global" =
        some { entry := 1, type := "unknown", scope := "global", firstAppearance := 1,
               usageCount := 1, value := "" } ∧
      ((SymbolTable.addSymbol {} "x" "unknown" 1 "global" "").addSymbol "x" "int" 2 "global" "7").find
          "x@global" =
        some { entry := 1, type := "int", scope := "global", firstAppearance := 1,
               usageCount := 2, value := "7" } ∧
      ((SymbolTable.addSymbol {} "x" "unknown" 1 "global" "").addSymbol "y" "int" 2 "global" "7").find
          "x@global" =
        (SymbolTable.addSymbol {} "x" "unknown" 1 "global" "").find "x@global" := by
  refine ⟨?_, ?_, ?_⟩
  · exact ((addSymbol_contract {} "x" "unknown" 1 "global" "").1 (by decide!)).1
  · exact ((addSymbol_contract (SymbolTable.addSymbol {} "x" "unknown" 1 "global" "")
      "x" "int" 2 "global" "7").2.1
      { entry := 1, type := "unknown", scope := "global", firstAppearance := 1,
        usageCount := 1, value := "" } (by decide!)).1
  · exact (addSymbol_contract (SymbolTable.addSymbol {} "x" "unknown" 1 "global" "")
      "y" "int" 2 "global" "7").2.2 "x@global" (by decide)


/-! ### Claims C11 to C20 -/

/-- C11. On the eleven type tags `Parser::unifyTypes` equals the reference function `u` of the
specification (`specUnify`: the five rules applied in order). -/
theorem unifyTypes_eq_specUnify :
    ∀ a ∈ typeTags, ∀ b ∈ typeTags, Parser.unifyTypes a b = specUnify a b := by
  decide!

theorem unifyTypes_eq_specUnify_witness :
    "float" ∈ typeTags ∧ "list" ∈ typeTags ∧
      Parser.unifyTypes "float" "list" = specUnify "float" "list" ∧
      specUnify "float" "list" = "float" :=
  ⟨by decide, by decide,
    unifyTypes_eq_specUnify "float" (by decide) "list" (by decide), by decide⟩

theorem inferSource_multiple_assignment :
    inferSource "a, b = 1, 2.5".toList =
      some ⟨[("a@global", ⟨1, "int", "global", 1, 1, "1"⟩),
             ("b@global", ⟨2, "float", "global", 1, 1, "2.5"⟩)], 3⟩ := by
  decide!

/-- C12. For the source `a, b = 1, 2.5`, after `tokenize` and the inferrer, the symbol table holds
exactly two symbols: `a@global` with type `int` and value `1`, and `b@global` with type `float`
and value `2.5`. -/
theorem scenario_multiple_assignment :
    ∃ st, inferSource "a, b = 1, 2.5".toList = some st ∧
      st.table.map (fun kv => kv.1) = ["a@global", "b@global"] ∧
      (∃ info, st.find "a@global" = some info ∧ info.type = "int" ∧ info.value = "1") ∧
      (∃ info, st.find "b@global" = some info ∧ info.type = "float" ∧ info.value = "2.5") :=
  ⟨_, inferSource_multiple_assignment, by decide!,
    ⟨⟨1, "int", "global", 1, 1, "1"⟩, by decide!, rfl, rfl⟩,
    ⟨⟨2, "float", "global", 1, 1, "2.5"⟩, by decide!, rfl, rfl⟩⟩

/-- C13. For the source `def f():` / `x = 1` / `return x`, `tokenize` records no diagnostic and
emits exactly one `INDENT`, which stands immediately after the `:` token (the last token of
line 1) and immediately before the first token of line 2, and exactly one `DEDENT`, which is the
last token. -/
theorem scenario_def_f_layout :
    ∃ tokens lexer,
      tokenize Lexer.fresh "def f():\n    x = 1\n    return x".toList =
        .returned tokens [] lexer ∧
      countIndent tokens = 1 ∧ countDedent tokens = 1 ∧
      (∃ before colon indent first after,
        tokens = before ++ [colon, indent, first] ++ after ∧
        colon.type = .Colon ∧ indent.type = .INDENT ∧ first.lineNumber = 2 ∧
        (∀ t ∈ before ++ [colon], t.lineNumber = 1)) ∧
      (∃ last, tokens.getLast? = some last ∧ last.type = .DEDENT) :=
  ⟨_, _, tokenize_scenario_def_f, by decide, by decide,
    ⟨[⟨.DefKeyword, "def", 1, ""⟩, ⟨.IDENTIFIER, "f", 1, "f"⟩, ⟨.LeftParenthesis, "(", 1, ""⟩,
      ⟨.RightParenthesis, ")", 1, ""⟩], ⟨.Colon, ":", 1, ""⟩, ⟨.INDENT, "", 2, ""⟩,
      ⟨.IDENTIFIER, "x", 2, "f"⟩,
      [⟨.OPERATOR, "=", 2, ""⟩, ⟨.NUMBER, "1", 2, ""⟩, ⟨.ReturnKeyword, "return", 3, ""⟩,
       ⟨.IDENTIFIER, "x", 3, "f"⟩, ⟨.DEDENT, "", 3, ""⟩],
      rfl, rfl, rfl, rfl, by decide⟩,
    ⟨⟨.DEDENT, "", 3, ""⟩, rfl, rfl⟩⟩

theorem tokenize_dotted_scenario :
    tokenize Lexer.fresh "car1.speed = 10\ncar1.drive()".toList =
      .returned
        [⟨.IDENTIFIER, "car1", 1, "global"⟩, ⟨.Dot, ".", 1, ""⟩, ⟨.IDENTIFIER, "speed", 1, "global"⟩,
         ⟨.OPERATOR, "=", 1, ""⟩, ⟨.NUMBER, "10", 1, ""⟩, ⟨.IDENTIFIER, "car1", 2, "global"⟩,
         ⟨.Dot, ".", 2, ""⟩, ⟨.IDENTIFIER, "drive", 2, "global"⟩, ⟨.LeftParenthesis, "(", 2, ""⟩,
         ⟨.RightParenthesis, ")", 2, ""⟩]
        [] ⟨[], [0], false, false⟩ := by
  decide!

theorem parseProgram_dotted_scenario :
    Syntax_Analyzer.parseProgram
        [⟨.IDENTIFIER, "car1", 1, "global"⟩, ⟨.Dot, ".", 1, ""⟩, ⟨.IDENTIFIER, "speed", 1, "global"⟩,
         ⟨.OPERATOR, "=", 1, ""⟩, ⟨.NUMBER, "10", 1, ""⟩, ⟨.IDENTIFIER, "car1", 2, "global"⟩,
         ⟨.Dot, ".", 2, ""⟩, ⟨.IDENTIFIER, "drive", 2, "global"⟩, ⟨.LeftParenthesis, "(", 2, ""⟩,
         ⟨.RightParenthesis, ")", 2, ""⟩] =
      .ok (.mk "program" [.mk "statement" [.mk "assignment" [.mk "lhs" [.mk "dotted_name" [.mk "car1" [], .mk "." [], .mk "speed" []]], .mk "Assign_OP" [.mk "=" []], .mk "rhs" [.mk "expression" [.mk "or_expression" [.mk "and_expression" [.mk "not_expression" [.mk "comparison" [.mk "arithmetic" [.mk "term" [.mk "factor" [.mk "10" []]]]]]]]]]]], .mk "statement" [.mk "function_call" [.mk "dotted_name" [.mk "car1" [], .mk "." [], .mk "drive" []], .mk "(" [], .mk ")" []]]])
        ⟨10, []⟩ := by
  decide!

/-- C15. For the two-line source `car1.speed = 10` / `car1.drive()`, `parseProgram` returns a
program node with exactly two statement children: the first holds an assignment whose `lhs` child
holds a `dotted_name` node, the second holds a `function_call` whose first child is a
`dotted_name` node; no syntax diagnostic is written. -/
theorem scenario_dotted_names :
    ∃ tokens errors lexer tree final,
      tokenize Lexer.fresh "car1.speed = 10\ncar1.drive()".toList =
        .returned tokens errors lexer ∧
      Syntax_Analyzer.parseProgram tokens = .ok tree final ∧ final.log = [] ∧
      ∃ target op rhs callee arguments,
        tree = .mk "program"
          [.mk "statement" [.mk "assignment" [.mk "lhs" [.mk "dotted_name" target], op, rhs]],
           .mk "statement" [.mk "function_call" (.mk "dotted_name" callee :: arguments)]] :=
  ⟨_, _, _, _, _, tokenize_dotted_scenario, parseProgram_dotted_scenario, rfl,
    _, _, _, _, _, rfl⟩

theorem tokenize_conditional_expression :
    tokenize Lexer.fresh "x = a if cond else b".toList =
      .returned
        [⟨.IDENTIFIER, "x", 1, "global"⟩, ⟨.OPERATOR, "=", 1, ""⟩, ⟨.IDENTIFIER, "a", 1, "global"⟩,
         ⟨.IfKeyword, "if", 1, ""⟩, ⟨.IDENTIFIER, "cond", 1, "global"⟩, ⟨.ElseKeyword, "else", 1, ""⟩,
         ⟨.IDENTIFIER, "b", 1, "global"⟩]
        [] ⟨[], [0], false, false⟩ := by
  decide!

/-- C16 (failing input). On the tokens of `x = a if cond else b` the call of `parseProgram` does
not return a tree: after `parseFactor` has consumed the last token `b`, it evaluates
`currentToken()` with `current = 7 = tokens.size()`, an out-of-range read. -/
theorem parseProgram_conditional_expression_out_of_range :
    ∃ tokens errors lexer,
      tokenize Lexer.fresh "x = a if cond else b".toList = .returned tokens errors lexer ∧
      Syntax_Analyzer.parseProgram tokens = .outOfRange ⟨7, []⟩ :=
  ⟨_, _, _, tokenize_conditional_expression, by decide!⟩

/-- The conditional expression of C16 followed by a second line: the right-hand side is an
`expression` node with the five children of the claim. -/
theorem parseProgram_conditional_expression_followed :
    Syntax_Analyzer.parseProgram
        [⟨.IDENTIFIER, "x", 1, "global"⟩, ⟨.OPERATOR, "=", 1, ""⟩, ⟨.IDENTIFIER, "a", 1, "global"⟩,
         ⟨.IfKeyword, "if", 1, ""⟩, ⟨.IDENTIFIER, "cond", 1, "global"⟩, ⟨.ElseKeyword, "else", 1, ""⟩,
         ⟨.IDENTIFIER, "b", 1, "global"⟩, ⟨.IDENTIFIER, "y", 2, "global"⟩, ⟨.OPERATOR, "=", 2, ""⟩,
         ⟨.NUMBER, "1", 2, ""⟩] =
      .ok (.mk "program" [.mk "statement" [.mk "assignment" [.mk "lhs" [.mk "x" []], .mk "Assign_OP" [.mk "=" []], .mk "rhs" [.mk "expression" [.mk "or_expression" [.mk "and_expression" [.mk "not_expression" [.mk "comparison" [.mk "arithmetic" [.mk "term" [.mk "factor" [.mk "a" []]]]]]]], .mk "if" [], .mk "or_expression" [.mk "and_expression" [.mk "not_expression" [.mk "comparison" [.mk "arithmetic" [.mk "term" [.mk "factor" [.mk "cond" []]]]]]]], .mk "else" [], .mk "expression" [.mk "or_expression" [.mk "and_expression" [.mk "not_expression" [.mk "comparison" [.mk "arithmetic" [.mk "term" [.mk "factor" [.mk "b" []]]]]]]]]]]]], .mk "statement" [.mk "assignment" [.mk "lhs" [.mk "y" []], .mk "Assign_OP" [.mk "=" []], .mk "rhs" [.mk "expression" [.mk "or_expression" [.mk "and_expression" [.mk "not_expression" [.mk "comparison" [.mk "arithmetic" [.mk "term" [.mk "factor" [.mk "1" []]]]]]]]]]]]])
        ⟨10, []⟩ := by
  decide!

theorem tokenize_def_newline_if :
    tokenize Lexer.fresh "def\nif".toList =
      .returned [⟨.DefKeyword, "def", 1, ""⟩, ⟨.IfKeyword, "if", 2, ""⟩] []
        ⟨[], [0], false, false⟩ := by
  decide!

theorem tokenize_def_space_if :
    tokenize Lexer.fresh "def if".toList =
      .returned [⟨.DefKeyword, "def", 1, ""⟩, ⟨.IDENTIFIER, "if", 1, "if"⟩] []
        ⟨[⟨"if", 0⟩], [0], false, false⟩ := by
  decide!

/-- C20 (failing input). The source `def` / `if` is tokenized as the keywords `def` and `if`;
their lexemes joined by a space give `def if`, whose tokens are the keyword `def` and an
`IDENTIFIER` with lexeme `if`: the (kind, lexeme) sequences differ. -/
theorem relex_def_newline_if_differs :
    ∃ tokens errors lexer tokens1 errors1 lexer1,
      tokenize Lexer.fresh "def\nif".toList = .returned tokens errors lexer ∧
      joinLexemes tokens = "def if".toList ∧
      tokenize Lexer.fresh (joinLexemes tokens) = .returned tokens1 errors1 lexer1 ∧
      kindsAndLexemes tokens = [(.DefKeyword, "def"), (.IfKeyword, "if")] ∧
      kindsAndLexemes tokens1 = [(.DefKeyword, "def"), (.IDENTIFIER, "if")] :=
  ⟨_, _, _, _, _, _, tokenize_def_newline_if, by decide!, tokenize_def_space_if,
    by decide!, by decide!⟩


namespace Syntax_Analyzer

theorem bind_eq {α β : Type} (m : ParseM α) (f : α → ParseM β) (s : PState) :
    (m >>= f) s =
      match m s with
      | .ok a s1 => f a s1
      | .thrown s1 => .thrown s1
      | .thrownPointer s1 => .thrownPointer s1
      | .outOfRange s1 => .outOfRange s1
      | .outOfFuel => .outOfFuel := rfl

theorem bind_ok {α β : Type} (m : ParseM α) (f : α → ParseM β) (s s1 : PState) (a : α)
    (h : m s = .ok a s1) : (m >>= f) s = f a s1 := by
  rw [bind_eq, h]

theorem bind_thrown {α β : Type} (m : ParseM α) (f : α → ParseM β) (s s1 : PState)
    (h : m s = .thrown s1) : (m >>= f) s = .thrown s1 := by
  rw [bind_eq, h]

theorem pure_eq {α : Type} (a : α) (s : PState) : (pure a : ParseM α) s = .ok a s := rfl

theorem currentToken_of_some (tokens : List Token) (s : PState) (tk : Token)
    (h : tokens[s.current]? = some tk) : currentToken tokens s = .ok tk s := by
  simp only [currentToken, h]

theorem error_of_some (tokens : List Token) (message : String) (s : PState) (tk : Token)
    (h : tokens[s.current]? = some tk) :
    error tokens message s = .ok () ⟨s.current, s.log ++ [⟨tk.lineNumber, message⟩]⟩ := by
  simp only [error, h]

/-- The number of tokens `synchronize(line)` passes from position `current`. -/
theorem synchronize_eq (tokens : List Token) (line : Int) (s : PState) :
    synchronize tokens line s =
      .ok () ⟨s.current + ((tokens.drop s.current).takeWhile
        (fun tk => tk.lineNumber ≤ line)).length, s.log⟩ := rfl

end Syntax_Analyzer

/-- The body of the `try` block of `parseProgram` entered at a token `tk` that is not the first
token and stands on a line not after that of the token `prev` before it, `prev` not a `DEDENT`:
it writes the diagnostic, calls `synchronize` and takes the `continue`; no child is returned. -/
theorem programItem_same_line (tokens : List Token) (depth : Nat)
    (s : Syntax_Analyzer.PState) (tk prev : Token)
    (hcur : s.current ≠ 0)
    (htk : tokens[s.current]? = some tk)
    (hprev : tokens[s.current - 1]? = some prev)
    (hline : tk.lineNumber ≤ prev.lineNumber)
    (hded : prev.type ≠ .DEDENT) :
    Syntax_Analyzer.programItem tokens depth s.current s =
      .ok none ⟨s.current + ((tokens.drop s.current).takeWhile
            (fun t => t.lineNumber ≤ tk.lineNumber)).length,
          s.log ++ [⟨tk.lineNumber, "Statements must be separated by NEWLINE"⟩]⟩ := by
  unfold Syntax_Analyzer.programItem
  rw [Syntax_Analyzer.bind_ok _ _ _ _ _ (Syntax_Analyzer.currentToken_of_some tokens s tk htk)]
  have hp : tokens.getD (s.current - 1) tk = prev := by
    rw [List.getD_eq_getElem?_getD, hprev]; rfl
  simp only [hp]
  rw [if_pos ⟨hcur, hline, hded⟩]
  rw [Syntax_Analyzer.bind_ok _ _ _ _ _ (Syntax_Analyzer.error_of_some tokens _ s tk htk)]
  rw [Syntax_Analyzer.bind_ok _ _ _ _ _ (Syntax_Analyzer.synchronize_eq tokens _ _)]
  rfl

theorem programLoop_same_line (tokens : List Token) (depth fuel : Nat)
    (children : List ParseTreeNode) (s : Syntax_Analyzer.PState) (tk prev : Token)
    (hcur : s.current ≠ 0)
    (htk : tokens[s.current]? = some tk)
    (hprev : tokens[s.current - 1]? = some prev)
    (hline : tk.lineNumber ≤ prev.lineNumber)
    (hded : prev.type ≠ .DEDENT) :
    Syntax_Analyzer.programLoop tokens depth (fuel + 1) children s =
      Syntax_Analyzer.programLoop tokens depth fuel children
        ⟨s.current + ((tokens.drop s.current).takeWhile
            (fun t => t.lineNumber ≤ tk.lineNumber)).length,
          s.log ++ [⟨tk.lineNumber, "Statements must be separated by NEWLINE"⟩]⟩ := by
  have hlt : s.current < tokens.length := by
    rcases Nat.lt_or_ge s.current tokens.length with h | h
    · exact h
    · rw [List.getElem?_eq_none h] at htk; cases htk
  have hitem := programItem_same_line tokens depth s tk prev hcur htk hprev hline hded
  rw [Syntax_Analyzer.programLoop]
  rw [Syntax_Analyzer.bind_ok Syntax_Analyzer.getCurrent _ s s s.current rfl]
  rw [if_pos hlt]
  have htry : ∀ handler, Syntax_Analyzer.tryCatch
      (Syntax_Analyzer.programItem tokens depth s.current) handler s =
      .ok none ⟨s.current + ((tokens.drop s.current).takeWhile
            (fun t => t.lineNumber ≤ tk.lineNumber)).length,
          s.log ++ [⟨tk.lineNumber, "Statements must be separated by NEWLINE"⟩]⟩ := by
    intro handler
    simp only [Syntax_Analyzer.tryCatch, hitem]
  rw [Syntax_Analyzer.bind_ok _ _ s _ none (htry _)]
  simp

/-- The loop of `parseProgram` entered with the cursor at or behind the end of the token list
returns the program node with the children collected so far. -/
theorem programLoop_at_end (tokens : List Token) (depth fuel : Nat)
    (children : List ParseTreeNode) (s : Syntax_Analyzer.PState)
    (h : tokens.length ≤ s.current) :
    Syntax_Analyzer.programLoop tokens depth (fuel + 1) children s =
      .ok (.mk "program" children) s := by
  rw [Syntax_Analyzer.programLoop]
  rw [Syntax_Analyzer.bind_ok Syntax_Analyzer.getCurrent _ s s s.current rfl]
  rw [if_neg (by omega)]
  rfl

theorem takeWhile_length_spec {α : Type} (p : α → Bool) (l : List α) :
    (∀ k t, k < (l.takeWhile p).length → l[k]? = some t → p t = true) ∧
    (∀ t, l[(l.takeWhile p).length]? = some t → p t = false) := by
  induction l with
  | nil => simp
  | cons a rest ih =>
    by_cases ha : p a = true
    · rw [List.takeWhile_cons, if_pos ha]
      refine ⟨?_, ?_⟩
      · intro k t hk ht
        cases k with
        | zero =>
          simp only [List.getElem?_cons_zero, Option.some.injEq] at ht
          rw [← ht]; exact ha
        | succ k =>
          simp only [List.getElem?_cons_succ] at ht
          simp only [List.length_cons] at hk
          exact ih.1 k t (by omega) ht
      · intro t ht
        simp only [List.length_cons, List.getElem?_cons_succ] at ht
        exact ih.2 t ht
    · rw [List.takeWhile_cons, if_neg ha]
      refine ⟨?_, ?_⟩
      · intro k t hk
        simp at hk
      · intro t ht
        simp only [List.length_nil, List.getElem?_cons_zero, Option.some.injEq] at ht
        rw [← ht]
        simpa using ha

theorem synchronize_skip_spec (tokens : List Token) (c : Nat) (line : Int) :
    c + ((tokens.drop c).takeWhile (fun t => t.lineNumber ≤ line)).length ≤ max c tokens.length ∧
    (∀ j t, c ≤ j →
      j < c + ((tokens.drop c).takeWhile (fun t => t.lineNumber ≤ line)).length →
      tokens[j]? = some t → t.lineNumber ≤ line) ∧
    (∀ t, tokens[c + ((tokens.drop c).takeWhile (fun t => t.lineNumber ≤ line)).length]? = some t →
      line < t.lineNumber) := by
  have h := takeWhile_length_spec (fun t : Token => decide (t.lineNumber ≤ line)) (tokens.drop c)
  refine ⟨?_, ?_, ?_⟩
  · have h1 := (List.takeWhile_sublist (l := tokens.drop c)
      (fun t : Token => decide (t.lineNumber ≤ line))).length_le
    rw [List.length_drop] at h1
    omega
  · intro j t hcj hj ht
    have := h.1 (j - c) t (by omega) (by rw [List.getElem?_drop]; rw [← ht]; congr 1; omega)
    simpa using this
  · intro t ht
    have := h.2 t (by rw [List.getElem?_drop]; exact ht)
    simpa using this

theorem pairwise_line_le (tokens : List Token)
    (hs : tokens.Pairwise (fun a b => a.lineNumber ≤ b.lineNumber)) (i j : Nat) (a b : Token)
    (hij : i ≤ j) (ha : tokens[i]? = some a) (hb : tokens[j]? = some b) :
    a.lineNumber ≤ b.lineNumber := by
  rcases Nat.eq_or_lt_of_le hij with h | h
  · subst h
    rw [ha] at hb
    cases hb
    exact le_refl _
  · obtain ⟨hi, rfl⟩ := List.getElem?_eq_some_iff.mp ha
    obtain ⟨hj, rfl⟩ := List.getElem?_eq_some_iff.mp hb
    exact List.pairwise_iff_getElem.mp hs i j hi hj h

/-- C17. One iteration of the loop of `parseProgram` entered at a token `tk` that is not the first
token and stands on a line not after that of the token `prev` before it, while `prev` is not a
`DEDENT`: the iteration parses no statement. The body of its `try` block (`programItem`) returns
without a child, having written the diagnostic "Statements must be separated by NEWLINE" for the
line of `tk` and moved the cursor forward to a position `next` such that every token passed is on
a line not after that of `tk` and the token at `next` (if any) is on a later line; the loop goes
on from there with the same children, and when `next` is the end of the token list the loop
returns the program node with exactly the children it had. When the line numbers of the token
list are non-decreasing (as the lexer produces them), no token on the line of `tk` is left at or
after `next`. -/
theorem programLoop_same_line_skips (tokens : List Token) (depth fuel : Nat)
    (children : List ParseTreeNode) (s : Syntax_Analyzer.PState) (tk prev : Token)
    (hcur : s.current ≠ 0)
    (htk : tokens[s.current]? = some tk)
    (hprev : tokens[s.current - 1]? = some prev)
    (hline : tk.lineNumber ≤ prev.lineNumber)
    (hded : prev.type ≠ .DEDENT) :
    ∃ next, s.current < next ∧ next ≤ tokens.length ∧
      (∀ j t, s.current ≤ j → j < next → tokens[j]? = some t → t.lineNumber ≤ tk.lineNumber) ∧
      (∀ t, tokens[next]? = some t → tk.lineNumber < t.lineNumber) ∧
      (tokens.Pairwise (fun a b => a.lineNumber ≤ b.lineNumber) →
        ∀ j t, next ≤ j → tokens[j]? = some t → tk.lineNumber < t.lineNumber) ∧
      Syntax_Analyzer.programItem tokens depth s.current s =
        .ok none ⟨next, s.log ++ [⟨tk.lineNumber, "Statements must be separated by NEWLINE"⟩]⟩ ∧
      Syntax_Analyzer.programLoop tokens depth (fuel + 1) children s =
        Syntax_Analyzer.programLoop tokens depth fuel children
          ⟨next, s.log ++ [⟨tk.lineNumber, "Statements must be separated by NEWLINE"⟩]⟩ ∧
      (next = tokens.length →
        Syntax_Analyzer.programLoop tokens depth (fuel + 2) children s =
          .ok (.mk "program" children)
            ⟨next, s.log ++ [⟨tk.lineNumber, "Statements must be separated by NEWLINE"⟩]⟩) := by
  have hspec := synchronize_skip_spec tokens s.current tk.lineNumber
  have hlt : s.current < tokens.length := (List.getElem?_eq_some_iff.mp htk).1
  refine ⟨_, ?_, ?_, hspec.2.1, hspec.2.2, ?_,
    programItem_same_line tokens depth s tk prev hcur htk hprev hline hded,
    programLoop_same_line tokens depth fuel children s tk prev hcur htk hprev hline hded, ?_⟩
  · have hpos : 0 < ((tokens.drop s.current).takeWhile
        (fun t => t.lineNumber ≤ tk.lineNumber)).length := by
      have hd : tokens.drop s.current = tk :: tokens.drop (s.current + 1) := by
        obtain ⟨hi, rfl⟩ := List.getElem?_eq_some_iff.mp htk
        exact List.drop_eq_getElem_cons hi
      rw [hd, List.takeWhile_cons, if_pos (by simp)]
      simp
    omega
  · have := hspec.1
    omega
  · intro hs j t hj ht
    have hjlt : j < tokens.length := (List.getElem?_eq_some_iff.mp ht).1
    have hn : s.current + ((tokens.drop s.current).takeWhile
        (fun t => t.lineNumber ≤ tk.lineNumber)).length < tokens.length := by omega
    have h1 := hspec.2.2 _ (List.getElem?_eq_getElem hn)
    have h2 := pairwise_line_le tokens hs _ j _ t hj (List.getElem?_eq_getElem hn) ht
    omega
  · intro hend
    rw [programLoop_same_line tokens depth (fuel + 1) children s tk prev hcur htk hprev hline hded]
    exact programLoop_at_end tokens depth fuel children _ (by simp only; omega)

theorem tokenize_two_statements_one_line :
    tokenize Lexer.fresh "x = 1 y = 2".toList =
      .returned
        [⟨.IDENTIFIER, "x", 1, "global"⟩, ⟨.OPERATOR, "=", 1, ""⟩, ⟨.NUMBER, "1", 1, ""⟩,
         ⟨.IDENTIFIER, "y", 1, "global"⟩, ⟨.OPERATOR, "=", 1, ""⟩, ⟨.NUMBER, "2", 1, ""⟩]
        [] ⟨[], [0], false, false⟩ := by
  decide!

/-- The example of C17 run as a whole: the program has one statement (`x = 1`), one diagnostic is
written and the cursor ends behind the last token. -/
theorem parseProgram_two_statements_one_line :
    Syntax_Analyzer.parseProgram
        [⟨.IDENTIFIER, "x", 1, "global"⟩, ⟨.OPERATOR, "=", 1, ""⟩, ⟨.NUMBER, "1", 1, ""⟩,
         ⟨.IDENTIFIER, "y", 1, "global"⟩, ⟨.OPERATOR, "=", 1, ""⟩, ⟨.NUMBER, "2", 1, ""⟩] =
      .ok (.mk "program" [.mk "statement" [.mk "assignment" [.mk "lhs" [.mk "x" []], .mk "Assign_OP" [.mk "=" []], .mk "rhs" [.mk "expression" [.mk "or_expression" [.mk "and_expression" [.mk "not_expression" [.mk "comparison" [.mk "arithmetic" [.mk "term" [.mk "factor" [.mk "1" []]]]]]]]]]]]])
        ⟨6, [⟨1, "Statements must be separated by NEWLINE"⟩]⟩ := by
  decide!

theorem programLoop_same_line_skips_witness :
    ∃ next, 3 < next ∧ next ≤ 6 ∧
      (∀ j t, 3 ≤ j → j < next →
        ([⟨.IDENTIFIER, "x", 1, "global"⟩, ⟨.OPERATOR, "=", 1, ""⟩, ⟨.NUMBER, "1", 1, ""⟩,
          ⟨.IDENTIFIER, "y", 1, "global"⟩, ⟨.OPERATOR, "=", 1, ""⟩, ⟨.NUMBER, "2", 1, ""⟩]
            : List Token)[j]? = some t → t.lineNumber ≤ 1) ∧
      (∀ t,
        ([⟨.IDENTIFIER, "x", 1, "global"⟩, ⟨.OPERATOR, "=", 1, ""⟩, ⟨.NUMBER, "1", 1, ""⟩,
          ⟨.IDENTIFIER, "y", 1, "global"⟩, ⟨.OPERATOR, "=", 1, ""⟩, ⟨.NUMBER, "2", 1, ""⟩]
            : List Token)[next]? = some t → (1 : Int) < t.lineNumber) ∧
      (([⟨.IDENTIFIER, "x", 1, "global"⟩, ⟨.OPERATOR, "=", 1, ""⟩, ⟨.NUMBER, "1", 1, ""⟩,
          ⟨.IDENTIFIER, "y", 1, "global"⟩, ⟨.OPERATOR, "=", 1, ""⟩, ⟨.NUMBER, "2", 1, ""⟩]
            : List Token).Pairwise (fun a b => a.lineNumber ≤ b.lineNumber) →
        ∀ j t, next ≤ j →
          ([⟨.IDENTIFIER, "x", 1, "global"⟩, ⟨.OPERATOR, "=", 1, ""⟩, ⟨.NUMBER, "1", 1, ""⟩,
          ⟨.IDENTIFIER, "y", 1, "global"⟩, ⟨.OPERATOR, "=", 1, ""⟩, ⟨.NUMBER, "2", 1, ""⟩]
            : List Token)[j]? = some t → (1 : Int) < t.lineNumber) ∧
      Syntax_Analyzer.programItem
          [⟨.IDENTIFIER, "x", 1, "global"⟩, ⟨.OPERATOR, "=", 1, ""⟩, ⟨.NUMBER, "1", 1, ""⟩,
          ⟨.IDENTIFIER, "y", 1, "global"⟩, ⟨.OPERATOR, "=", 1, ""⟩, ⟨.NUMBER, "2", 1, ""⟩]
          160 3 ⟨3, []⟩ =
        .ok none ⟨next, [] ++ [⟨1, "Statements must be separated by NEWLINE"⟩]⟩ ∧
      Syntax_Analyzer.programLoop
          [⟨.IDENTIFIER, "x", 1, "global"⟩, ⟨.OPERATOR, "=", 1, ""⟩, ⟨.NUMBER, "1", 1, ""⟩,
          ⟨.IDENTIFIER, "y", 1, "global"⟩, ⟨.OPERATOR, "=", 1, ""⟩, ⟨.NUMBER, "2", 1, ""⟩]
          160 (5 + 1) [.mk "statement" []] ⟨3, []⟩ =
        Syntax_Analyzer.programLoop
          [⟨.IDENTIFIER, "x", 1, "global"⟩, ⟨.OPERATOR, "=", 1, ""⟩, ⟨.NUMBER, "1", 1, ""⟩,
          ⟨.IDENTIFIER, "y", 1, "global"⟩, ⟨.OPERATOR, "=", 1, ""⟩, ⟨.NUMBER, "2", 1, ""⟩]
          160 5 [.mk "statement" []]
          ⟨next, [] ++ [⟨1, "Statements must be separated by NEWLINE"⟩]⟩ ∧
      (next = 6 →
        Syntax_Analyzer.programLoop
            [⟨.IDENTIFIER, "x", 1, "global"⟩, ⟨.OPERATOR, "=", 1, ""⟩, ⟨.NUMBER, "1", 1, ""⟩,
          ⟨.IDENTIFIER, "y", 1, "global"⟩, ⟨.OPERATOR, "=", 1, ""⟩, ⟨.NUMBER, "2", 1, ""⟩]
            160 (5 + 2) [.mk "statement" []] ⟨3, []⟩ =
          .ok (.mk "program" [.mk "statement" []])
            ⟨next, [] ++ [⟨1, "Statements must be separated by NEWLINE"⟩]⟩) :=
  programLoop_same_line_skips
    [⟨.IDENTIFIER, "x", 1, "global"⟩, ⟨.OPERATOR, "=", 1, ""⟩, ⟨.NUMBER, "1", 1, ""⟩,
          ⟨.IDENTIFIER, "y", 1, "global"⟩, ⟨.OPERATOR, "=", 1, ""⟩, ⟨.NUMBER, "2", 1, ""⟩]
    160 5 [.mk "statement" []] ⟨3, []⟩ ⟨.IDENTIFIER, "y", 1, "global"⟩ ⟨.NUMBER, "1", 1, ""⟩
    (by decide) rfl rfl (by decide) (by decide)


namespace Syntax_Analyzer

theorem rethrowing_thrown {α : Type} (tokens : List Token) (message : String) (body : ParseM α)
    (s s1 : PState) (tkE : Token) (hbody : body s = .thrown s1)
    (hE : tokens[s1.current]? = some tkE) :
    rethrowing tokens message body s =
      .thrown ⟨s1.current, s1.log ++ [⟨tkE.lineNumber, message⟩]⟩ := by
  simp only [rethrowing, tryCatch, hbody]
  rw [bind_ok _ _ _ _ _ (error_of_some tokens message s1 tkE hE)]
  rfl

theorem currentIs_of_some (tokens : List Token) (p : Token → Bool) (s : PState) (tk : Token)
    (h : tokens[s.current]? = some tk) : currentIs tokens p s = .ok (p tk) s := by
  simp only [currentIs, h]

theorem consume_of_match (tokens : List Token) (expected : TokenType) (s : PState) (tk : Token)
    (h : tokens[s.current]? = some tk) (ht : tk.type = expected) :
    consume tokens expected s = .ok tk ⟨s.current + 1, s.log⟩ := by
  simp only [consume, h, ht, if_true]

/-- A statement of the loop of `parseBlock` that raises the recovery signal ends the loop: the
signal leaves `blockLoop`. -/
theorem blockLoop_statement_failure (tokens : List Token) (fuel : Nat) (prevLine : Int)
    (children : List ParseTreeNode) (s s1 : PState) (tk : Token)
    (htk : tokens[s.current]? = some tk) (hne : tk.type ≠ .DEDENT)
    (hline : prevLine < tk.lineNumber)
    (hfail : parseStatement tokens fuel s = .thrown s1) :
    blockLoop tokens (fuel + 1) prevLine children s = .thrown s1 := by
  rw [blockLoop]
  rw [bind_ok (currentIs tokens _) _ s s _ (currentIs_of_some tokens _ s tk htk)]
  have hd : (decide (tk.type ≠ TokenType.DEDENT)) = true := by simpa using hne
  rw [hd, if_pos rfl]
  rw [bind_ok (currentToken tokens) _ s s tk (currentToken_of_some tokens s tk htk)]
  rw [if_neg (by omega)]
  rw [bind_thrown (parseStatement tokens fuel) _ s s1 hfail]

/-- The loop of `parseBlock` raises the recovery signal only when one of its statements did. -/
theorem blockLoop_thrown_inv (tokens : List Token) :
    ∀ (fuel : Nat) (prevLine : Int) (children : List ParseTreeNode) (s s1 : PState),
      blockLoop tokens fuel prevLine children s = .thrown s1 →
      ∃ k s0, parseStatement tokens k s0 = .thrown s1 := by
  intro fuel
  induction fuel with
  | zero =>
    intro prevLine children s s1 h
    simp [blockLoop, noFuel] at h
  | succ n ih =>
    intro prevLine children s s1 h
    rw [blockLoop, bind_eq] at h
    cases hc : tokens[s.current]? with
    | none =>
      simp only [currentIs, hc] at h
      simp [pure_eq] at h
    | some tk =>
      simp only [currentIs, hc] at h
      by_cases hd : tk.type ≠ .DEDENT
      · have hdd : (decide (tk.type ≠ TokenType.DEDENT)) = true := by simpa using hd
        rw [hdd, if_pos rfl] at h
        rw [bind_ok (currentToken tokens) _ s s tk (currentToken_of_some tokens s tk hc)] at h
        by_cases hl : tk.lineNumber ≤ prevLine
        · rw [if_pos hl] at h
          rw [bind_ok (error tokens _) _ s _ () (error_of_some tokens _ s tk hc)] at h
          rw [bind_ok (synchronize tokens _) _ _ _ () (synchronize_eq tokens _ _)] at h
          exact ih _ _ _ _ h
        · rw [if_neg hl] at h
          rw [bind_eq] at h
          cases hp : parseStatement tokens n s with
          | ok a s2 =>
            rw [hp] at h
            exact ih _ _ _ _ h
          | thrown s2 =>
            rw [hp] at h
            simp only [Outcome.thrown.injEq] at h
            subst h
            exact ⟨n, s, hp⟩
          | thrownPointer s2 => rw [hp] at h; cases h
          | outOfRange s2 => rw [hp] at h; cases h
          | outOfFuel => rw [hp] at h; cases h
      · have hdd : (decide (tk.type ≠ TokenType.DEDENT)) = false := by simpa using hd
        rw [hdd] at h
        simp [pure_eq] at h

end Syntax_Analyzer

/-- C18 (amended). `parseBlock` does not resume after a failing statement. Entered at an `INDENT`
token, when the first statement of the block raises the recovery signal, or when it returns and
the loop over the later statements raises it (which happens only when one of those statements
raised it: `blockLoop_thrown_inv`), `parseBlock` writes "Could not parse block" for the line of
the token at which the cursor then stands and raises the signal again: it returns no block
node. -/
theorem parseBlock_reraises (tokens : List Token) (fuel : Nat)
    (s s1 : Syntax_Analyzer.PState) (tk0 tk1 tkE : Token)
    (h0 : tokens[s.current]? = some tk0) (hind : tk0.type = .INDENT)
    (h1 : tokens[s.current + 1]? = some tk1)
    (hfail :
      (if tk1.type = .DefKeyword then Syntax_Analyzer.parseFunction tokens fuel
        else Syntax_Analyzer.parseStatement tokens fuel) ⟨s.current + 1, s.log⟩ = .thrown s1 ∨
      ∃ first s2,
        (if tk1.type = .DefKeyword then Syntax_Analyzer.parseFunction tokens fuel
          else Syntax_Analyzer.parseStatement tokens fuel) ⟨s.current + 1, s.log⟩ = .ok first s2 ∧
        Syntax_Analyzer.blockLoop tokens fuel tk0.lineNumber [ParseTreeNode.leaf "INDENT", first] s2 =
          .thrown s1)
    (hE : tokens[s1.current]? = some tkE) :
    Syntax_Analyzer.parseBlock tokens (fuel + 1) s =
      .thrown ⟨s1.current, s1.log ++ [⟨tkE.lineNumber, "Could not parse block"⟩]⟩ := by
  rw [Syntax_Analyzer.parseBlock]
  rw [Syntax_Analyzer.bind_ok (Syntax_Analyzer.currentToken tokens) _ s s tk0
    (Syntax_Analyzer.currentToken_of_some tokens s tk0 h0)]
  apply Syntax_Analyzer.rethrowing_thrown tokens _ _ s s1 tkE _ hE
  rw [if_pos hind]
  rw [Syntax_Analyzer.bind_ok (Syntax_Analyzer.consume tokens .INDENT) _ s _ tk0
    (Syntax_Analyzer.consume_of_match tokens .INDENT s tk0 h0 hind)]
  rw [Syntax_Analyzer.bind_ok (Syntax_Analyzer.currentToken tokens) _ ⟨s.current + 1, s.log⟩ _ tk1
    (Syntax_Analyzer.currentToken_of_some tokens ⟨s.current + 1, s.log⟩ tk1 h1)]
  by_cases hdef : tk1.type = .DefKeyword
  · simp only [if_pos hdef] at hfail ⊢
    rcases hfail with hf | ⟨first, s2, hf, hloop⟩
    · rw [Syntax_Analyzer.bind_thrown _ _ _ s1 hf]
    · rw [Syntax_Analyzer.bind_ok _ _ _ s2 first hf]
      rw [Syntax_Analyzer.bind_thrown _ _ _ s1 hloop]
  · simp only [if_neg hdef] at hfail ⊢
    rcases hfail with hf | ⟨first, s2, hf, hloop⟩
    · rw [Syntax_Analyzer.bind_thrown _ _ _ s1 hf]
    · rw [Syntax_Analyzer.bind_ok _ _ _ s2 first hf]
      rw [Syntax_Analyzer.bind_thrown _ _ _ s1 hloop]

theorem tokenize_failing_block_statement :
    tokenize Lexer.fresh "def f():\n    x = = 1\n    y = 2\nz = 3\n".toList =
      .returned
        [⟨.DefKeyword, "def", 1, ""⟩, ⟨.IDENTIFIER, "f", 1, "f"⟩, ⟨.LeftParenthesis, "(", 1, ""⟩,
         ⟨.RightParenthesis, ")", 1, ""⟩, ⟨.Colon, ":", 1, ""⟩, ⟨.INDENT, "", 2, ""⟩,
         ⟨.IDENTIFIER, "x", 2, "f"⟩, ⟨.OPERATOR, "=", 2, ""⟩, ⟨.OPERATOR, "=", 2, ""⟩,
         ⟨.NUMBER, "1", 2, ""⟩, ⟨.IDENTIFIER, "y", 3, "f"⟩, ⟨.OPERATOR, "=", 3, ""⟩,
         ⟨.NUMBER, "2", 3, ""⟩, ⟨.DEDENT, "", 4, ""⟩, ⟨.IDENTIFIER, "z", 4, "global"⟩,
         ⟨.OPERATOR, "=", 4, ""⟩, ⟨.NUMBER, "3", 4, ""⟩]
        [] ⟨[], [0], true, false⟩ := by
  decide!

theorem parseProgram_failing_block_statement :
    Syntax_Analyzer.parseProgram
        [⟨.DefKeyword, "def", 1, ""⟩, ⟨.IDENTIFIER, "f", 1, "f"⟩, ⟨.LeftParenthesis, "(", 1, ""⟩,
         ⟨.RightParenthesis, ")", 1, ""⟩, ⟨.Colon, ":", 1, ""⟩, ⟨.INDENT, "", 2, ""⟩,
         ⟨.IDENTIFIER, "x", 2, "f"⟩, ⟨.OPERATOR, "=", 2, ""⟩, ⟨.OPERATOR, "=", 2, ""⟩,
         ⟨.NUMBER, "1", 2, ""⟩, ⟨.IDENTIFIER, "y", 3, "f"⟩, ⟨.OPERATOR, "=", 3, ""⟩,
         ⟨.NUMBER, "2", 3, ""⟩, ⟨.DEDENT, "", 4, ""⟩, ⟨.IDENTIFIER, "z", 4, "global"⟩,
         ⟨.OPERATOR, "=", 4, ""⟩, ⟨.NUMBER, "3", 4, ""⟩] =
      .ok (.mk "program" [.mk "statement" [.mk "assignment" [.mk "lhs" [.mk "y" []], .mk "Assign_OP" [.mk "=" []], .mk "rhs" [.mk "expression" [.mk "or_expression" [.mk "and_expression" [.mk "not_expression" [.mk "comparison" [.mk "arithmetic" [.mk "term" [.mk "factor" [.mk "2" []]]]]]]]]]]], .mk "statement" [.mk "assignment" [.mk "lhs" [.mk "z" []], .mk "Assign_OP" [.mk "=" []], .mk "rhs" [.mk "expression" [.mk "or_expression" [.mk "and_expression" [.mk "not_expression" [.mk "comparison" [.mk "arithmetic" [.mk "term" [.mk "factor" [.mk "3" []]]]]]]]]]]]])
        ⟨17, [⟨2, "Could not parse Factor"⟩, ⟨2, "Could not parse factor"⟩,
              ⟨2, "Could not parse Term"⟩, ⟨2, "Could not Arithmetic"⟩,
              ⟨2, "Could not parse comparison"⟩, ⟨2, "Could not parse not expression"⟩,
              ⟨2, "Could not parse and expression"⟩, ⟨2, "Could not parse or expression"⟩,
              ⟨2, "Could not parse expression"⟩, ⟨2, "Could not parse assignment"⟩,
              ⟨2, "Could not parse statement"⟩, ⟨2, "Could not parse block"⟩,
              ⟨2, "Could not parse function"⟩]⟩ := by
  decide!

/-- C18 (counterexample). For the source `def f():` / `x = = 1` / `y = 2` / `z = 3` (the
statement `x = = 1` of the block fails, the later line `y = 2` of the same block is well formed)
`parseProgram` returns a tree without any `function` or `block` node: the statement `y = 2` is the
first top-level child of `program`, followed by `z = 3`. -/
theorem failing_block_statement_not_resumed :
    ∃ tokens errors lexer tree final yStatement zStatement,
      tokenize Lexer.fresh "def f():\n    x = = 1\n    y = 2\nz = 3\n".toList =
        .returned tokens errors lexer ∧
      Syntax_Analyzer.parseProgram tokens = .ok tree final ∧
      tree = .mk "program" [yStatement, zStatement] ∧
      yStatement = .mk "statement" [.mk "assignment" [.mk "lhs" [.mk "y" []], .mk "Assign_OP" [.mk "=" []], .mk "rhs" [.mk "expression" [.mk "or_expression" [.mk "and_expression" [.mk "not_expression" [.mk "comparison" [.mk "arithmetic" [.mk "term" [.mk "factor" [.mk "2" []]]]]]]]]]]] ∧
      "function" ∉ tree.texts ∧ "block" ∉ tree.texts ∧
      (⟨2, "Could not parse block"⟩ : Syntax_Analyzer.SyntaxError) ∈ final.log :=
  ⟨_, _, _, _, _, _, _, tokenize_failing_block_statement, parseProgram_failing_block_statement,
    rfl, rfl, by decide!, by decide!, by decide!⟩

theorem parseBlock_reraises_witness :
    Syntax_Analyzer.parseBlock
        [⟨.DefKeyword, "def", 1, ""⟩, ⟨.IDENTIFIER, "f", 1, "f"⟩, ⟨.LeftParenthesis, "(", 1, ""⟩,
         ⟨.RightParenthesis, ")", 1, ""⟩, ⟨.Colon, ":", 1, ""⟩, ⟨.INDENT, "", 2, ""⟩,
         ⟨.IDENTIFIER, "x", 2, "f"⟩, ⟨.OPERATOR, "=", 2, ""⟩, ⟨.OPERATOR, "=", 2, ""⟩,
         ⟨.NUMBER, "1", 2, ""⟩, ⟨.IDENTIFIER, "y", 3, "f"⟩, ⟨.OPERATOR, "=", 3, ""⟩,
         ⟨.NUMBER, "2", 3, ""⟩, ⟨.DEDENT, "", 4, ""⟩, ⟨.IDENTIFIER, "z", 4, "global"⟩,
         ⟨.OPERATOR, "=", 4, ""⟩, ⟨.NUMBER, "3", 4, ""⟩]
        (40 + 1) ⟨5, []⟩ =
      .thrown ⟨8,
        [⟨2, "Could not parse Factor"⟩, ⟨2, "Could not parse factor"⟩,
         ⟨2, "Could not parse Term"⟩, ⟨2, "Could not Arithmetic"⟩,
         ⟨2, "Could not parse comparison"⟩, ⟨2, "Could not parse not expression"⟩,
         ⟨2, "Could not parse and expression"⟩, ⟨2, "Could not parse or expression"⟩,
         ⟨2, "Could not parse expression"⟩, ⟨2, "Could not parse assignment"⟩,
         ⟨2, "Could not parse statement"⟩] ++ [⟨2, "Could not parse block"⟩]⟩ :=
  parseBlock_reraises
    [⟨.DefKeyword, "def", 1, ""⟩, ⟨.IDENTIFIER, "f", 1, "f"⟩, ⟨.LeftParenthesis, "(", 1, ""⟩,
     ⟨.RightParenthesis, ")", 1, ""⟩, ⟨.Colon, ":", 1, ""⟩, ⟨.INDENT, "", 2, ""⟩,
     ⟨.IDENTIFIER, "x", 2, "f"⟩, ⟨.OPERATOR, "=", 2, ""⟩, ⟨.OPERATOR, "=", 2, ""⟩,
     ⟨.NUMBER, "1", 2, ""⟩, ⟨.IDENTIFIER, "y", 3, "f"⟩, ⟨.OPERATOR, "=", 3, ""⟩,
     ⟨.NUMBER, "2", 3, ""⟩, ⟨.DEDENT, "", 4, ""⟩, ⟨.IDENTIFIER, "z", 4, "global"⟩,
     ⟨.OPERATOR, "=", 4, ""⟩, ⟨.NUMBER, "3", 4, ""⟩]
    40 ⟨5, []⟩
    ⟨8, [⟨2, "Could not parse Factor"⟩, ⟨2, "Could not parse factor"⟩,
         ⟨2, "Could not parse Term"⟩, ⟨2, "Could not Arithmetic"⟩,
         ⟨2, "Could not parse comparison"⟩, ⟨2, "Could not parse not expression"⟩,
         ⟨2, "Could not parse and expression"⟩, ⟨2, "Could not parse or expression"⟩,
         ⟨2, "Could not parse expression"⟩, ⟨2, "Could not parse assignment"⟩,
         ⟨2, "Could not parse statement"⟩]⟩
    ⟨.INDENT, "", 2, ""⟩ ⟨.IDENTIFIER, "x", 2, "f"⟩ ⟨.OPERATOR, "=", 2, ""⟩
    (by decide!) (by decide) (by decide!) (Or.inl (by decide!)) (by decide!)


namespace SymbolTable

theorem find_index_some (t : SymbolTable) (key : String) :
    ∃ info, (t.index key).find key = some info := by
  unfold index
  cases h : t.find key with
  | none =>
    simp only [find] at h ⊢
    rw [lookup_append_single, h]
    simp
  | some info => exact ⟨info, h⟩

theorem find_bump_some (t : SymbolTable) (key : String) :
    ∃ info, (t.bump key).find key = some info := by
  obtain ⟨info, h⟩ := find_index_some t key
  unfold bump
  rw [find_modify, if_pos rfl, h]
  exact ⟨_, rfl⟩

theorem find_addSymbol_some (t : SymbolTable) (name type : String) (line : Int)
    (scope val : String) :
    ∃ info, (t.addSymbol name type line scope val).find (name ++ "@" ++ scope) = some info := by
  unfold addSymbol
  simp only
  cases h : t.find (name ++ "@" ++ scope) with
  | none =>
    simp only [find] at h ⊢
    rw [lookup_append_single, h]
    simp
  | some info =>
    simp only
    rw [find_modify, if_pos rfl, h]
    exact ⟨_, rfl⟩

theorem find_updateType (t : SymbolTable) (name scope newType : String) (info : SymbolInfo)
    (h : t.find (name ++ "@" ++ scope) = some info) :
    (t.updateType name scope newType).find (name ++ "@" ++ scope) =
      some { info with type := newType } := by
  unfold updateType
  simp only [h]
  rw [find_modify, if_pos rfl, h]
  rfl

theorem find_updateValue (t : SymbolTable) (name scope newValue : String) (info : SymbolInfo)
    (h : t.find (name ++ "@" ++ scope) = some info) :
    (t.updateValue name scope newValue).find (name ++ "@" ++ scope) =
      some { info with value := newValue } := by
  unfold updateValue
  simp only [h]
  rw [find_modify, if_pos rfl, h]
  rfl

end SymbolTable

namespace Parser

/-- The binding of one left-hand identifier to the first right-hand result. -/
theorem bindLoop_single (var : Token) (type value : String) (st : SymbolTable) :
    ∃ info, (bindLoop [(type, value)] [var] 0 st).find (var.lexeme ++ "@" ++ var.scope) =
        some info ∧
      (type ≠ "unknown" → info.type = type) ∧ (value ≠ "" → info.value = value) := by
  simp only [bindLoop, List.getElem?_cons_zero]
  have h1 : ∃ info, (if ¬ st.exist var.lexeme var.scope = true then
        st.addSymbol var.lexeme "unknown" var.lineNumber var.scope
      else st.bump (var.lexeme ++ "@" ++ var.scope)).find (var.lexeme ++ "@" ++ var.scope) =
        some info := by
    split
    · exact SymbolTable.find_addSymbol_some _ _ _ _ _ _
    · exact SymbolTable.find_bump_some _ _
  obtain ⟨info1, h1⟩ := h1
  generalize (if ¬ st.exist var.lexeme var.scope = true then
        st.addSymbol var.lexeme "unknown" var.lineNumber var.scope
      else st.bump (var.lexeme ++ "@" ++ var.scope)) = st1 at h1
  by_cases ht : type ≠ "unknown"
  · have h2 := SymbolTable.find_updateType st1 var.lexeme var.scope type info1 h1
    by_cases hv : value ≠ ""
    · have h3 := SymbolTable.find_updateValue _ var.lexeme var.scope value _ h2
      simp only [if_pos ht, if_pos hv]
      exact ⟨_, h3, fun _ => rfl, fun _ => rfl⟩
    · simp only [if_pos ht, if_neg hv]
      exact ⟨_, h2, fun _ => rfl, fun h => absurd h hv⟩
  · by_cases hv : value ≠ ""
    · have h3 := SymbolTable.find_updateValue _ var.lexeme var.scope value _ h1
      simp only [if_neg ht, if_pos hv]
      exact ⟨_, h3, fun h => absurd h ht, fun _ => rfl⟩
    · simp only [if_neg ht, if_neg hv]
      exact ⟨_, h1, fun h => absurd h ht, fun h => absurd h hv⟩

end Parser

theorem tokenize_attribute_assignment :
    tokenize Lexer.fresh "car1.speed = 10".toList =
      .returned
        [⟨.IDENTIFIER, "car1", 1, "global"⟩, ⟨.Dot, ".", 1, ""⟩,
         ⟨.IDENTIFIER, "speed", 1, "global"⟩, ⟨.OPERATOR, "=", 1, ""⟩, ⟨.NUMBER, "10", 1, ""⟩]
        [] ⟨[], [0], false, false⟩ := by
  decide!

theorem inferSource_attribute_assignment :
    inferSource "car1.speed = 10".toList =
      some ⟨[("car1@global", ⟨1, "unknown", "global", 1, 1, ""⟩),
             ("speed@global", ⟨2, "int", "global", 1, 1, "10"⟩)], 3⟩ := by
  decide!

/-- C19 (counterexample). Running the inferrer over `car1.speed = 10` (empty table before) creates
the entry `speed@global` and gives it the type `int` and the value `10` of the right-hand side. -/
theorem attribute_assignment_updates_entry :
    ∃ st info, inferSource "car1.speed = 10".toList = some st ∧
      st.find "speed@global" = some info ∧ info.type = "int" ∧ info.value = "10" ∧
      ¬ (info.type = "unknown" ∧ info.value = "") :=
  ⟨_, ⟨2, "int", "global", 1, 1, "10"⟩, inferSource_attribute_assignment, by decide!, rfl, rfl,
    by decide⟩

/-- C19 (amended). The inferrer does not look at the `.` before an identifier: one iteration of
its loop at the identifier `attr` of `obj.attr = expr` (not directly after `def` or `class`, the
token after `attr` being the operator `=`, `expr` followed by no comma) is the ordinary
assignment step. With `(type, value)` the result of `parseExpression` on `expr`, the iteration
returns with the cursor behind `expr`, and the table then has an entry under `attr@scope` whose
type is `type` unless `type` is `unknown` and whose value is `value` unless `value` is empty. -/
theorem parseStep_attribute_assignment (tokens : List Token) (s : Parser.State)
    (dot attr eq : Token) (type value : String) (i1 : Nat) (st1 : SymbolTable)
    (_hpos : 1 ≤ s.i)
    (_hdot : tokens[s.i - 1]? = some dot) (_hdotType : dot.type = .Dot)
    (hattr : tokens[s.i]? = some attr) (hattrType : attr.type = .IDENTIFIER)
    (heq : tokens[s.i + 1]? = some eq) (heqType : eq.type = .OPERATOR) (heqLexeme : eq.lexeme = "=")
    (hkw : s.lastKeyword ≠ "def" ∧ s.lastKeyword ≠ "class")
    (hrhs : s.i + 2 < tokens.length)
    (hexpr : Parser.parseExpression tokens (Parser.exprFuel tokens) (s.i + 2) s.symbolTable =
      some (type, value, i1, st1))
    (hend : Parser.tokenIs tokens i1 (fun t => t.type = .Comma) = false) :
    ∃ s1 info, Parser.parseStep tokens attr s = some s1 ∧ s1.i = i1 ∧
      s1.symbolTable.find (attr.lexeme ++ "@" ++ attr.scope) = some info ∧
      (type ≠ "unknown" → info.type = type) ∧ (value ≠ "" → info.value = value) := by
  have hdrop : tokens.drop s.i = attr :: eq :: tokens.drop (s.i + 2) := by
    obtain ⟨h1, rfl⟩ := List.getElem?_eq_some_iff.mp hattr
    obtain ⟨h2, rfl⟩ := List.getElem?_eq_some_iff.mp heq
    rw [List.drop_eq_getElem_cons h1, List.drop_eq_getElem_cons h2]
  have hscan : Parser.scanLhs (tokens.drop s.i) = ([attr], 1) := by
    rw [hdrop]
    simp [Parser.scanLhs, hattrType, heqType]
  have hop : Parser.tokenIs tokens (s.i + 1) (fun t => t.type = .OPERATOR ∧ t.lexeme = "=") = true := by
    simp [Parser.tokenIs, heq, heqType, heqLexeme]
  have hloop : Parser.rhsLoop tokens (tokens.length + 1) (s.i + 1 + 1) s.symbolTable [] =
      some ([(type, value)], i1, st1) := by
    rw [Parser.rhsLoop, if_pos hrhs, hexpr]
    simp only [hend]
    simp
  obtain ⟨info, hfind, htype, hvalue⟩ := Parser.bindLoop_single attr type value st1
  refine ⟨⟨i1, Parser.bindLoop [(type, value)] [attr] 0 st1, s.lastKeyword⟩, info, ?_, rfl,
    hfind, htype, hvalue⟩
  unfold Parser.parseStep
  rw [if_neg (by simp [hattrType]), if_pos hattrType, if_neg hkw.1, if_neg hkw.2]
  simp only [hscan, hop, if_true, hloop]

theorem parseStep_attribute_assignment_witness :
    ∃ s1 info,
      Parser.parseStep
          [⟨.IDENTIFIER, "car1", 1, "global"⟩, ⟨.Dot, ".", 1, ""⟩,
           ⟨.IDENTIFIER, "speed", 1, "global"⟩, ⟨.OPERATOR, "=", 1, ""⟩, ⟨.NUMBER, "10", 1, ""⟩]
          ⟨.IDENTIFIER, "speed", 1, "global"⟩
          ⟨2, ⟨[("car1@global", ⟨1, "unknown", "global", 1, 1, ""⟩)], 2⟩, ""⟩ = some s1 ∧
      s1.i = 5 ∧
      s1.symbolTable.find ("speed" ++ "@" ++ "global") = some info ∧
      ("int" ≠ "unknown" → info.type = "int") ∧ ("10" ≠ "" → info.value = "10") :=
  parseStep_attribute_assignment
    [⟨.IDENTIFIER, "car1", 1, "global"⟩, ⟨.Dot, ".", 1, ""⟩,
     ⟨.IDENTIFIER, "speed", 1, "global"⟩, ⟨.OPERATOR, "=", 1, ""⟩, ⟨.NUMBER, "10", 1, ""⟩]
    ⟨2, ⟨[("car1@global", ⟨1, "unknown", "global", 1, 1, ""⟩)], 2⟩, ""⟩
    ⟨.Dot, ".", 1, ""⟩ ⟨.IDENTIFIER, "speed", 1, "global"⟩ ⟨.OPERATOR, "=", 1, ""⟩
    "int" "10" 5 ⟨[("car1@global", ⟨1, "unknown", "global", 1, 1, ""⟩)], 2⟩
    (by decide) (by decide!) (by decide) (by decide!) (by decide) (by decide!) (by decide)
    (by decide) (by decide) (by decide) (by decide!) (by decide!)


/-! ### Unterminated single-line strings -/

theorem unterminatedAfter_cons (q c : Char) (tail : List Char) :
    unterminatedAfter q (c :: tail) =
      if c = '\\' then unterminatedAfter q (tail.drop 1)
      else if c = '\n' then true
      else if c = q then false
      else unterminatedAfter q tail := by
  cases tail with
  | nil => simp [unterminatedAfter]
  | cons d rest => simp [unterminatedAfter]

theorem drop_eq_charAt_cons (source : List Char) (idx : Nat) (h : idx < source.length) :
    source.drop idx = charAt source idx :: source.drop (idx + 1) := by
  rw [List.drop_eq_getElem_cons h]
  simp [charAt, List.getD_eq_getElem?_getD, List.getElem?_eq_getElem h]

/-- The loop of `handleDoubleQuotedString` refines `unterminatedAfter`: from `idx` it throws
`UnterminatedStringError(startLine, start)` exactly when the text from `idx` on is unterminated,
and otherwise returns the text up to and including the closing quote. -/
theorem doubleLoop_spec (source : List Char) (q : Char) (start : Nat) (startLine : Int) :
    ∀ (fuel idx : Nat), source.length < fuel + idx → 0 < fuel →
      ∃ r idx1, doubleLoop source q start startLine fuel idx = some (r, idx1) ∧ idx ≤ idx1 ∧
        (unterminatedAfter q (source.drop idx) = true → r = .unterminated startLine start) ∧
        (unterminatedAfter q (source.drop idx) = false →
          r = .str (substr source start (idx1 - start)) ∧ 0 < idx1 ∧
            charAt source (idx1 - 1) = q) := by
  intro fuel
  induction fuel with
  | zero =>
    intro idx _ h
    omega
  | succ n ih =>
    intro idx hf _
    unfold doubleLoop
    by_cases hlt : idx < source.length
    · rw [if_pos hlt, drop_eq_charAt_cons source idx hlt, unterminatedAfter_cons]
      by_cases hb : charAt source idx = '\\'
      · rw [if_pos hb, if_pos hb]
        obtain ⟨r, i2, h2, hge, ht, hf2⟩ := ih (idx + 1 + 1) (by omega) (by omega)
        rw [List.drop_drop]
        exact ⟨r, i2, h2, by omega, ht, hf2⟩
      · rw [if_neg hb, if_neg hb]
        by_cases hn : charAt source idx = '\n'
        · rw [if_pos hn, if_pos hn]
          exact ⟨_, _, rfl, by omega, fun _ => rfl, fun h => (by cases h)⟩
        · rw [if_neg hn, if_neg hn]
          by_cases hq : charAt source idx = q
          · rw [if_pos hq, if_pos hq]
            refine ⟨_, _, rfl, by omega, fun h => (by cases h), fun _ => ⟨rfl, by omega, ?_⟩⟩
            simpa using hq
          · rw [if_neg hq, if_neg hq]
            obtain ⟨r, i2, h2, hge, ht, hf2⟩ := ih (idx + 1) (by omega) (by omega)
            exact ⟨r, i2, h2, by omega, ht, hf2⟩
    · rw [if_neg hlt]
      have hd : source.drop idx = [] := List.drop_eq_nil_of_le (by omega)
      rw [hd]
      exact ⟨_, _, rfl, le_refl _, fun _ => rfl, fun h => (by simp [unterminatedAfter] at h)⟩

theorem handleTripleQuotedString_single (source : List Char) (idx : Nat) (line : Int)
    (h : ¬ (charAt source (idx + 1) = charAt source idx ∧
      charAt source (idx + 2) = charAt source idx)) :
    handleTripleQuotedString source idx line = some (.str "", idx, line) := by
  unfold handleTripleQuotedString
  split
  · simp only
    rw [if_neg (fun hc => h hc.2)]
  · rfl

theorem handleDoubleQuotedString_unterminated (source : List Char) (idx : Nat) (line : Int)
    (hlt : idx < source.length)
    (hopen : unterminatedAfter (charAt source idx) (source.drop (idx + 1)) = true) :
    ∃ idx1, handleDoubleQuotedString source idx line = some (.unterminated line idx, idx1) ∧
      idx < idx1 := by
  unfold handleDoubleQuotedString
  rw [if_pos hlt]
  obtain ⟨r, idx1, h1, hge, ht, _⟩ :=
    doubleLoop_spec source (charAt source idx) idx line (source.length + 1) (idx + 1)
      (by omega) (by omega)
  rw [ht hopen] at h1
  exact ⟨idx1, h1, by omega⟩

theorem lexToken_unterminated (source : List Char) (s : LexState)
    (hquote : charAt source s.i = '\"' ∨ charAt source s.i = '\'')
    (hopen : unterminatedAfter (charAt source s.i) (source.drop (s.i + 1)) = true) :
    ∃ idx1, s.i < idx1 ∧
      lexToken source s = some (.ok { s with
        i := idx1,
        errors := s.errors ++ [⟨"Unterminated string literal", s.lineNumber, s.i⟩] }) := by
  obtain ⟨idx1, h1, hgt⟩ := handleDoubleQuotedString_unterminated source s.i s.lineNumber
    (quote_lt source s.i hquote) hopen
  refine ⟨idx1, hgt, ?_⟩
  unfold lexToken
  rcases hquote with hq | hq
  · simp only [hq] at h1 ⊢
    rw [if_neg (by decide)]
    simp only [show isOperatorStart '\"' = false by decide]
    simp [h1]
  · simp only [hq] at h1 ⊢
    rw [if_neg (by decide)]
    simp only [show isOperatorStart '\'' = false by decide]
    simp [h1]

/-- An iteration of the main loop of `tokenize` that reads (after the indentation and whitespace
handling, state `beforeLexeme`) a quote character `q` that does not open a triple quote and whose
text reaches a bare newline or the end of the source before an unescaped `q`: the iteration
returns, emits no token, and records exactly one diagnostic, built from the line counter and the
index of the opener. -/
theorem lexStep_unterminated_counter (source : List Char) (s : LexState) (q : Char)
    (hq : charAt source (beforeLexeme source s).i = q)
    (hquote : q = '\"' ∨ q = '\'')
    (hsingle : ¬ (charAt source ((beforeLexeme source s).i + 1) = q ∧
      charAt source ((beforeLexeme source s).i + 2) = q))
    (hopen : unterminatedAfter q (source.drop ((beforeLexeme source s).i + 1)) = true) :
    ∃ s1, lexStep source s = some (.ok s1) ∧
      s1.tokens = (beforeLexeme source s).tokens ∧
      s1.errors = (beforeLexeme source s).errors ++
        [⟨"Unterminated string literal", (beforeLexeme source s).lineNumber,
          (beforeLexeme source s).i⟩] ∧
      (beforeLexeme source s).i < s1.i := by
  subst hq
  have hquote1 : charAt source (beforeLexeme source s).i = '\"' ∨
      charAt source (beforeLexeme source s).i = '\'' := hquote
  have hlt := quote_lt source _ hquote1
  obtain ⟨idx1, hgt, htok⟩ := lexToken_unterminated source (beforeLexeme source s) hquote1 hopen
  have htriple := handleTripleQuotedString_single source (beforeLexeme source s).i
    (beforeLexeme source s).lineNumber hsingle
  refine ⟨{ beforeLexeme source s with
      i := idx1,
      errors := (beforeLexeme source s).errors ++
        [⟨"Unterminated string literal", (beforeLexeme source s).lineNumber,
          (beforeLexeme source s).i⟩] }, ?_, rfl, rfl, hgt⟩
  unfold lexStep
  simp only
  rw [if_neg (by omega)]
  have hne1 : charAt source (beforeLexeme source s).i ≠ '\n' := by
    rcases hquote1 with h | h <;> rw [h] <;> decide
  have hne2 : charAt source (beforeLexeme source s).i ≠ '\\' := by
    rcases hquote1 with h | h <;> rw [h] <;> decide
  have hne3 : charAt source (beforeLexeme source s).i ≠ '#' := by
    rcases hquote1 with h | h <;> rw [h] <;> decide
  rw [if_neg hne1, if_neg (fun h => hne2 h.1), if_neg hne3, htriple]
  simp only [String.length, List.length_nil, ne_eq, not_true_eq_false, if_false]
  exact htok

/-- The example of C14 run as a whole: `x = "hi` followed by a newline gives the tokens `x` and
`=`, no `STRING_LITERAL`, and one diagnostic at line 1 for the opener at index 4. -/
theorem tokenize_unterminated_example :
    tokenize Lexer.fresh "x = \"hi\n".toList =
      .returned [⟨.IDENTIFIER, "x", 1, "global"⟩, ⟨.OPERATOR, "=", 1, ""⟩]
        [⟨"Unterminated string literal", 1, 4⟩] ⟨[], [0], false, false⟩ := by
  decide!

/-- The handler of single-line strings consumes the newline at which it gives up without
advancing the line counter: the second opener of this source stands on line 2 and its diagnostic
carries line 1. -/
theorem tokenize_unterminated_line_drift :
    tokenize Lexer.fresh "\"a\n\"b\n".toList =
      .returned []
        [⟨"Unterminated string literal", 1, 0⟩, ⟨"Unterminated string literal", 1, 3⟩]
        ⟨[], [0], false, false⟩ := by
  decide!

/-- C14 (counterexample). In the six-character source `"a\`, newline, `b"` the opener at index 0
is followed by a newline (index 3) before its closing quote (index 5); the newline is escaped by
the backslash before it, and `tokenize` records no diagnostic and emits a `STRING_LITERAL` for
the opener. -/
theorem escaped_newline_string_is_token :
    "\"a\\\nb\"".toList = ['\"', 'a', '\\', '\n', 'b', '\"'] ∧
    tokenize Lexer.fresh "\"a\\\nb\"".toList =
      .returned [⟨.STRING_LITERAL, "\"a\\\nb\"", 1, ""⟩] [] ⟨[], [0], false, false⟩ :=
  ⟨by decide, by decide!⟩



/-! ### Line numbers of the token list are non-decreasing -/

theorem lineStep_refl (s : LexState) : LineStep s s :=
  ⟨le_refl _, [], by simp, by simp, by simp⟩

theorem lineStep_trans {a b c : LexState} (h1 : LineStep a b) (h2 : LineStep b c) :
    LineStep a c := by
  obtain ⟨hl1, e1, ht1, hp1, hb1⟩ := h1
  obtain ⟨hl2, e2, ht2, hp2, hb2⟩ := h2
  refine ⟨le_trans hl1 hl2, e1 ++ e2, by rw [ht2, ht1, List.append_assoc], ?_, ?_⟩
  · rw [List.pairwise_append]
    refine ⟨hp1, hp2, ?_⟩
    intro x hx y hy
    exact le_trans (hb1 x hx).2 (hb2 y hy).1
  · intro t ht
    rcases List.mem_append.1 ht with h | h
    · exact ⟨(hb1 t h).1, le_trans (hb1 t h).2 hl2⟩
    · exact ⟨le_trans hl1 (hb2 t h).1, (hb2 t h).2⟩

theorem lineStep_of_push {s s1 : LexState} (t : Token) (hline : s1.lineNumber = s.lineNumber)
    (htok : s1.tokens = s.tokens ++ [t]) (ht : t.lineNumber = s.lineNumber) : LineStep s s1 := by
  refine ⟨by rw [hline], [t], htok, by simp, ?_⟩
  intro x hx
  simp only [List.mem_singleton] at hx
  subst hx
  rw [ht, hline]
  exact ⟨le_refl _, le_refl _⟩

theorem lineStep_of_same {s s1 : LexState} (hline : s.lineNumber ≤ s1.lineNumber)
    (htok : s1.tokens = s.tokens) : LineStep s s1 :=
  ⟨hline, [], by simpa using htok, by simp, by simp⟩

theorem lexWord_lines (source : List Char) (s : LexState) : LineStep s (lexWord source s) := by
  unfold lexWord
  simp only
  split
  · split
    · split
      · refine ⟨le_refl _, _, List.append_assoc _ _ _, ?_, ?_⟩
        · simp
        · intro t ht
          simp at ht
          rcases ht with rfl | rfl <;> simp
      · exact lineStep_of_push _ rfl rfl rfl
    · exact lineStep_of_push _ rfl rfl rfl
  · exact lineStep_of_push _ rfl rfl rfl

theorem lexOperator_lines (source : List Char) (s s1 : LexState)
    (h : lexOperator source s = some s1) : LineStep s s1 := by
  unfold lexOperator at h
  simp only at h
  split at h
  · cases h; exact lineStep_of_push _ rfl rfl rfl
  · split at h
    · cases h; exact lineStep_of_push _ rfl rfl rfl
    · split at h
      · cases h; exact lineStep_of_push _ rfl rfl rfl
      · cases h

theorem lexNumber_lines (source : List Char) (s s1 : LexState)
    (h : lexNumber source s = .ok s1) : LineStep s s1 := by
  unfold lexNumber at h
  simp only at h
  split at h
  · split at h
    · cases h
    · split at h
      · cases h; exact lineStep_of_same (le_refl _) rfl
      · cases h; exact lineStep_of_push _ rfl rfl rfl
  · cases h; exact lineStep_of_push _ rfl rfl rfl

theorem lexToken_lines (source : List Char) (s s1 : LexState)
    (h : lexToken source s = some (.ok s1)) : LineStep s s1 := by
  unfold lexToken at h
  simp only at h
  split at h
  · cases h; exact lexWord_lines source s
  · split at h
    · rename_i s2 hop
      cases h
      split at hop
      · exact lexOperator_lines source s _ hop
      · cases hop
    · split at h
      · split at h
        · cases h
        · cases h; exact lineStep_of_push _ rfl rfl rfl
        · cases h; exact lineStep_of_same (le_refl _) rfl
      · split at h
        · simp only [Option.some.injEq] at h
          exact lexNumber_lines source s s1 h
        · split at h
          · cases h; exact lineStep_of_push _ rfl rfl rfl
          · cases h; exact lineStep_of_same (le_refl _) rfl

theorem dedentLoop_lines (newIndent : Nat) (lineNumber : Int) (start : Nat) :
    ∀ (stack : List Nat) (s : LexState), lineNumber = s.lineNumber →
      LineStep s (dedentLoop newIndent lineNumber start stack s) ∧
        (dedentLoop newIndent lineNumber start stack s).lineNumber = s.lineNumber := by
  intro stack
  induction stack with
  | nil =>
    intro s _
    exact ⟨lineStep_of_same (le_refl _) rfl, rfl⟩
  | cons top rest ih =>
    intro s hl
    unfold dedentLoop
    split
    · simp only
      split
      · exact ⟨lineStep_of_push { type := .DEDENT, lexeme := "", lineNumber := lineNumber }
          rfl rfl hl, rfl⟩
      · obtain ⟨h1, h2⟩ := ih
          { s with tokens := s.tokens ++ [{ type := .DEDENT, lexeme := "", lineNumber := lineNumber }],
                   scopeStack := popScopes (back rest) s.scopeStack } hl
        have hpush : LineStep s
            { s with tokens := s.tokens ++ [{ type := .DEDENT, lexeme := "", lineNumber := lineNumber }],
                     scopeStack := popScopes (back rest) s.scopeStack } :=
          lineStep_of_push { type := .DEDENT, lexeme := "", lineNumber := lineNumber } rfl rfl hl
        refine ⟨lineStep_trans hpush h1, ?_⟩
        rw [h2]
    · exact ⟨lineStep_of_same (le_refl _) rfl, rfl⟩

theorem compareIndent_lines (newIndent : Nat) (lineNumber : Int) (start : Nat) (s : LexState)
    (hl : lineNumber = s.lineNumber) :
    LineStep s (compareIndent newIndent lineNumber start s) ∧
      (compareIndent newIndent lineNumber start s).lineNumber = s.lineNumber := by
  unfold compareIndent
  split
  · exact ⟨lineStep_of_push _ rfl rfl hl, rfl⟩
  · split
    · obtain ⟨h1, h2⟩ := dedentLoop_lines newIndent lineNumber start s.indentStack s hl
      simp only
      split
      · exact ⟨lineStep_trans h1 (lineStep_of_same (le_refl _) rfl), h2⟩
      · exact ⟨h1, h2⟩
    · exact ⟨lineStep_refl s, rfl⟩

theorem processIndentation_lines (source : List Char) (s : LexState) :
    LineStep s (processIndentation source s) ∧
      (processIndentation source s).lineNumber = s.lineNumber := by
  unfold processIndentation
  simp only
  split
  · split
    · exact ⟨lineStep_of_same (le_refl _) rfl, rfl⟩
    · obtain ⟨h1, h2⟩ := compareIndent_lines (List.count '\t' (List.takeWhile
        (fun c => decide (c = ' ') || decide (c = '\t')) (List.drop s.i source)) * 4 +
        List.count ' ' (List.takeWhile (fun c => decide (c = ' ') || decide (c = '\t'))
          (List.drop s.i source))) s.lineNumber s.i
        (LexState.report { s with i := s.i + (List.takeWhile
          (fun c => decide (c = ' ') || decide (c = '\t')) (List.drop s.i source)).length }
          ⟨"Mixed tabs and spaces in indentation", s.lineNumber, s.i⟩) rfl
      exact ⟨lineStep_trans (lineStep_of_same (le_refl _) rfl) h1, h2⟩
  · split
    · exact ⟨lineStep_of_same (le_refl _) rfl, rfl⟩
    · obtain ⟨h1, h2⟩ := compareIndent_lines (List.count '\t' (List.takeWhile
        (fun c => decide (c = ' ') || decide (c = '\t')) (List.drop s.i source)) * 4 +
        List.count ' ' (List.takeWhile (fun c => decide (c = ' ') || decide (c = '\t'))
          (List.drop s.i source))) s.lineNumber s.i
        { s with i := s.i + (List.takeWhile
          (fun c => decide (c = ' ') || decide (c = '\t')) (List.drop s.i source)).length } rfl
      exact ⟨lineStep_trans (lineStep_of_same (le_refl _) rfl) h1, h2⟩

theorem beforeLexeme_lines (source : List Char) (s : LexState) :
    LineStep s (beforeLexeme source s) ∧ (beforeLexeme source s).lineNumber = s.lineNumber := by
  unfold beforeLexeme
  simp only
  split
  · obtain ⟨h1, h2⟩ := processIndentation_lines source s
    exact ⟨lineStep_trans h1 (lineStep_of_same (le_refl _) rfl), h2⟩
  · exact ⟨lineStep_of_same (le_refl _) rfl, rfl⟩

theorem tripleSkip_line_ge (source : List Char) (idx : Nat) (line : Int) :
    line ≤ (tripleSkip source idx line).2 := by
  unfold tripleSkip
  split
  · exact le_refl _
  · split
    · simp
    · split
      · simp
      · exact le_refl _

theorem tripleLoop_line_ge (source : List Char) (q : Char) (start : Nat) (startLine : Int) :
    ∀ (fuel idx : Nat) (line : Int) (r : StrResult) (idx1 : Nat) (line1 : Int),
      tripleLoop source q start startLine fuel idx line = some (r, idx1, line1) →
      line ≤ line1 := by
  intro fuel
  induction fuel with
  | zero => intro idx line r idx1 line1 h; simp [tripleLoop] at h
  | succ n ih =>
    intro idx line r idx1 line1 h
    unfold tripleLoop at h
    have hs := tripleSkip_line_ge source idx line
    split at h
    · simp only at h
      split at h
      · simp only [Option.some.injEq, Prod.mk.injEq] at h
        omega
      · have := ih _ _ _ _ _ h
        omega
    · simp only [Option.some.injEq, Prod.mk.injEq] at h
      omega

theorem handleTripleQuotedString_line_ge (source : List Char) (idx : Nat) (line : Int)
    (r : StrResult) (idx1 : Nat) (line1 : Int)
    (h : handleTripleQuotedString source idx line = some (r, idx1, line1)) : line ≤ line1 := by
  unfold handleTripleQuotedString at h
  split at h
  · simp only at h
    split at h
    · exact tripleLoop_line_ge source _ _ _ _ _ _ _ _ _ h
    · simp only [Option.some.injEq, Prod.mk.injEq] at h
      omega
  · simp only [Option.some.injEq, Prod.mk.injEq] at h
    omega

/-- One iteration of the main loop of `tokenize` appends tokens in line order. -/
theorem lexStep_lines (source : List Char) (s s1 : LexState)
    (hs : lexStep source s = some (.ok s1)) : LineStep s s1 := by
  unfold lexStep at hs
  simp only at hs
  obtain ⟨h1, h2⟩ := beforeLexeme_lines source s
  generalize beforeLexeme source s = sa at hs h1 h2
  split at hs
  · cases hs; exact h1
  · split at hs
    · cases hs
      exact lineStep_trans h1 (lineStep_of_same (by simp) rfl)
    · split at hs
      · cases hs
        exact lineStep_trans h1 (lineStep_of_same (by simp) rfl)
      · split at hs
        · cases hs
          exact lineStep_trans h1 (lineStep_of_same (le_refl _) rfl)
        · split at hs
          · cases hs
          · rename_i line index idx lineNumber htriple
            cases hs
            have := handleTripleQuotedString_line_ge source _ _ _ _ _ htriple
            exact lineStep_trans h1 (lineStep_of_same this rfl)
          · rename_i text idx lineNumber htriple
            have hge := handleTripleQuotedString_line_ge source _ _ _ _ _ htriple
            split at hs
            · cases hs
              refine lineStep_trans h1 ⟨hge, [_], rfl, by simp, ?_⟩
              intro t ht
              simp only [List.mem_singleton] at ht
              subst ht
              exact ⟨le_refl _, hge⟩
            · have hq := lexToken_lines source _ s1 hs
              have hmid : LineStep sa { sa with i := idx, lineNumber := lineNumber } :=
                lineStep_of_same hge rfl
              exact lineStep_trans h1 (lineStep_trans hmid hq)

theorem tokenizeLoop_lines (source : List Char) :
    ∀ (fuel : Nat) (s s1 : LexState),
      tokenizeLoop source fuel s = some (.ok s1) → LineStep s s1 := by
  intro fuel
  induction fuel with
  | zero => intro s s1 h; simp [tokenizeLoop] at h
  | succ n ih =>
    intro s s1 h
    unfold tokenizeLoop at h
    split at h
    · split at h
      · cases h
      · cases h
      · rename_i s2 hstep
        exact lineStep_trans (lexStep_lines source s s2 hstep) (ih s2 s1 h)
    · cases h; exact lineStep_refl s

theorem drainIndents_lines (lineNumber : Int) :
    ∀ (stack : List Nat) (tokens : List Token),
      tokens.Pairwise (fun a b => a.lineNumber ≤ b.lineNumber) →
      (∀ t ∈ tokens, t.lineNumber ≤ lineNumber) →
      (drainIndents lineNumber stack tokens).2.Pairwise (fun a b => a.lineNumber ≤ b.lineNumber) := by
  intro stack
  induction stack with
  | nil => intro tokens hp _; simpa [drainIndents] using hp
  | cons top rest ih =>
    intro tokens hp hb
    cases rest with
    | nil => simpa [drainIndents] using hp
    | cons b t =>
      simp only [drainIndents]
      apply ih
      · rw [List.pairwise_append]
        refine ⟨hp, by simp, ?_⟩
        intro x hx y hy
        simp only [List.mem_singleton] at hy
        subst hy
        exact hb x hx
      · intro x hx
        rcases List.mem_append.1 hx with h | h
        · exact hb x h
        · simp only [List.mem_singleton] at h
          subst h
          exact le_refl _

/-- The line numbers of the tokens `tokenize` returns are non-decreasing along the list. -/
theorem tokenize_lines_sorted (lexer : Lexer) (source : List Char)
    (tokens : List Token) (errors : List Error) (lexer1 : Lexer)
    (h : tokenize lexer source = .returned tokens errors lexer1) :
    tokens.Pairwise (fun a b => a.lineNumber ≤ b.lineNumber) := by
  unfold tokenize tokenizeWith at h
  simp only at h
  split at h
  · cases h
  · cases h
  · rename_i s hloop
    obtain ⟨_, extra, htok, hp, hb⟩ := tokenizeLoop_lines source _ _ s hloop
    simp only [List.nil_append] at htok
    injection h with h1 h2 h3
    rw [← h1]
    apply drainIndents_lines
    · rw [htok]; exact hp
    · intro t ht
      rw [htok] at ht
      exact (hb t ht).2

/-- The loop of `parseProgram` is where the recovery signal is caught: when the body of an
iteration raises it with the cursor at a token `tkE`, the iteration adds no child, moves the
cursor past the tokens that are not on a later line than `tkE`, and the loop continues. -/
theorem programLoop_catches (tokens : List Token) (depth fuel : Nat)
    (children : List ParseTreeNode) (s s1 : Syntax_Analyzer.PState) (tkE : Token)
    (hlt : s.current < tokens.length)
    (hfail : Syntax_Analyzer.programItem tokens depth s.current s = .thrown s1)
    (hE : tokens[s1.current]? = some tkE) :
    Syntax_Analyzer.programLoop tokens depth (fuel + 1) children s =
      Syntax_Analyzer.programLoop tokens depth fuel children
        ⟨s1.current + ((tokens.drop s1.current).takeWhile
            (fun t => t.lineNumber ≤ tkE.lineNumber)).length, s1.log⟩ := by
  rw [Syntax_Analyzer.programLoop]
  rw [Syntax_Analyzer.bind_ok Syntax_Analyzer.getCurrent _ s s s.current rfl]
  rw [if_pos hlt]
  have htry : Syntax_Analyzer.tryCatch
      (Syntax_Analyzer.programItem tokens depth s.current)
      (do
        let tk ← Syntax_Analyzer.currentToken tokens
        Syntax_Analyzer.synchronize tokens tk.lineNumber
        pure none) s =
      .ok none ⟨s1.current + ((tokens.drop s1.current).takeWhile
            (fun t => t.lineNumber ≤ tkE.lineNumber)).length, s1.log⟩ := by
    simp only [Syntax_Analyzer.tryCatch, hfail]
    rw [Syntax_Analyzer.bind_ok (Syntax_Analyzer.currentToken tokens) _ s1 s1 tkE
      (Syntax_Analyzer.currentToken_of_some tokens s1 tkE hE)]
    rw [Syntax_Analyzer.bind_ok _ _ _ _ _ (Syntax_Analyzer.synchronize_eq tokens _ _)]
    rfl
  rw [Syntax_Analyzer.bind_ok _ _ s _ none htry]
  simp


/-! ### The inferrer returns on every token list -/

namespace Parser

theorem tokenIs_lt (tokens : List Token) (i : Nat) (p : Token → Bool)
    (h : tokenIs tokens i p = true) : i < tokens.length := by
  unfold tokenIs at h
  cases hc : tokens[i]? with
  | none => rw [hc] at h; cases h
  | some tk => exact (List.getElem?_eq_some_iff.mp hc).1

/-- With fuel `3 * (remaining tokens) + c` the four mutually recursive functions of the
expression reader return, and never move the cursor backwards; `parseOperand` and
`parseExpression` move it forwards when a token is left. -/
theorem expression_functions_some (tokens : List Token) :
    ∀ fuel : Nat,
      (∀ i st, 3 * (tokens.length - i) + 1 ≤ fuel →
        ∃ t v i1 st1, parseOperand tokens fuel i st = some (t, v, i1, st1) ∧ i ≤ i1 ∧
          (i < tokens.length → i < i1)) ∧
      (∀ value types i st, 3 * (tokens.length - i) + 3 ≤ fuel →
        ∃ v ts i1 st1, tupleLoop tokens fuel value types i st = some (v, ts, i1, st1) ∧ i ≤ i1) ∧
      (∀ i st, 3 * (tokens.length - i) + 2 ≤ fuel →
        ∃ t v i1 st1, parseExpression tokens fuel i st = some (t, v, i1, st1) ∧ i ≤ i1 ∧
          (i < tokens.length → i < i1)) ∧
      (∀ acc av i st, 3 * (tokens.length - i) + 1 ≤ fuel →
        ∃ t v i1 st1, exprLoop tokens fuel acc av i st = some (t, v, i1, st1) ∧ i ≤ i1) := by
  intro fuel
  induction fuel with
  | zero =>
    refine ⟨?_, ?_, ?_, ?_⟩ <;> intros <;> omega
  | succ k ih =>
    obtain ⟨ihO, ihT, ihE, ihL⟩ := ih
    refine ⟨?_, ?_, ?_, ?_⟩
    · intro i st hf
      rw [parseOperand]
      cases hc : tokens[i]? with
      | none =>
        have : ¬ i < tokens.length := by
          intro h
          rw [List.getElem?_eq_getElem h] at hc
          cases hc
        exact ⟨_, _, _, _, rfl, le_refl _, fun h => absurd h this⟩
      | some tk =>
        have hlt : i < tokens.length := (List.getElem?_eq_some_iff.mp hc).1
        dsimp only
        by_cases h1 : tk.type = .NUMBER
        · rw [if_pos h1]
          by_cases h2 : '.' ∈ tk.lexeme.data
          · rw [if_pos h2]
            exact ⟨_, _, _, _, rfl, by omega, fun _ => by omega⟩
          · rw [if_neg h2]
            exact ⟨_, _, _, _, rfl, by omega, fun _ => by omega⟩
        rw [if_neg h1]
        by_cases h3 : tk.type = .STRING_LITERAL
        · rw [if_pos h3]
          exact ⟨_, _, _, _, rfl, by omega, fun _ => by omega⟩
        rw [if_neg h3]
        by_cases h4 : tk.type = .FalseKeyword ∨ tk.type = .TrueKeyword
        · rw [if_pos h4]
          by_cases h5 : tk.lexeme = "True" ∨ tk.lexeme = "False"
          · rw [if_pos h5]
            exact ⟨_, _, _, _, rfl, by omega, fun _ => by omega⟩
          · rw [if_neg h5]
            exact ⟨_, _, _, _, rfl, by omega, fun _ => by omega⟩
        rw [if_neg h4]
        by_cases h6 : tk.type = .IDENTIFIER
        · rw [if_pos h6]
          exact ⟨_, _, _, _, rfl, by omega, fun _ => by omega⟩
        rw [if_neg h6]
        by_cases h7 : tk.lexeme = "("
        · rw [if_pos h7]
          obtain ⟨v, ts, i1, st1, h1, hge⟩ := ihT "(" [] (i + 1) st (by omega)
          rw [h1]
          dsimp only
          by_cases h8 : tokenIs tokens i1 (fun t => t.lexeme = ")") = true
          · rw [if_pos h8]
            cases ts with
            | nil => exact ⟨_, _, _, _, rfl, by omega, fun _ => by omega⟩
            | cons a rest =>
              cases rest with
              | nil => exact ⟨_, _, _, _, rfl, by omega, fun _ => by omega⟩
              | cons b rest2 => exact ⟨_, _, _, _, rfl, by omega, fun _ => by omega⟩
          · rw [if_neg h8]
            exact ⟨_, _, _, _, rfl, by omega, fun _ => by omega⟩
        rw [if_neg h7]
        by_cases h9 : tk.lexeme = "["
        · rw [if_pos h9]
          exact ⟨_, _, _, _, rfl, by split <;> omega, fun _ => by split <;> omega⟩
        rw [if_neg h9]
        by_cases h10 : tk.lexeme = "\x7b"
        · rw [if_pos h10]
          exact ⟨_, _, _, _, rfl, by split <;> omega, fun _ => by split <;> omega⟩
        rw [if_neg h10]
        exact ⟨_, _, _, _, rfl, by omega, fun _ => by omega⟩
    · intro value types i st hf
      rw [tupleLoop]
      split
      · rename_i htok
        have hlt := tokenIs_lt tokens i _ htok
        obtain ⟨t, v, i1, st1, h1, hge, hgt⟩ := ihE i st (by omega)
        have := hgt hlt
        rw [h1]
        simp only
        split
        · obtain ⟨v2, ts2, i2, st2, h2, hge2⟩ :=
            ihT (value ++ (v ++ ",")) (types ++ [t]) (i1 + 1) st1 (by omega)
          exact ⟨_, _, _, _, h2, by omega⟩
        · exact ⟨_, _, _, _, rfl, by omega⟩
      · exact ⟨_, _, _, _, rfl, le_refl _⟩
    · intro i st hf
      rw [parseExpression]
      obtain ⟨t, v, i1, st1, h1, hge, hgt⟩ := ihO i st (by omega)
      rw [h1]
      simp only
      obtain ⟨t2, v2, i2, st2, h2, hge2⟩ := ihL t v i1 st1 (by omega)
      exact ⟨_, _, _, _, h2, by omega, fun h => by have := hgt h; omega⟩
    · intro acc av i st hf
      rw [exprLoop]
      cases hc : tokens[i]? with
      | none => exact ⟨_, _, _, _, rfl, le_refl _⟩
      | some tk =>
        have hlt : i < tokens.length := (List.getElem?_eq_some_iff.mp hc).1
        simp only
        split
        · split
          · obtain ⟨t, v, i1, st1, h1, hge, _⟩ := ihO (i + 1) st (by omega)
            rw [h1]
            simp only
            obtain ⟨t2, v2, i2, st2, h2, hge2⟩ := ihL (unifyTypes acc t) "" i1 st1 (by omega)
            exact ⟨_, _, _, _, h2, by omega⟩
          · exact ⟨_, _, _, _, rfl, le_refl _⟩
        · exact ⟨_, _, _, _, rfl, le_refl _⟩

/-- `Parser::parseExpression` returns from every position of every token list, with the cursor
not before where it started, and after it when a token was left. -/
theorem parseExpression_some (tokens : List Token) (i : Nat) (st : SymbolTable) :
    ∃ t v i1 st1, parseExpression tokens (exprFuel tokens) i st = some (t, v, i1, st1) ∧
      i ≤ i1 ∧ (i < tokens.length → i < i1) :=
  (expression_functions_some tokens (exprFuel tokens)).2.2.1 i st (by
    unfold exprFuel
    have : tokens.length - i ≤ tokens.length := Nat.sub_le _ _
    omega)

end Parser

namespace Parser

theorem rhsLoop_some (tokens : List Token) :
    ∀ (fuel temp : Nat) (st : SymbolTable) (rhsValues : List (String × String)),
      tokens.length - temp + 1 ≤ fuel →
      ∃ r temp1 st1, rhsLoop tokens fuel temp st rhsValues = some (r, temp1, st1) ∧
        temp ≤ temp1 := by
  intro fuel
  induction fuel with
  | zero => intro temp st rhsValues h; omega
  | succ k ih =>
    intro temp st rhsValues hf
    rw [rhsLoop]
    by_cases hlt : temp < tokens.length
    · rw [if_pos hlt]
      obtain ⟨t, v, i1, st1, h1, hge, hgt⟩ := parseExpression_some tokens temp st
      have := hgt hlt
      rw [h1]
      dsimp only
      by_cases hc : tokenIs tokens i1 (fun t => t.type = .Comma) = true
      · rw [if_pos hc]
        obtain ⟨r, temp1, st2, h2, hge2⟩ := ih (i1 + 1) st1 (rhsValues ++ [(t, v)]) (by omega)
        exact ⟨_, _, _, h2, by omega⟩
      · rw [if_neg hc]
        exact ⟨_, _, _, rfl, by omega⟩
    · rw [if_neg hlt]
      exact ⟨_, _, _, rfl, le_refl _⟩

/-- One iteration of the loop of `Parser::parse` returns and moves the cursor forwards. -/
theorem parseStep_some (tokens : List Token) (tk : Token) (s : State) :
    ∃ s1, parseStep tokens tk s = some s1 ∧ s.i < s1.i := by
  unfold parseStep
  by_cases h1 : tk.type = .DefKeyword ∨ tk.type = .ClassKeyword
  · rw [if_pos h1]
    exact ⟨_, rfl, by simp⟩
  rw [if_neg h1]
  by_cases h2 : tk.type = .IDENTIFIER
  · rw [if_pos h2]
    by_cases h3 : s.lastKeyword = "def"
    · rw [if_pos h3]
      exact ⟨_, rfl, by simp⟩
    rw [if_neg h3]
    by_cases h4 : s.lastKeyword = "class"
    · rw [if_pos h4]
      exact ⟨_, rfl, by simp⟩
    rw [if_neg h4]
    dsimp only
    by_cases h5 : tokenIs tokens (s.i + (scanLhs (tokens.drop s.i)).2)
        (fun t => t.type = .OPERATOR ∧ t.lexeme = "=") = true
    · rw [if_pos h5]
      obtain ⟨r, temp1, st1, hr, hge⟩ := rhsLoop_some tokens (tokens.length + 1)
        (s.i + (scanLhs (tokens.drop s.i)).2 + 1) s.symbolTable [] (by omega)
      rw [hr]
      exact ⟨_, rfl, by simp only; omega⟩
    rw [if_neg h5]
    by_cases h6 : tokenIs tokens (s.i + 1) (fun t => t.type = .OPERATOR ∧ t.lexeme = "=") = true
    · rw [if_pos h6]
      obtain ⟨t, v, i1, st1, hr, hge, _⟩ := parseExpression_some tokens (s.i + 2)
        (if ¬ s.symbolTable.exist (tk.lexeme ++ "@" ++ tk.scope) tk.scope = true then
            s.symbolTable.addSymbol tk.lexeme "unknown" tk.lineNumber tk.scope
          else s.symbolTable.bump (tk.lexeme ++ "@" ++ tk.scope))
      rw [hr]
      exact ⟨_, rfl, by simp only; omega⟩
    rw [if_neg h6]
    exact ⟨_, rfl, by simp⟩
  rw [if_neg h2]
  exact ⟨_, rfl, by simp⟩

theorem parseLoop_some (tokens : List Token) :
    ∀ (fuel : Nat) (s : State), tokens.length - s.i + 1 ≤ fuel →
      ∃ s1, parseLoop tokens fuel s = some s1 := by
  intro fuel
  induction fuel with
  | zero => intro s h; omega
  | succ k ih =>
    intro s hf
    rw [parseLoop]
    cases hc : tokens[s.i]? with
    | none => exact ⟨s, rfl⟩
    | some tk =>
      have hlt : s.i < tokens.length := (List.getElem?_eq_some_iff.mp hc).1
      obtain ⟨s1, h1, hgt⟩ := parseStep_some tokens tk s
      dsimp only
      rw [h1]
      exact ih s1 (by omega)

/-- `Parser::parse` returns on every token list and every symbol table. -/
theorem parse_some (tokens : List Token) (symTable : SymbolTable) :
    ∃ st, parse tokens symTable = some st := by
  unfold parse
  obtain ⟨s1, h1⟩ := parseLoop_some tokens (tokens.length + 1)
    { i := 0, symbolTable := symTable, lastKeyword := "" } (by simp)
  rw [h1]
  exact ⟨_, rfl⟩

end Parser


/-! ### Claims C21 to C30 -/

/-- C25 (failing input). In the source `"""a`, newline, newline, `b"""`, newline, `x` three
newline characters precede `x` (it stands on line 4), and `tokenize` gives the token `x` the line
number 3: inside the triple-quoted string the character after a counted newline is passed over
without being looked at, so the second of two consecutive newlines is not counted. -/
theorem triple_quoted_newlines_undercounted :
    "\"\"\"a\n\nb\"\"\"\nx".toList =
      ['\"', '\"', '\"', 'a', '\n', '\n', 'b', '\"', '\"', '\"', '\n', 'x'] ∧
    1 + ("\"\"\"a\n\nb\"\"\"\nx".toList.take 11).count '\n' = 4 ∧
    tokenize Lexer.fresh "\"\"\"a\n\nb\"\"\"\nx".toList =
      .returned [⟨.STRING_LITERAL, "\"\"\"a\n\nb\"\"\"", 1, ""⟩, ⟨.IDENTIFIER, "x", 3, "global"⟩]
        [] ⟨[], [0], false, false⟩ :=
  ⟨by decide, by decide, by decide!⟩

/-- A single-line string with an escaped quote is one token: the escape of
`handleDoubleQuotedString` protects the quote. -/
theorem tokenize_escaped_quote_single_line :
    tokenize Lexer.fresh "\"a\\\"b\"".toList =
      .returned [⟨.STRING_LITERAL, "\"a\\\"b\"", 1, ""⟩] [] ⟨[], [0], false, false⟩ := by
  decide!

/-- C26 (failing input). On the twelve characters `"""a\"""b"""` `tokenize` ends the string at the
triple that follows the backslash: it returns the `STRING_LITERAL` `"""a\"""`, the identifier `b`,
and the diagnostic "Unterminated triple-quoted string" for the last three quotes (index 9). -/
theorem triple_quoted_backslash_does_not_escape :
    "\"\"\"a\\\"\"\"b\"\"\"".toList =
      ['\"', '\"', '\"', 'a', '\\', '\"', '\"', '\"', 'b', '\"', '\"', '\"'] ∧
    tokenize Lexer.fresh "\"\"\"a\\\"\"\"b\"\"\"".toList =
      .returned [⟨.STRING_LITERAL, "\"\"\"a\\\"\"\"", 1, ""⟩, ⟨.IDENTIFIER, "b", 1, "global"⟩]
        [⟨"Unterminated triple-quoted string", 1, 9⟩] ⟨[], [0], false, false⟩ :=
  ⟨by decide, by decide!⟩

theorem tokenize_comment_line_in_body :
    tokenize Lexer.fresh "def f():\n    x = 1\n# c\n    y = 2".toList =
      .returned
        [⟨.DefKeyword, "def", 1, ""⟩, ⟨.IDENTIFIER, "f", 1, "f"⟩, ⟨.LeftParenthesis, "(", 1, ""⟩,
         ⟨.RightParenthesis, ")", 1, ""⟩, ⟨.Colon, ":", 1, ""⟩, ⟨.INDENT, "", 2, ""⟩,
         ⟨.IDENTIFIER, "x", 2, "f"⟩, ⟨.OPERATOR, "=", 2, ""⟩, ⟨.NUMBER, "1", 2, ""⟩,
         ⟨.DEDENT, "", 3, ""⟩, ⟨.INDENT, "", 4, ""⟩, ⟨.IDENTIFIER, "y", 4, "global"⟩,
         ⟨.OPERATOR, "=", 4, ""⟩, ⟨.NUMBER, "2", 4, ""⟩, ⟨.DEDENT, "", 4, ""⟩]
        [] ⟨[], [0], false, false⟩ := by
  decide!

theorem tokenize_empty_line_in_body :
    tokenize Lexer.fresh "def f():\n    x = 1\n\n    y = 2".toList =
      .returned
        [⟨.DefKeyword, "def", 1, ""⟩, ⟨.IDENTIFIER, "f", 1, "f"⟩, ⟨.LeftParenthesis, "(", 1, ""⟩,
         ⟨.RightParenthesis, ")", 1, ""⟩, ⟨.Colon, ":", 1, ""⟩, ⟨.INDENT, "", 2, ""⟩,
         ⟨.IDENTIFIER, "x", 2, "f"⟩, ⟨.OPERATOR, "=", 2, ""⟩, ⟨.NUMBER, "1", 2, ""⟩,
         ⟨.IDENTIFIER, "y", 4, "f"⟩, ⟨.OPERATOR, "=", 4, ""⟩, ⟨.NUMBER, "2", 4, ""⟩,
         ⟨.DEDENT, "", 4, ""⟩]
        [] ⟨[⟨"f", 0⟩], [0], false, false⟩ := by
  decide!

/-- C27 (failing input). The source `def f():` / `x = 1` / `# c` / `y = 2` (body lines indented by
four spaces, the comment at column 0) and the source in which the content of the comment line is
deleted give different token lists: with the comment line `tokenize` emits a `DEDENT` and an
`INDENT` around it and gives `y` the scope `global` instead of `f`. -/
theorem comment_line_changes_tokens :
    ∃ tokens errors lexer tokens1 errors1 lexer1,
      tokenize Lexer.fresh "def f():\n    x = 1\n# c\n    y = 2".toList =
        .returned tokens errors lexer ∧
      tokenize Lexer.fresh "def f():\n    x = 1\n\n    y = 2".toList =
        .returned tokens1 errors1 lexer1 ∧
      kindsLexemesScopes tokens ≠ kindsLexemesScopes tokens1 ∧
      countIndent tokens = 2 ∧ countIndent tokens1 = 1 ∧
      (.IDENTIFIER, "y", "global") ∈ kindsLexemesScopes tokens ∧
      (.IDENTIFIER, "y", "f") ∈ kindsLexemesScopes tokens1 :=
  ⟨_, _, _, _, _, _, tokenize_comment_line_in_body, tokenize_empty_line_in_body,
    by decide!, by decide, by decide, by decide!, by decide!⟩

/-! #### Symbol keys -/

theorem takeWhile_ne_append_cons (c : Char) (name rest : List Char) (h : c ∉ name) :
    (name ++ c :: rest).takeWhile (fun d => d ≠ c) = name := by
  induction name with
  | nil => simp
  | cons a tail ih =>
    have ha : a ≠ c := fun e => h (by simp [e])
    have ht : c ∉ tail := fun e => h (by simp [e])
    rw [List.cons_append, List.takeWhile_cons, if_pos (by simpa using ha), ih ht]

theorem splitKey_key (name scope : String) (h : '@' ∉ name.data) :
    splitKey (name ++ "@" ++ scope) = (name, scope) := by
  have hdata : (name ++ "@" ++ scope).data = name.data ++ '@' :: scope.data := by
    simp [String.data_append]
  have e1 : List.take name.data.length (name.data ++ '@' :: scope.data) = name.data := by simp
  have e2 : List.drop (name.data.length + 1) (name.data ++ '@' :: scope.data) = scope.data := by
    rw [List.drop_append]
    rfl
  unfold splitKey
  simp only [hdata, takeWhile_ne_append_cons '@' name.data scope.data h]
  rw [if_pos (by simp), e1, e2]

/-- C24. For names that hold no `@`, the key `name + "@" + scope` determines the name and the
scope: two such keys are equal only for equal names and equal scopes, and the split of
`printSymbols` at the first `@` gives back the name and the scope. -/
theorem symbol_key_unique (n1 n2 s1 s2 : String) (h1 : '@' ∉ n1.data) (h2 : '@' ∉ n2.data) :
    (n1 ++ "@" ++ s1 = n2 ++ "@" ++ s2 → n1 = n2 ∧ s1 = s2) ∧
      splitKey (n1 ++ "@" ++ s1) = (n1, s1) := by
  refine ⟨?_, splitKey_key n1 s1 h1⟩
  intro h
  have e1 := splitKey_key n1 s1 h1
  have e2 := splitKey_key n2 s2 h2
  rw [h, e2] at e1
  simp only [Prod.mk.injEq] at e1
  exact ⟨e1.1.symm, e1.2.symm⟩

theorem symbol_key_unique_witness :
    ("y" ++ "@" ++ "inner@outer" = "y" ++ "@" ++ "inner@outer" →
        "y" = "y" ∧ "inner@outer" = "inner@outer") ∧
      splitKey ("y" ++ "@" ++ "inner@outer") = ("y", "inner@outer") :=
  symbol_key_unique "y" "y" "inner@outer" "inner@outer" (by decide) (by decide)


/-! #### The indent stack -/

theorem StackOk.ne_nil {l : List Nat} (h : StackOk l) : l ≠ [] := by
  intro e
  rw [e] at h
  simp [StackOk] at h

theorem StackOk.rest {top next : Nat} {l : List Nat} (h : StackOk (top :: next :: l)) :
    StackOk (next :: l) := by
  obtain ⟨hb, hp⟩ := h
  exact ⟨by simpa [List.getLast?_cons_cons] using hb, (List.pairwise_cons.1 hp).2⟩

theorem StackOk.le_back {l : List Nat} (h : StackOk l) : ∀ x ∈ l, x ≤ back l := by
  intro x hx
  cases l with
  | nil => cases hx
  | cons top rest =>
    rcases List.mem_cons.1 hx with rfl | hr
    · exact le_refl _
    · exact Nat.le_of_lt ((List.pairwise_cons.1 h.2).1 x hr)

theorem StackOk.push {l : List Nat} (h : StackOk l) (w : Nat) (hw : back l < w) :
    StackOk (w :: l) := by
  refine ⟨?_, ?_⟩
  · cases l with
    | nil => exact absurd rfl h.ne_nil
    | cons b t => simpa [List.getLast?_cons_cons] using h.1
  · refine List.pairwise_cons.2 ⟨?_, h.2⟩
    intro x hx
    exact Nat.lt_of_le_of_lt (h.le_back x hx) hw

/-- On a strictly decreasing list the elements greater than `w` form a prefix. -/
theorem takeWhile_eq_filter_of_sorted (w : Nat) :
    ∀ l : List Nat, l.Pairwise (fun upper lower => lower < upper) →
      l.takeWhile (fun x => decide (w < x)) = l.filter (fun x => decide (w < x)) ∧
      l.dropWhile (fun x => decide (w < x)) = l.filter (fun x => decide (x ≤ w)) := by
  intro l
  induction l with
  | nil => intro _; simp
  | cons a rest ih =>
    intro hp
    obtain ⟨ha, hr⟩ := List.pairwise_cons.1 hp
    by_cases hw : w < a
    · have hna : ¬ a ≤ w := by omega
      obtain ⟨i1, i2⟩ := ih hr
      simp [List.takeWhile_cons, List.dropWhile_cons, List.filter_cons, hw, hna, i1, i2]
    · have hle : a ≤ w := by omega
      have hall : ∀ x ∈ rest, ¬ w < x := by
        intro x hx
        have := ha x hx
        omega
      have hall2 : ∀ x ∈ rest, x ≤ w := by
        intro x hx
        have := ha x hx
        omega
      have f1 : rest.filter (fun x => decide (w < x)) = [] := by
        rw [List.filter_eq_nil_iff]
        intro x hx
        simpa using hall x hx
      have f2 : rest.filter (fun x => decide (x ≤ w)) = rest := by
        rw [List.filter_eq_self]
        intro x hx
        simpa using hall2 x hx
      simp [List.takeWhile_cons, List.dropWhile_cons, List.filter_cons, hw, hle, f1, f2]

/-- The `DEDENT` loop on a well-formed stack: it pops the levels greater than `newIndent`, emits
one `DEDENT` for each, records no diagnostic, and never reaches the branch
"Dedent exceeds indentation level". -/
theorem dedentLoop_spec (newIndent : Nat) (lineNumber : Int) (start : Nat) :
    ∀ (stack : List Nat) (s : LexState), StackOk stack →
      (dedentLoop newIndent lineNumber start stack s).indentStack =
          stack.dropWhile (fun l => decide (newIndent < l)) ∧
        (dedentLoop newIndent lineNumber start stack s).tokens =
          s.tokens ++ List.replicate (stack.takeWhile (fun l => decide (newIndent < l))).length
            ⟨.DEDENT, "", lineNumber, ""⟩ ∧
        (dedentLoop newIndent lineNumber start stack s).errors = s.errors := by
  intro stack
  induction stack with
  | nil => intro s h; exact absurd rfl h.ne_nil
  | cons top rest ih =>
    intro s hok
    unfold dedentLoop
    by_cases hgt : top > newIndent
    · rw [if_pos hgt]
      cases rest with
      | nil =>
        have : top = 0 := by simpa [StackOk] using hok.1
        omega
      | cons next l =>
        simp only [List.isEmpty_cons, Bool.false_eq_true, if_false]
        obtain ⟨h1, h2, h3⟩ := ih
          { s with tokens := s.tokens ++ [{ type := .DEDENT, lexeme := "", lineNumber := lineNumber }],
                   scopeStack := popScopes (back (next :: l)) s.scopeStack } hok.rest
        have hd : decide (newIndent < top) = true := by simpa using hgt
        have e1 : (top :: next :: l).dropWhile (fun l => decide (newIndent < l)) =
            (next :: l).dropWhile (fun l => decide (newIndent < l)) := by
          rw [List.dropWhile_cons, hd]
          rfl
        have e2 : (top :: next :: l).takeWhile (fun l => decide (newIndent < l)) =
            top :: (next :: l).takeWhile (fun l => decide (newIndent < l)) := by
          rw [List.takeWhile_cons, hd]
          rfl
        refine ⟨?_, ?_, ?_⟩
        · rw [h1, e1]
        · rw [h2, e2, List.length_cons, List.replicate_succ]
          simp
        · rw [h3]
    · rw [if_neg hgt]
      have hd : decide (newIndent < top) = false := by simpa using hgt
      refine ⟨?_, ?_, ?_⟩
      · rw [List.dropWhile_cons, hd]
        simp
      · rw [List.takeWhile_cons, hd]
        simp
      · rfl

theorem StackOk.zero_mem {l : List Nat} (h : StackOk l) : 0 ∈ l :=
  List.mem_of_mem_getLast? (by rw [h.1]; exact rfl)

theorem back_mem {l : List Nat} (h : l ≠ []) : back l ∈ l := by
  cases l with
  | nil => exact absurd rfl h
  | cons a t => simp [back]

theorem StackOk.filter_le {l : List Nat} (h : StackOk l) (w : Nat) :
    (l.filter (fun x => decide (x ≤ w))) ≠ [] ∧
      ∀ x ∈ l.filter (fun x => decide (x ≤ w)), x ≤ back (l.filter (fun x => decide (x ≤ w))) := by
  have hz : 0 ∈ l.filter (fun x => decide (x ≤ w)) := by
    rw [List.mem_filter]
    exact ⟨h.zero_mem, by simp⟩
  refine ⟨List.ne_nil_of_mem hz, ?_⟩
  have hp : (l.filter (fun x => decide (x ≤ w))).Pairwise (fun upper lower => lower < upper) :=
    List.Pairwise.sublist (List.filter_sublist l) h.2
  intro x hx
  generalize l.filter (fun x => decide (x ≤ w)) = f at hx hp
  cases f with
  | nil => cases hx
  | cons top rest =>
    rcases List.mem_cons.1 hx with rfl | hr
    · exact le_refl _
    · exact Nat.le_of_lt ((List.pairwise_cons.1 hp).1 x hr)

/-- The comparison at the end of `processIndentation` for a line whose indentation `w` is
smaller than the top of a well-formed indent stack (strictly increasing, `0` at the bottom, as
`tokenize` keeps it): it emits exactly one `DEDENT` for each stacked level greater than `w` and
leaves exactly the levels not greater than `w` on the stack.  When the new top equals `w` it
records no diagnostic; otherwise it records exactly the diagnostic "Unindent does not match outer
level", `w` is not on the stack, and the new top is the largest stacked level smaller than `w`. -/
theorem compareIndent_dedent (w : Nat) (lineNumber : Int) (start : Nat) (s : LexState)
    (hok : StackOk s.indentStack) (hlt : w < back s.indentStack) :
    (compareIndent w lineNumber start s).tokens =
        s.tokens ++ List.replicate (s.indentStack.countP (fun l => decide (w < l)))
          ⟨.DEDENT, "", lineNumber, ""⟩ ∧
      (compareIndent w lineNumber start s).indentStack =
        s.indentStack.filter (fun l => decide (l ≤ w)) ∧
      (back (compareIndent w lineNumber start s).indentStack = w →
        (compareIndent w lineNumber start s).errors = s.errors) ∧
      (back (compareIndent w lineNumber start s).indentStack ≠ w →
        (compareIndent w lineNumber start s).errors =
            s.errors ++ [⟨"Unindent does not match outer level", lineNumber, start⟩] ∧
          w ∉ (compareIndent w lineNumber start s).indentStack ∧
          back (compareIndent w lineNumber start s).indentStack < w ∧
          ∀ l ∈ s.indentStack, l < w → l ≤ back (compareIndent w lineNumber start s).indentStack) := by
  obtain ⟨h1, h2, h3⟩ := dedentLoop_spec w lineNumber start s.indentStack s hok
  obtain ⟨e1, e2⟩ := takeWhile_eq_filter_of_sorted w s.indentStack hok.2
  rw [e2] at h1
  rw [e1, ← List.countP_eq_length_filter] at h2
  obtain ⟨hne, hle⟩ := hok.filter_le w
  have hstack : (compareIndent w lineNumber start s).indentStack =
      s.indentStack.filter (fun l => decide (l ≤ w)) := by
    unfold compareIndent
    rw [if_neg (by omega), if_pos hlt]
    dsimp only
    split
    · exact h1
    · exact h1
  have htok : (compareIndent w lineNumber start s).tokens =
      s.tokens ++ List.replicate (s.indentStack.countP (fun l => decide (w < l)))
        ⟨.DEDENT, "", lineNumber, ""⟩ := by
    unfold compareIndent
    rw [if_neg (by omega), if_pos hlt]
    dsimp only
    split
    · exact h2
    · exact h2
  refine ⟨htok, hstack, ?_, ?_⟩
  · intro hb
    rw [hstack] at hb
    unfold compareIndent
    rw [if_neg (by omega), if_pos hlt]
    dsimp only
    rw [h1, if_neg (by simpa using hb)]
    exact h3
  · intro hb
    rw [hstack] at hb ⊢
    have hmem := back_mem hne
    have hbw : back (s.indentStack.filter (fun l => decide (l ≤ w))) ≤ w := by
      simpa using (List.mem_filter.1 hmem).2
    refine ⟨?_, ?_, by omega, ?_⟩
    · unfold compareIndent
      rw [if_neg (by omega), if_pos hlt]
      dsimp only
      rw [h1, if_pos hb]
      simp only [LexState.report, h3]
    · intro hw
      have := hle w hw
      omega
    · intro l hl hlw
      exact hle l (List.mem_filter.2 ⟨hl, by simpa using Nat.le_of_lt hlw⟩)

theorem compareIndent_dedent_witness :
    (compareIndent 2 4 26 ⟨[], [], 4, 28, [8, 4, 0], true, false, []⟩).tokens =
        [] ++ List.replicate (([8, 4, 0] : List Nat).countP (fun l => decide (2 < l)))
          ⟨.DEDENT, "", 4, ""⟩ ∧
      (compareIndent 2 4 26 ⟨[], [], 4, 28, [8, 4, 0], true, false, []⟩).indentStack =
        ([8, 4, 0] : List Nat).filter (fun l => decide (l ≤ 2)) ∧
      (back (compareIndent 2 4 26 ⟨[], [], 4, 28, [8, 4, 0], true, false, []⟩).indentStack = 2 →
        (compareIndent 2 4 26 ⟨[], [], 4, 28, [8, 4, 0], true, false, []⟩).errors = []) ∧
      (back (compareIndent 2 4 26 ⟨[], [], 4, 28, [8, 4, 0], true, false, []⟩).indentStack ≠ 2 →
        (compareIndent 2 4 26 ⟨[], [], 4, 28, [8, 4, 0], true, false, []⟩).errors =
            [] ++ [⟨"Unindent does not match outer level", 4, 26⟩] ∧
          2 ∉ (compareIndent 2 4 26 ⟨[], [], 4, 28, [8, 4, 0], true, false, []⟩).indentStack ∧
          back (compareIndent 2 4 26 ⟨[], [], 4, 28, [8, 4, 0], true, false, []⟩).indentStack < 2 ∧
          ∀ l ∈ ([8, 4, 0] : List Nat), l < 2 →
            l ≤ back (compareIndent 2 4 26 ⟨[], [], 4, 28, [8, 4, 0], true, false, []⟩).indentStack) :=
  compareIndent_dedent 2 4 26 ⟨[], [], 4, 28, [8, 4, 0], true, false, []⟩
    (by unfold StackOk; exact ⟨by decide, by decide⟩) (by decide)

/-- The example behind the witness run as a whole: two `DEDENT`s for the levels 8 and 4, the stack
left at `[0]`, one diagnostic. -/
theorem tokenize_unindent_mismatch :
    tokenize Lexer.fresh "if a:\n    if b:\n        c\n  d".toList =
      .returned
        [⟨.IfKeyword, "if", 1, ""⟩, ⟨.IDENTIFIER, "a", 1, "global"⟩, ⟨.Colon, ":", 1, ""⟩,
         ⟨.INDENT, "", 2, ""⟩, ⟨.IfKeyword, "if", 2, ""⟩, ⟨.IDENTIFIER, "b", 2, "global"⟩,
         ⟨.Colon, ":", 2, ""⟩, ⟨.INDENT, "", 3, ""⟩, ⟨.IDENTIFIER, "c", 3, "global"⟩,
         ⟨.DEDENT, "", 4, ""⟩, ⟨.DEDENT, "", 4, ""⟩, ⟨.IDENTIFIER, "d", 4, "global"⟩]
        [⟨"Unindent does not match outer level", 4, 26⟩] ⟨[], [0], false, false⟩ := by
  decide!


/-! #### Diagnostics recorded by one iteration -/

theorem invalid_character_message (c : Char) :
    "Invalid character '" ++ String.mk [c] ++ "'" ∉ indentationMessages := by
  intro h
  have hd : ∀ m : String, "Invalid character '" ++ String.mk [c] ++ "'" = m →
      m.data.head? = some 'I' := by
    intro m e
    rw [← e]
    simp only [String.data_append]
    rfl
  simp only [indentationMessages, List.mem_cons, List.mem_singleton, List.not_mem_nil,
    or_false] at h
  rcases h with h | h | h
  · have := hd _ h
    revert this
    decide
  · have := hd _ h
    revert this
    decide
  · have := hd _ h
    revert this
    decide

theorem lexWord_errors (source : List Char) (s : LexState) :
    (lexWord source s).errors = s.errors := by
  unfold lexWord
  simp only
  split
  · split
    · split <;> rfl
    · rfl
  · rfl

theorem lexOperator_errors (source : List Char) (s s1 : LexState)
    (h : lexOperator source s = some s1) : s1.errors = s.errors := by
  unfold lexOperator at h
  simp only at h
  split at h
  · cases h; rfl
  · split at h
    · cases h; rfl
    · split at h
      · cases h; rfl
      · cases h

theorem doubleLoop_unterminated (source : List Char) (q : Char) (start : Nat) (startLine : Int) :
    ∀ (fuel idx : Nat) (line : Int) (index idx1 : Nat),
      doubleLoop source q start startLine fuel idx = some (.unterminated line index, idx1) →
      line = startLine ∧ index = start := by
  intro fuel
  induction fuel with
  | zero => intro idx line index idx1 h; simp [doubleLoop] at h
  | succ n ih =>
    intro idx line index idx1 h
    unfold doubleLoop at h
    split at h
    · split at h
      · exact ih _ _ _ _ h
      · split at h
        · simp only [Option.some.injEq, Prod.mk.injEq, StrResult.unterminated.injEq] at h
          exact ⟨h.1.1.symm, h.1.2.symm⟩
        · split at h
          · simp at h
          · exact ih _ _ _ _ h
    · simp only [Option.some.injEq, Prod.mk.injEq, StrResult.unterminated.injEq] at h
      exact ⟨h.1.1.symm, h.1.2.symm⟩

theorem handleDoubleQuotedString_unterminated_line (source : List Char) (idx : Nat)
    (lineNumber line : Int) (index idx1 : Nat)
    (h : handleDoubleQuotedString source idx lineNumber = some (.unterminated line index, idx1)) :
    line = lineNumber := by
  unfold handleDoubleQuotedString at h
  split at h
  · exact (doubleLoop_unterminated source _ _ _ _ _ _ _ _ h).1
  · simp only [Option.some.injEq, Prod.mk.injEq, StrResult.unterminated.injEq] at h
    exact h.1.1.symm

theorem tripleLoop_unterminated (source : List Char) (q : Char) (start : Nat) (startLine : Int) :
    ∀ (fuel idx : Nat) (lineNumber line : Int) (index idx1 : Nat) (line1 : Int),
      tripleLoop source q start startLine fuel idx lineNumber =
        some (.unterminated line index, idx1, line1) →
      line = startLine := by
  intro fuel
  induction fuel with
  | zero => intro idx lineNumber line index idx1 line1 h; simp [tripleLoop] at h
  | succ n ih =>
    intro idx lineNumber line index idx1 line1 h
    unfold tripleLoop at h
    split at h
    · simp only at h
      split at h
      · simp at h
      · exact ih _ _ _ _ _ _ h
    · simp only [Option.some.injEq, Prod.mk.injEq, StrResult.unterminated.injEq] at h
      exact h.1.1.symm

theorem handleTripleQuotedString_unterminated_line (source : List Char) (idx : Nat)
    (lineNumber line : Int) (index idx1 : Nat) (line1 : Int)
    (h : handleTripleQuotedString source idx lineNumber =
      some (.unterminated line index, idx1, line1)) :
    line = lineNumber := by
  unfold handleTripleQuotedString at h
  split at h
  · simp only at h
    split at h
    · exact tripleLoop_unterminated source _ _ _ _ _ _ _ _ _ _ h
    · simp at h
  · simp at h

/-- The diagnostics `lexToken` records carry the current line number and are none of the
indentation diagnostics. -/
theorem lexToken_errors (source : List Char) (s s1 : LexState)
    (h : lexToken source s = some (.ok s1)) :
    ∃ extra, s1.errors = s.errors ++ extra ∧
      ∀ e ∈ extra, e.line = s.lineNumber ∧ e.message ∉ indentationMessages := by
  unfold lexToken at h
  simp only at h
  split at h
  · cases h
    exact ⟨[], by simp [lexWord_errors], by simp⟩
  · split at h
    · rename_i s2 hop
      cases h
      split at hop
      · exact ⟨[], by simp [lexOperator_errors source s _ hop], by simp⟩
      · cases hop
    · split at h
      · split at h
        · cases h
        · cases h
          exact ⟨[], by simp, by simp⟩
        · rename_i line index idx hstr
          cases h
          have hl := handleDoubleQuotedString_unterminated_line source _ _ _ _ _ hstr
          refine ⟨[_], rfl, ?_⟩
          intro e he
          simp only [List.mem_singleton] at he
          subst he
          exact ⟨hl, (by decide : "Unterminated string literal" ∉ indentationMessages)⟩
      · split at h
        · simp only [Option.some.injEq] at h
          unfold lexNumber at h
          simp only at h
          split at h
          · split at h
            · cases h
            · split at h
              · cases h
                refine ⟨[_], rfl, ?_⟩
                intro e he
                simp only [List.mem_singleton] at he
                subst he
                exact ⟨rfl, (by decide :
                  "leading zeros in decimal integer literals are not permitted" ∉
                    indentationMessages)⟩
              · cases h
                exact ⟨[], by simp, by simp⟩
          · cases h
            exact ⟨[], by simp, by simp⟩
        · split at h
          · cases h
            exact ⟨[], by simp, by simp⟩
          · cases h
            refine ⟨[_], rfl, ?_⟩
            intro e he
            simp only [List.mem_singleton] at he
            subst he
            exact ⟨rfl, invalid_character_message _⟩

theorem tripleLoop_str_length (source : List Char) (q : Char) (start : Nat) (startLine : Int) :
    ∀ (fuel idx : Nat) (lineNumber : Int) (text : String) (idx1 : Nat) (line1 : Int),
      start ≤ idx →
      tripleLoop source q start startLine fuel idx lineNumber = some (.str text, idx1, line1) →
      text.length ≠ 0 := by
  intro fuel
  induction fuel with
  | zero => intro idx lineNumber text idx1 line1 _ h; simp [tripleLoop] at h
  | succ n ih =>
    intro idx lineNumber text idx1 line1 hle h
    unfold tripleLoop at h
    have hb := tripleSkip_bounds source idx lineNumber
    split at h
    · rename_i hlt
      simp only at h
      split at h
      · simp only [Option.some.injEq, Prod.mk.injEq, StrResult.str.injEq] at h
        rw [← h.1]
        simp only [substr, String.length, List.length_take, List.length_drop]
        omega
      · exact ih _ _ _ _ _ (by omega) h
    · simp at h

/-- When `handleTripleQuotedString` returns the empty string it has changed neither `idx` nor
the line counter. -/
theorem handleTripleQuotedString_empty (source : List Char) (idx : Nat) (lineNumber : Int)
    (text : String) (idx1 : Nat) (line1 : Int)
    (h : handleTripleQuotedString source idx lineNumber = some (.str text, idx1, line1))
    (hlen : text.length = 0) : idx1 = idx ∧ line1 = lineNumber := by
  unfold handleTripleQuotedString at h
  split at h
  · simp only at h
    split at h
    · exact absurd hlen (tripleLoop_str_length source _ _ _ _ _ _ _ _ _ (by omega) h)
    · simp only [Option.some.injEq, Prod.mk.injEq] at h
      exact ⟨h.2.1.symm, h.2.2.symm⟩
  · simp only [Option.some.injEq, Prod.mk.injEq] at h
    exact ⟨h.2.1.symm, h.2.2.symm⟩

theorem dedentLoop_stackOk (newIndent : Nat) (lineNumber : Int) (start : Nat) :
    ∀ (stack : List Nat) (s : LexState), StackOk stack →
      StackOk (dedentLoop newIndent lineNumber start stack s).indentStack := by
  intro stack
  induction stack with
  | nil => intro s h; exact absurd rfl h.ne_nil
  | cons top rest ih =>
    intro s hok
    unfold dedentLoop
    by_cases hgt : top > newIndent
    · rw [if_pos hgt]
      cases rest with
      | nil =>
        have : top = 0 := by simpa [StackOk] using hok.1
        omega
      | cons next l =>
        simp only [List.isEmpty_cons, Bool.false_eq_true, if_false]
        exact ih _ hok.rest
    · rw [if_neg hgt]
      exact hok

theorem compareIndent_facts (newIndent : Nat) (lineNumber : Int) (start : Nat) (s : LexState)
    (hok : StackOk s.indentStack) :
    StackOk (compareIndent newIndent lineNumber start s).indentStack ∧
      ∃ extra, (compareIndent newIndent lineNumber start s).errors = s.errors ++ extra ∧
        ∀ e ∈ extra, e.line = lineNumber ∧ e.message = "Unindent does not match outer level" := by
  unfold compareIndent
  by_cases h1 : newIndent > back s.indentStack
  · rw [if_pos h1]
    exact ⟨hok.push newIndent h1, [], by simp, by simp⟩
  · rw [if_neg h1]
    by_cases h2 : newIndent < back s.indentStack
    · rw [if_pos h2]
      have hs := dedentLoop_stackOk newIndent lineNumber start s.indentStack s hok
      have he := (dedentLoop_spec newIndent lineNumber start s.indentStack s hok).2.2
      dsimp only
      split
      · refine ⟨hs, [⟨"Unindent does not match outer level", lineNumber, start⟩],
          by simp only [LexState.report, he], ?_⟩
        intro e hmem
        simp only [List.mem_singleton] at hmem
        subst hmem
        exact ⟨rfl, rfl⟩
      · exact ⟨hs, [], by simp [he], by simp⟩
    · rw [if_neg h2]
      exact ⟨hok, [], by simp, by simp⟩

theorem processIndentation_facts (source : List Char) (s : LexState)
    (hok : StackOk s.indentStack) :
    StackOk (processIndentation source s).indentStack ∧
      ∃ extra, (processIndentation source s).errors = s.errors ++ extra ∧
        ∀ e ∈ extra, e.line = s.lineNumber ∧
          (e.message = "Mixed tabs and spaces in indentation" ∨
            e.message = "Unindent does not match outer level") := by
  unfold processIndentation
  simp only
  split
  · split
    · refine ⟨hok, [_], rfl, ?_⟩
      intro e hmem
      simp only [List.mem_singleton] at hmem
      subst hmem
      exact ⟨rfl, Or.inl rfl⟩
    · obtain ⟨h1, extra, h2, h3⟩ := compareIndent_facts (List.count '\t' (List.takeWhile
        (fun c => decide (c = ' ') || decide (c = '\t')) (List.drop s.i source)) * 4 +
        List.count ' ' (List.takeWhile (fun c => decide (c = ' ') || decide (c = '\t'))
          (List.drop s.i source))) s.lineNumber s.i
        (LexState.report { s with i := s.i + (List.takeWhile
          (fun c => decide (c = ' ') || decide (c = '\t')) (List.drop s.i source)).length }
          ⟨"Mixed tabs and spaces in indentation", s.lineNumber, s.i⟩) hok
      refine ⟨h1, ⟨"Mixed tabs and spaces in indentation", s.lineNumber, s.i⟩ :: extra, ?_, ?_⟩
      · rw [h2]
        simp [LexState.report]
      · intro e hmem
        rcases List.mem_cons.1 hmem with rfl | hr
        · exact ⟨rfl, Or.inl rfl⟩
        · exact ⟨(h3 e hr).1, Or.inr (h3 e hr).2⟩
  · split
    · exact ⟨hok, [], by simp, by simp⟩
    · obtain ⟨h1, extra, h2, h3⟩ := compareIndent_facts (List.count '\t' (List.takeWhile
        (fun c => decide (c = ' ') || decide (c = '\t')) (List.drop s.i source)) * 4 +
        List.count ' ' (List.takeWhile (fun c => decide (c = ' ') || decide (c = '\t'))
          (List.drop s.i source))) s.lineNumber s.i
        { s with i := s.i + (List.takeWhile
          (fun c => decide (c = ' ') || decide (c = '\t')) (List.drop s.i source)).length } hok
      refine ⟨h1, extra, h2, ?_⟩
      intro e hmem
      exact ⟨(h3 e hmem).1, Or.inr (h3 e hmem).2⟩

theorem beforeLexeme_facts (source : List Char) (s : LexState) (hok : StackOk s.indentStack) :
    StackOk (beforeLexeme source s).indentStack ∧
      ∃ extra, (beforeLexeme source s).errors = s.errors ++ extra ∧
        (∀ e ∈ extra, e.line = s.lineNumber ∧
          (e.message = "Mixed tabs and spaces in indentation" ∨
            e.message = "Unindent does not match outer level")) ∧
        (¬ (s.atLineStart = true ∧ s.lineContinuation = false) → extra = []) := by
  unfold beforeLexeme
  simp only
  split
  · rename_i hc
    obtain ⟨h1, extra, h2, h3⟩ := processIndentation_facts source s hok
    refine ⟨h1, extra, h2, h3, ?_⟩
    intro hn
    exact absurd ⟨hc.1, by simpa using hc.2⟩ hn
  · exact ⟨hok, [], by simp, by simp, fun _ => rfl⟩

/-- One iteration of the main loop from a state with a well-formed indent stack: the stack stays
well formed; the diagnostics recorded are those of the indentation handling (only
"Mixed tabs and spaces in indentation" and "Unindent does not match outer level", and none when
the iteration does not start a line or continues one) followed by those of the lexeme (none of
them an indentation diagnostic); all carry the line number the iteration started with. -/
theorem lexStep_facts (source : List Char) (s s1 : LexState) (hok : StackOk s.indentStack)
    (h : lexStep source s = some (.ok s1)) :
    StackOk s1.indentStack ∧
      ∃ indent lexeme, s1.errors = s.errors ++ indent ++ lexeme ∧
        (∀ e ∈ indent, e.line = s.lineNumber ∧
          (e.message = "Mixed tabs and spaces in indentation" ∨
            e.message = "Unindent does not match outer level")) ∧
        (∀ e ∈ lexeme, e.line = s.lineNumber ∧ e.message ∉ indentationMessages) ∧
        (¬ (s.atLineStart = true ∧ s.lineContinuation = false) → indent = []) := by
  unfold lexStep at h
  simp only at h
  obtain ⟨hs, indent, he, hi, hn⟩ := beforeLexeme_facts source s hok
  have hline := (beforeLexeme_lines source s).2
  generalize beforeLexeme source s = sa at h hs he hline
  have base : sa.errors = s.errors ++ indent ++ [] := by simpa using he
  split at h
  · cases h; exact ⟨hs, indent, [], base, hi, by simp, hn⟩
  · split at h
    · cases h; exact ⟨hs, indent, [], base, hi, by simp, hn⟩
    · split at h
      · cases h; exact ⟨hs, indent, [], base, hi, by simp, hn⟩
      · split at h
        · cases h; exact ⟨hs, indent, [], base, hi, by simp, hn⟩
        · split at h
          · cases h
          · rename_i line index idx lineNumber htriple
            cases h
            have hl := handleTripleQuotedString_unterminated_line source _ _ _ _ _ _ htriple
            refine ⟨hs, indent, [⟨"Unterminated triple-quoted string", line, index⟩], ?_, hi, ?_,
              hn⟩
            · simp only [he]
            · intro e hmem
              simp only [List.mem_singleton] at hmem
              subst hmem
              exact ⟨by rw [hl, hline],
                (by decide : "Unterminated triple-quoted string" ∉ indentationMessages)⟩
          · split at h
            · cases h; exact ⟨hs, indent, [], base, hi, by simp, hn⟩
            · rename_i text idx lineNumber htriple hlen
              have hzero := handleTripleQuotedString_empty source _ _ _ _ _ htriple
                (by simpa using hlen)
              obtain ⟨extra, h1, h2⟩ := lexToken_errors source _ s1 h
              have hq := lexToken_quiet source _ s1 h
              refine ⟨by rw [hq.1]; exact hs, indent, extra, by rw [h1]; simp only [he], hi, ?_, hn⟩
              intro e hmem
              refine ⟨?_, (h2 e hmem).2⟩
              rw [(h2 e hmem).1]
              simp only
              rw [hzero.2, hline]

theorem lexSteps_facts (source : List Char) :
    ∀ (n : Nat) (s s1 : LexState), StackOk s.indentStack →
      (∀ e ∈ s.errors, e.message ≠ "Dedent exceeds indentation level") →
      lexSteps source n s = some (.ok s1) →
      StackOk s1.indentStack ∧ ∀ e ∈ s1.errors, e.message ≠ "Dedent exceeds indentation level" := by
  intro n
  induction n with
  | zero =>
    intro s s1 hok he h
    simp only [lexSteps, Option.some.injEq, Except.ok.injEq] at h
    subst h
    exact ⟨hok, he⟩
  | succ k ih =>
    intro s s1 hok he h
    unfold lexSteps at h
    split at h
    · split at h
      · cases h
      · cases h
      · rename_i s2 hstep
        obtain ⟨hok2, indent, lexeme, h1, h2, h3, _⟩ := lexStep_facts source s s2 hok hstep
        refine ih s2 s1 hok2 ?_ h
        intro e hmem
        rw [h1] at hmem
        rcases List.mem_append.1 hmem with hm | hm
        · rcases List.mem_append.1 hm with hm | hm
          · exact he e hm
          · rcases (h2 e hm).2 with hmsg | hmsg <;> rw [hmsg] <;> decide
        · intro hmsg
          exact (h3 e hm).2 (by rw [hmsg]; decide)
    · simp only [Option.some.injEq, Except.ok.injEq] at h
      subst h
      exact ⟨hok, he⟩

/-- C28. After any number of iterations of the main loop of `tokenize` (on any `Lexer` object and
any source) the indent stack is non-empty, has `0` at the bottom and is strictly increasing from
the bottom to the top, and no diagnostic "Dedent exceeds indentation level" has been recorded. -/
theorem indent_stack_invariant (lexer : Lexer) (source : List Char) (n : Nat) (s : LexState)
    (h : lexSteps source n (initialState lexer) = some (.ok s)) :
    s.indentStack ≠ [] ∧ s.indentStack.getLast? = some 0 ∧
      s.indentStack.Pairwise (fun upper lower => lower < upper) ∧
      ∀ e ∈ s.errors, e.message ≠ "Dedent exceeds indentation level" := by
  have hinit : StackOk (initialState lexer).indentStack := by
    unfold StackOk initialState
    exact ⟨rfl, by simp⟩
  obtain ⟨hok, he⟩ := lexSteps_facts source n (initialState lexer) s hinit
    (by simp [initialState]) h
  exact ⟨hok.ne_nil, hok.1, hok.2, he⟩

theorem indent_stack_invariant_witness :
    lexSteps "if a:\n    if b:\n        c\n  d".toList 9 (initialState Lexer.fresh) =
        some (.ok ⟨[⟨.IfKeyword, "if", 1, ""⟩, ⟨.IDENTIFIER, "a", 1, "global"⟩, ⟨.Colon, ":", 1, ""⟩,
          ⟨.INDENT, "", 2, ""⟩, ⟨.IfKeyword, "if", 2, ""⟩, ⟨.IDENTIFIER, "b", 2, "global"⟩,
          ⟨.Colon, ":", 2, ""⟩, ⟨.INDENT, "", 3, ""⟩, ⟨.IDENTIFIER, "c", 3, "global"⟩],
          [], 3, 25, [8, 4, 0], false, false, []⟩) ∧
      ([8, 4, 0] : List Nat) ≠ [] ∧ ([8, 4, 0] : List Nat).getLast? = some 0 ∧
      ([8, 4, 0] : List Nat).Pairwise (fun upper lower => lower < upper) ∧
      ∀ e ∈ ([] : List Error), e.message ≠ "Dedent exceeds indentation level" :=
  ⟨by decide!,
    indent_stack_invariant Lexer.fresh "if a:\n    if b:\n        c\n  d".toList 9
      ⟨[⟨.IfKeyword, "if", 1, ""⟩, ⟨.IDENTIFIER, "a", 1, "global"⟩, ⟨.Colon, ":", 1, ""⟩,
        ⟨.INDENT, "", 2, ""⟩, ⟨.IfKeyword, "if", 2, ""⟩, ⟨.IDENTIFIER, "b", 2, "global"⟩,
        ⟨.Colon, ":", 2, ""⟩, ⟨.INDENT, "", 3, ""⟩, ⟨.IDENTIFIER, "c", 3, "global"⟩],
        [], 3, 25, [8, 4, 0], false, false, []⟩ (by decide!)⟩

theorem lexSteps_of_tokenizeLoop (source : List Char) :
    ∀ (fuel : Nat) (s s1 : LexState), tokenizeLoop source fuel s = some (.ok s1) →
      lexSteps source fuel s = some (.ok s1) := by
  intro fuel
  induction fuel with
  | zero => intro s s1 h; simp [tokenizeLoop] at h
  | succ n ih =>
    intro s s1 h
    unfold tokenizeLoop at h
    unfold lexSteps
    split
    · rename_i hlt
      rw [if_pos hlt] at h
      split at h
      · cases h
      · cases h
      · rename_i s2 hstep
        exact ih s2 s1 h
    · rename_i hlt
      rw [if_neg hlt] at h
      exact h

theorem drainIndents_stack (lineNumber : Int) :
    ∀ (stack : List Nat) (tokens : List Token), StackOk stack →
      (drainIndents lineNumber stack tokens).1 = [0] := by
  intro stack
  induction stack with
  | nil => intro tokens h; exact absurd rfl h.ne_nil
  | cons top rest ih =>
    intro tokens hok
    cases rest with
    | nil =>
      have : top = 0 := by simpa [StackOk] using hok.1
      simp [drainIndents, this]
    | cons next l =>
      simp only [drainIndents]
      exact ih _ hok.rest

/-- When `tokenize` returns, the indent stack it leaves in the `Lexer` object is `[0]` and no
diagnostic "Dedent exceeds indentation level" is among those it recorded. -/
theorem tokenize_indent_stack (lexer : Lexer) (source : List Char)
    (tokens : List Token) (errors : List Error) (lexer1 : Lexer)
    (h : tokenize lexer source = .returned tokens errors lexer1) :
    lexer1.indentStack = [0] ∧ ∀ e ∈ errors, e.message ≠ "Dedent exceeds indentation level" := by
  unfold tokenize tokenizeWith at h
  simp only at h
  split at h
  · cases h
  · cases h
  · rename_i s hloop
    have hsteps := lexSteps_of_tokenizeLoop source _ _ s hloop
    have hinit : StackOk (initialState lexer).indentStack := by
      unfold StackOk initialState
      exact ⟨rfl, by simp⟩
    obtain ⟨hok, he⟩ := lexSteps_facts source _ (initialState lexer) s hinit
      (by simp [initialState]) hsteps
    injection h with h1 h2 h3
    rw [← h2, ← h3]
    exact ⟨drainIndents_stack s.lineNumber s.indentStack s.tokens hok, he⟩


/-! #### The line counter and the newlines of the source -/

theorem newlinesBefore_mono (source : List Char) {i j : Nat} (h : i ≤ j) :
    newlinesBefore source i ≤ newlinesBefore source j := by
  unfold newlinesBefore
  have e : source.take i = (source.take j).take i := by
    rw [List.take_take, Nat.min_eq_left h]
  rw [e]
  exact (List.take_sublist _ _).count_le _

theorem newlinesBefore_le_count (source : List Char) (i : Nat) :
    newlinesBefore source i ≤ source.count '\n' :=
  (List.take_sublist _ _).count_le _

theorem newlinesBefore_succ (source : List Char) (i : Nat) (h : charAt source i = '\n') :
    newlinesBefore source (i + 1) = newlinesBefore source i + 1 := by
  have hlt : i < source.length := by
    by_contra hge
    rw [charAt_of_length_le source i (by omega)] at h
    revert h
    decide
  unfold newlinesBefore
  have hc : source[i] = '\n' := by
    simpa [charAt, List.getD_eq_getElem?_getD, List.getElem?_eq_getElem hlt] using h
  rw [List.take_succ, List.getElem?_eq_getElem hlt, List.count_append, hc]
  simp

theorem lexWord_lineNumber (source : List Char) (s : LexState) :
    (lexWord source s).lineNumber = s.lineNumber := by
  unfold lexWord
  simp only
  split
  · split
    · split <;> rfl
    · rfl
  · rfl

theorem lexOperator_lineNumber (source : List Char) (s s1 : LexState)
    (h : lexOperator source s = some s1) : s1.lineNumber = s.lineNumber := by
  unfold lexOperator at h
  simp only at h
  split at h
  · cases h; rfl
  · split at h
    · cases h; rfl
    · split at h
      · cases h; rfl
      · cases h

theorem lexNumber_lineNumber (source : List Char) (s s1 : LexState)
    (h : lexNumber source s = .ok s1) : s1.lineNumber = s.lineNumber := by
  unfold lexNumber at h
  simp only at h
  split at h
  · split at h
    · cases h
    · split at h
      · cases h; rfl
      · cases h; rfl
  · cases h; rfl

theorem lexToken_lineNumber (source : List Char) (s s1 : LexState)
    (h : lexToken source s = some (.ok s1)) : s1.lineNumber = s.lineNumber := by
  unfold lexToken at h
  simp only at h
  split at h
  · cases h; exact lexWord_lineNumber source s
  · split at h
    · rename_i s2 hop
      cases h
      split at hop
      · exact lexOperator_lineNumber source s _ hop
      · cases hop
    · split at h
      · split at h
        · cases h
        · cases h; rfl
        · cases h; rfl
      · split at h
        · simp only [Option.some.injEq] at h
          exact lexNumber_lineNumber source s s1 h
        · split at h
          · cases h; rfl
          · cases h; rfl

theorem tripleLoop_linecount (source : List Char) (q : Char) (start : Nat) (startLine : Int)
    (hq : q ≠ '\n') :
    ∀ (fuel idx : Nat) (line : Int) (r : StrResult) (idx1 : Nat) (line1 : Int),
      tripleLoop source q start startLine fuel idx line = some (r, idx1, line1) →
      line1 + newlinesBefore source idx ≤ line + newlinesBefore source idx1 := by
  intro fuel
  induction fuel with
  | zero => intro idx line r idx1 line1 h; simp [tripleLoop] at h
  | succ n ih =>
    intro idx line r idx1 line1 h
    unfold tripleLoop at h
    split at h
    · rename_i hlt
      simp only at h
      have m1 := newlinesBefore_mono source (show idx ≤ idx + 1 by omega)
      have m2 := newlinesBefore_mono source (show idx + 1 ≤ idx + 1 + 1 by omega)
      unfold tripleSkip at h
      by_cases c1 : charAt source idx = '\\'
      · rw [if_pos c1] at h
        simp only at h
        split at h
        · simp only [Option.some.injEq, Prod.mk.injEq] at h
          obtain ⟨_, h2, h3⟩ := h
          have := newlinesBefore_mono source (show idx ≤ idx + 1 + 3 by omega)
          rw [← h2, ← h3]
          omega
        · have := ih _ _ _ _ _ h
          omega
      · rw [if_neg c1] at h
        by_cases c2 : charAt source idx = '\n'
        · rw [if_pos c2] at h
          simp only at h
          have e := newlinesBefore_succ source idx c2
          split at h
          · simp only [Option.some.injEq, Prod.mk.injEq] at h
            obtain ⟨_, h2, h3⟩ := h
            have := newlinesBefore_mono source (show idx + 1 ≤ idx + 1 + 3 by omega)
            rw [← h2, ← h3]
            omega
          · have := ih _ _ _ _ _ h
            omega
        · rw [if_neg c2] at h
          by_cases c3 : charAt source idx = '\r' ∧ idx + 1 < source.length ∧
              charAt source (idx + 1) = '\n'
          · rw [if_pos c3] at h
            simp only at h
            have e := newlinesBefore_succ source (idx + 1) c3.2.2
            rw [if_neg (fun hc => hq (by rw [← hc.1, c3.2.2]))] at h
            have := ih _ _ _ _ _ h
            omega
          · rw [if_neg c3] at h
            simp only at h
            split at h
            · simp only [Option.some.injEq, Prod.mk.injEq] at h
              obtain ⟨_, h2, h3⟩ := h
              have := newlinesBefore_mono source (show idx ≤ idx + 3 by omega)
              rw [← h2, ← h3]
              omega
            · have := ih _ _ _ _ _ h
              omega
    · simp only [Option.some.injEq, Prod.mk.injEq] at h
      obtain ⟨_, h2, h3⟩ := h
      rw [← h2, ← h3]
      have hall : newlinesBefore source idx ≤ newlinesBefore source source.length := by
        unfold newlinesBefore
        rw [List.take_length]
        exact (List.take_sublist _ _).count_le _
      omega

theorem handleTripleQuotedString_linecount (source : List Char) (idx : Nat) (line : Int)
    (r : StrResult) (idx1 : Nat) (line1 : Int)
    (h : handleTripleQuotedString source idx line = some (r, idx1, line1)) :
    line1 + newlinesBefore source idx ≤ line + newlinesBefore source idx1 := by
  unfold handleTripleQuotedString at h
  split at h
  · simp only at h
    split at h
    · rename_i hc
      have hq : charAt source idx ≠ '\n' := by
        rcases hc.1 with e | e <;> rw [e] <;> decide
      have := tripleLoop_linecount source _ idx line hq _ _ _ _ _ _ h
      have := newlinesBefore_mono source (show idx ≤ idx + 3 by omega)
      omega
    · simp only [Option.some.injEq, Prod.mk.injEq] at h
      obtain ⟨_, h2, h3⟩ := h
      rw [← h2, ← h3]
  · simp only [Option.some.injEq, Prod.mk.injEq] at h
    obtain ⟨_, h2, h3⟩ := h
    rw [← h2, ← h3]

/-- One iteration of the main loop raises the line counter by at most the number of newline
characters the cursor passes. -/
theorem lexStep_linecount (source : List Char) (s s1 : LexState)
    (h : lexStep source s = some (.ok s1)) :
    s1.lineNumber + newlinesBefore source s.i ≤ s.lineNumber + newlinesBefore source s1.i := by
  unfold lexStep at h
  simp only at h
  have hline := (beforeLexeme_lines source s).2
  have hi := beforeLexeme_i source s
  have m0 := newlinesBefore_mono source hi
  generalize beforeLexeme source s = sa at h hline hi m0
  split at h
  · cases h; omega
  · split at h
    · rename_i hnl
      cases h
      have e := newlinesBefore_succ source sa.i hnl
      simp only
      omega
    · split at h
      · rename_i hc
        cases h
        have e := newlinesBefore_succ source (sa.i + 1) hc.2.2
        have e2 : sa.i + 1 + 1 = sa.i + 2 := rfl
        rw [e2] at e
        have := newlinesBefore_mono source (show sa.i ≤ sa.i + 1 by omega)
        simp only
        omega
      · split at h
        · cases h
          have := newlinesBefore_mono source (scanWhile_ge (fun d => d ≠ '\n') source sa.i)
          simp only
          omega
        · split at h
          · cases h
          · rename_i line index idx lineNumber htriple
            cases h
            have := handleTripleQuotedString_linecount source _ _ _ _ _ htriple
            simp only
            omega
          · rename_i text idx lineNumber htriple
            have hc := handleTripleQuotedString_linecount source _ _ _ _ _ htriple
            split at h
            · cases h
              simp only
              omega
            · have hl := lexToken_lineNumber source _ s1 h
              obtain ⟨r, hr, hp⟩ := lexToken_some source { sa with i := idx, lineNumber := lineNumber }
              rw [h] at hr
              have hlt := hp s1 (by injection hr with hr; exact hr.symm)
              have := newlinesBefore_mono source (Nat.le_of_lt hlt)
              simp only at hl this
              omega

theorem lexSteps_line_bound (source : List Char) :
    ∀ (n : Nat) (s s1 : LexState), StackOk s.indentStack →
      1 ≤ s.lineNumber → s.lineNumber ≤ 1 + newlinesBefore source s.i →
      (∀ e ∈ s.errors, 1 ≤ e.line ∧ e.line ≤ s.lineNumber) →
      lexSteps source n s = some (.ok s1) →
      s1.lineNumber ≤ 1 + newlinesBefore source s1.i ∧
        ∀ e ∈ s1.errors, 1 ≤ e.line ∧ e.line ≤ s1.lineNumber := by
  intro n
  induction n with
  | zero =>
    intro s s1 _ _ hb he h
    simp only [lexSteps, Option.some.injEq, Except.ok.injEq] at h
    subst h
    exact ⟨hb, he⟩
  | succ k ih =>
    intro s s1 hok h1 hb he h
    unfold lexSteps at h
    split at h
    · split at h
      · cases h
      · cases h
      · rename_i s2 hstep
        obtain ⟨hok2, indent, lexeme, e1, e2, e3, _⟩ := lexStep_facts source s s2 hok hstep
        have hc := lexStep_linecount source s s2 hstep
        have hl := (lexStep_lines source s s2 hstep).1
        refine ih s2 s1 hok2 (by omega) (by omega) ?_ h
        intro e hmem
        rw [e1] at hmem
        rcases List.mem_append.1 hmem with hm | hm
        · rcases List.mem_append.1 hm with hm | hm
          · have := he e hm
            omega
          · have := (e2 e hm).1
            omega
        · have := (e3 e hm).1
          omega
    · simp only [Option.some.injEq, Except.ok.injEq] at h
      subst h
      exact ⟨hb, he⟩

/-- C22. Every diagnostic `tokenize` records (on any `Lexer` object and any source on which it
returns) has a line number between 1 and 1 + the number of newline characters of the source. -/
theorem diagnostic_lines_bounded (lexer : Lexer) (source : List Char)
    (tokens : List Token) (errors : List Error) (lexer1 : Lexer)
    (h : tokenize lexer source = .returned tokens errors lexer1) :
    ∀ e ∈ errors, 1 ≤ e.line ∧ e.line ≤ 1 + (source.count '\n' : Int) := by
  unfold tokenize tokenizeWith at h
  simp only at h
  split at h
  · cases h
  · cases h
  · rename_i s hloop
    have hsteps := lexSteps_of_tokenizeLoop source _ _ s hloop
    have hinit : StackOk (initialState lexer).indentStack := by
      unfold StackOk initialState
      exact ⟨rfl, by simp⟩
    obtain ⟨hb, he⟩ := lexSteps_line_bound source _ (initialState lexer) s hinit
      (by simp [initialState]) (by simp [initialState]) (by simp [initialState]) hsteps
    injection h with h1 h2 h3
    rw [← h2]
    intro e hmem
    have := he e hmem
    have := newlinesBefore_le_count source s.i
    omega

theorem diagnostic_lines_bounded_witness :
    1 ≤ (⟨"Unindent does not match outer level", 4, 26⟩ : Error).line ∧
      (⟨"Unindent does not match outer level", 4, 26⟩ : Error).line ≤
        1 + ("if a:\n    if b:\n        c\n  d".toList.count '\n' : Int) :=
  diagnostic_lines_bounded Lexer.fresh "if a:\n    if b:\n        c\n  d".toList _ _ _
    tokenize_unindent_mismatch ⟨"Unindent does not match outer level", 4, 26⟩
    (List.mem_singleton.2 rfl)


/-! #### Scope strings of the tokens -/

theorem string_ne_empty_of_length_pos (x : String) (h : 0 < x.length) : x ≠ "" := by
  intro e
  rw [e] at h
  simp at h

theorem string_length_pos_of_ne_empty (x : String) (h : x ≠ "") : 0 < x.length := by
  by_contra hn
  apply h
  have h0 : x.data.length = 0 := by
    have : x.length = 0 := by omega
    exact this
  exact String.ext (List.length_eq_zero.1 h0)

theorem foldl_scope_length (below : List ScopeInfo) :
    ∀ init : String, init.length ≤
      (below.foldl (fun hierarchy f => hierarchy ++ "@" ++ f.name) init).length := by
  induction below with
  | nil => intro init; exact le_refl _
  | cons f rest ih =>
    intro init
    simp only [List.foldl_cons]
    have := ih (init ++ "@" ++ f.name)
    simp only [String.length_append] at this
    omega

theorem getScope_ne_empty (frames : List ScopeInfo) (h : NamedFrames frames) :
    getScope frames ≠ "" := by
  cases frames with
  | nil => simp only [getScope]; decide
  | cons top below =>
    simp only [getScope]
    apply string_ne_empty_of_length_pos
    have h1 := string_length_pos_of_ne_empty top.name (h top (by simp))
    have h2 := foldl_scope_length below top.name
    omega

theorem popScopes_named (top : Nat) :
    ∀ frames : List ScopeInfo, NamedFrames frames → NamedFrames (popScopes top frames) := by
  intro frames
  induction frames with
  | nil => intro h; simpa [popScopes] using h
  | cons f below ih =>
    intro h
    unfold popScopes
    split
    · exact ih (fun g hg => h g (by simp [hg]))
    · exact h

theorem substr_scan_ne_empty (p : Char → Bool) (source : List Char) (start : Nat)
    (h : start < scanWhile p source start) :
    substr source start (scanWhile p source start - start) ≠ "" := by
  apply string_ne_empty_of_length_pos
  unfold scanWhile at h ⊢
  have hpos : 0 < ((source.drop start).takeWhile p).length := by omega
  have hle : ((source.drop start).takeWhile p).length ≤ (source.drop start).length :=
    (List.takeWhile_sublist p).length_le
  simp only [substr, String.length, List.length_take, add_tsub_cancel_left]
  omega

theorem ScopeShape.layout (ty : TokenType) (line : Int) (hty : ty ≠ .IDENTIFIER) :
    ScopeShape { type := ty, lexeme := "", lineNumber := line } :=
  ⟨fun h => absurd h hty, fun _ => rfl, fun _ => rfl⟩

theorem ScopeShape.plain (ty : TokenType) (lexeme : String) (line : Int)
    (hty : ty ≠ .IDENTIFIER) (hl : ty ≠ .INDENT ∧ ty ≠ .DEDENT) :
    ScopeShape { type := ty, lexeme := lexeme, lineNumber := line } :=
  ⟨fun h => absurd h hty, fun _ => rfl, fun h => by
    rcases h with h | h
    · exact absurd h hl.1
    · exact absurd h hl.2⟩

theorem ScopeShape.identifier (lexeme : String) (line : Int) (scope : String)
    (hs : scope ≠ "") :
    ScopeShape { type := .IDENTIFIER, lexeme := lexeme, lineNumber := line, scope := scope } :=
  ⟨fun _ => hs, fun h => absurd rfl h, fun h => by
    rcases h with h | h <;> cases h⟩

theorem dedentLoop_shape (newIndent : Nat) (lineNumber : Int) (start : Nat) :
    ∀ (stack : List Nat) (s : LexState), NamedFrames s.scopeStack →
      NamedFrames (dedentLoop newIndent lineNumber start stack s).scopeStack ∧
        ∃ extra, (dedentLoop newIndent lineNumber start stack s).tokens = s.tokens ++ extra ∧
          ∀ t ∈ extra, ScopeShape t := by
  intro stack
  induction stack with
  | nil => intro s hf; exact ⟨hf, [], by simp [dedentLoop], by simp⟩
  | cons top rest ih =>
    intro s hf
    unfold dedentLoop
    split
    · simp only
      have hpop := popScopes_named (back rest) s.scopeStack hf
      split
      · refine ⟨hpop, [{ type := .DEDENT, lexeme := "", lineNumber := lineNumber }], rfl, ?_⟩
        intro t ht
        simp only [List.mem_singleton] at ht
        subst ht
        exact ScopeShape.layout _ _ (by decide)
      · obtain ⟨h1, extra, h2, h3⟩ := ih
          { s with tokens := s.tokens ++ [{ type := .DEDENT, lexeme := "", lineNumber := lineNumber }],
                   scopeStack := popScopes (back rest) s.scopeStack } hpop
        refine ⟨h1, { type := .DEDENT, lexeme := "", lineNumber := lineNumber } :: extra, ?_, ?_⟩
        · rw [h2]; simp
        · intro t ht
          rcases List.mem_cons.1 ht with rfl | ht
          · exact ScopeShape.layout _ _ (by decide)
          · exact h3 t ht
    · exact ⟨hf, [], by simp, by simp⟩

theorem compareIndent_shape (newIndent : Nat) (lineNumber : Int) (start : Nat) (s : LexState)
    (hf : NamedFrames s.scopeStack) :
    NamedFrames (compareIndent newIndent lineNumber start s).scopeStack ∧
      ∃ extra, (compareIndent newIndent lineNumber start s).tokens = s.tokens ++ extra ∧
        ∀ t ∈ extra, ScopeShape t := by
  unfold compareIndent
  split
  · refine ⟨hf, [{ type := .INDENT, lexeme := "", lineNumber := lineNumber }], rfl, ?_⟩
    intro t ht
    simp only [List.mem_singleton] at ht
    subst ht
    exact ScopeShape.layout _ _ (by decide)
  · split
    · obtain ⟨h1, extra, h2, h3⟩ := dedentLoop_shape newIndent lineNumber start s.indentStack s hf
      simp only
      split
      · exact ⟨h1, extra, by simpa [LexState.report] using h2, h3⟩
      · exact ⟨h1, extra, h2, h3⟩
    · exact ⟨hf, [], by simp, by simp⟩

theorem processIndentation_shape (source : List Char) (s : LexState)
    (hf : NamedFrames s.scopeStack) :
    NamedFrames (processIndentation source s).scopeStack ∧
      ∃ extra, (processIndentation source s).tokens = s.tokens ++ extra ∧
        ∀ t ∈ extra, ScopeShape t := by
  unfold processIndentation
  simp only
  split
  · split
    · exact ⟨hf, [], by simp [LexState.report], by simp⟩
    · obtain ⟨h1, extra, h2, h3⟩ := compareIndent_shape (List.count '\t' (List.takeWhile
        (fun c => decide (c = ' ') || decide (c = '\t')) (List.drop s.i source)) * 4 +
        List.count ' ' (List.takeWhile (fun c => decide (c = ' ') || decide (c = '\t'))
          (List.drop s.i source))) s.lineNumber s.i
        (LexState.report { s with i := s.i + (List.takeWhile
          (fun c => decide (c = ' ') || decide (c = '\t')) (List.drop s.i source)).length }
          ⟨"Mixed tabs and spaces in indentation", s.lineNumber, s.i⟩) hf
      exact ⟨h1, extra, by rw [h2]; simp [LexState.report], h3⟩
  · split
    · exact ⟨hf, [], by simp, by simp⟩
    · obtain ⟨h1, extra, h2, h3⟩ := compareIndent_shape (List.count '\t' (List.takeWhile
        (fun c => decide (c = ' ') || decide (c = '\t')) (List.drop s.i source)) * 4 +
        List.count ' ' (List.takeWhile (fun c => decide (c = ' ') || decide (c = '\t'))
          (List.drop s.i source))) s.lineNumber s.i
        { s with i := s.i + (List.takeWhile
          (fun c => decide (c = ' ') || decide (c = '\t')) (List.drop s.i source)).length } hf
      exact ⟨h1, extra, h2, h3⟩

theorem beforeLexeme_shape (source : List Char) (s : LexState) (hf : NamedFrames s.scopeStack) :
    NamedFrames (beforeLexeme source s).scopeStack ∧
      ∃ extra, (beforeLexeme source s).tokens = s.tokens ++ extra ∧ ∀ t ∈ extra, ScopeShape t := by
  unfold beforeLexeme
  simp only
  split
  · exact processIndentation_shape source s hf
  · exact ⟨hf, [], by simp, by simp⟩

theorem lexWord_shape (source : List Char) (s : LexState) (hf : NamedFrames s.scopeStack) :
    NamedFrames (lexWord source s).scopeStack ∧
      ∃ extra, (lexWord source s).tokens = s.tokens ++ extra ∧ ∀ t ∈ extra, ScopeShape t := by
  unfold lexWord
  simp only
  split
  · rename_i kw hkw
    have hq := pythonKeywords_quiet _ _ hkw
    have hi := pythonKeywords_not_identifier _ _ hkw
    split
    · split
      · rename_i hlt
        have hname := substr_scan_ne_empty (fun c => isalnum c || c = '_') source
          (skipNonLeadingWhitespace source
            (scanWhile (fun c => isalnum c || c = '_') source s.i)) hlt
        have hframes : NamedFrames
            ({ name := substr source (skipNonLeadingWhitespace source
                  (scanWhile (fun c => isalnum c || c = '_') source s.i))
                (scanWhile (fun c => isalnum c || c = '_') source
                  (skipNonLeadingWhitespace source
                    (scanWhile (fun c => isalnum c || c = '_') source s.i)) -
                  skipNonLeadingWhitespace source
                    (scanWhile (fun c => isalnum c || c = '_') source s.i)),
               indentLevel := back s.indentStack } :: s.scopeStack) := by
          intro f hmem
          rcases List.mem_cons.1 hmem with rfl | hr
          · exact hname
          · exact hf f hr
        refine ⟨hframes, _, List.append_assoc _ _ _, ?_⟩
        intro t ht
        simp only [List.cons_append, List.nil_append, List.mem_cons, List.mem_singleton,
          List.not_mem_nil, or_false] at ht
        rcases ht with rfl | rfl
        · exact ScopeShape.plain _ _ _ hi hq
        · exact ScopeShape.identifier _ _ _ (getScope_ne_empty _ hframes)
      · refine ⟨hf, [_], rfl, ?_⟩
        intro t ht
        simp only [List.mem_singleton] at ht
        subst ht
        exact ScopeShape.plain _ _ _ hi hq
    · refine ⟨hf, [_], rfl, ?_⟩
      intro t ht
      simp only [List.mem_singleton] at ht
      subst ht
      exact ScopeShape.plain _ _ _ hi hq
  · refine ⟨hf, [_], rfl, ?_⟩
    intro t ht
    simp only [List.mem_singleton] at ht
    subst ht
    exact ScopeShape.identifier _ _ _ (getScope_ne_empty _ hf)

theorem shape_push {s s1 : LexState} (t : Token) (htok : s1.tokens = s.tokens ++ [t])
    (ht : ScopeShape t) : ∃ extra, s1.tokens = s.tokens ++ extra ∧ ∀ t ∈ extra, ScopeShape t := by
  refine ⟨[t], htok, ?_⟩
  intro x hx
  simp only [List.mem_singleton] at hx
  subst hx
  exact ht

theorem lexOperator_shape (source : List Char) (s s1 : LexState)
    (h : lexOperator source s = some s1) :
    s1.scopeStack = s.scopeStack ∧
      ∃ extra, s1.tokens = s.tokens ++ extra ∧ ∀ t ∈ extra, ScopeShape t := by
  unfold lexOperator at h
  simp only at h
  split at h
  · cases h
    exact ⟨rfl, shape_push _ rfl (ScopeShape.plain _ _ _ (by decide) (by decide))⟩
  · split at h
    · cases h
      exact ⟨rfl, shape_push _ rfl (ScopeShape.plain _ _ _ (by decide) (by decide))⟩
    · split at h
      · cases h
        exact ⟨rfl, shape_push _ rfl (ScopeShape.plain _ _ _ (by decide) (by decide))⟩
      · cases h

theorem lexNumber_shape (source : List Char) (s s1 : LexState)
    (h : lexNumber source s = .ok s1) :
    s1.scopeStack = s.scopeStack ∧
      ∃ extra, s1.tokens = s.tokens ++ extra ∧ ∀ t ∈ extra, ScopeShape t := by
  unfold lexNumber at h
  simp only at h
  split at h
  · split at h
    · cases h
    · split at h
      · cases h; exact ⟨rfl, [], by simp, by simp⟩
      · cases h
        exact ⟨rfl, shape_push _ rfl (ScopeShape.plain _ _ _ (by decide) (by decide))⟩
  · cases h
    exact ⟨rfl, shape_push _ rfl (ScopeShape.plain _ _ _ (by decide) (by decide))⟩

theorem lexToken_shape (source : List Char) (s s1 : LexState) (hf : NamedFrames s.scopeStack)
    (h : lexToken source s = some (.ok s1)) :
    NamedFrames s1.scopeStack ∧
      ∃ extra, s1.tokens = s.tokens ++ extra ∧ ∀ t ∈ extra, ScopeShape t := by
  unfold lexToken at h
  simp only at h
  split at h
  · cases h; exact lexWord_shape source s hf
  · split at h
    · rename_i s2 hop
      cases h
      split at hop
      · obtain ⟨h1, h2⟩ := lexOperator_shape source s _ hop
        exact ⟨by rw [h1]; exact hf, h2⟩
      · cases hop
    · split at h
      · split at h
        · cases h
        · cases h
          exact ⟨hf, shape_push _ rfl (ScopeShape.plain _ _ _ (by decide) (by decide))⟩
        · cases h; exact ⟨hf, [], by simp, by simp⟩
      · split at h
        · simp only [Option.some.injEq] at h
          obtain ⟨h1, h2⟩ := lexNumber_shape source s s1 h
          exact ⟨by rw [h1]; exact hf, h2⟩
        · split at h
          · rename_i ty hty
            cases h
            exact ⟨hf, shape_push _ rfl (ScopeShape.plain _ _ _
              (punctuationSymbols_not_identifier _ _ hty) (punctuationSymbols_quiet _ _ hty))⟩
          · cases h; exact ⟨hf, [], by simp, by simp⟩

theorem shape_trans {a b c : List Token} (h1 : ∃ extra, b = a ++ extra ∧ ∀ t ∈ extra, ScopeShape t)
    (h2 : ∃ extra, c = b ++ extra ∧ ∀ t ∈ extra, ScopeShape t) :
    ∃ extra, c = a ++ extra ∧ ∀ t ∈ extra, ScopeShape t := by
  obtain ⟨e1, r1, p1⟩ := h1
  obtain ⟨e2, r2, p2⟩ := h2
  refine ⟨e1 ++ e2, by rw [r2, r1, List.append_assoc], ?_⟩
  intro t ht
  rcases List.mem_append.1 ht with h | h
  · exact p1 t h
  · exact p2 t h

theorem lexStep_shape (source : List Char) (s s1 : LexState) (hf : NamedFrames s.scopeStack)
    (h : lexStep source s = some (.ok s1)) :
    NamedFrames s1.scopeStack ∧
      ∃ extra, s1.tokens = s.tokens ++ extra ∧ ∀ t ∈ extra, ScopeShape t := by
  unfold lexStep at h
  simp only at h
  obtain ⟨hf1, hb⟩ := beforeLexeme_shape source s hf
  generalize beforeLexeme source s = sa at h hf1 hb
  split at h
  · cases h; exact ⟨hf1, hb⟩
  · split at h
    · cases h; exact ⟨hf1, hb⟩
    · split at h
      · cases h; exact ⟨hf1, hb⟩
      · split at h
        · cases h; exact ⟨hf1, hb⟩
        · split at h
          · cases h
          · cases h; exact ⟨hf1, hb⟩
          · split at h
            · cases h
              exact ⟨hf1, shape_trans hb
                (shape_push _ rfl (ScopeShape.plain _ _ _ (by decide) (by decide)))⟩
            · rename_i text idx lineNumber htriple hlen
              have hmid : NamedFrames
                  ({ sa with i := idx, lineNumber := lineNumber } : LexState).scopeStack := hf1
              obtain ⟨h1, h2⟩ := lexToken_shape source _ s1 hmid h
              exact ⟨h1, shape_trans hb h2⟩

theorem tokenizeLoop_shape (source : List Char) :
    ∀ (fuel : Nat) (s s1 : LexState), NamedFrames s.scopeStack →
      (∀ t ∈ s.tokens, ScopeShape t) →
      tokenizeLoop source fuel s = some (.ok s1) → ∀ t ∈ s1.tokens, ScopeShape t := by
  intro fuel
  induction fuel with
  | zero => intro s s1 _ _ h; simp [tokenizeLoop] at h
  | succ n ih =>
    intro s s1 hf ht h
    unfold tokenizeLoop at h
    split at h
    · split at h
      · cases h
      · cases h
      · rename_i s2 hstep
        obtain ⟨h1, extra, h2, h3⟩ := lexStep_shape source s s2 hf hstep
        refine ih s2 s1 h1 ?_ h
        intro t hmem
        rw [h2] at hmem
        rcases List.mem_append.1 hmem with hm | hm
        · exact ht t hm
        · exact h3 t hm
    · cases h; exact ht

theorem drainIndents_shape (lineNumber : Int) :
    ∀ (stack : List Nat) (tokens : List Token), (∀ t ∈ tokens, ScopeShape t) →
      ∀ t ∈ (drainIndents lineNumber stack tokens).2, ScopeShape t := by
  intro stack
  induction stack with
  | nil => intro tokens h; simpa [drainIndents] using h
  | cons top rest ih =>
    intro tokens h
    cases rest with
    | nil => simpa [drainIndents] using h
    | cons b l =>
      simp only [drainIndents]
      apply ih
      intro t hmem
      rcases List.mem_append.1 hmem with hm | hm
      · exact h t hm
      · simp only [List.mem_singleton] at hm
        subst hm
        exact ScopeShape.layout _ _ (by decide)

/-- C21. In every token list `tokenize` returns (on a `Lexer` object whose scope frames have
non-empty names, as every frame `tokenize` pushes has, and in particular on a fresh `Lexer`),
every `IDENTIFIER` token has a non-empty scope string, every token of another kind has an empty
scope string, and every `INDENT` or `DEDENT` token has an empty lexeme. -/
theorem token_scope_shape (lexer : Lexer) (source : List Char)
    (tokens : List Token) (errors : List Error) (lexer1 : Lexer)
    (hf : ∀ f ∈ lexer.scopeStack, f.name ≠ "")
    (h : tokenize lexer source = .returned tokens errors lexer1) :
    ∀ t ∈ tokens,
      (t.type = .IDENTIFIER → t.scope ≠ "") ∧ (t.type ≠ .IDENTIFIER → t.scope = "") ∧
        (t.type = .INDENT ∨ t.type = .DEDENT → t.lexeme = "") := by
  unfold tokenize tokenizeWith at h
  simp only at h
  split at h
  · cases h
  · cases h
  · rename_i s hloop
    have hs := tokenizeLoop_shape source _ (initialState lexer) s hf (by simp [initialState]) hloop
    have hd := drainIndents_shape s.lineNumber s.indentStack s.tokens hs
    injection h with h1 h2 h3
    rw [← h1]
    exact hd

theorem token_scope_shape_witness :
    ((⟨.IDENTIFIER, "x", 2, "f"⟩ : Token).type = .IDENTIFIER →
        (⟨.IDENTIFIER, "x", 2, "f"⟩ : Token).scope ≠ "") ∧
      ((⟨.IDENTIFIER, "x", 2, "f"⟩ : Token).type ≠ .IDENTIFIER →
        (⟨.IDENTIFIER, "x", 2, "f"⟩ : Token).scope = "") ∧
      ((⟨.IDENTIFIER, "x", 2, "f"⟩ : Token).type = .INDENT ∨
          (⟨.IDENTIFIER, "x", 2, "f"⟩ : Token).type = .DEDENT →
        (⟨.IDENTIFIER, "x", 2, "f"⟩ : Token).lexeme = "") :=
  token_scope_shape Lexer.fresh "def f():\n    x = 1\n    return x".toList _ _ _
    (by simp [Lexer.fresh]) tokenize_scenario_def_f ⟨.IDENTIFIER, "x", 2, "f"⟩ (by simp)


/-! #### Usage counts -/

namespace SymbolTable

theorem counted_modify (t : SymbolTable) (key : String) (f : SymbolInfo → SymbolInfo)
    (hf : ∀ info, 1 ≤ info.usageCount → 1 ≤ (f info).usageCount) (h : t.Counted) :
    (t.modify key f).Counted := by
  intro kv hmem
  simp only [modify, List.mem_map] at hmem
  obtain ⟨kv0, h0, rfl⟩ := hmem
  split
  · exact hf _ (h kv0 h0)
  · exact h kv0 h0

theorem counted_addSymbol (t : SymbolTable) (name type : String) (line : Int)
    (scope val : String) (h : t.Counted) : (t.addSymbol name type line scope val).Counted := by
  unfold addSymbol
  simp only
  split
  · intro kv hmem
    simp only [List.mem_append, List.mem_singleton] at hmem
    rcases hmem with hm | rfl
    · exact h kv hm
    · exact le_refl _
  · exact counted_modify t _ _ (fun info hi => by simp only; omega) h

theorem counted_bump (t : SymbolTable) (key : String) (h : t.Counted) :
    (t.bump key).Counted := by
  unfold bump
  intro kv hmem
  simp only [modify, List.mem_map] at hmem
  obtain ⟨kv0, h0, rfl⟩ := hmem
  have hcases : kv0 ∈ t.table ∨ kv0 = (key, {}) := by
    unfold index at h0
    split at h0
    · simp only [List.mem_append, List.mem_singleton] at h0
      exact h0
    · exact Or.inl h0
  rcases hcases with hm | rfl
  · split
    · have := h kv0 hm
      simp only
      omega
    · exact h kv0 hm
  · simp

theorem counted_updateType (t : SymbolTable) (name scope newType : String) (h : t.Counted) :
    (t.updateType name scope newType).Counted := by
  unfold updateType
  simp only
  split
  · exact counted_modify t _ _ (fun info hi => hi) h
  · exact h

theorem counted_updateValue (t : SymbolTable) (name scope newValue : String) (h : t.Counted) :
    (t.updateValue name scope newValue).Counted := by
  unfold updateValue
  simp only
  split
  · exact counted_modify t _ _ (fun info hi => hi) h
  · exact h

end SymbolTable

namespace Parser

/-- The four mutually recursive functions of the expression reader keep every usage count at
least 1. -/
theorem expression_functions_counted (tokens : List Token) :
    ∀ fuel : Nat,
      (∀ i st t v i1 st1, st.Counted → parseOperand tokens fuel i st = some (t, v, i1, st1) →
        st1.Counted) ∧
      (∀ value types i st v ts i1 st1, st.Counted →
        tupleLoop tokens fuel value types i st = some (v, ts, i1, st1) → st1.Counted) ∧
      (∀ i st t v i1 st1, st.Counted → parseExpression tokens fuel i st = some (t, v, i1, st1) →
        st1.Counted) ∧
      (∀ acc av i st t v i1 st1, st.Counted →
        exprLoop tokens fuel acc av i st = some (t, v, i1, st1) → st1.Counted) := by
  intro fuel
  induction fuel with
  | zero =>
    refine ⟨?_, ?_, ?_, ?_⟩
    · intro i st t v i1 st1 _ h; simp [parseOperand] at h
    · intro value types i st v ts i1 st1 _ h; simp [tupleLoop] at h
    · intro i st t v i1 st1 _ h; simp [parseExpression] at h
    · intro acc av i st t v i1 st1 _ h; simp [exprLoop] at h
  | succ k ih =>
    obtain ⟨ihO, ihT, ihE, ihL⟩ := ih
    refine ⟨?_, ?_, ?_, ?_⟩
    · intro i st t v i1 st1 hc h
      rw [parseOperand] at h
      cases htok : tokens[i]? with
      | none =>
        rw [htok] at h
        simp only [Option.some.injEq, Prod.mk.injEq] at h
        rw [← h.2.2.2]
        exact hc
      | some tk =>
        rw [htok] at h
        dsimp only at h
        by_cases h1 : tk.type = .NUMBER
        · rw [if_pos h1] at h
          by_cases h2 : '.' ∈ tk.lexeme.data
          · rw [if_pos h2] at h
            simp only [Option.some.injEq, Prod.mk.injEq] at h
            rw [← h.2.2.2]; exact hc
          · rw [if_neg h2] at h
            simp only [Option.some.injEq, Prod.mk.injEq] at h
            rw [← h.2.2.2]; exact hc
        rw [if_neg h1] at h
        by_cases h3 : tk.type = .STRING_LITERAL
        · rw [if_pos h3] at h
          simp only [Option.some.injEq, Prod.mk.injEq] at h
          rw [← h.2.2.2]; exact hc
        rw [if_neg h3] at h
        by_cases h4 : tk.type = .FalseKeyword ∨ tk.type = .TrueKeyword
        · rw [if_pos h4] at h
          by_cases h5 : tk.lexeme = "True" ∨ tk.lexeme = "False"
          · rw [if_pos h5] at h
            simp only [Option.some.injEq, Prod.mk.injEq] at h
            rw [← h.2.2.2]; exact hc
          · rw [if_neg h5] at h
            simp only [Option.some.injEq, Prod.mk.injEq] at h
            rw [← h.2.2.2]; exact hc
        rw [if_neg h4] at h
        by_cases h6 : tk.type = .IDENTIFIER
        · rw [if_pos h6] at h
          simp only [Option.some.injEq, Prod.mk.injEq] at h
          rw [← h.2.2.2]
          split
          · exact SymbolTable.counted_addSymbol _ _ _ _ _ _ hc
          · exact SymbolTable.counted_bump _ _ hc
        rw [if_neg h6] at h
        by_cases h7 : tk.lexeme = "("
        · rw [if_pos h7] at h
          cases htl : tupleLoop tokens k "(" [] (i + 1) st with
          | none => rw [htl] at h; cases h
          | some r =>
            obtain ⟨v2, ts, i2, st2⟩ := r
            have hc2 := ihT _ _ _ _ _ _ _ _ hc htl
            rw [htl] at h
            dsimp only at h
            by_cases h8 : tokenIs tokens i2 (fun t => t.lexeme = ")") = true
            · rw [if_pos h8] at h
              cases ts with
              | nil =>
                simp only [Option.some.injEq, Prod.mk.injEq] at h
                rw [← h.2.2.2]; exact hc2
              | cons a rest =>
                cases rest with
                | nil =>
                  simp only [Option.some.injEq, Prod.mk.injEq] at h
                  rw [← h.2.2.2]; exact hc2
                | cons b rest2 =>
                  simp only [Option.some.injEq, Prod.mk.injEq] at h
                  rw [← h.2.2.2]; exact hc2
            · rw [if_neg h8] at h
              simp only [Option.some.injEq, Prod.mk.injEq] at h
              rw [← h.2.2.2]; exact hc2
        rw [if_neg h7] at h
        by_cases h9 : tk.lexeme = "["
        · rw [if_pos h9] at h
          simp only [Option.some.injEq, Prod.mk.injEq] at h
          rw [← h.2.2.2]; exact hc
        rw [if_neg h9] at h
        by_cases h10 : tk.lexeme = "\x7b"
        · rw [if_pos h10] at h
          simp only [Option.some.injEq, Prod.mk.injEq] at h
          rw [← h.2.2.2]; exact hc
        rw [if_neg h10] at h
        simp only [Option.some.injEq, Prod.mk.injEq] at h
        rw [← h.2.2.2]; exact hc
    · intro value types i st v ts i1 st1 hc h
      rw [tupleLoop] at h
      split at h
      · cases he : parseExpression tokens k i st with
        | none => rw [he] at h; cases h
        | some r =>
          obtain ⟨t2, v2, i2, st2⟩ := r
          have hc2 := ihE _ _ _ _ _ _ hc he
          rw [he] at h
          dsimp only at h
          split at h
          · exact ihT _ _ _ _ _ _ _ _ hc2 h
          · simp only [Option.some.injEq, Prod.mk.injEq] at h
            rw [← h.2.2.2]; exact hc2
      · simp only [Option.some.injEq, Prod.mk.injEq] at h
        rw [← h.2.2.2]; exact hc
    · intro i st t v i1 st1 hc h
      rw [parseExpression] at h
      cases ho : parseOperand tokens k i st with
      | none => rw [ho] at h; cases h
      | some r =>
        obtain ⟨t2, v2, i2, st2⟩ := r
        have hc2 := ihO _ _ _ _ _ _ hc ho
        rw [ho] at h
        exact ihL _ _ _ _ _ _ _ _ hc2 h
    · intro acc av i st t v i1 st1 hc h
      rw [exprLoop] at h
      cases htok : tokens[i]? with
      | none =>
        rw [htok] at h
        simp only [Option.some.injEq, Prod.mk.injEq] at h
        rw [← h.2.2.2]; exact hc
      | some tk =>
        rw [htok] at h
        dsimp only at h
        split at h
        · split at h
          · cases ho : parseOperand tokens k (i + 1) st with
            | none => rw [ho] at h; cases h
            | some r =>
              obtain ⟨t2, v2, i2, st2⟩ := r
              have hc2 := ihO _ _ _ _ _ _ hc ho
              rw [ho] at h
              exact ihL _ _ _ _ _ _ _ _ hc2 h
          · simp only [Option.some.injEq, Prod.mk.injEq] at h
            rw [← h.2.2.2]; exact hc
        · simp only [Option.some.injEq, Prod.mk.injEq] at h
          rw [← h.2.2.2]; exact hc

end Parser

namespace Parser

theorem parseExpression_counted (tokens : List Token) (fuel i : Nat) (st : SymbolTable)
    (t v : String) (i1 : Nat) (st1 : SymbolTable) (hc : st.Counted)
    (h : parseExpression tokens fuel i st = some (t, v, i1, st1)) : st1.Counted :=
  (expression_functions_counted tokens fuel).2.2.1 i st t v i1 st1 hc h

theorem rhsLoop_counted (tokens : List Token) :
    ∀ (fuel temp : Nat) (st : SymbolTable) (rhsValues r : List (String × String)) (temp1 : Nat)
      (st1 : SymbolTable), st.Counted →
      rhsLoop tokens fuel temp st rhsValues = some (r, temp1, st1) → st1.Counted := by
  intro fuel
  induction fuel with
  | zero => intro temp st rhsValues r temp1 st1 _ h; simp [rhsLoop] at h
  | succ k ih =>
    intro temp st rhsValues r temp1 st1 hc h
    rw [rhsLoop] at h
    split at h
    · cases he : parseExpression tokens (exprFuel tokens) temp st with
      | none => rw [he] at h; cases h
      | some res =>
        obtain ⟨t2, v2, i2, st2⟩ := res
        have hc2 := parseExpression_counted tokens _ _ _ _ _ _ _ hc he
        rw [he] at h
        dsimp only at h
        split at h
        · exact ih _ _ _ _ _ _ hc2 h
        · simp only [Option.some.injEq, Prod.mk.injEq] at h
          rw [← h.2.2]; exact hc2
    · simp only [Option.some.injEq, Prod.mk.injEq] at h
      rw [← h.2.2]; exact hc

theorem bindLoop_counted (rhsValues : List (String × String)) :
    ∀ (vars : List Token) (j : Nat) (st : SymbolTable), st.Counted →
      (bindLoop rhsValues vars j st).Counted := by
  intro vars
  induction vars with
  | nil => intro j st hc; simpa [bindLoop] using hc
  | cons var rest ih =>
    intro j st hc
    simp only [bindLoop]
    apply ih
    have h1 : (if ¬ st.exist var.lexeme var.scope = true then
        st.addSymbol var.lexeme "unknown" var.lineNumber var.scope
      else st.bump (var.lexeme ++ "@" ++ var.scope)).Counted := by
      split
      · exact SymbolTable.counted_addSymbol _ _ _ _ _ _ hc
      · exact SymbolTable.counted_bump _ _ hc
    generalize (if ¬ st.exist var.lexeme var.scope = true then
        st.addSymbol var.lexeme "unknown" var.lineNumber var.scope
      else st.bump (var.lexeme ++ "@" ++ var.scope)) = st1 at h1
    cases rhsValues[j]? with
    | none => exact h1
    | some rhs =>
      dsimp only
      have h2 : (if rhs.1 ≠ "unknown" then st1.updateType var.lexeme var.scope rhs.1
          else st1).Counted := by
        split
        · exact SymbolTable.counted_updateType _ _ _ _ h1
        · exact h1
      split
      · exact SymbolTable.counted_updateValue _ _ _ _ h2
      · exact h2

/-- One iteration of the loop of `Parser::parse` keeps every usage count at least 1. -/
theorem parseStep_counted (tokens : List Token) (tk : Token) (s s1 : State)
    (hc : s.symbolTable.Counted) (h : parseStep tokens tk s = some s1) :
    s1.symbolTable.Counted := by
  unfold parseStep at h
  by_cases h1 : tk.type = .DefKeyword ∨ tk.type = .ClassKeyword
  · rw [if_pos h1] at h
    cases h; exact hc
  rw [if_neg h1] at h
  by_cases h2 : tk.type = .IDENTIFIER
  · rw [if_pos h2] at h
    by_cases h3 : s.lastKeyword = "def"
    · rw [if_pos h3] at h
      cases h
      exact SymbolTable.counted_addSymbol _ _ _ _ _ _ hc
    rw [if_neg h3] at h
    by_cases h4 : s.lastKeyword = "class"
    · rw [if_pos h4] at h
      cases h
      exact SymbolTable.counted_addSymbol _ _ _ _ _ _ hc
    rw [if_neg h4] at h
    dsimp only at h
    by_cases h5 : tokenIs tokens (s.i + (scanLhs (tokens.drop s.i)).2)
        (fun t => t.type = .OPERATOR ∧ t.lexeme = "=") = true
    · rw [if_pos h5] at h
      cases hr : rhsLoop tokens (tokens.length + 1)
          (s.i + (scanLhs (tokens.drop s.i)).2 + 1) s.symbolTable [] with
      | none => rw [hr] at h; cases h
      | some res =>
        obtain ⟨r, temp1, st1⟩ := res
        have hc2 := rhsLoop_counted tokens _ _ _ _ _ _ _ hc hr
        rw [hr] at h
        cases h
        exact bindLoop_counted _ _ _ _ hc2
    rw [if_neg h5] at h
    by_cases h6 : tokenIs tokens (s.i + 1) (fun t => t.type = .OPERATOR ∧ t.lexeme = "=") = true
    · rw [if_pos h6] at h
      have hc1 : (if ¬ s.symbolTable.exist (tk.lexeme ++ "@" ++ tk.scope) tk.scope = true then
            s.symbolTable.addSymbol tk.lexeme "unknown" tk.lineNumber tk.scope
          else s.symbolTable.bump (tk.lexeme ++ "@" ++ tk.scope)).Counted := by
        split
        · exact SymbolTable.counted_addSymbol _ _ _ _ _ _ hc
        · exact SymbolTable.counted_bump _ _ hc
      cases he : parseExpression tokens (exprFuel tokens) (s.i + 2)
          (if ¬ s.symbolTable.exist (tk.lexeme ++ "@" ++ tk.scope) tk.scope = true then
            s.symbolTable.addSymbol tk.lexeme "unknown" tk.lineNumber tk.scope
          else s.symbolTable.bump (tk.lexeme ++ "@" ++ tk.scope)) with
      | none => rw [he] at h; cases h
      | some res =>
        obtain ⟨t2, v2, i2, st2⟩ := res
        have hc2 := parseExpression_counted tokens _ _ _ _ _ _ _ hc1 he
        rw [he] at h
        cases h
        dsimp only
        have hc3 : (if t2 ≠ "unknown" then st2.updateType tk.lexeme tk.scope t2
            else st2).Counted := by
          split
          · exact SymbolTable.counted_updateType _ _ _ _ hc2
          · exact hc2
        split
        · exact SymbolTable.counted_updateValue _ _ _ _ hc3
        · exact hc3
    rw [if_neg h6] at h
    cases h
    dsimp only
    split
    · exact SymbolTable.counted_bump _ _ hc
    · exact SymbolTable.counted_addSymbol _ _ _ _ _ _ hc
  rw [if_neg h2] at h
  cases h; exact hc

theorem parseLoop_counted (tokens : List Token) :
    ∀ (fuel : Nat) (s s1 : State), s.symbolTable.Counted →
      parseLoop tokens fuel s = some s1 → s1.symbolTable.Counted := by
  intro fuel
  induction fuel with
  | zero => intro s s1 _ h; simp [parseLoop] at h
  | succ k ih =>
    intro s s1 hc h
    rw [parseLoop] at h
    cases htok : tokens[s.i]? with
    | none =>
      rw [htok] at h
      cases h; exact hc
    | some tk =>
      rw [htok] at h
      dsimp only at h
      cases hs : parseStep tokens tk s with
      | none => rw [hs] at h; cases h
      | some s2 =>
        rw [hs] at h
        exact ih s2 s1 (parseStep_counted tokens tk s s2 hc hs) h

end Parser

/-- C23. `Parser::parse` returns on every token list, and when it has run on a symbol table in
which every entry has a usage count of at least 1 (in particular the empty table the driver
passes), every entry of the table it leaves has a usage count of at least 1. -/
theorem parse_usage_counts (tokens : List Token) (symTable : SymbolTable)
    (hc : ∀ kv ∈ symTable.table, 1 ≤ kv.2.usageCount) :
    ∃ st, Parser.parse tokens symTable = some st ∧ ∀ kv ∈ st.table, 1 ≤ kv.2.usageCount := by
  obtain ⟨st, hst⟩ := Parser.parse_some tokens symTable
  refine ⟨st, hst, ?_⟩
  unfold Parser.parse at hst
  cases hl : Parser.parseLoop tokens (tokens.length + 1)
      { i := 0, symbolTable := symTable, lastKeyword := "" } with
  | none => rw [hl] at hst; cases hst
  | some s1 =>
    rw [hl] at hst
    simp only [Option.map_some', Option.some.injEq] at hst
    rw [← hst]
    exact Parser.parseLoop_counted tokens _
      { i := 0, symbolTable := symTable, lastKeyword := "" } s1 hc hl

theorem parse_usage_counts_witness :
    ∃ st,
      Parser.parse
          [⟨.IDENTIFIER, "car1", 1, "global"⟩, ⟨.Dot, ".", 1, ""⟩,
           ⟨.IDENTIFIER, "speed", 1, "global"⟩, ⟨.OPERATOR, "=", 1, ""⟩, ⟨.NUMBER, "10", 1, ""⟩]
          {} = some st ∧
        ∀ kv ∈ st.table, 1 ≤ kv.2.usageCount :=
  parse_usage_counts
    [⟨.IDENTIFIER, "car1", 1, "global"⟩, ⟨.Dot, ".", 1, ""⟩,
     ⟨.IDENTIFIER, "speed", 1, "global"⟩, ⟨.OPERATOR, "=", 1, ""⟩, ⟨.NUMBER, "10", 1, ""⟩]
    {} (by simp)

/-- The subscript `table[key]` on a missing key (as in `table[key].usageCount++` of the inferrer)
inserts an entry whose usage count is 0 before the increment: the bound of C23 rests on the
increment that follows each such subscript. -/
theorem bump_missing_key :
    (SymbolTable.bump {} "f@f").table =
      [("f@f", { entry := 0, type := "unknown", scope := "unknown", firstAppearance := -1,
                 usageCount := 1, value := "" })] := by
  decide!


theorem onLine_of_push {s s1 : LexState} (t : Token)
    (hflag : s1.lineContinuation = s.lineContinuation)
    (htok : s1.tokens = s.tokens ++ [t]) (ht : t.lineNumber = s.lineNumber) : OnLine s s1 :=
  ⟨hflag, [t], htok, by simpa using ht⟩

theorem onLine_of_same {s s1 : LexState} (hflag : s1.lineContinuation = s.lineContinuation)
    (htok : s1.tokens = s.tokens) : OnLine s s1 :=
  ⟨hflag, [], by simpa using htok, by simp⟩

theorem lexWord_onLine (source : List Char) (s : LexState) : OnLine s (lexWord source s) := by
  unfold lexWord
  simp only
  split
  · split
    · split
      · refine ⟨rfl, _, List.append_assoc _ _ _, ?_⟩
        intro t ht
        simp at ht
        rcases ht with rfl | rfl <;> rfl
      · exact onLine_of_push _ rfl rfl rfl
    · exact onLine_of_push _ rfl rfl rfl
  · exact onLine_of_push _ rfl rfl rfl

theorem lexOperator_onLine (source : List Char) (s s1 : LexState)
    (h : lexOperator source s = some s1) : OnLine s s1 := by
  unfold lexOperator at h
  simp only at h
  split at h
  · cases h; exact onLine_of_push _ rfl rfl rfl
  · split at h
    · cases h; exact onLine_of_push _ rfl rfl rfl
    · split at h
      · cases h; exact onLine_of_push _ rfl rfl rfl
      · cases h

theorem lexNumber_onLine (source : List Char) (s s1 : LexState)
    (h : lexNumber source s = .ok s1) : OnLine s s1 := by
  unfold lexNumber at h
  simp only at h
  split at h
  · split at h
    · cases h
    · split at h
      · cases h; exact onLine_of_same rfl rfl
      · cases h; exact onLine_of_push _ rfl rfl rfl
  · cases h; exact onLine_of_push _ rfl rfl rfl

theorem lexToken_onLine (source : List Char) (s s1 : LexState)
    (h : lexToken source s = some (.ok s1)) : OnLine s s1 := by
  unfold lexToken at h
  simp only at h
  split at h
  · cases h; exact lexWord_onLine source s
  · split at h
    · rename_i s2 hop
      cases h
      split at hop
      · exact lexOperator_onLine source s _ hop
      · cases hop
    · split at h
      · split at h
        · cases h
        · cases h; exact onLine_of_push _ rfl rfl rfl
        · cases h; exact onLine_of_same rfl rfl
      · split at h
        · simp only [Option.some.injEq] at h
          exact lexNumber_onLine source s s1 h
        · split at h
          · cases h; exact onLine_of_push _ rfl rfl rfl
          · cases h; exact onLine_of_same rfl rfl

/-- With `lineContinuation` set, an iteration of the main loop goes straight to the whitespace
skip: `processIndentation` is not called and `atLineStart` is not cleared. -/
theorem beforeLexeme_of_continuation (source : List Char) (s : LexState)
    (hc : s.lineContinuation = true) :
    beforeLexeme source s = { s with i := skipNonLeadingWhitespace source s.i } := by
  unfold beforeLexeme
  simp [hc]

/-- The iteration that takes the branch `if (c == '\n')`. -/
theorem lexStep_newline (source : List Char) (s : LexState) (h : readsNewline source s) :
    lexStep source s =
      some (.ok { beforeLexeme source s with
        lineNumber := (beforeLexeme source s).lineNumber + 1, i := (beforeLexeme source s).i + 1,
        atLineStart := true, lineContinuation := false }) := by
  unfold lexStep
  simp only
  rw [if_neg (by have := h.1; omega), if_pos h.2]

/-- The iteration that takes the branch of the line continuation
(`c == '\\' && i + 1 < source.size() && source[i + 1] == '\n'`). -/
theorem lexStep_backslash_newline (source : List Char) (s : LexState)
    (hlen : (beforeLexeme source s).i + 1 < source.length)
    (hb : charAt source (beforeLexeme source s).i = '\\')
    (hn : charAt source ((beforeLexeme source s).i + 1) = '\n') :
    lexStep source s =
      some (.ok { beforeLexeme source s with
        lineContinuation := true, i := (beforeLexeme source s).i + 2,
        lineNumber := (beforeLexeme source s).lineNumber + 1, atLineStart := true }) := by
  unfold lexStep
  simp only
  rw [if_neg (by omega), if_neg (by rw [hb]; decide), if_pos ⟨hb, hlen, hn⟩]

/-- One iteration of the main loop entered with `lineContinuation` set. -/
theorem lexStep_continued (source : List Char) (s s1 : LexState)
    (hc : s.lineContinuation = true) (h : lexStep source s = some (.ok s1)) :
    s1.indentStack = s.indentStack ∧ s.lineNumber ≤ s1.lineNumber ∧
      (∃ toks, s1.tokens = s.tokens ++ toks ∧
        ∀ t ∈ toks, t.type ≠ .INDENT ∧ t.type ≠ .DEDENT ∧ t.lineNumber = s.lineNumber) ∧
      (∃ errs, s1.errors = s.errors ++ errs ∧ ∀ e ∈ errs, e.message ∉ indentationMessages) ∧
      (¬ readsNewline source s → s1.lineContinuation = true) := by
  have hle := (lexStep_lines source s s1 h).1
  have hb := beforeLexeme_of_continuation source s hc
  unfold readsNewline
  unfold lexStep at h
  simp only at h
  rw [hb] at h ⊢
  simp only at h ⊢
  split at h
  · cases h
    exact ⟨rfl, hle, ⟨[], by simp, by simp⟩, ⟨[], by simp, by simp⟩, fun _ => hc⟩
  · rename_i hlt
    split at h
    · rename_i hnl
      cases h
      exact ⟨rfl, hle, ⟨[], by simp, by simp⟩, ⟨[], by simp, by simp⟩,
        fun hno => absurd ⟨by omega, hnl⟩ hno⟩
    · split at h
      · cases h
        exact ⟨rfl, hle, ⟨[], by simp, by simp⟩, ⟨[], by simp, by simp⟩, fun _ => rfl⟩
      · split at h
        · cases h
          exact ⟨rfl, hle, ⟨[], by simp, by simp⟩, ⟨[], by simp, by simp⟩, fun _ => hc⟩
        · split at h
          · cases h
          · cases h
            refine ⟨rfl, hle, ⟨[], by simp, by simp⟩,
              ⟨[⟨"Unterminated triple-quoted string", _, _⟩], rfl, ?_⟩, fun _ => hc⟩
            intro e hmem
            simp only [List.mem_singleton] at hmem
            subst hmem
            exact (by decide : "Unterminated triple-quoted string" ∉ indentationMessages)
          · split at h
            · cases h
              refine ⟨rfl, hle, ⟨[_], rfl, ?_⟩, ⟨[], by simp, by simp⟩, fun _ => hc⟩
              intro t hmem
              simp only [List.mem_singleton] at hmem
              subst hmem
              exact ⟨by simp, by simp, rfl⟩
            · rename_i text idx lineNumber htriple hlen
              have hzero := handleTripleQuotedString_empty source _ _ _ _ _ htriple
                (by simpa using hlen)
              obtain ⟨errs, h1, h2⟩ := lexToken_errors source _ s1 h
              obtain ⟨hq1, toks, hq2, hq3⟩ := lexToken_quiet source _ s1 h
              obtain ⟨ho1, toks2, ho2, ho3⟩ := lexToken_onLine source _ s1 h
              have heq : toks2 = toks := List.append_cancel_left (ho2.symm.trans hq2)
              subst heq
              refine ⟨hq1, hle, ⟨toks2, hq2, ?_⟩, ⟨errs, h1, fun e hmem => (h2 e hmem).2⟩,
                fun _ => by rw [ho1]; exact hc⟩
              intro t hmem
              refine ⟨(hq3 t hmem).1, (hq3 t hmem).2, ?_⟩
              rw [ho3 t hmem]
              exact hzero.2

theorem continued_refl (s : LexState) (hc : s.lineContinuation = true) : Continued s s :=
  ⟨hc, rfl, le_refl _, ⟨[], by simp, by simp⟩, ⟨[], by simp, by simp⟩⟩

theorem continued_step {s s1 sn : LexState}
    (h1 : s1.indentStack = s.indentStack ∧ s.lineNumber ≤ s1.lineNumber ∧
      (∃ toks, s1.tokens = s.tokens ++ toks ∧
        ∀ t ∈ toks, t.type ≠ .INDENT ∧ t.type ≠ .DEDENT ∧ t.lineNumber = s.lineNumber) ∧
      (∃ errs, s1.errors = s.errors ++ errs ∧ ∀ e ∈ errs, e.message ∉ indentationMessages))
    (h2 : Continued s1 sn) : Continued s sn := by
  obtain ⟨a1, a2, ⟨t1, a3, a4⟩, ⟨e1, a5, a6⟩⟩ := h1
  obtain ⟨b0, b1, b2, ⟨t2, b3, b4⟩, ⟨e2, b5, b6⟩⟩ := h2
  refine ⟨b0, by rw [b1, a1], le_trans a2 b2, ⟨t1 ++ t2, by rw [b3, a3, List.append_assoc], ?_⟩,
    ⟨e1 ++ e2, by rw [b5, a5, List.append_assoc], ?_⟩⟩
  · intro t hmem
    rcases List.mem_append.1 hmem with hm | hm
    · obtain ⟨c1, c2, c3⟩ := a4 t hm
      exact ⟨c1, c2, by rw [c3], by rw [c3]; exact le_trans a2 b2⟩
    · obtain ⟨c1, c2, c3, c4⟩ := b4 t hm
      exact ⟨c1, c2, le_trans a2 c3, c4⟩
  · intro e hmem
    rcases List.mem_append.1 hmem with hm | hm
    · exact a6 e hm
    · exact b6 e hm

/-- As long as no iteration of the main loop reads a newline, the lexer stays on the continued
line. -/
theorem lexSteps_continued (source : List Char) :
    ∀ (n : Nat) (s sn : LexState), s.lineContinuation = true →
      lexSteps source n s = some (.ok sn) →
      (∀ k sk, k < n → lexSteps source k s = some (.ok sk) → ¬ readsNewline source sk) →
      Continued s sn := by
  intro n
  induction n with
  | zero =>
    intro s sn hc h _
    simp only [lexSteps, Option.some.injEq, Except.ok.injEq] at h
    subst h
    exact continued_refl s hc
  | succ k ih =>
    intro s sn hc h hno
    have h0 : ¬ readsNewline source s := hno 0 s (Nat.succ_pos k) rfl
    unfold lexSteps at h
    split at h
    · rename_i hlt
      split at h
      · cases h
      · cases h
      · rename_i s2 hstep
        obtain ⟨c1, c2, c3, c4, c5⟩ := lexStep_continued source s s2 hc hstep
        refine continued_step ⟨c1, c2, c3, c4⟩ (ih s2 sn (c5 h0) h ?_)
        intro j sj hj hsj
        refine hno (j + 1) sj (by omega) ?_
        rw [lexSteps, if_pos hlt, hstep]
        exact hsj
    · simp only [Option.some.injEq, Except.ok.injEq] at h
      subst h
      exact continued_refl s hc


/-- The run from which the witness state is taken: the first four iterations of the main loop on
the example lex the first line up to the `+`. -/
theorem lexSteps_continuation_example_start :
    lexSteps "x = 1 + \\\n        2\ny = 3".toList 4 (initialState Lexer.fresh) =
      some (.ok ⟨[⟨.IDENTIFIER, "x", 1, "global"⟩, ⟨.OPERATOR, "=", 1, ""⟩, ⟨.NUMBER, "1", 1, ""⟩,
        ⟨.OPERATOR, "+", 1, ""⟩], [], 1, 7, [0], false, false, []⟩) := by
  decide!

/-- The example of C30 run as a whole: the continued line (line 2) yields the token `2` with line
number 2 and no INDENT although it is indented by eight spaces; line 3 is compared with the
indent stack again (no layout token, as its indentation is 0). -/
theorem tokenize_continuation_example :
    tokenize Lexer.fresh "x = 1 + \\\n        2\ny = 3".toList =
      .returned
        [⟨.IDENTIFIER, "x", 1, "global"⟩, ⟨.OPERATOR, "=", 1, ""⟩, ⟨.NUMBER, "1", 1, ""⟩,
         ⟨.OPERATOR, "+", 1, ""⟩, ⟨.NUMBER, "2", 2, ""⟩, ⟨.IDENTIFIER, "y", 3, "global"⟩,
         ⟨.OPERATOR, "=", 3, ""⟩, ⟨.NUMBER, "3", 3, ""⟩]
        [] ⟨[], [0], false, false⟩ := by
  decide!

/-- Indentation processing resumes after the continued line: the third line is indented and
yields an INDENT. -/
theorem tokenize_continuation_then_indent :
    tokenize Lexer.fresh "x = \\\n  1\n  y".toList =
      .returned
        [⟨.IDENTIFIER, "x", 1, "global"⟩, ⟨.OPERATOR, "=", 1, ""⟩, ⟨.NUMBER, "1", 2, ""⟩,
         ⟨.INDENT, "", 3, ""⟩, ⟨.IDENTIFIER, "y", 3, "global"⟩, ⟨.DEDENT, "", 3, ""⟩]
        [] ⟨[], [0], false, false⟩ := by
  decide!

/-- C30 (counterexample). The first line of the source is a comment that ends in a backslash
directly followed by a newline; the comment branch passes the backslash, the main loop reads the
newline, and the second line is compared with the indent stack: it yields an INDENT (and the
final DEDENT). -/
theorem comment_backslash_line_is_indented :
    tokenize Lexer.fresh "# c\\\n  x".toList =
      .returned
        [⟨.INDENT, "", 2, ""⟩, ⟨.IDENTIFIER, "x", 2, "global"⟩, ⟨.DEDENT, "", 2, ""⟩]
        [] ⟨[], [0], false, false⟩ := by
  decide!

/-- An unterminated string on the continued line: the string handler passes the newline at which
it gives up, the main loop does not read that newline, and the flags `atLineStart` and
`lineContinuation` stay set over the third line (no INDENT for `y`, which carries line 2). -/
theorem tokenize_continuation_unterminated_string :
    tokenize Lexer.fresh "x = \\\n \"a\n  y".toList =
      .returned
        [⟨.IDENTIFIER, "x", 1, "global"⟩, ⟨.OPERATOR, "=", 1, ""⟩,
         ⟨.IDENTIFIER, "y", 2, "global"⟩]
        [⟨"Unterminated string literal", 2, 7⟩] ⟨[], [0], true, true⟩ := by
  decide!


/-- `processIndentation` on a line that is not blank: the leading whitespace is passed, the
diagnostic of the mixed check is recorded, and the width is compared with the indent stack. -/
theorem processIndentation_nonblank (source : List Char) (s : LexState)
    (hnb : charAt source (s.i + (leadingWhitespace source s.i).length) ≠ '\n') :
    processIndentation source s =
      compareIndent (indentWidth source s.i) s.lineNumber s.i
        { s with i := s.i + (leadingWhitespace source s.i).length,
                 errors := s.errors ++ mixedDiagnostics source s.i s.lineNumber } := by
  unfold processIndentation mixedDiagnostics indentWidth
  unfold leadingWhitespace at hnb ⊢
  simp only
  by_cases hm : List.count ' ' ((source.drop s.i).takeWhile (fun c => c = ' ' || c = '\t')) > 0 ∧
      List.count '\t' ((source.drop s.i).takeWhile (fun c => c = ' ' || c = '\t')) > 0
  · rw [if_pos hm, if_pos hm]
    rw [if_neg (by simpa [LexState.report] using hnb)]
    rfl
  · rw [if_neg hm, if_neg hm]
    rw [if_neg (by simpa using hnb)]
    simp

/-- C29 (amended). `processIndentation` on a line that is not blank (the leading run of spaces and
tabs is not followed by a newline) whose indentation `w = tabs * 4 + spaces` is smaller than the
top of a well-formed indent stack (strictly increasing, `0` at the bottom, as `tokenize` keeps
it): it emits exactly one `DEDENT` for each stacked level greater than `w` and leaves exactly the
levels not greater than `w` on the stack. The diagnostics it records are, first, "Mixed tabs and
spaces in indentation" when the leading whitespace holds both a space and a tab, and then nothing
more when the new top equals `w`, and otherwise exactly the one diagnostic "Unindent does not
match outer level"; in that case `w` is not on the stack and the new top is the largest stacked
level smaller than `w`. -/
theorem processIndentation_dedent (source : List Char) (s : LexState)
    (hok : StackOk s.indentStack)
    (hnb : charAt source (s.i + (leadingWhitespace source s.i).length) ≠ '\n')
    (hlt : indentWidth source s.i < back s.indentStack) :
    (processIndentation source s).tokens =
        s.tokens ++
          List.replicate (s.indentStack.countP (fun l => decide (indentWidth source s.i < l)))
            ⟨.DEDENT, "", s.lineNumber, ""⟩ ∧
      (processIndentation source s).indentStack =
        s.indentStack.filter (fun l => decide (l ≤ indentWidth source s.i)) ∧
      (back (processIndentation source s).indentStack = indentWidth source s.i →
        (processIndentation source s).errors =
          s.errors ++ mixedDiagnostics source s.i s.lineNumber) ∧
      (back (processIndentation source s).indentStack ≠ indentWidth source s.i →
        (processIndentation source s).errors =
            s.errors ++ mixedDiagnostics source s.i s.lineNumber ++
              [⟨"Unindent does not match outer level", s.lineNumber, s.i⟩] ∧
          indentWidth source s.i ∉ (processIndentation source s).indentStack ∧
          back (processIndentation source s).indentStack < indentWidth source s.i ∧
          ∀ l ∈ s.indentStack, l < indentWidth source s.i →
            l ≤ back (processIndentation source s).indentStack) := by
  rw [processIndentation_nonblank source s hnb]
  exact compareIndent_dedent (indentWidth source s.i) s.lineNumber s.i
    { s with i := s.i + (leadingWhitespace source s.i).length,
             errors := s.errors ++ mixedDiagnostics source s.i s.lineNumber } hok hlt

theorem processIndentation_dedent_witness :
    (processIndentation "\t d".toList
        ⟨[], [], 4, 0, [9, 5, 0], true, false, []⟩).tokens =
        [] ++
          List.replicate
            (([9, 5, 0] : List Nat).countP (fun l => decide (indentWidth "\t d".toList 0 < l)))
            ⟨.DEDENT, "", 4, ""⟩ ∧
      (processIndentation "\t d".toList
        ⟨[], [], 4, 0, [9, 5, 0], true, false, []⟩).indentStack =
        ([9, 5, 0] : List Nat).filter (fun l => decide (l ≤ indentWidth "\t d".toList 0)) ∧
      (back (processIndentation "\t d".toList
          ⟨[], [], 4, 0, [9, 5, 0], true, false, []⟩).indentStack = indentWidth "\t d".toList 0 →
        (processIndentation "\t d".toList
          ⟨[], [], 4, 0, [9, 5, 0], true, false, []⟩).errors =
          [] ++ mixedDiagnostics "\t d".toList 0 4) ∧
      (back (processIndentation "\t d".toList
          ⟨[], [], 4, 0, [9, 5, 0], true, false, []⟩).indentStack ≠ indentWidth "\t d".toList 0 →
        (processIndentation "\t d".toList
          ⟨[], [], 4, 0, [9, 5, 0], true, false, []⟩).errors =
            [] ++ mixedDiagnostics "\t d".toList 0 4 ++
              [⟨"Unindent does not match outer level", 4, 0⟩] ∧
          indentWidth "\t d".toList 0 ∉
            (processIndentation "\t d".toList
              ⟨[], [], 4, 0, [9, 5, 0], true, false, []⟩).indentStack ∧
          back (processIndentation "\t d".toList
              ⟨[], [], 4, 0, [9, 5, 0], true, false, []⟩).indentStack <
            indentWidth "\t d".toList 0 ∧
          ∀ l ∈ ([9, 5, 0] : List Nat), l < indentWidth "\t d".toList 0 →
            l ≤ back (processIndentation "\t d".toList
              ⟨[], [], 4, 0, [9, 5, 0], true, false, []⟩).indentStack) :=
  processIndentation_dedent "\t d".toList ⟨[], [], 4, 0, [9, 5, 0], true, false, []⟩
    (by unfold StackOk; exact ⟨by decide, by decide⟩) (by decide!) (by decide!)

/-- C29 (counterexample). The fourth line of the source is indented by a tab and a space, so its
indentation is 5 while the indent stack holds 9, 5 and 0. `processIndentation` pops the 9, emits
one `DEDENT`, and the new top equals the indentation; yet the call records a diagnostic, "Mixed
tabs and spaces in indentation". -/
theorem dedent_to_level_records_mixed_diagnostic :
    tokenize Lexer.fresh "if a:\n     if b:\n         c\n\t d".toList =
        .returned
          [⟨.IfKeyword, "if", 1, ""⟩, ⟨.IDENTIFIER, "a", 1, "global"⟩, ⟨.Colon, ":", 1, ""⟩,
           ⟨.INDENT, "", 2, ""⟩, ⟨.IfKeyword, "if", 2, ""⟩, ⟨.IDENTIFIER, "b", 2, "global"⟩,
           ⟨.Colon, ":", 2, ""⟩, ⟨.INDENT, "", 3, ""⟩, ⟨.IDENTIFIER, "c", 3, "global"⟩,
           ⟨.DEDENT, "", 4, ""⟩, ⟨.IDENTIFIER, "d", 4, "global"⟩, ⟨.DEDENT, "", 4, ""⟩]
          [⟨"Mixed tabs and spaces in indentation", 4, 28⟩] ⟨[], [0], false, false⟩ ∧
      ∃ s, lexSteps "if a:\n     if b:\n         c\n\t d".toList 10 (initialState Lexer.fresh) =
          some (.ok s) ∧
        s.i = 28 ∧ s.atLineStart = true ∧ s.lineContinuation = false ∧
        s.indentStack = [9, 5, 0] ∧ s.errors = [] ∧
        indentWidth "if a:\n     if b:\n         c\n\t d".toList s.i = 5 ∧
        (processIndentation "if a:\n     if b:\n         c\n\t d".toList s).indentStack = [5, 0] ∧
        (processIndentation "if a:\n     if b:\n         c\n\t d".toList s).tokens =
          s.tokens ++ [⟨.DEDENT, "", 4, ""⟩] ∧
        (processIndentation "if a:\n     if b:\n         c\n\t d".toList s).errors =
          [⟨"Mixed tabs and spaces in indentation", 4, 28⟩] := by
  refine ⟨by decide!, ?_⟩
  refine ⟨⟨[⟨.IfKeyword, "if", 1, ""⟩, ⟨.IDENTIFIER, "a", 1, "global"⟩, ⟨.Colon, ":", 1, ""⟩,
           ⟨.INDENT, "", 2, ""⟩, ⟨.IfKeyword, "if", 2, ""⟩, ⟨.IDENTIFIER, "b", 2, "global"⟩,
           ⟨.Colon, ":", 2, ""⟩, ⟨.INDENT, "", 3, ""⟩, ⟨.IDENTIFIER, "c", 3, "global"⟩],
          [], 4, 28, [9, 5, 0], true, false, []⟩, by decide!, rfl, rfl, rfl, rfl, rfl,
    by decide!, by decide!, by decide!, by decide!⟩


/-! ### Claims C31 to C40 -/

/-! #### Evaluations on concrete sources -/

/-- C31 (failing input). The numeric literal `09999999999.5` begins with `0` and holds a `.`; the
leading-zero test evaluates `std::stoi` on it before it looks at `hasDot`, the digits before the
`.` do not fit an `int`, and `tokenize` is left by `std::out_of_range`: no `NUMBER` token is
returned and no diagnostic is recorded. -/
theorem leading_zero_literal_with_dot_throws :
    tokenize Lexer.fresh "09999999999.5".toList = .threw .stoiOutOfRange := by
  decide!

/-- Numeric literals on which `std::stoi` does not overflow: `007` gives the diagnostic and no
token; `0`, `00`, `00.5`, `01.5` give a `NUMBER` token; in `1.2.3` the second `.` ends the
literal. -/
theorem tokenize_number_examples :
    tokenize Lexer.fresh "007".toList =
        .returned [] [⟨"leading zeros in decimal integer literals are not permitted", 1, 0⟩]
          ⟨[], [0], false, false⟩ ∧
      tokenize Lexer.fresh "0".toList =
        .returned [⟨.NUMBER, "0", 1, ""⟩] [] ⟨[], [0], false, false⟩ ∧
      tokenize Lexer.fresh "00".toList =
        .returned [⟨.NUMBER, "00", 1, ""⟩] [] ⟨[], [0], false, false⟩ ∧
      tokenize Lexer.fresh "00.5".toList =
        .returned [⟨.NUMBER, "00.5", 1, ""⟩] [] ⟨[], [0], false, false⟩ ∧
      tokenize Lexer.fresh "01.5".toList =
        .returned [⟨.NUMBER, "01.5", 1, ""⟩] [] ⟨[], [0], false, false⟩ ∧
      tokenize Lexer.fresh "1.2.3".toList =
        .returned [⟨.NUMBER, "1.2", 1, ""⟩, ⟨.Dot, ".", 1, ""⟩, ⟨.NUMBER, "3", 1, ""⟩] []
          ⟨[], [0], false, false⟩ := by
  refine ⟨?_, ?_, ?_, ?_, ?_, ?_⟩ <;> decide!

/-- C33 (failing input). After `def` (and after `class`) the next run of alphanumeric characters
is emitted as an `IDENTIFIER` without a look at the keyword table or at its first character:
`def if` gives the `IDENTIFIER` `if`, which is a reserved word, and `def 1x` gives the
`IDENTIFIER` `1x`, which begins with a digit. -/
theorem def_name_not_checked :
    tokenize Lexer.fresh "def if".toList =
        .returned [⟨.DefKeyword, "def", 1, ""⟩, ⟨.IDENTIFIER, "if", 1, "if"⟩] []
          ⟨[⟨"if", 0⟩], [0], false, false⟩ ∧
      (pythonKeywords.lookup "if").isSome = true ∧
      tokenize Lexer.fresh "def 1x".toList =
        .returned [⟨.DefKeyword, "def", 1, ""⟩, ⟨.IDENTIFIER, "1x", 1, "1x"⟩] []
          ⟨[⟨"1x", 0⟩], [0], false, false⟩ ∧
      (isalpha '1' || '1' = '_') = false := by
  refine ⟨?_, ?_, ?_, ?_⟩ <;> decide!

theorem tokenize_x_eq_y :
    tokenize Lexer.fresh "x = y".toList =
      .returned
        [⟨.IDENTIFIER, "x", 1, "global"⟩, ⟨.OPERATOR, "=", 1, ""⟩, ⟨.IDENTIFIER, "y", 1, "global"⟩]
        [] ⟨[], [0], false, false⟩ := by
  decide!

theorem tokenize_x_eq :
    tokenize Lexer.fresh "x =".toList =
      .returned [⟨.IDENTIFIER, "x", 1, "global"⟩, ⟨.OPERATOR, "=", 1, ""⟩]
        [] ⟨[], [0], false, false⟩ := by
  decide!

/-- C36 (failing input). On the tokens of `x = y` (three tokens) `parseProgram` evaluates
`tokens[current]` with `current = 3`, and on the tokens of `x =` (two tokens) with `current = 2`:
both reads are out of range. -/
theorem parseProgram_reads_past_the_end :
    Syntax_Analyzer.parseProgram
        [⟨.IDENTIFIER, "x", 1, "global"⟩, ⟨.OPERATOR, "=", 1, ""⟩,
         ⟨.IDENTIFIER, "y", 1, "global"⟩] = .outOfRange ⟨3, []⟩ ∧
      Syntax_Analyzer.parseProgram
        [⟨.IDENTIFIER, "x", 1, "global"⟩, ⟨.OPERATOR, "=", 1, ""⟩] = .outOfRange ⟨2, []⟩ := by
  refine ⟨?_, ?_⟩ <;> decide!

theorem inferSource_string_first :
    inferSource "x = \"a\" + 1 + 2".toList =
      some ⟨[("x@global", ⟨1, "int", "global", 1, 1, ""⟩)], 2⟩ := by
  decide!

theorem inferSource_string_last :
    inferSource "x = 1 + 2 + \"a\"".toList =
      some ⟨[("x@global", ⟨1, "unknown", "global", 1, 1, ""⟩)], 2⟩ := by
  decide!

/-- C37 (counterexample). The tags `string`, `int`, `int` folded from the left give `int`, and
their permutation `int`, `int`, `string` gives `unknown`; so `unifyTypes` is not associative. -/
theorem unifyTypes_fold_depends_on_order :
    List.Perm ["string", "int", "int"] ["int", "int", "string"] ∧
      ["int", "int"].foldl Parser.unifyTypes "string" = "int" ∧
      ["int", "string"].foldl Parser.unifyTypes "int" = "unknown" ∧
      Parser.unifyTypes (Parser.unifyTypes "string" "int") "int" ≠
        Parser.unifyTypes "string" (Parser.unifyTypes "int" "int") := by
  refine ⟨?_, ?_, ?_, ?_⟩
  · exact @List.perm_append_comm String ["string"] ["int", "int"]
  · decide!
  · decide!
  · decide!

/-- C38 (counterexample). In `def f(): pass` / `y = 2` the second line has the indentation of the
header line; no `DEDENT` takes place, the frame `f` stays on the scope stack, and `y` has the
scope `f`. -/
theorem same_line_body_keeps_scope :
    tokenize Lexer.fresh "def f(): pass\ny = 2".toList =
      .returned
        [⟨.DefKeyword, "def", 1, ""⟩, ⟨.IDENTIFIER, "f", 1, "f"⟩, ⟨.LeftParenthesis, "(", 1, ""⟩,
         ⟨.RightParenthesis, ")", 1, ""⟩, ⟨.Colon, ":", 1, ""⟩, ⟨.PassKeyword, "pass", 1, ""⟩,
         ⟨.IDENTIFIER, "y", 2, "f"⟩, ⟨.OPERATOR, "=", 2, ""⟩, ⟨.NUMBER, "2", 2, ""⟩]
        [] ⟨[⟨"f", 0⟩], [0], false, false⟩ := by
  decide!

/-- With an indented body the dedent to the header's level pops the frame: `y` is `global`. -/
theorem tokenize_indented_body_then_global :
    tokenize Lexer.fresh "def f():\n    x = 1\ny = 2".toList =
      .returned
        [⟨.DefKeyword, "def", 1, ""⟩, ⟨.IDENTIFIER, "f", 1, "f"⟩, ⟨.LeftParenthesis, "(", 1, ""⟩,
         ⟨.RightParenthesis, ")", 1, ""⟩, ⟨.Colon, ":", 1, ""⟩, ⟨.INDENT, "", 2, ""⟩,
         ⟨.IDENTIFIER, "x", 2, "f"⟩, ⟨.OPERATOR, "=", 2, ""⟩, ⟨.NUMBER, "1", 2, ""⟩,
         ⟨.DEDENT, "", 3, ""⟩, ⟨.IDENTIFIER, "y", 3, "global"⟩, ⟨.OPERATOR, "=", 3, ""⟩,
         ⟨.NUMBER, "2", 3, ""⟩]
        [] ⟨[], [0], false, false⟩ := by
  decide!

theorem tokenize_list_of_names :
    tokenize Lexer.fresh "x = [a, b]".toList =
      .returned
        [⟨.IDENTIFIER, "x", 1, "global"⟩, ⟨.OPERATOR, "=", 1, ""⟩, ⟨.LeftBracket, "[", 1, ""⟩,
         ⟨.IDENTIFIER, "a", 1, "global"⟩, ⟨.Comma, ",", 1, ""⟩, ⟨.IDENTIFIER, "b", 1, "global"⟩,
         ⟨.RightBracket, "]", 1, ""⟩]
        [] ⟨[], [0], false, false⟩ := by
  decide!

/-- C39 (counterexample). After the inferrer has run over the tokens of `x = [a, b]` the table
holds the one entry `x@global`: the identifiers `a` and `b` of the list literal have no entry. -/
theorem list_literal_names_not_entered :
    ∃ st, inferSource "x = [a, b]".toList = some st ∧
      st.table = [("x@global", ⟨1, "list", "global", 1, 1, "[a,b]"⟩)] ∧
      st.find "a@global" = none ∧ st.find "b@global" = none :=
  ⟨⟨[("x@global", ⟨1, "list", "global", 1, 1, "[a,b]"⟩)], 2⟩, by decide!, rfl, by decide!,
    by decide!⟩

/-- The names of a tuple are read as operands and are entered. -/
theorem inferSource_tuple_of_names :
    inferSource "x = (a, b)".toList =
      some ⟨[("a@global", ⟨1, "unknown", "global", 1, 1, ""⟩),
             ("b@global", ⟨2, "unknown", "global", 1, 1, ""⟩),
             ("x@global", ⟨3, "tuple", "global", 1, 1, "(,)"⟩)], 4⟩ := by
  decide!

/-- C35 (counterexample). After `x = 1` and `x = x + 1` the entry `x@global` still holds the
value `1`. -/
theorem arithmetic_assignment_keeps_old_value :
    inferSource "x = 1\nx = x + 1".toList =
      some ⟨[("x@global", ⟨1, "int", "global", 1, 3, "1"⟩)], 2⟩ := by
  decide!

/-- An arithmetic right-hand side on a name without an earlier value leaves the value empty. -/
theorem inferSource_arithmetic_fresh :
    inferSource "x = 2 + 3".toList =
      some ⟨[("x@global", ⟨1, "int", "global", 1, 1, ""⟩)], 2⟩ := by
  decide!

theorem tokenize_class_body_no_newline :
    tokenize Lexer.fresh "class A:\n    x = 1".toList =
      .returned
        [⟨.ClassKeyword, "class", 1, ""⟩, ⟨.IDENTIFIER, "A", 1, "A"⟩, ⟨.Colon, ":", 1, ""⟩,
         ⟨.INDENT, "", 2, ""⟩, ⟨.IDENTIFIER, "x", 2, "A"⟩, ⟨.OPERATOR, "=", 2, ""⟩,
         ⟨.NUMBER, "1", 2, ""⟩, ⟨.DEDENT, "", 2, ""⟩]
        [] ⟨[⟨"A", 0⟩], [0], false, false⟩ := by
  decide!

theorem tokenize_class_body_newline :
    tokenize Lexer.fresh "class A:\n    x = 1\n".toList =
      .returned
        [⟨.ClassKeyword, "class", 1, ""⟩, ⟨.IDENTIFIER, "A", 1, "A"⟩, ⟨.Colon, ":", 1, ""⟩,
         ⟨.INDENT, "", 2, ""⟩, ⟨.IDENTIFIER, "x", 2, "A"⟩, ⟨.OPERATOR, "=", 2, ""⟩,
         ⟨.NUMBER, "1", 2, ""⟩, ⟨.DEDENT, "", 3, ""⟩]
        [] ⟨[⟨"A", 0⟩], [0], true, false⟩ := by
  decide!

/-- C40 (failing input). The tokens of `class A:` / `x = 1` without a final newline (the closing
`DEDENT` carries line 2) and with one (the `DEDENT` carries line 3) give the same tree, but
without the final newline `parseProgram` writes the diagnostic "Class members must be on separate
lines". -/
theorem class_body_without_final_newline :
    Syntax_Analyzer.parseProgram
        [⟨.ClassKeyword, "class", 1, ""⟩, ⟨.IDENTIFIER, "A", 1, "A"⟩, ⟨.Colon, ":", 1, ""⟩,
         ⟨.INDENT, "", 2, ""⟩, ⟨.IDENTIFIER, "x", 2, "A"⟩, ⟨.OPERATOR, "=", 2, ""⟩,
         ⟨.NUMBER, "1", 2, ""⟩, ⟨.DEDENT, "", 2, ""⟩] =
      .ok (.mk "program" [.mk "statement" [.mk "class_def" [.mk "class" [], .mk "A" [], .mk ":" [], .mk "class_block" [.mk "INDENT" [], .mk "assignment" [.mk "lhs" [.mk "x" []], .mk "Assign_OP" [.mk "=" []], .mk "rhs" [.mk "expression" [.mk "or_expression" [.mk "and_expression" [.mk "not_expression" [.mk "comparison" [.mk "arithmetic" [.mk "term" [.mk "factor" [.mk "1" []]]]]]]]]]], .mk "DEDENT" []]]]])
        ⟨8, [⟨2, "Class members must be on separate lines"⟩]⟩ ∧
    Syntax_Analyzer.parseProgram
        [⟨.ClassKeyword, "class", 1, ""⟩, ⟨.IDENTIFIER, "A", 1, "A"⟩, ⟨.Colon, ":", 1, ""⟩,
         ⟨.INDENT, "", 2, ""⟩, ⟨.IDENTIFIER, "x", 2, "A"⟩, ⟨.OPERATOR, "=", 2, ""⟩,
         ⟨.NUMBER, "1", 2, ""⟩, ⟨.DEDENT, "", 3, ""⟩] =
      .ok (.mk "program" [.mk "statement" [.mk "class_def" [.mk "class" [], .mk "A" [], .mk ":" [], .mk "class_block" [.mk "INDENT" [], .mk "assignment" [.mk "lhs" [.mk "x" []], .mk "Assign_OP" [.mk "=" []], .mk "rhs" [.mk "expression" [.mk "or_expression" [.mk "and_expression" [.mk "not_expression" [.mk "comparison" [.mk "arithmetic" [.mk "term" [.mk "factor" [.mk "1" []]]]]]]]]]], .mk "DEDENT" []]]]])
        ⟨8, []⟩ := by
  refine ⟨?_, ?_⟩ <;> decide!

/-- The sibling `parseBlock`: a function body without a final newline gives no diagnostic. -/
theorem function_body_without_final_newline :
    Syntax_Analyzer.parseProgram
        [⟨.DefKeyword, "def", 1, ""⟩, ⟨.IDENTIFIER, "f", 1, "f"⟩, ⟨.LeftParenthesis, "(", 1, ""⟩,
         ⟨.RightParenthesis, ")", 1, ""⟩, ⟨.Colon, ":", 1, ""⟩, ⟨.INDENT, "", 2, ""⟩,
         ⟨.IDENTIFIER, "x", 2, "f"⟩, ⟨.OPERATOR, "=", 2, ""⟩, ⟨.NUMBER, "1", 2, ""⟩,
         ⟨.DEDENT, "", 2, ""⟩] =
      .ok (.mk "program" [.mk "function" [.mk "def" [], .mk "f" [], .mk "(" [], .mk "parameters" [], .mk ")" [], .mk ":" [], .mk "block" [.mk "INDENT" [], .mk "statement" [.mk "assignment" [.mk "lhs" [.mk "x" []], .mk "Assign_OP" [.mk "=" []], .mk "rhs" [.mk "expression" [.mk "or_expression" [.mk "and_expression" [.mk "not_expression" [.mk "comparison" [.mk "arithmetic" [.mk "term" [.mk "factor" [.mk "1" []]]]]]]]]]]], .mk "DEDENT" []]]])
        ⟨10, []⟩ := by
  decide!

theorem tokenize_dotted_augmented :
    tokenize Lexer.fresh "car1.speed += 1".toList =
      .returned
        [⟨.IDENTIFIER, "car1", 1, "global"⟩, ⟨.Dot, ".", 1, ""⟩,
         ⟨.IDENTIFIER, "speed", 1, "global"⟩, ⟨.OPERATOR, "+=", 1, ""⟩, ⟨.NUMBER, "1", 1, ""⟩]
        [] ⟨[], [0], false, false⟩ := by
  decide!

/-- C34 (counterexample). The tokens of `car1.speed += 1` give no statement and the two
diagnostics "Expected '(' or '=' after dotted name" and "Could not parse statement". -/
theorem dotted_augmented_assignment_rejected :
    Syntax_Analyzer.parseProgram
        [⟨.IDENTIFIER, "car1", 1, "global"⟩, ⟨.Dot, ".", 1, ""⟩,
         ⟨.IDENTIFIER, "speed", 1, "global"⟩, ⟨.OPERATOR, "+=", 1, ""⟩, ⟨.NUMBER, "1", 1, ""⟩] =
      .ok (.mk "program" [])
        ⟨5, [⟨1, "Expected '(' or '=' after dotted name"⟩, ⟨1, "Could not parse statement"⟩]⟩ := by
  decide!

/-- The same for each of the seven augmented assignment operators. -/
theorem dotted_augmented_operators_rejected :
    ∀ op ∈ ["+=", "-=", "*=", "/=", "%=", "//=", "**="],
      Syntax_Analyzer.parseProgram
          [⟨.IDENTIFIER, "car1", 1, "global"⟩, ⟨.Dot, ".", 1, ""⟩,
           ⟨.IDENTIFIER, "speed", 1, "global"⟩, ⟨.OPERATOR, op, 1, ""⟩, ⟨.NUMBER, "1", 1, ""⟩] =
        .ok (.mk "program" [])
          ⟨5, [⟨1, "Expected '(' or '=' after dotted name"⟩, ⟨1, "Could not parse statement"⟩]⟩ := by
  decide!

/-- With a plain identifier as target each of the eight assignment operators gives an
assignment, and so does `=` with a dotted name as target. -/
theorem plain_target_assignment_parsed :
    (∀ op ∈ ["=", "+=", "-=", "*=", "/=", "%=", "//=", "**="],
      Syntax_Analyzer.parseProgram
          [⟨.IDENTIFIER, "speed", 1, "global"⟩, ⟨.OPERATOR, op, 1, ""⟩, ⟨.NUMBER, "1", 1, ""⟩] =
        .ok (.mk "program" [.mk "statement" [.mk "assignment" [.mk "lhs" [.mk "speed" []], .mk "Assign_OP" [.mk op []], .mk "rhs" [.mk "expression" [.mk "or_expression" [.mk "and_expression" [.mk "not_expression" [.mk "comparison" [.mk "arithmetic" [.mk "term" [.mk "factor" [.mk "1" []]]]]]]]]]]]])
          ⟨3, []⟩) ∧
      Syntax_Analyzer.parseProgram
          [⟨.IDENTIFIER, "car1", 1, "global"⟩, ⟨.Dot, ".", 1, ""⟩,
           ⟨.IDENTIFIER, "speed", 1, "global"⟩, ⟨.OPERATOR, "=", 1, ""⟩, ⟨.NUMBER, "1", 1, ""⟩] =
        .ok (.mk "program" [.mk "statement" [.mk "assignment" [.mk "lhs" [.mk "dotted_name" [.mk "car1" [], .mk "." [], .mk "speed" []]], .mk "Assign_OP" [.mk "=" []], .mk "rhs" [.mk "expression" [.mk "or_expression" [.mk "and_expression" [.mk "not_expression" [.mk "comparison" [.mk "arithmetic" [.mk "term" [.mk "factor" [.mk "1" []]]]]]]]]]]]])
          ⟨5, []⟩ := by
  refine ⟨?_, ?_⟩ <;> decide!


/-! #### Operators: longest match -/

theorem operators_length (p : String) (h : p ∈ operators) : 1 ≤ p.length ∧ p.length ≤ 3 := by
  have hall : ∀ q ∈ operators, 1 ≤ q.length ∧ q.length ≤ 3 := by decide!
  exact hall p h

theorem substr_data_prefix (source : List Char) (i k : Nat) :
    (substr source i k).data <+: source.drop i := by
  unfold substr
  exact List.take_prefix _ _

theorem substr_length (source : List Char) (i k : Nat) (h : i + k ≤ source.length) :
    (substr source i k).length = k := by
  unfold substr
  show ((source.drop i).take k).length = k
  rw [List.length_take, List.length_drop]
  omega

/-- A string that is a prefix of the source from `i` on is the `substr` of its own length. -/
theorem eq_substr_of_prefix (source : List Char) (i : Nat) (p : String)
    (h : p.data <+: source.drop i) (h1 : 1 ≤ p.length) :
    p = substr source i p.length ∧ i + p.length ≤ source.length := by
  obtain ⟨rest, hrest⟩ := h
  have hlen : p.data.length ≤ (source.drop i).length := by
    rw [← hrest, List.length_append]; omega
  rw [List.length_drop] at hlen
  have hpos : (source.drop i).length = p.data.length + rest.length := by
    rw [← hrest, List.length_append]
  rw [List.length_drop] at hpos
  refine ⟨?_, ?_⟩
  · unfold substr
    apply String.ext
    show p.data = (source.drop i).take p.data.length
    rw [← hrest, List.take_left]
  · have h2 : 1 ≤ p.data.length := h1
    show i + p.data.length ≤ source.length
    omega

theorem oneChar_not_operator_at_end : String.mk [Char.ofNat 0] ∉ operators := by
  decide!

/-- The operator branch of `tokenize`: when it emits a token, the token is an `OPERATOR` whose
lexeme is the longest member of the operator set at the cursor, and the cursor moves by the
length of the lexeme. -/
theorem lexOperator_longest (source : List Char) (s s1 : LexState)
    (h : lexOperator source s = some s1) :
    ∃ lexeme, s1.tokens = s.tokens ++ [⟨.OPERATOR, lexeme, s.lineNumber, ""⟩] ∧
      LongestOperatorAt source s.i lexeme ∧ s1.i = s.i + lexeme.length := by
  unfold lexOperator at h
  simp only at h
  by_cases h3 : s.i + 2 < source.length ∧ substr source s.i 3 ∈ operators
  · rw [if_pos h3] at h
    cases h
    have hl : (substr source s.i 3).length = 3 := substr_length source s.i 3 (by omega)
    refine ⟨substr source s.i 3, rfl, ⟨h3.2, substr_data_prefix _ _ _, by omega, ?_⟩, by rw [hl]⟩
    intro p hp _
    rw [hl]
    exact (operators_length p hp).2
  rw [if_neg h3] at h
  have no3 : ∀ p ∈ operators, p.data <+: source.drop s.i → p.length ≠ 3 := by
    intro p hp hpre hlen
    obtain ⟨e, hle⟩ := eq_substr_of_prefix source s.i p hpre (operators_length p hp).1
    rw [hlen] at e hle
    exact h3 ⟨by omega, by rw [← e]; exact hp⟩
  by_cases h2 : s.i + 1 < source.length ∧ substr source s.i 2 ∈ operators
  · rw [if_pos h2] at h
    cases h
    have hl : (substr source s.i 2).length = 2 := substr_length source s.i 2 (by omega)
    refine ⟨substr source s.i 2, rfl, ⟨h2.2, substr_data_prefix _ _ _, by omega, ?_⟩, by rw [hl]⟩
    intro p hp hpre
    rw [hl]
    have := operators_length p hp
    have := no3 p hp hpre
    omega
  rw [if_neg h2] at h
  have no2 : ∀ p ∈ operators, p.data <+: source.drop s.i → p.length ≠ 2 := by
    intro p hp hpre hlen
    obtain ⟨e, hle⟩ := eq_substr_of_prefix source s.i p hpre (operators_length p hp).1
    rw [hlen] at e hle
    exact h2 ⟨by omega, by rw [← e]; exact hp⟩
  by_cases h1 : String.mk [charAt source s.i] ∈ operators
  · rw [if_pos h1] at h
    cases h
    have hin : s.i < source.length := by
      by_contra hge
      rw [charAt_of_length_le source s.i (by omega)] at h1
      exact oneChar_not_operator_at_end h1
    refine ⟨String.mk [charAt source s.i], rfl,
      ⟨h1, ?_, (by show (1 : Nat) ≤ 3; omega), ?_⟩, rfl⟩
    · rw [drop_eq_charAt_cons source s.i hin]
      exact ⟨_, rfl⟩
    · intro p hp hpre
      have := operators_length p hp
      have := no3 p hp hpre
      have := no2 p hp hpre
      show p.length ≤ 1
      omega
  · rw [if_neg h1] at h
    cases h

theorem pythonKeywords_not_operator (w : String) (kw : TokenType)
    (h : pythonKeywords.lookup w = some kw) : kw ≠ .OPERATOR := by
  have hall : ∀ v ∈ pythonKeywords.map Prod.snd, v ≠ TokenType.OPERATOR := by decide
  exact hall kw (lookup_mem_values _ _ _ h)

theorem punctuationSymbols_not_operator (c : Char) (ty : TokenType)
    (h : punctuationSymbols.lookup c = some ty) : ty ≠ .OPERATOR := by
  have hall : ∀ v ∈ punctuationSymbols.map Prod.snd, v ≠ TokenType.OPERATOR := by decide
  exact hall ty (lookup_mem_values _ _ _ h)

theorem lexWord_no_operator (source : List Char) (s : LexState) :
    ∃ extra, (lexWord source s).tokens = s.tokens ++ extra ∧ ∀ t ∈ extra, t.type ≠ .OPERATOR := by
  unfold lexWord
  simp only
  split
  · rename_i kw hkw
    have hk := pythonKeywords_not_operator _ _ hkw
    split
    · split
      · refine ⟨_, List.append_assoc _ _ _, ?_⟩
        intro t ht
        simp at ht
        rcases ht with rfl | rfl
        · exact hk
        · simp
      · exact ⟨[_], rfl, by simpa using hk⟩
    · exact ⟨[_], rfl, by simpa using hk⟩
  · exact ⟨[_], rfl, by simp⟩

/-- The tokens `lexToken` appends: every `OPERATOR` among them is the longest match at the
cursor, and then the cursor has moved by its length. -/
theorem lexToken_operator (source : List Char) (s s1 : LexState)
    (h : lexToken source s = some (.ok s1)) :
    ∃ extra, s1.tokens = s.tokens ++ extra ∧
      ∀ t ∈ extra, t.type = .OPERATOR →
        extra = [t] ∧ LongestOperatorAt source s.i t.lexeme ∧ s1.i = s.i + t.lexeme.length := by
  unfold lexToken at h
  simp only at h
  split at h
  · cases h
    obtain ⟨extra, h1, h2⟩ := lexWord_no_operator source s
    exact ⟨extra, h1, fun t ht hop => absurd hop (h2 t ht)⟩
  · split at h
    · rename_i s2 hop
      cases h
      split at hop
      · obtain ⟨lexeme, h1, h2, h3⟩ := lexOperator_longest source s _ hop
        refine ⟨_, h1, ?_⟩
        intro t ht _
        simp only [List.mem_singleton] at ht
        subst ht
        exact ⟨rfl, h2, h3⟩
      · cases hop
    · split at h
      · split at h
        · cases h
        · cases h
          refine ⟨[_], rfl, ?_⟩
          intro t ht hop
          simp only [List.mem_singleton] at ht
          subst ht
          simp at hop
        · cases h; exact ⟨[], by simp, by simp⟩
      · split at h
        · simp only [Option.some.injEq] at h
          unfold lexNumber at h
          simp only at h
          split at h
          · split at h
            · cases h
            · split at h
              · cases h; exact ⟨[], by simp, by simp⟩
              · cases h
                refine ⟨[_], rfl, ?_⟩
                intro t ht hop
                simp only [List.mem_singleton] at ht
                subst ht
                simp at hop
          · cases h
            refine ⟨[_], rfl, ?_⟩
            intro t ht hop
            simp only [List.mem_singleton] at ht
            subst ht
            simp at hop
        · split at h
          · rename_i ty hty
            cases h
            refine ⟨[_], rfl, ?_⟩
            intro t ht hop
            simp only [List.mem_singleton] at ht
            subst ht
            exact absurd hop (punctuationSymbols_not_operator _ _ hty)
          · cases h; exact ⟨[], by simp, by simp⟩

/-- C32. In every iteration of the main loop of `tokenize` (from any state): when a token `t` the
iteration appends is an `OPERATOR`, it is the only token of the iteration besides the
`INDENT`/`DEDENT` tokens emitted before it, it is read at the position `i` the cursor has after
the indentation and whitespace handling, its lexeme is a member of the operator set that is a
prefix of the source from `i` on and has at most three characters, no member of the operator set
that is a prefix of the source from `i` on is longer, and the cursor ends at `i` plus the length
of the lexeme. -/
theorem lexStep_operator_longest (source : List Char) (s s1 : LexState)
    (h : lexStep source s = some (.ok s1)) :
    ∃ layout extra, s1.tokens = s.tokens ++ layout ++ extra ∧
      (∀ t ∈ layout, t.type = .INDENT ∨ t.type = .DEDENT) ∧
      ∀ t ∈ extra, t.type = .OPERATOR →
        extra = [t] ∧ t.lexeme ∈ operators ∧
          t.lexeme.data <+: source.drop (beforeLexeme source s).i ∧ t.lexeme.length ≤ 3 ∧
          (∀ p ∈ operators, p.data <+: source.drop (beforeLexeme source s).i →
            p.length ≤ t.lexeme.length) ∧
          s1.i = (beforeLexeme source s).i + t.lexeme.length := by
  obtain ⟨layout, hl1, hl2⟩ := beforeLexeme_tokens source s
  unfold lexStep at h
  simp only at h
  generalize beforeLexeme source s = sa at h hl1
  have none_case : sa.tokens = s.tokens ++ layout ++ [] := by simpa using hl1
  split at h
  · cases h; exact ⟨layout, [], none_case, hl2, by simp⟩
  · split at h
    · cases h; exact ⟨layout, [], none_case, hl2, by simp⟩
    · split at h
      · cases h; exact ⟨layout, [], none_case, hl2, by simp⟩
      · split at h
        · cases h; exact ⟨layout, [], none_case, hl2, by simp⟩
        · split at h
          · cases h
          · cases h; exact ⟨layout, [], none_case, hl2, by simp⟩
          · split at h
            · cases h
              rename_i text _ _ _ _
              refine ⟨layout,
                [{ type := .STRING_LITERAL, lexeme := text, lineNumber := sa.lineNumber }],
                by simp only [hl1], hl2, ?_⟩
              intro t ht hop
              simp only [List.mem_singleton] at ht
              subst ht
              simp at hop
            · rename_i text idx lineNumber htriple hlen
              have hzero := handleTripleQuotedString_empty source _ _ _ _ _ htriple
                (by simpa using hlen)
              obtain ⟨extra, h1, h2⟩ := lexToken_operator source _ s1 h
              refine ⟨layout, extra, by rw [h1]; simp only [hl1], hl2, ?_⟩
              intro t ht hop
              obtain ⟨e1, ⟨a1, a2, a3, a4⟩, e3⟩ := h2 t ht hop
              simp only [hzero.1] at a2 a4 e3
              exact ⟨e1, a1, a2, a3, a4, e3⟩

theorem lexStep_operator_longest_witness :
    ∃ layout extra,
      [(⟨.IDENTIFIER, "a", 1, "global"⟩ : Token), ⟨.OPERATOR, "**=", 1, ""⟩] =
          [⟨.IDENTIFIER, "a", 1, "global"⟩] ++ layout ++ extra ∧
        (∀ t ∈ layout, t.type = .INDENT ∨ t.type = .DEDENT) ∧
        ∀ t ∈ extra, t.type = .OPERATOR →
          extra = [t] ∧ t.lexeme ∈ operators ∧
            t.lexeme.data <+: "a **= b".toList.drop
              (beforeLexeme "a **= b".toList
                ⟨[⟨.IDENTIFIER, "a", 1, "global"⟩], [], 1, 1, [0], false, false, []⟩).i ∧
            t.lexeme.length ≤ 3 ∧
            (∀ p ∈ operators,
              p.data <+: "a **= b".toList.drop
                (beforeLexeme "a **= b".toList
                  ⟨[⟨.IDENTIFIER, "a", 1, "global"⟩], [], 1, 1, [0], false, false, []⟩).i →
              p.length ≤ t.lexeme.length) ∧
            5 =
              (beforeLexeme "a **= b".toList
                ⟨[⟨.IDENTIFIER, "a", 1, "global"⟩], [], 1, 1, [0], false, false, []⟩).i +
                t.lexeme.length :=
  lexStep_operator_longest "a **= b".toList
    ⟨[⟨.IDENTIFIER, "a", 1, "global"⟩], [], 1, 1, [0], false, false, []⟩
    ⟨[⟨.IDENTIFIER, "a", 1, "global"⟩, ⟨.OPERATOR, "**=", 1, ""⟩], [], 1, 5, [0], false, false, []⟩
    (by decide!)

/-- Whole runs: `**=` is one token although `*` and `**` are operators too; `<<=` is not in the
operator set and gives `<<` and `=`; `===` gives `==` and `=`. -/
theorem tokenize_operator_examples :
    tokenize Lexer.fresh "a**=b".toList =
        .returned [⟨.IDENTIFIER, "a", 1, "global"⟩, ⟨.OPERATOR, "**=", 1, ""⟩,
          ⟨.IDENTIFIER, "b", 1, "global"⟩] [] ⟨[], [0], false, false⟩ ∧
      tokenize Lexer.fresh "a<<=b".toList =
        .returned [⟨.IDENTIFIER, "a", 1, "global"⟩, ⟨.OPERATOR, "<<", 1, ""⟩,
          ⟨.OPERATOR, "=", 1, ""⟩, ⟨.IDENTIFIER, "b", 1, "global"⟩] []
          ⟨[], [0], false, false⟩ ∧
      tokenize Lexer.fresh "a===b".toList =
        .returned [⟨.IDENTIFIER, "a", 1, "global"⟩, ⟨.OPERATOR, "==", 1, ""⟩,
          ⟨.OPERATOR, "=", 1, ""⟩, ⟨.IDENTIFIER, "b", 1, "global"⟩] []
          ⟨[], [0], false, false⟩ := by
  refine ⟨?_, ?_, ?_⟩ <;> decide!


/-! #### Assignment to a dotted name -/

/-- C34 (amended). `parseStatement` at an identifier that is followed by a `.`: when
`parseDottedName` returns and the token after the dotted name is an operator other than `=` (in
particular one of the seven augmented assignment operators `+=`, `-=`, `*=`, `/=`, `%=`, `//=`,
`**=`), the statement is not parsed as an assignment. `parseStatement` writes "Expected '(' or
'=' after dotted name" and "Could not parse statement" for the line of that operator and raises
the recovery signal with the cursor on the operator; it returns no statement node. -/
theorem parseStatement_dotted_other_operator (tokens : List Token) (fuel : Nat)
    (s s1 : Syntax_Analyzer.PState) (tk next tk1 : Token) (dotted : ParseTreeNode)
    (htk : tokens[s.current]? = some tk) (hid : tk.type = .IDENTIFIER)
    (hnext : tokens[s.current + 1]? = some next) (hdot : next.type = .Dot)
    (hname : Syntax_Analyzer.parseDottedName tokens s = .ok dotted s1)
    (htk1 : tokens[s1.current]? = some tk1)
    (hop : tk1.type = .OPERATOR) (hne : tk1.lexeme ≠ "=") :
    Syntax_Analyzer.parseStatement tokens (fuel + 1) s =
      .thrown ⟨s1.current,
        s1.log ++ [⟨tk1.lineNumber, "Expected '(' or '=' after dotted name"⟩,
          ⟨tk1.lineNumber, "Could not parse statement"⟩]⟩ := by
  have hlt : s1.current < tokens.length := (List.getElem?_eq_some_iff.mp htk1).1
  rw [Syntax_Analyzer.parseStatement]
  refine (Syntax_Analyzer.rethrowing_thrown tokens _ _ s
    ⟨s1.current, s1.log ++ [⟨tk1.lineNumber, "Expected '(' or '=' after dotted name"⟩]⟩ tk1 ?_
    htk1).trans (by simp)
  rw [Syntax_Analyzer.bind_ok (Syntax_Analyzer.currentToken tokens) _ s s tk
    (Syntax_Analyzer.currentToken_of_some tokens s tk htk)]
  simp only [hid]
  rw [Syntax_Analyzer.bind_ok (Syntax_Analyzer.peekToken tokens) _ s s next
    (by simp [Syntax_Analyzer.peekToken, hnext])]
  rw [if_neg (by rw [hdot]; decide), if_pos hdot]
  rw [Syntax_Analyzer.bind_ok Syntax_Analyzer.getCurrent _ s s s.current rfl]
  rw [Syntax_Analyzer.bind_ok (Syntax_Analyzer.parseDottedName tokens) _ s s1 dotted hname]
  rw [Syntax_Analyzer.bind_ok Syntax_Analyzer.getCurrent _ s1 s1 s1.current rfl]
  rw [if_pos hlt]
  rw [Syntax_Analyzer.bind_ok (Syntax_Analyzer.currentToken tokens) _ s1 s1 tk1
    (Syntax_Analyzer.currentToken_of_some tokens s1 tk1 htk1)]
  rw [if_neg (by rw [hop]; decide), if_neg (fun h => hne h.2)]
  rw [Syntax_Analyzer.bind_ok (Syntax_Analyzer.error tokens _) _ s1 _ ()
    (Syntax_Analyzer.error_of_some tokens _ s1 tk1 htk1)]
  rfl

theorem parseStatement_dotted_other_operator_witness :
    Syntax_Analyzer.parseStatement
        [⟨.IDENTIFIER, "car1", 1, "global"⟩, ⟨.Dot, ".", 1, ""⟩,
         ⟨.IDENTIFIER, "speed", 1, "global"⟩, ⟨.OPERATOR, "+=", 1, ""⟩, ⟨.NUMBER, "1", 1, ""⟩]
        (139 + 1) ⟨0, []⟩ =
      .thrown ⟨3,
        [] ++ [⟨1, "Expected '(' or '=' after dotted name"⟩, ⟨1, "Could not parse statement"⟩]⟩ :=
  parseStatement_dotted_other_operator
    [⟨.IDENTIFIER, "car1", 1, "global"⟩, ⟨.Dot, ".", 1, ""⟩,
     ⟨.IDENTIFIER, "speed", 1, "global"⟩, ⟨.OPERATOR, "+=", 1, ""⟩, ⟨.NUMBER, "1", 1, ""⟩]
    139 ⟨0, []⟩ ⟨3, []⟩ ⟨.IDENTIFIER, "car1", 1, "global"⟩ ⟨.Dot, ".", 1, ""⟩
    ⟨.OPERATOR, "+=", 1, ""⟩
    (.mk "dotted_name" [.mk "car1" [], .mk "." [], .mk "speed" []])
    (by decide!) (by decide) (by decide!) (by decide) (by decide!) (by decide!) (by decide)
    (by decide)


/-! #### Properties of the table kept by the inferrer -/

namespace Parser

/-- A property of the symbol table that `addSymbol(name, "unknown", line, scope)` and
`table[key].usageCount++` keep is kept by the four mutually recursive functions of the
expression reader. -/
theorem expression_functions_preserve (P : SymbolTable → Prop)
    (hadd : ∀ (st : SymbolTable) (name : String) (line : Int) (scope : String),
      P st → P (st.addSymbol name "unknown" line scope))
    (hbump : ∀ (st : SymbolTable) (key : String), P st → P (st.bump key))
    (tokens : List Token) :
    ∀ fuel : Nat,
      (∀ i st t v i1 st1, P st → parseOperand tokens fuel i st = some (t, v, i1, st1) →
        P st1) ∧
      (∀ value types i st v ts i1 st1, P st →
        tupleLoop tokens fuel value types i st = some (v, ts, i1, st1) → P st1) ∧
      (∀ i st t v i1 st1, P st → parseExpression tokens fuel i st = some (t, v, i1, st1) →
        P st1) ∧
      (∀ acc av i st t v i1 st1, P st →
        exprLoop tokens fuel acc av i st = some (t, v, i1, st1) → P st1) := by
  intro fuel
  induction fuel with
  | zero =>
    refine ⟨?_, ?_, ?_, ?_⟩
    · intro i st t v i1 st1 _ h; simp [parseOperand] at h
    · intro value types i st v ts i1 st1 _ h; simp [tupleLoop] at h
    · intro i st t v i1 st1 _ h; simp [parseExpression] at h
    · intro acc av i st t v i1 st1 _ h; simp [exprLoop] at h
  | succ k ih =>
    obtain ⟨ihO, ihT, ihE, ihL⟩ := ih
    refine ⟨?_, ?_, ?_, ?_⟩
    · intro i st t v i1 st1 hc h
      rw [parseOperand] at h
      cases htok : tokens[i]? with
      | none =>
        rw [htok] at h
        simp only [Option.some.injEq, Prod.mk.injEq] at h
        rw [← h.2.2.2]
        exact hc
      | some tk =>
        rw [htok] at h
        dsimp only at h
        by_cases h1 : tk.type = .NUMBER
        · rw [if_pos h1] at h
          by_cases h2 : '.' ∈ tk.lexeme.data
          · rw [if_pos h2] at h
            simp only [Option.some.injEq, Prod.mk.injEq] at h
            rw [← h.2.2.2]; exact hc
          · rw [if_neg h2] at h
            simp only [Option.some.injEq, Prod.mk.injEq] at h
            rw [← h.2.2.2]; exact hc
        rw [if_neg h1] at h
        by_cases h3 : tk.type = .STRING_LITERAL
        · rw [if_pos h3] at h
          simp only [Option.some.injEq, Prod.mk.injEq] at h
          rw [← h.2.2.2]; exact hc
        rw [if_neg h3] at h
        by_cases h4 : tk.type = .FalseKeyword ∨ tk.type = .TrueKeyword
        · rw [if_pos h4] at h
          by_cases h5 : tk.lexeme = "True" ∨ tk.lexeme = "False"
          · rw [if_pos h5] at h
            simp only [Option.some.injEq, Prod.mk.injEq] at h
            rw [← h.2.2.2]; exact hc
          · rw [if_neg h5] at h
            simp only [Option.some.injEq, Prod.mk.injEq] at h
            rw [← h.2.2.2]; exact hc
        rw [if_neg h4] at h
        by_cases h6 : tk.type = .IDENTIFIER
        · rw [if_pos h6] at h
          simp only [Option.some.injEq, Prod.mk.injEq] at h
          rw [← h.2.2.2]
          split
          · exact hadd _ _ _ _ hc
          · exact hbump _ _ hc
        rw [if_neg h6] at h
        by_cases h7 : tk.lexeme = "("
        · rw [if_pos h7] at h
          cases htl : tupleLoop tokens k "(" [] (i + 1) st with
          | none => rw [htl] at h; cases h
          | some r =>
            obtain ⟨v2, ts, i2, st2⟩ := r
            have hc2 := ihT _ _ _ _ _ _ _ _ hc htl
            rw [htl] at h
            dsimp only at h
            by_cases h8 : tokenIs tokens i2 (fun t => t.lexeme = ")") = true
            · rw [if_pos h8] at h
              cases ts with
              | nil =>
                simp only [Option.some.injEq, Prod.mk.injEq] at h
                rw [← h.2.2.2]; exact hc2
              | cons a rest =>
                cases rest with
                | nil =>
                  simp only [Option.some.injEq, Prod.mk.injEq] at h
                  rw [← h.2.2.2]; exact hc2
                | cons b rest2 =>
                  simp only [Option.some.injEq, Prod.mk.injEq] at h
                  rw [← h.2.2.2]; exact hc2
            · rw [if_neg h8] at h
              simp only [Option.some.injEq, Prod.mk.injEq] at h
              rw [← h.2.2.2]; exact hc2
        rw [if_neg h7] at h
        by_cases h9 : tk.lexeme = "["
        · rw [if_pos h9] at h
          simp only [Option.some.injEq, Prod.mk.injEq] at h
          rw [← h.2.2.2]; exact hc
        rw [if_neg h9] at h
        by_cases h10 : tk.lexeme = "\x7b"
        · rw [if_pos h10] at h
          simp only [Option.some.injEq, Prod.mk.injEq] at h
          rw [← h.2.2.2]; exact hc
        rw [if_neg h10] at h
        simp only [Option.some.injEq, Prod.mk.injEq] at h
        rw [← h.2.2.2]; exact hc
    · intro value types i st v ts i1 st1 hc h
      rw [tupleLoop] at h
      split at h
      · cases he : parseExpression tokens k i st with
        | none => rw [he] at h; cases h
        | some r =>
          obtain ⟨t2, v2, i2, st2⟩ := r
          have hc2 := ihE _ _ _ _ _ _ hc he
          rw [he] at h
          dsimp only at h
          split at h
          · exact ihT _ _ _ _ _ _ _ _ hc2 h
          · simp only [Option.some.injEq, Prod.mk.injEq] at h
            rw [← h.2.2.2]; exact hc2
      · simp only [Option.some.injEq, Prod.mk.injEq] at h
        rw [← h.2.2.2]; exact hc
    · intro i st t v i1 st1 hc h
      rw [parseExpression] at h
      cases ho : parseOperand tokens k i st with
      | none => rw [ho] at h; cases h
      | some r =>
        obtain ⟨t2, v2, i2, st2⟩ := r
        have hc2 := ihO _ _ _ _ _ _ hc ho
        rw [ho] at h
        exact ihL _ _ _ _ _ _ _ _ hc2 h
    · intro acc av i st t v i1 st1 hc h
      rw [exprLoop] at h
      cases htok : tokens[i]? with
      | none =>
        rw [htok] at h
        simp only [Option.some.injEq, Prod.mk.injEq] at h
        rw [← h.2.2.2]; exact hc
      | some tk =>
        rw [htok] at h
        dsimp only at h
        split at h
        · split at h
          · cases ho : parseOperand tokens k (i + 1) st with
            | none => rw [ho] at h; cases h
            | some r =>
              obtain ⟨t2, v2, i2, st2⟩ := r
              have hc2 := ihO _ _ _ _ _ _ hc ho
              rw [ho] at h
              exact ihL _ _ _ _ _ _ _ _ hc2 h
          · simp only [Option.some.injEq, Prod.mk.injEq] at h
            rw [← h.2.2.2]; exact hc
        · simp only [Option.some.injEq, Prod.mk.injEq] at h
          rw [← h.2.2.2]; exact hc

end Parser

namespace Parser

theorem parseExpression_preserve (P : SymbolTable → Prop)
    (hadd : ∀ (st : SymbolTable) (name : String) (line : Int) (scope : String),
      P st → P (st.addSymbol name "unknown" line scope))
    (hbump : ∀ (st : SymbolTable) (key : String), P st → P (st.bump key))
    (tokens : List Token) (fuel i : Nat) (st : SymbolTable)
    (t v : String) (i1 : Nat) (st1 : SymbolTable) (hc : P st)
    (h : parseExpression tokens fuel i st = some (t, v, i1, st1)) : P st1 :=
  (expression_functions_preserve P hadd hbump tokens fuel).2.2.1 i st t v i1 st1 hc h

theorem rhsLoop_preserve (P : SymbolTable → Prop)
    (hadd : ∀ (st : SymbolTable) (name : String) (line : Int) (scope : String),
      P st → P (st.addSymbol name "unknown" line scope))
    (hbump : ∀ (st : SymbolTable) (key : String), P st → P (st.bump key))
    (tokens : List Token) :
    ∀ (fuel temp : Nat) (st : SymbolTable) (rhsValues r : List (String × String)) (temp1 : Nat)
      (st1 : SymbolTable), P st →
      rhsLoop tokens fuel temp st rhsValues = some (r, temp1, st1) → P st1 := by
  intro fuel
  induction fuel with
  | zero => intro temp st rhsValues r temp1 st1 _ h; simp [rhsLoop] at h
  | succ k ih =>
    intro temp st rhsValues r temp1 st1 hc h
    rw [rhsLoop] at h
    split at h
    · cases he : parseExpression tokens (exprFuel tokens) temp st with
      | none => rw [he] at h; cases h
      | some res =>
        obtain ⟨t2, v2, i2, st2⟩ := res
        have hc2 := parseExpression_preserve P hadd hbump tokens _ _ _ _ _ _ _ hc he
        rw [he] at h
        dsimp only at h
        split at h
        · exact ih _ _ _ _ _ _ hc2 h
        · simp only [Option.some.injEq, Prod.mk.injEq] at h
          rw [← h.2.2]; exact hc2
    · simp only [Option.some.injEq, Prod.mk.injEq] at h
      rw [← h.2.2]; exact hc

/-- The values `rhsLoop` has collected stay at the front of its result. -/
theorem rhsLoop_prefix (tokens : List Token) :
    ∀ (fuel temp : Nat) (st : SymbolTable) (rhsValues r : List (String × String)) (temp1 : Nat)
      (st1 : SymbolTable),
      rhsLoop tokens fuel temp st rhsValues = some (r, temp1, st1) → rhsValues <+: r := by
  intro fuel
  induction fuel with
  | zero => intro temp st rhsValues r temp1 st1 h; simp [rhsLoop] at h
  | succ k ih =>
    intro temp st rhsValues r temp1 st1 h
    rw [rhsLoop] at h
    split at h
    · cases he : parseExpression tokens (exprFuel tokens) temp st with
      | none => rw [he] at h; cases h
      | some res =>
        obtain ⟨t2, v2, i2, st2⟩ := res
        rw [he] at h
        dsimp only at h
        split at h
        · exact (List.prefix_append _ _).trans (ih _ _ _ _ _ _ h)
        · simp only [Option.some.injEq, Prod.mk.injEq] at h
          rw [← h.1]; exact List.prefix_append _ _
    · simp only [Option.some.injEq, Prod.mk.injEq] at h
      rw [← h.1]

/-- The first value `rhsLoop` collects is the result of `parseExpression` at its start. -/
theorem rhsLoop_first (tokens : List Token) (fuel temp : Nat) (st : SymbolTable)
    (r : List (String × String)) (temp1 : Nat) (st1 : SymbolTable)
    (type value : String) (i1 : Nat) (st2 : SymbolTable)
    (hlt : temp < tokens.length)
    (he : parseExpression tokens (exprFuel tokens) temp st = some (type, value, i1, st2))
    (h : rhsLoop tokens fuel temp st [] = some (r, temp1, st1)) :
    r[0]? = some (type, value) := by
  cases fuel with
  | zero => simp [rhsLoop] at h
  | succ k =>
    rw [rhsLoop, if_pos hlt, he] at h
    dsimp only at h
    have hpre : [(type, value)] <+: r := by
      split at h
      · exact rhsLoop_prefix tokens _ _ _ _ _ _ _ h
      · simp only [Option.some.injEq, Prod.mk.injEq] at h
        rw [← h.1]
        exact List.prefix_refl _
    obtain ⟨tail, ht⟩ := hpre
    rw [← ht]
    simp

/-- Once the accumulated value is empty, the loop of `parseExpression` returns the empty
value. -/
theorem exprLoop_value_empty (tokens : List Token) :
    ∀ (fuel : Nat) (acc : String) (i : Nat) (st : SymbolTable) (t v : String) (i1 : Nat)
      (st1 : SymbolTable),
      exprLoop tokens fuel acc "" i st = some (t, v, i1, st1) → v = "" := by
  intro fuel
  induction fuel with
  | zero => intro acc i st t v i1 st1 h; simp [exprLoop] at h
  | succ k ih =>
    intro acc i st t v i1 st1 h
    rw [exprLoop] at h
    cases htok : tokens[i]? with
    | none =>
      rw [htok] at h
      simp only [Option.some.injEq, Prod.mk.injEq] at h
      exact h.2.1.symm
    | some tk =>
      rw [htok] at h
      dsimp only at h
      split at h
      · split at h
        · cases ho : parseOperand tokens k (i + 1) st with
          | none => rw [ho] at h; cases h
          | some res =>
            obtain ⟨t2, v2, i2, st2⟩ := res
            rw [ho] at h
            exact ih _ _ _ _ _ _ _ h
        · simp only [Option.some.injEq, Prod.mk.injEq] at h
          exact h.2.1.symm
      · simp only [Option.some.injEq, Prod.mk.injEq] at h
        exact h.2.1.symm

/-- "Any arithmetic clears it": when the first operand of an expression is followed by one of
the operators `+`, `-`, `*`, `/`, the value `parseExpression` returns is empty. -/
theorem parseExpression_arithmetic_value (tokens : List Token) (fuel i : Nat) (st : SymbolTable)
    (t0 v0 : String) (j : Nat) (st0 : SymbolTable) (op : Token)
    (t v : String) (i1 : Nat) (st1 : SymbolTable)
    (hoperand : parseOperand tokens fuel i st = some (t0, v0, j, st0))
    (hop : tokens[j]? = some op) (hopType : op.type = .OPERATOR)
    (hopLexeme : op.lexeme = "+" ∨ op.lexeme = "-" ∨ op.lexeme = "*" ∨ op.lexeme = "/")
    (h : parseExpression tokens (fuel + 1) i st = some (t, v, i1, st1)) : v = "" := by
  rw [parseExpression, hoperand] at h
  dsimp only at h
  cases fuel with
  | zero => simp [exprLoop] at h
  | succ k =>
    rw [exprLoop, hop] at h
    dsimp only at h
    rw [if_pos hopType, if_pos hopLexeme] at h
    cases ho : parseOperand tokens k (j + 1) st0 with
    | none => rw [ho] at h; cases h
    | some res =>
      obtain ⟨t2, v2, i2, st2⟩ := res
      rw [ho] at h
      exact exprLoop_value_empty tokens _ _ _ _ _ _ _ _ h

end Parser

namespace SymbolTable

theorem getValue_modify (t : SymbolTable) (key name scope : String) (f : SymbolInfo → SymbolInfo)
    (hf : ∀ info, (f info).value = info.value) :
    (t.modify key f).getValue name scope = t.getValue name scope := by
  unfold getValue
  rw [find_modify]
  by_cases hk : name ++ "@" ++ scope = key
  · rw [if_pos hk]
    cases t.find (name ++ "@" ++ scope) with
    | none => rfl
    | some info => exact hf info
  · rw [if_neg hk]

theorem getValue_addSymbol (t : SymbolTable) (name1 type : String) (line : Int)
    (scope1 name scope : String) :
    (t.addSymbol name1 type line scope1).getValue name scope = t.getValue name scope := by
  unfold addSymbol
  simp only
  cases h : t.find (name1 ++ "@" ++ scope1) with
  | none =>
    simp only
    unfold getValue
    simp only [find] at h ⊢
    rw [lookup_append_single]
    cases h2 : t.table.lookup (name ++ "@" ++ scope) with
    | some info => rfl
    | none =>
      by_cases hk : name ++ "@" ++ scope = name1 ++ "@" ++ scope1 <;> simp [hk]
  | some info =>
    simp only
    exact getValue_modify t _ _ _ _ (fun info => by simp)

theorem getValue_bump (t : SymbolTable) (key name scope : String) :
    (t.bump key).getValue name scope = t.getValue name scope := by
  unfold bump
  refine (getValue_modify (t.index key) key name scope
    (fun info => { info with usageCount := info.usageCount + 1 }) (fun info => rfl)).trans ?_
  unfold index
  cases h : t.find key with
  | none =>
    simp only
    unfold getValue
    simp only [find] at h ⊢
    rw [lookup_append_single]
    cases h2 : t.table.lookup (name ++ "@" ++ scope) with
    | some info => rfl
    | none =>
      by_cases hk : name ++ "@" ++ scope = key <;> simp [hk]
  | some info => rfl

theorem getValue_updateType (t : SymbolTable) (name1 scope1 newType name scope : String) :
    (t.updateType name1 scope1 newType).getValue name scope = t.getValue name scope := by
  unfold updateType
  simp only
  split
  · exact getValue_modify t _ _ _ _ (fun info => rfl)
  · rfl

end SymbolTable

/-- C35 (amended). One iteration of the loop of `Parser::parse` at the identifier `x` of an
assignment `x = e` (not directly after `def` or `class`) in which the first operand of `e` is
followed by one of the operators `+`, `-`, `*`, `/`: the iteration returns, the table then has an
entry for `x`, and the value text stored for `x` is the one stored before the iteration (empty
when `x` had no entry): the empty value of the expression does not overwrite it. The hypothesis
on the first operand names the call `parseOperand` that `parseExpression` makes at the start of
`e`. -/
theorem parseStep_arithmetic_keeps_value (tokens : List Token) (s : Parser.State)
    (x eq op : Token) (t0 v0 : String) (j : Nat) (st0 : SymbolTable)
    (hx : tokens[s.i]? = some x) (hxType : x.type = .IDENTIFIER)
    (heq : tokens[s.i + 1]? = some eq) (heqType : eq.type = .OPERATOR) (heqLexeme : eq.lexeme = "=")
    (hkw : s.lastKeyword ≠ "def" ∧ s.lastKeyword ≠ "class")
    (hoperand : Parser.parseOperand tokens (Parser.exprFuel tokens - 1) (s.i + 2) s.symbolTable =
      some (t0, v0, j, st0))
    (hop : tokens[j]? = some op) (hopType : op.type = .OPERATOR)
    (hopLexeme : op.lexeme = "+" ∨ op.lexeme = "-" ∨ op.lexeme = "*" ∨ op.lexeme = "/") :
    ∃ s1, Parser.parseStep tokens x s = some s1 ∧
      s1.symbolTable.exist x.lexeme x.scope = true ∧
      s1.symbolTable.getValue x.lexeme x.scope = s.symbolTable.getValue x.lexeme x.scope := by
  have hfuel : Parser.exprFuel tokens = (Parser.exprFuel tokens - 1) + 1 := by
    unfold Parser.exprFuel; omega
  have hrhs : s.i + 2 < tokens.length := by
    by_contra hge
    have hnone : tokens[s.i + 2]? = none := List.getElem?_eq_none (by omega)
    have hfuel2 : Parser.exprFuel tokens - 1 = (Parser.exprFuel tokens - 2) + 1 := by
      unfold Parser.exprFuel; omega
    rw [hfuel2, Parser.parseOperand, hnone] at hoperand
    simp only [Option.some.injEq, Prod.mk.injEq] at hoperand
    rw [← hoperand.2.2.1, hnone] at hop
    cases hop
  have hdrop : tokens.drop s.i = x :: eq :: tokens.drop (s.i + 2) := by
    obtain ⟨h1, rfl⟩ := List.getElem?_eq_some_iff.mp hx
    obtain ⟨h2, rfl⟩ := List.getElem?_eq_some_iff.mp heq
    rw [List.drop_eq_getElem_cons h1, List.drop_eq_getElem_cons h2]
  have hscan : Parser.scanLhs (tokens.drop s.i) = ([x], 1) := by
    rw [hdrop]
    simp [Parser.scanLhs, hxType, heqType]
  have hassign : Parser.tokenIs tokens (s.i + 1) (fun t => t.type = .OPERATOR ∧ t.lexeme = "=") =
      true := by
    simp [Parser.tokenIs, heq, heqType, heqLexeme]
  obtain ⟨type, value, i1, st2, hexpr, _, _⟩ :=
    Parser.parseExpression_some tokens (s.i + 2) s.symbolTable
  have hvalue : value = "" := by
    rw [hfuel] at hexpr
    exact Parser.parseExpression_arithmetic_value tokens _ _ _ _ _ _ _ op _ _ _ _ hoperand hop
      hopType hopLexeme hexpr
  subst hvalue
  obtain ⟨r, temp1, st1, hloop, _⟩ := Parser.rhsLoop_some tokens (tokens.length + 1) (s.i + 1 + 1)
    s.symbolTable [] (by omega)
  have hfirst := Parser.rhsLoop_first tokens _ _ _ _ _ _ _ _ _ _ hrhs hexpr hloop
  have hkeep : st1.getValue x.lexeme x.scope = s.symbolTable.getValue x.lexeme x.scope :=
    Parser.rhsLoop_preserve
      (fun st => st.getValue x.lexeme x.scope = s.symbolTable.getValue x.lexeme x.scope)
      (fun st name line scope h => by
        beta_reduce at h ⊢; rw [SymbolTable.getValue_addSymbol]; exact h)
      (fun st key h => by beta_reduce at h ⊢; rw [SymbolTable.getValue_bump]; exact h)
      tokens _ _ _ _ _ _ _ rfl hloop
  refine ⟨⟨temp1, Parser.bindLoop r [x] 0 st1, s.lastKeyword⟩, ?_, ?_, ?_⟩
  · unfold Parser.parseStep
    rw [if_neg (by simp [hxType]), if_pos hxType, if_neg hkw.1, if_neg hkw.2]
    simp only [hscan, hassign, if_true, hloop]
  · simp only [Parser.bindLoop, hfirst]
    have h1 : ∃ info, (if ¬ st1.exist x.lexeme x.scope = true then
          st1.addSymbol x.lexeme "unknown" x.lineNumber x.scope
        else st1.bump (x.lexeme ++ "@" ++ x.scope)).find (x.lexeme ++ "@" ++ x.scope) =
          some info := by
      split
      · exact SymbolTable.find_addSymbol_some _ _ _ _ _ _
      · exact SymbolTable.find_bump_some _ _
    obtain ⟨info1, h1⟩ := h1
    generalize (if ¬ st1.exist x.lexeme x.scope = true then
          st1.addSymbol x.lexeme "unknown" x.lineNumber x.scope
        else st1.bump (x.lexeme ++ "@" ++ x.scope)) = stb at h1
    simp only [ne_eq, not_true_eq_false, if_false]
    unfold SymbolTable.exist
    split
    · rw [SymbolTable.find_updateType _ _ _ _ info1 h1]; rfl
    · rw [h1]; rfl
  · simp only [Parser.bindLoop, hfirst]
    simp only [ne_eq, not_true_eq_false, if_false]
    rw [← hkeep]
    split
    · rw [SymbolTable.getValue_updateType]
      split
      · rw [SymbolTable.getValue_addSymbol]
      · rw [SymbolTable.getValue_bump]
    · split
      · rw [SymbolTable.getValue_addSymbol]
      · rw [SymbolTable.getValue_bump]

theorem parseStep_arithmetic_keeps_value_witness :
    ∃ s1,
      Parser.parseStep
          [⟨.IDENTIFIER, "x", 1, "global"⟩, ⟨.OPERATOR, "=", 1, ""⟩, ⟨.NUMBER, "1", 1, ""⟩,
           ⟨.IDENTIFIER, "x", 2, "global"⟩, ⟨.OPERATOR, "=", 2, ""⟩,
           ⟨.IDENTIFIER, "x", 2, "global"⟩, ⟨.OPERATOR, "+", 2, ""⟩, ⟨.NUMBER, "1", 2, ""⟩]
          ⟨.IDENTIFIER, "x", 2, "global"⟩
          ⟨3, ⟨[("x@global", ⟨1, "int", "global", 1, 1, "1"⟩)], 2⟩, ""⟩ = some s1 ∧
        s1.symbolTable.exist "x" "global" = true ∧
        s1.symbolTable.getValue "x" "global" =
          SymbolTable.getValue ⟨[("x@global", ⟨1, "int", "global", 1, 1, "1"⟩)], 2⟩ "x" "global" :=
  parseStep_arithmetic_keeps_value
    [⟨.IDENTIFIER, "x", 1, "global"⟩, ⟨.OPERATOR, "=", 1, ""⟩, ⟨.NUMBER, "1", 1, ""⟩,
     ⟨.IDENTIFIER, "x", 2, "global"⟩, ⟨.OPERATOR, "=", 2, ""⟩,
     ⟨.IDENTIFIER, "x", 2, "global"⟩, ⟨.OPERATOR, "+", 2, ""⟩, ⟨.NUMBER, "1", 2, ""⟩]
    ⟨3, ⟨[("x@global", ⟨1, "int", "global", 1, 1, "1"⟩)], 2⟩, ""⟩
    ⟨.IDENTIFIER, "x", 2, "global"⟩ ⟨.OPERATOR, "=", 2, ""⟩ ⟨.OPERATOR, "+", 2, ""⟩
    "int" "1" 6 ⟨[("x@global", ⟨1, "int", "global", 1, 2, "1"⟩)], 2⟩
    (by decide!) (by decide) (by decide!) (by decide) (by decide) (by decide) (by decide!)
    (by decide!) (by decide) (by decide)

/-- The value of `x` before the second assignment of the example is `1`. -/
theorem getValue_before_second_assignment :
    SymbolTable.getValue ⟨[("x@global", ⟨1, "int", "global", 1, 1, "1"⟩)], 2⟩ "x" "global" =
      "1" := by
  decide!

/-! #### Which identifiers the inferrer enters -/

namespace SymbolTable

theorem isSome_modify (t : SymbolTable) (key k : String) (f : SymbolInfo → SymbolInfo)
    (h : (t.find k).isSome = true) : ((t.modify key f).find k).isSome = true := by
  rw [find_modify]
  split
  · rw [Option.isSome_map']; exact h
  · exact h

theorem isSome_addSymbol (t : SymbolTable) (name type : String) (line : Int)
    (scope val k : String) (h : (t.find k).isSome = true) :
    ((t.addSymbol name type line scope val).find k).isSome = true := by
  unfold addSymbol
  simp only
  cases hf : t.find (name ++ "@" ++ scope) with
  | none =>
    simp only [find] at h ⊢
    rw [lookup_append_single]
    cases h2 : t.table.lookup k with
    | some info => rfl
    | none => rw [h2] at h; cases h
  | some info => exact isSome_modify t _ _ _ h

theorem isSome_index (t : SymbolTable) (key k : String) (h : (t.find k).isSome = true) :
    ((t.index key).find k).isSome = true := by
  unfold index
  cases hf : t.find key with
  | none =>
    simp only [find] at h ⊢
    rw [lookup_append_single]
    cases h2 : t.table.lookup k with
    | some info => rfl
    | none => rw [h2] at h; cases h
  | some info => exact h

theorem isSome_bump (t : SymbolTable) (key k : String) (h : (t.find k).isSome = true) :
    ((t.bump key).find k).isSome = true := by
  unfold bump
  exact isSome_modify _ _ _ _ (isSome_index t key k h)

theorem isSome_updateType (t : SymbolTable) (name scope newType k : String)
    (h : (t.find k).isSome = true) : ((t.updateType name scope newType).find k).isSome = true := by
  unfold updateType
  simp only
  split
  · exact isSome_modify t _ _ _ h
  · exact h

theorem isSome_updateValue (t : SymbolTable) (name scope newValue k : String)
    (h : (t.find k).isSome = true) :
    ((t.updateValue name scope newValue).find k).isSome = true := by
  unfold updateValue
  simp only
  split
  · exact isSome_modify t _ _ _ h
  · exact h

theorem exist_addSymbol (t : SymbolTable) (name type : String) (line : Int) (scope val : String) :
    (t.addSymbol name type line scope val).exist name scope = true := by
  obtain ⟨info, h⟩ := find_addSymbol_some t name type line scope val
  unfold exist
  rw [h]; rfl

theorem exist_bump (t : SymbolTable) (name scope : String) :
    (t.bump (name ++ "@" ++ scope)).exist name scope = true := by
  obtain ⟨info, h⟩ := find_bump_some t (name ++ "@" ++ scope)
  unfold exist
  rw [h]; rfl

end SymbolTable

namespace Parser

/-- The step of `bindLoop` for one variable enters the variable and removes no entry. -/
theorem bindLoop_persist (rhsValues : List (String × String)) :
    ∀ (vars : List Token) (j : Nat) (st : SymbolTable) (k : String),
      (st.find k).isSome = true → ((bindLoop rhsValues vars j st).find k).isSome = true := by
  intro vars
  induction vars with
  | nil => intro j st k h; simpa [bindLoop] using h
  | cons var rest ih =>
    intro j st k h
    simp only [bindLoop]
    apply ih
    have h1 : ((if ¬ st.exist var.lexeme var.scope = true then
        st.addSymbol var.lexeme "unknown" var.lineNumber var.scope
      else st.bump (var.lexeme ++ "@" ++ var.scope)).find k).isSome = true := by
      split
      · exact SymbolTable.isSome_addSymbol _ _ _ _ _ _ _ h
      · exact SymbolTable.isSome_bump _ _ _ h
    generalize (if ¬ st.exist var.lexeme var.scope = true then
        st.addSymbol var.lexeme "unknown" var.lineNumber var.scope
      else st.bump (var.lexeme ++ "@" ++ var.scope)) = st1 at h1
    cases rhsValues[j]? with
    | none => exact h1
    | some rhs =>
      dsimp only
      have h2 : ((if rhs.1 ≠ "unknown" then st1.updateType var.lexeme var.scope rhs.1
          else st1).find k).isSome = true := by
        split
        · exact SymbolTable.isSome_updateType _ _ _ _ _ h1
        · exact h1
      split
      · exact SymbolTable.isSome_updateValue _ _ _ _ _ h2
      · exact h2

theorem bindLoop_enters (rhsValues : List (String × String)) :
    ∀ (vars : List Token) (j : Nat) (st : SymbolTable), ∀ var ∈ vars,
      (bindLoop rhsValues vars j st).exist var.lexeme var.scope = true := by
  intro vars
  induction vars with
  | nil => intro j st var hmem; cases hmem
  | cons v rest ih =>
    intro j st var hmem
    rcases List.mem_cons.1 hmem with rfl | hr
    · simp only [bindLoop]
      refine bindLoop_persist rhsValues rest (j + 1) _ (var.lexeme ++ "@" ++ var.scope) ?_
      have h1 : ((if ¬ st.exist var.lexeme var.scope = true then
          st.addSymbol var.lexeme "unknown" var.lineNumber var.scope
        else st.bump (var.lexeme ++ "@" ++ var.scope)).find
          (var.lexeme ++ "@" ++ var.scope)).isSome = true := by
        split
        · exact SymbolTable.exist_addSymbol _ _ _ _ _ _
        · exact SymbolTable.exist_bump _ _ _
      generalize (if ¬ st.exist var.lexeme var.scope = true then
          st.addSymbol var.lexeme "unknown" var.lineNumber var.scope
        else st.bump (var.lexeme ++ "@" ++ var.scope)) = st1 at h1
      cases rhsValues[j]? with
      | none => exact h1
      | some rhs =>
        dsimp only
        have h2 : ((if rhs.1 ≠ "unknown" then st1.updateType var.lexeme var.scope rhs.1
            else st1).find (var.lexeme ++ "@" ++ var.scope)).isSome = true := by
          split
          · exact SymbolTable.isSome_updateType _ _ _ _ _ h1
          · exact h1
        split
        · exact SymbolTable.isSome_updateValue _ _ _ _ _ h2
        · exact h2
    · simp only [bindLoop]
      exact ih _ _ var hr

theorem scanLhs_head (tk : Token) (rest : List Token) (h : tk.type = .IDENTIFIER) :
    tk ∈ (scanLhs (tk :: rest)).1 := by
  unfold scanLhs
  rw [if_pos h]
  cases rest with
  | nil => simp
  | cons sep rest1 =>
    dsimp only
    split <;> simp

/-- One iteration of the loop of `Parser::parse` removes no entry, and an iteration at an
`IDENTIFIER` token leaves an entry under its `lexeme@scope`. -/
theorem parseStep_enters (tokens : List Token) (tk : Token) (s s1 : State)
    (htk : tokens[s.i]? = some tk) (h : parseStep tokens tk s = some s1) :
    (∀ k, (s.symbolTable.find k).isSome = true → (s1.symbolTable.find k).isSome = true) ∧
      (tk.type = .IDENTIFIER → s1.symbolTable.exist tk.lexeme tk.scope = true) := by
  have hadd : ∀ k (st : SymbolTable) (name : String) (line : Int) (scope : String),
      (st.find k).isSome = true → ((st.addSymbol name "unknown" line scope).find k).isSome = true :=
    fun k st name line scope hk => SymbolTable.isSome_addSymbol _ _ _ _ _ _ _ hk
  have hbump : ∀ k (st : SymbolTable) (key : String),
      (st.find k).isSome = true → ((st.bump key).find k).isSome = true :=
    fun k st key hk => SymbolTable.isSome_bump _ _ _ hk
  unfold parseStep at h
  by_cases h1 : tk.type = .DefKeyword ∨ tk.type = .ClassKeyword
  · rw [if_pos h1] at h
    cases h
    refine ⟨fun k hk => hk, fun hid => ?_⟩
    rcases h1 with h1 | h1 <;> rw [hid] at h1 <;> cases h1
  rw [if_neg h1] at h
  by_cases h2 : tk.type = .IDENTIFIER
  · rw [if_pos h2] at h
    by_cases h3 : s.lastKeyword = "def"
    · rw [if_pos h3] at h
      cases h
      exact ⟨fun k hk => SymbolTable.isSome_addSymbol _ _ _ _ _ _ _ hk,
        fun _ => SymbolTable.exist_addSymbol _ _ _ _ _ _⟩
    rw [if_neg h3] at h
    by_cases h4 : s.lastKeyword = "class"
    · rw [if_pos h4] at h
      cases h
      exact ⟨fun k hk => SymbolTable.isSome_addSymbol _ _ _ _ _ _ _ hk,
        fun _ => SymbolTable.exist_addSymbol _ _ _ _ _ _⟩
    rw [if_neg h4] at h
    dsimp only at h
    by_cases h5 : tokenIs tokens (s.i + (scanLhs (tokens.drop s.i)).2)
        (fun t => t.type = .OPERATOR ∧ t.lexeme = "=") = true
    · rw [if_pos h5] at h
      cases hr : rhsLoop tokens (tokens.length + 1)
          (s.i + (scanLhs (tokens.drop s.i)).2 + 1) s.symbolTable [] with
      | none => rw [hr] at h; cases h
      | some res =>
        obtain ⟨r, temp1, st1⟩ := res
        rw [hr] at h
        cases h
        refine ⟨fun k hk => ?_, fun _ => ?_⟩
        · exact bindLoop_persist _ _ _ _ _
            (rhsLoop_preserve (fun st => (st.find k).isSome = true) (hadd k) (hbump k) tokens
              _ _ _ _ _ _ _ hk hr)
        · apply bindLoop_enters
          have hdrop : tokens.drop s.i = tk :: tokens.drop (s.i + 1) := by
            obtain ⟨hlt, rfl⟩ := List.getElem?_eq_some_iff.mp htk
            exact List.drop_eq_getElem_cons hlt
          rw [hdrop]
          exact scanLhs_head tk _ h2
    rw [if_neg h5] at h
    by_cases h6 : tokenIs tokens (s.i + 1) (fun t => t.type = .OPERATOR ∧ t.lexeme = "=") = true
    · rw [if_pos h6] at h
      cases he : parseExpression tokens (exprFuel tokens) (s.i + 2)
          (if ¬ s.symbolTable.exist (tk.lexeme ++ "@" ++ tk.scope) tk.scope = true then
            s.symbolTable.addSymbol tk.lexeme "unknown" tk.lineNumber tk.scope
          else s.symbolTable.bump (tk.lexeme ++ "@" ++ tk.scope)) with
      | none => rw [he] at h; cases h
      | some res =>
        obtain ⟨t2, v2, i2, st2⟩ := res
        rw [he] at h
        cases h
        dsimp only
        have hstart : ∀ k, ((s.symbolTable.find k).isSome = true ∨
            k = tk.lexeme ++ "@" ++ tk.scope) →
            ((if ¬ s.symbolTable.exist (tk.lexeme ++ "@" ++ tk.scope) tk.scope = true then
              s.symbolTable.addSymbol tk.lexeme "unknown" tk.lineNumber tk.scope
            else s.symbolTable.bump (tk.lexeme ++ "@" ++ tk.scope)).find k).isSome = true := by
          intro k hk
          rcases hk with hk | rfl
          · split
            · exact SymbolTable.isSome_addSymbol _ _ _ _ _ _ _ hk
            · exact SymbolTable.isSome_bump _ _ _ hk
          · split
            · exact SymbolTable.exist_addSymbol _ _ _ _ _ _
            · exact SymbolTable.exist_bump _ _ _
        have hall : ∀ k, ((s.symbolTable.find k).isSome = true ∨
            k = tk.lexeme ++ "@" ++ tk.scope) →
            ((if v2 ≠ "" then
                (if t2 ≠ "unknown" then st2.updateType tk.lexeme tk.scope t2
                  else st2).updateValue tk.lexeme tk.scope v2
              else (if t2 ≠ "unknown" then st2.updateType tk.lexeme tk.scope t2
                  else st2)).find k).isSome = true := by
          intro k hk
          have hk2 : (st2.find k).isSome = true :=
            parseExpression_preserve (fun st => (st.find k).isSome = true) (hadd k) (hbump k)
              tokens _ _ _ _ _ _ _ (hstart k hk) he
          have hk3 : ((if t2 ≠ "unknown" then st2.updateType tk.lexeme tk.scope t2
              else st2).find k).isSome = true := by
            split
            · exact SymbolTable.isSome_updateType _ _ _ _ _ hk2
            · exact hk2
          split
          · exact SymbolTable.isSome_updateValue _ _ _ _ _ hk3
          · exact hk3
        exact ⟨fun k hk => hall k (Or.inl hk), fun _ => hall _ (Or.inr rfl)⟩
    rw [if_neg h6] at h
    cases h
    dsimp only
    refine ⟨fun k hk => ?_, fun _ => ?_⟩
    · split
      · exact SymbolTable.isSome_bump _ _ _ hk
      · exact SymbolTable.isSome_addSymbol _ _ _ _ _ _ _ hk
    · split
      · exact SymbolTable.exist_bump _ _ _
      · exact SymbolTable.exist_addSymbol _ _ _ _ _ _
  rw [if_neg h2] at h
  cases h
  exact ⟨fun k hk => hk, fun hid => absurd hid h2⟩

theorem parseLoop_persist (tokens : List Token) :
    ∀ (fuel : Nat) (s s1 : State), parseLoop tokens fuel s = some s1 →
      ∀ k, (s.symbolTable.find k).isSome = true → (s1.symbolTable.find k).isSome = true := by
  intro fuel
  induction fuel with
  | zero => intro s s1 h; simp [parseLoop] at h
  | succ n ih =>
    intro s s1 h k hk
    rw [parseLoop] at h
    cases htok : tokens[s.i]? with
    | none =>
      rw [htok] at h
      cases h; exact hk
    | some tk =>
      rw [htok] at h
      dsimp only at h
      cases hs : parseStep tokens tk s with
      | none => rw [hs] at h; cases h
      | some s2 =>
        rw [hs] at h
        exact ih s2 s1 h k ((parseStep_enters tokens tk s s2 htok hs).1 k hk)

/-- An identifier that `parseOperand` reads as an operand is entered. -/
theorem parseOperand_enters (tokens : List Token) (fuel i : Nat) (st : SymbolTable) (tk : Token)
    (htk : tokens[i]? = some tk) (hid : tk.type = .IDENTIFIER) :
    ∃ t v st1, parseOperand tokens (fuel + 1) i st = some (t, v, i + 1, st1) ∧
      st1.exist tk.lexeme tk.scope = true := by
  rw [parseOperand, htk]
  dsimp only
  rw [if_neg (by rw [hid]; decide), if_neg (by rw [hid]; decide),
    if_neg (by rw [hid]; decide), if_pos hid]
  refine ⟨_, _, _, rfl, ?_⟩
  split
  · exact SymbolTable.exist_addSymbol _ _ _ _ _ _
  · unfold SymbolTable.exist
    exact (SymbolTable.find_bump_some _ _).elim fun info h => by rw [h]; rfl

end Parser

/-- C39 (amended). The loop of `Parser::parse`, started in any state with the fuel the model gives
it, returns; it removes no entry of the symbol table; and when it starts at an `IDENTIFIER`
token, the table it leaves has an entry under that token's `lexeme@scope`. Every iteration of a
run of `parse` starts the loop in this sense, so every `IDENTIFIER` token at which an iteration
begins (the names after `def` and `class`, the targets of assignments, the identifiers outside
right-hand sides) has an entry when `parse` completes. -/
theorem parseLoop_enters_identifiers (tokens : List Token) (fuel : Nat) (s : Parser.State)
    (hfuel : tokens.length - s.i + 1 ≤ fuel) :
    ∃ s1, Parser.parseLoop tokens fuel s = some s1 ∧
      (∀ k, (s.symbolTable.find k).isSome = true → (s1.symbolTable.find k).isSome = true) ∧
      ∀ tk, tokens[s.i]? = some tk → tk.type = .IDENTIFIER →
        s1.symbolTable.exist tk.lexeme tk.scope = true := by
  obtain ⟨s1, h⟩ := Parser.parseLoop_some tokens fuel s hfuel
  refine ⟨s1, h, Parser.parseLoop_persist tokens fuel s s1 h, ?_⟩
  intro tk htk hid
  cases fuel with
  | zero => simp [Parser.parseLoop] at h
  | succ n =>
    rw [Parser.parseLoop, htk] at h
    dsimp only at h
    cases hs : Parser.parseStep tokens tk s with
    | none => rw [hs] at h; cases h
    | some s2 =>
      rw [hs] at h
      exact Parser.parseLoop_persist tokens n s2 s1 h _
        ((Parser.parseStep_enters tokens tk s s2 htk hs).2 hid)

theorem parseLoop_enters_identifiers_witness :
    ∃ s1,
      Parser.parseLoop
          [⟨.IDENTIFIER, "x", 1, "global"⟩, ⟨.OPERATOR, "=", 1, ""⟩, ⟨.LeftBracket, "[", 1, ""⟩,
           ⟨.IDENTIFIER, "a", 1, "global"⟩, ⟨.Comma, ",", 1, ""⟩,
           ⟨.IDENTIFIER, "b", 1, "global"⟩, ⟨.RightBracket, "]", 1, ""⟩]
          8 ⟨0, {}, ""⟩ = some s1 ∧
        (∀ k, ((SymbolTable.find {} k).isSome = true → (s1.symbolTable.find k).isSome = true)) ∧
        ∀ tk,
          ([⟨.IDENTIFIER, "x", 1, "global"⟩, ⟨.OPERATOR, "=", 1, ""⟩, ⟨.LeftBracket, "[", 1, ""⟩,
            ⟨.IDENTIFIER, "a", 1, "global"⟩, ⟨.Comma, ",", 1, ""⟩,
            ⟨.IDENTIFIER, "b", 1, "global"⟩, ⟨.RightBracket, "]", 1, ""⟩] : List Token)[0]? =
              some tk →
            tk.type = .IDENTIFIER → s1.symbolTable.exist tk.lexeme tk.scope = true :=
  parseLoop_enters_identifiers
    [⟨.IDENTIFIER, "x", 1, "global"⟩, ⟨.OPERATOR, "=", 1, ""⟩, ⟨.LeftBracket, "[", 1, ""⟩,
     ⟨.IDENTIFIER, "a", 1, "global"⟩, ⟨.Comma, ",", 1, ""⟩,
     ⟨.IDENTIFIER, "b", 1, "global"⟩, ⟨.RightBracket, "]", 1, ""⟩]
    8 ⟨0, {}, ""⟩ (by decide)


/-! #### Scope frames and the indentation of a line -/

theorem popScopes_eq_framesBelow (top : Nat) (frames : List ScopeInfo) :
    popScopes top frames = framesBelow top frames := by
  unfold framesBelow
  induction frames with
  | nil => rfl
  | cons f below ih =>
    unfold popScopes
    by_cases h : top ≤ f.indentLevel
    · rw [if_pos h, ih, List.dropWhile_cons, if_pos (by simpa using h)]
    · rw [if_neg h, List.dropWhile_cons, if_neg (by simpa using h)]

theorem framesBelow_framesBelow (top1 top2 : Nat) (h : top2 ≤ top1) (frames : List ScopeInfo) :
    framesBelow top2 (framesBelow top1 frames) = framesBelow top2 frames := by
  unfold framesBelow
  induction frames with
  | nil => rfl
  | cons f below ih =>
    by_cases h1 : top1 ≤ f.indentLevel
    · have h2 : top2 ≤ f.indentLevel := le_trans h h1
      rw [List.dropWhile_cons, if_pos (by simpa using h1), ih, List.dropWhile_cons,
        if_pos (by simpa using h2)]
    · rw [List.dropWhile_cons, if_neg (by simpa using h1)]

/-- The innermost frame that `framesBelow top` leaves has a level below `top`. -/
theorem framesBelow_head (top : Nat) (frames : List ScopeInfo) :
    ∀ f ∈ (framesBelow top frames).head?, f.indentLevel < top := by
  unfold framesBelow
  induction frames with
  | nil => intro f hf; simp at hf
  | cons g below ih =>
    by_cases h1 : top ≤ g.indentLevel
    · rw [List.dropWhile_cons, if_pos (by simpa using h1)]
      exact ih
    · rw [List.dropWhile_cons, if_neg (by simpa using h1)]
      intro f hf
      simp only [List.head?_cons, Option.mem_def, Option.some.injEq] at hf
      subst hf
      omega

/-- The scope frames the `DEDENT` loop leaves, on a well-formed indent stack: when it pops at
least one level, the frames below the new top of the stack; otherwise all frames. -/
theorem dedentLoop_scopes (newIndent : Nat) (lineNumber : Int) (start : Nat) :
    ∀ (stack : List Nat) (s : LexState), StackOk stack →
      (newIndent < back stack →
        (dedentLoop newIndent lineNumber start stack s).scopeStack =
          framesBelow (back (dedentLoop newIndent lineNumber start stack s).indentStack)
            s.scopeStack) ∧
      (¬ newIndent < back stack →
        (dedentLoop newIndent lineNumber start stack s).scopeStack = s.scopeStack) := by
  intro stack
  induction stack with
  | nil => intro s h; exact absurd rfl h.ne_nil
  | cons top rest ih =>
    intro s hok
    unfold dedentLoop
    by_cases hgt : top > newIndent
    · rw [if_pos hgt]
      cases rest with
      | nil =>
        have : top = 0 := by simpa [StackOk] using hok.1
        omega
      | cons next l =>
        simp only [List.isEmpty_cons, Bool.false_eq_true, if_false]
        refine ⟨fun _ => ?_, fun hno => absurd hgt hno⟩
        rw [popScopes_eq_framesBelow]
        obtain ⟨h1, h2⟩ := ih
          { s with tokens := s.tokens ++ [{ type := .DEDENT, lexeme := "", lineNumber := lineNumber }],
                   scopeStack := framesBelow (back (next :: l)) s.scopeStack } hok.rest
        obtain ⟨hstack, _, _⟩ := dedentLoop_spec newIndent lineNumber start (next :: l)
          { s with tokens := s.tokens ++ [{ type := .DEDENT, lexeme := "", lineNumber := lineNumber }],
                   scopeStack := framesBelow (back (next :: l)) s.scopeStack } hok.rest
        by_cases hn : newIndent < back (next :: l)
        · rw [h1 hn]
          simp only
          apply framesBelow_framesBelow
          rw [hstack]
          obtain ⟨e1, e2⟩ := takeWhile_eq_filter_of_sorted newIndent (next :: l) hok.rest.2
          rw [e2]
          obtain ⟨hne, _⟩ := hok.rest.filter_le newIndent
          have hmem := back_mem hne
          exact hok.rest.le_back _ (List.mem_of_mem_filter hmem)
        · rw [h2 hn]
          simp only
          rw [hstack]
          have hd : decide (newIndent < next) = false := by
            simpa [back] using hn
          rw [List.dropWhile_cons, hd]
          rfl
    · rw [if_neg hgt]
      exact ⟨fun h => absurd (by simpa [back] using h) hgt, fun _ => rfl⟩

/-- C38 (amended). `processIndentation` pops scope frames only while it dedents. On a well-formed
indent stack: when the line is not blank and its indentation `w` is smaller than the top of the
indent stack, the scope stack it leaves consists of the frames below the new top `t` of the
indent stack (from the innermost frame outwards the frames with `indentLevel ≥ t` are popped, up
to the first frame whose level is smaller), where `t ≤ w`, and the innermost frame left has a
level smaller than `t`; when the line is blank or its indentation is equal to or greater than the
top of the indent stack, the scope stack is unchanged. -/
theorem processIndentation_scopes (source : List Char) (s : LexState)
    (hok : StackOk s.indentStack) :
    (charAt source (s.i + (leadingWhitespace source s.i).length) ≠ '\n' ∧
        indentWidth source s.i < back s.indentStack →
      (processIndentation source s).scopeStack =
          framesBelow (back (processIndentation source s).indentStack) s.scopeStack ∧
        back (processIndentation source s).indentStack ≤ indentWidth source s.i ∧
        ∀ f ∈ (processIndentation source s).scopeStack.head?,
          f.indentLevel < back (processIndentation source s).indentStack) ∧
    (¬ (charAt source (s.i + (leadingWhitespace source s.i).length) ≠ '\n' ∧
        indentWidth source s.i < back s.indentStack) →
      (processIndentation source s).scopeStack = s.scopeStack) := by
  refine ⟨?_, ?_⟩
  · intro ⟨hnb, hlt⟩
    have hstack : (processIndentation source s).indentStack =
        s.indentStack.filter (fun l => decide (l ≤ indentWidth source s.i)) := by
      rw [processIndentation_nonblank source s hnb]
      exact (compareIndent_dedent (indentWidth source s.i) s.lineNumber s.i
        { s with i := s.i + (leadingWhitespace source s.i).length,
                 errors := s.errors ++ mixedDiagnostics source s.i s.lineNumber } hok hlt).2.1
    have hscope : (processIndentation source s).scopeStack =
        framesBelow (back (processIndentation source s).indentStack) s.scopeStack := by
      rw [processIndentation_nonblank source s hnb]
      unfold compareIndent
      simp only
      rw [if_neg (by omega), if_pos hlt]
      have h := (dedentLoop_scopes (indentWidth source s.i) s.lineNumber s.i s.indentStack
        { s with i := s.i + (leadingWhitespace source s.i).length,
                 errors := s.errors ++ mixedDiagnostics source s.i s.lineNumber } hok).1 hlt
      split
      · simpa [LexState.report] using h
      · exact h
    refine ⟨hscope, ?_, ?_⟩
    · rw [hstack]
      obtain ⟨hne, _⟩ := hok.filter_le (indentWidth source s.i)
      have hmem := back_mem hne
      simpa using (List.mem_filter.1 hmem).2
    · rw [hscope]
      exact framesBelow_head _ _
  · intro hno
    by_cases hnb : charAt source (s.i + (leadingWhitespace source s.i).length) ≠ '\n'
    · have hge : ¬ indentWidth source s.i < back s.indentStack := fun h => hno ⟨hnb, h⟩
      rw [processIndentation_nonblank source s hnb]
      unfold compareIndent
      simp only
      split
      · rfl
      · rfl
    · have hb : charAt source (s.i + (leadingWhitespace source s.i).length) = '\n' := by
        simpa using hnb
      unfold processIndentation
      unfold leadingWhitespace at hb
      simp only
      split
      · rw [if_pos (by simpa [LexState.report] using hb)]
        rfl
      · rfl

theorem processIndentation_scopes_witness :
    (charAt "y = 2".toList
          ((⟨[], [], 3, 0, [4, 0], true, false, [⟨"f", 0⟩]⟩ : LexState).i +
            (leadingWhitespace "y = 2".toList 0).length) ≠ '\n' ∧
        indentWidth "y = 2".toList 0 < back [4, 0] →
      (processIndentation "y = 2".toList
          ⟨[], [], 3, 0, [4, 0], true, false, [⟨"f", 0⟩]⟩).scopeStack =
          framesBelow
            (back (processIndentation "y = 2".toList
              ⟨[], [], 3, 0, [4, 0], true, false, [⟨"f", 0⟩]⟩).indentStack)
            [⟨"f", 0⟩] ∧
        back (processIndentation "y = 2".toList
            ⟨[], [], 3, 0, [4, 0], true, false, [⟨"f", 0⟩]⟩).indentStack ≤
          indentWidth "y = 2".toList 0 ∧
        ∀ f ∈ (processIndentation "y = 2".toList
            ⟨[], [], 3, 0, [4, 0], true, false, [⟨"f", 0⟩]⟩).scopeStack.head?,
          f.indentLevel <
            back (processIndentation "y = 2".toList
              ⟨[], [], 3, 0, [4, 0], true, false, [⟨"f", 0⟩]⟩).indentStack) ∧
    (¬ (charAt "y = 2".toList
          ((⟨[], [], 3, 0, [4, 0], true, false, [⟨"f", 0⟩]⟩ : LexState).i +
            (leadingWhitespace "y = 2".toList 0).length) ≠ '\n' ∧
        indentWidth "y = 2".toList 0 < back [4, 0]) →
      (processIndentation "y = 2".toList
          ⟨[], [], 3, 0, [4, 0], true, false, [⟨"f", 0⟩]⟩).scopeStack = [⟨"f", 0⟩]) :=
  processIndentation_scopes "y = 2".toList ⟨[], [], 3, 0, [4, 0], true, false, [⟨"f", 0⟩]⟩
    (by unfold StackOk; exact ⟨by decide, by decide⟩)

/-- The two cases on the line `y = 2`: after an indented body (indent stack 4, 0) the frame `f`
is popped; after a body on the header line (indent stack 0) it stays. -/
theorem processIndentation_scope_examples :
    (processIndentation "y = 2".toList
        ⟨[], [], 3, 0, [4, 0], true, false, [⟨"f", 0⟩]⟩).scopeStack = [] ∧
      (processIndentation "y = 2".toList
        ⟨[], [], 2, 0, [0], true, false, [⟨"f", 0⟩]⟩).scopeStack = [⟨"f", 0⟩] := by
  refine ⟨?_, ?_⟩ <;> decide!

theorem lexWord_identifier_frames (source : List Char) (s : LexState) :
    ∃ extra, (lexWord source s).tokens = s.tokens ++ extra ∧
      (∀ t ∈ extra, t.type = .IDENTIFIER → t.scope = getScope (lexWord source s).scopeStack) ∧
      s.scopeStack <:+ (lexWord source s).scopeStack := by
  unfold lexWord
  simp only
  split
  · rename_i kw hkw
    have hid := pythonKeywords_not_identifier _ _ hkw
    split
    · split
      · refine ⟨_, List.append_assoc _ _ _, ?_, List.suffix_cons _ _⟩
        intro t ht hty
        simp at ht
        rcases ht with rfl | rfl
        · exact absurd hty hid
        · rfl
      · exact ⟨[_], rfl, fun t ht hty => by
          simp only [List.mem_singleton] at ht; subst ht; exact absurd hty hid,
          List.suffix_refl _⟩
    · exact ⟨[_], rfl, fun t ht hty => by
        simp only [List.mem_singleton] at ht; subst ht; exact absurd hty hid,
        List.suffix_refl _⟩
  · exact ⟨[_], rfl, fun t ht _ => by
      simp only [List.mem_singleton] at ht; subst ht; rfl, List.suffix_refl _⟩

theorem lexOperator_scopeStack (source : List Char) (s s1 : LexState)
    (h : lexOperator source s = some s1) : s1.scopeStack = s.scopeStack := by
  unfold lexOperator at h
  simp only at h
  split at h
  · cases h; rfl
  · split at h
    · cases h; rfl
    · split at h
      · cases h; rfl
      · cases h

/-- The scope of an `IDENTIFIER` that `lexToken` emits is `getScope` of the scope stack the
lexeme leaves, which ends with the scope stack the lexeme found. -/
theorem lexToken_identifier_frames (source : List Char) (s s1 : LexState)
    (h : lexToken source s = some (.ok s1)) :
    ∃ extra, s1.tokens = s.tokens ++ extra ∧
      (∀ t ∈ extra, t.type = .IDENTIFIER → t.scope = getScope s1.scopeStack) ∧
      s.scopeStack <:+ s1.scopeStack := by
  unfold lexToken at h
  simp only at h
  split at h
  · cases h; exact lexWord_identifier_frames source s
  · split at h
    · rename_i s2 hop
      cases h
      split at hop
      · obtain ⟨t, h1, h2⟩ := lexOperator_tokens source s _ hop
        refine ⟨[t], h1, ?_, by rw [lexOperator_scopeStack source s _ hop]⟩
        intro t1 ht hty
        simp only [List.mem_singleton] at ht
        subst ht
        exact absurd hty h2
      · cases hop
    · split at h
      · split at h
        · cases h
        · cases h
          refine ⟨[_], rfl, ?_, List.suffix_refl _⟩
          intro t ht hty
          simp only [List.mem_singleton] at ht
          subst ht
          simp at hty
        · cases h; exact ⟨[], by simp, by simp, List.suffix_refl _⟩
      · split at h
        · simp only [Option.some.injEq] at h
          unfold lexNumber at h
          simp only at h
          split at h
          · split at h
            · cases h
            · split at h
              · cases h; exact ⟨[], by simp, by simp, List.suffix_refl _⟩
              · cases h
                refine ⟨[_], rfl, ?_, List.suffix_refl _⟩
                intro t ht hty
                simp only [List.mem_singleton] at ht
                subst ht
                simp at hty
          · cases h
            refine ⟨[_], rfl, ?_, List.suffix_refl _⟩
            intro t ht hty
            simp only [List.mem_singleton] at ht
            subst ht
            simp at hty
        · split at h
          · rename_i ty hty0
            cases h
            refine ⟨[_], rfl, ?_, List.suffix_refl _⟩
            intro t ht hty
            simp only [List.mem_singleton] at ht
            subst ht
            exact absurd hty (punctuationSymbols_not_identifier _ _ hty0)
          · cases h; exact ⟨[], by simp, by simp, List.suffix_refl _⟩

/-- In every iteration of the main loop the `IDENTIFIER` tokens appended are scoped by the scope
stack the iteration leaves, which ends with the scope stack left by the indentation handling. -/
theorem lexStep_identifier_frames (source : List Char) (s s1 : LexState)
    (h : lexStep source s = some (.ok s1)) :
    ∃ layout extra, s1.tokens = s.tokens ++ layout ++ extra ∧
      (∀ t ∈ layout, t.type = .INDENT ∨ t.type = .DEDENT) ∧
      (∀ t ∈ extra, t.type = .IDENTIFIER → t.scope = getScope s1.scopeStack) ∧
      (beforeLexeme source s).scopeStack <:+ s1.scopeStack := by
  obtain ⟨layout, hl1, hl2⟩ := beforeLexeme_tokens source s
  unfold lexStep at h
  simp only at h
  generalize beforeLexeme source s = sa at h hl1
  have none_case : sa.tokens = s.tokens ++ layout ++ [] := by simpa using hl1
  split at h
  · cases h; exact ⟨layout, [], none_case, hl2, by simp, List.suffix_refl _⟩
  · split at h
    · cases h; exact ⟨layout, [], none_case, hl2, by simp, List.suffix_refl _⟩
    · split at h
      · cases h; exact ⟨layout, [], none_case, hl2, by simp, List.suffix_refl _⟩
      · split at h
        · cases h; exact ⟨layout, [], none_case, hl2, by simp, List.suffix_refl _⟩
        · split at h
          · cases h
          · cases h; exact ⟨layout, [], none_case, hl2, by simp, List.suffix_refl _⟩
          · split at h
            · cases h
              rename_i text _ _ _ _
              refine ⟨layout,
                [{ type := .STRING_LITERAL, lexeme := text, lineNumber := sa.lineNumber }],
                by simp only [hl1], hl2, ?_, List.suffix_refl _⟩
              intro t ht hty
              simp only [List.mem_singleton] at ht
              subst ht
              simp at hty
            · obtain ⟨extra, h1, h2, h3⟩ := lexToken_identifier_frames source _ s1 h
              exact ⟨layout, extra, by rw [h1]; simp only [hl1], hl2, h2, h3⟩


/-! #### The order of the operands of `unifyTypes` -/

theorem unifyTypes_numeric_closed :
    ∀ a ∈ numericTags, ∀ b ∈ numericTags, Parser.unifyTypes a b ∈ numericTags := by
  decide!

theorem unifyTypes_numeric_right_comm :
    ∀ z ∈ numericTags, ∀ a ∈ numericTags, ∀ b ∈ numericTags,
      Parser.unifyTypes (Parser.unifyTypes z a) b = Parser.unifyTypes (Parser.unifyTypes z b) a := by
  decide!

theorem foldl_unifyTypes_perm (l l1 : List String) (hperm : l.Perm l1) :
    (∀ t ∈ l, t ∈ numericTags) → ∀ init ∈ numericTags,
      l.foldl Parser.unifyTypes init = l1.foldl Parser.unifyTypes init := by
  induction hperm with
  | nil => intro _ init _; rfl
  | cons x _ ih =>
    intro hall init hinit
    simp only [List.foldl_cons]
    exact ih (fun t ht => hall t (List.mem_cons_of_mem _ ht)) _
      (unifyTypes_numeric_closed init hinit x (hall x (List.mem_cons_self _ _)))
  | swap x y l2 =>
    intro hall init hinit
    simp only [List.foldl_cons]
    rw [unifyTypes_numeric_right_comm init hinit y (hall y (List.mem_cons_self _ _)) x
      (hall x (List.mem_cons_of_mem _ (List.mem_cons_self _ _)))]
  | trans h1 _ ih1 ih2 =>
    intro hall init hinit
    rw [ih1 hall init hinit]
    exact ih2 (fun t ht => hall t (h1.mem_iff.2 ht)) init hinit

/-- C37 (amended). `Parser::unifyTypes` is commutative on the eleven type tags, so the type of an
expression of two operands does not depend on their order; and for chains whose operands all
have one of the tags `unknown`, `int`, `float`, the left fold of `unifyTypes` over the list of
tags (as `parseExpression` computes it, the first tag being the start value, which is the fold
from `unknown`) equals the left fold over any permutation of the list. -/
theorem unifyTypes_order :
    (∀ a ∈ typeTags, ∀ b ∈ typeTags, Parser.unifyTypes a b = Parser.unifyTypes b a) ∧
      (∀ l l1 : List String, (∀ t ∈ l, t ∈ numericTags) → l.Perm l1 →
        l.foldl Parser.unifyTypes "unknown" = l1.foldl Parser.unifyTypes "unknown") ∧
      (∀ (t : String) (rest : List String),
        (t :: rest).foldl Parser.unifyTypes "unknown" = rest.foldl Parser.unifyTypes t) := by
  refine ⟨by decide!, ?_, ?_⟩
  · intro l l1 hall hperm
    exact foldl_unifyTypes_perm l l1 hperm hall "unknown" (by decide)
  · intro t rest
    have h : Parser.unifyTypes "unknown" t = t := by
      unfold Parser.unifyTypes
      by_cases ht : t = "unknown"
      · subst ht; decide
      · rw [if_neg (fun h => ht h.2), if_pos rfl]
    rw [List.foldl_cons, h]


/-! #### The lexemes of identifiers -/

theorem isalpha_nul : (isalpha (Char.ofNat 0) || Char.ofNat 0 = '_') = false := by decide

/-- The ordinary word path: when the word is not a keyword, the `IDENTIFIER` emitted matches
`[A-Za-z_][A-Za-z0-9_]*` and is not in the keyword table; when it is `def` or `class`, the
`IDENTIFIER` emitted after it is the next run of alphanumeric characters, unchecked. -/
theorem lexWord_identifier_lexeme (source : List Char) (s : LexState)
    (hstart : (isalpha (charAt source s.i) || charAt source s.i = '_') = true) :
    ∃ extra, (lexWord source s).tokens = s.tokens ++ extra ∧
      ((∃ t, extra = [t] ∧ t.type ≠ .IDENTIFIER) ∨
        (∃ kw ident, extra = [kw, ident] ∧ (kw.type = .DefKeyword ∨ kw.type = .ClassKeyword)) ∨
        (∃ ident, extra = [ident] ∧ ident.type = .IDENTIFIER ∧
          matchesIdentifier ident.lexeme = true ∧ pythonKeywords.lookup ident.lexeme = none)) := by
  have hin : s.i < source.length := by
    by_contra hge
    rw [charAt_of_length_le source s.i (by omega), isalpha_nul] at hstart
    cases hstart
  unfold lexWord
  simp only
  split
  · rename_i kw hkw
    have hid := pythonKeywords_not_identifier _ _ hkw
    split
    · rename_i hw
      have hdc := pythonKeywords_def_class _ _ hkw hw
      split
      · exact ⟨_, List.append_assoc _ _ _, Or.inr (Or.inl ⟨_, _, rfl, hdc⟩)⟩
      · exact ⟨_, rfl, Or.inl ⟨_, rfl, hid⟩⟩
    · exact ⟨_, rfl, Or.inl ⟨_, rfl, hid⟩⟩
  · rename_i hnone
    refine ⟨_, rfl, Or.inr (Or.inr ⟨_, rfl, rfl, ?_, hnone⟩)⟩
    simp only
    unfold matchesIdentifier substr scanWhile
    have htake : (source.drop s.i).take
        (s.i + ((source.drop s.i).takeWhile (fun c => isalnum c || c = '_')).length - s.i) =
        (source.drop s.i).takeWhile (fun c => isalnum c || c = '_') := by
      rw [Nat.add_sub_cancel_left]
      exact (List.prefix_iff_eq_take.1 (List.takeWhile_prefix _)).symm
    rw [htake, drop_eq_charAt_cons source s.i hin]
    have hp : (isalnum (charAt source s.i) || decide (charAt source s.i = '_')) = true := by
      unfold isalnum
      have hs := hstart
      simp only [Bool.or_eq_true, decide_eq_true_eq] at hs
      rcases hs with h | h
      · simp [h]
      · simp [h]
    rw [List.takeWhile_cons, if_pos hp]
    simp only [hstart, Bool.true_and, List.all_eq_true]
    intro d hd
    exact List.mem_takeWhile_imp (p := fun c => isalnum c || decide (c = '_')) hd

/-- The tokens `lexToken` appends: an `IDENTIFIER` that is not the one read directly after `def`
or `class` matches `[A-Za-z_][A-Za-z0-9_]*` and is not a reserved word. -/
theorem lexToken_identifier_lexeme (source : List Char) (s s1 : LexState)
    (h : lexToken source s = some (.ok s1)) :
    ∃ extra, s1.tokens = s.tokens ++ extra ∧
      (extra = [] ∨ (∃ t, extra = [t] ∧ t.type ≠ .IDENTIFIER) ∨
        (∃ kw ident, extra = [kw, ident] ∧ (kw.type = .DefKeyword ∨ kw.type = .ClassKeyword)) ∨
        (∃ ident, extra = [ident] ∧ ident.type = .IDENTIFIER ∧
          matchesIdentifier ident.lexeme = true ∧ pythonKeywords.lookup ident.lexeme = none)) := by
  unfold lexToken at h
  simp only at h
  split at h
  · rename_i hstart
    cases h
    obtain ⟨extra, h1, h2⟩ := lexWord_identifier_lexeme source s hstart
    exact ⟨extra, h1, Or.inr h2⟩
  · split at h
    · rename_i s2 hop
      cases h
      split at hop
      · obtain ⟨t, h1, h2⟩ := lexOperator_tokens source s _ hop
        exact ⟨[t], h1, Or.inr (Or.inl ⟨t, rfl, h2⟩)⟩
      · cases hop
    · split at h
      · split at h
        · cases h
        · cases h; exact ⟨[_], rfl, Or.inr (Or.inl ⟨_, rfl, by simp⟩)⟩
        · cases h; exact ⟨[], by simp, Or.inl rfl⟩
      · split at h
        · simp only [Option.some.injEq] at h
          rcases lexNumber_tokens source s s1 h with h1 | ⟨t, h1, h2⟩
          · exact ⟨[], by simpa using h1, Or.inl rfl⟩
          · exact ⟨[t], h1, Or.inr (Or.inl ⟨t, rfl, h2⟩)⟩
        · split at h
          · rename_i ty hty
            cases h
            exact ⟨[_], rfl, Or.inr (Or.inl ⟨_, rfl, punctuationSymbols_not_identifier _ _ hty⟩)⟩
          · cases h; exact ⟨[], by simp, Or.inl rfl⟩

/-- In every iteration of the main loop of `tokenize`, an `IDENTIFIER` token that is not read
directly after `def` or `class` matches `[A-Za-z_][A-Za-z0-9_]*` and is not a reserved word. -/
theorem lexStep_identifier_lexeme (source : List Char) (s s1 : LexState)
    (h : lexStep source s = some (.ok s1)) :
    ∃ layout extra, s1.tokens = s.tokens ++ layout ++ extra ∧
      (∀ t ∈ layout, t.type = .INDENT ∨ t.type = .DEDENT) ∧
      (extra = [] ∨ (∃ t, extra = [t] ∧ t.type ≠ .IDENTIFIER) ∨
        (∃ kw ident, extra = [kw, ident] ∧ (kw.type = .DefKeyword ∨ kw.type = .ClassKeyword)) ∨
        (∃ ident, extra = [ident] ∧ ident.type = .IDENTIFIER ∧
          matchesIdentifier ident.lexeme = true ∧ pythonKeywords.lookup ident.lexeme = none)) := by
  obtain ⟨layout, hl1, hl2⟩ := beforeLexeme_tokens source s
  unfold lexStep at h
  simp only at h
  generalize beforeLexeme source s = sa at h hl1
  have none_case : sa.tokens = s.tokens ++ layout ++ [] := by simpa using hl1
  split at h
  · cases h; exact ⟨layout, [], none_case, hl2, Or.inl rfl⟩
  · split at h
    · cases h; exact ⟨layout, [], none_case, hl2, Or.inl rfl⟩
    · split at h
      · cases h; exact ⟨layout, [], none_case, hl2, Or.inl rfl⟩
      · split at h
        · cases h; exact ⟨layout, [], none_case, hl2, Or.inl rfl⟩
        · split at h
          · cases h
          · cases h; exact ⟨layout, [], none_case, hl2, Or.inl rfl⟩
          · split at h
            · cases h
              rename_i text _ _ _ _
              exact ⟨layout, [{ type := .STRING_LITERAL, lexeme := text, lineNumber := sa.lineNumber }],
                by simp only [hl1], hl2, Or.inr (Or.inl ⟨_, rfl, by simp⟩)⟩
            · obtain ⟨extra, h1, h2⟩ := lexToken_identifier_lexeme source _ s1 h
              exact ⟨layout, extra, by rw [h1]; simp only [hl1], hl2, h2⟩


/-! #### Numeric literals -/

/-- The scanning loop of a numeric literal: the characters it passes are digits and dots, and
`hasDot` ends up set exactly when it was set before or a dot was passed. -/
theorem scanNumber_spec :
    ∀ (l : List Char) (hasDot : Bool),
      (scanNumber l hasDot).1 ≤ l.length ∧
      (∀ c ∈ l.take (scanNumber l hasDot).1, isdigit c = true ∨ c = '.') ∧
      ((scanNumber l hasDot).2 = (hasDot || (l.take (scanNumber l hasDot).1).contains '.')) := by
  intro l
  induction l with
  | nil => intro hasDot; simp [scanNumber]
  | cons c rest ih =>
    intro hasDot
    unfold scanNumber
    by_cases h1 : (isdigit c || decide (c = '.')) = true
    · rw [if_pos h1]
      by_cases h2 : (decide (c = '.') && hasDot) = true
      · rw [if_pos h2]
        simp
      · rw [if_neg h2]
        obtain ⟨a1, a2, a3⟩ := ih (hasDot || decide (c = '.'))
        simp only [List.take_succ_cons, List.length_cons, List.mem_cons]
        refine ⟨by omega, ?_, ?_⟩
        · intro d hd
          rcases hd with rfl | hd
          · simpa using h1
          · exact a2 d hd
        · rw [a3]
          simp only [List.contains_cons]
          by_cases hc : c = '.'
          · subst hc; simp
          · have : ('.' == c) = false := by
              simpa using fun h => hc h.symm
            simp [hc, this]
    · rw [if_neg h1]
      simp

theorem digit_value_zero (d : Char) (hd : isdigit d = true) : d.toNat - 48 = 0 ↔ d = '0' := by
  unfold isdigit at hd
  simp only [Bool.and_eq_true, decide_eq_true_eq] at hd
  constructor
  · intro h
    have h48 : d.toNat = 48 := by omega
    have hof := Char.ofNat_toNat d
    rw [h48] at hof
    exact hof.symm
  · intro h
    subst h
    decide

theorem foldl_digits_zero :
    ∀ (ds : List Char) (acc : Nat), (∀ d ∈ ds, isdigit d = true) →
      (ds.foldl (fun acc d => 10 * acc + (d.toNat - 48)) acc = 0 ↔
        acc = 0 ∧ ∀ d ∈ ds, d = '0') := by
  intro ds
  induction ds with
  | nil => intro acc _; simp
  | cons d rest ih =>
    intro acc hall
    rw [List.foldl_cons, ih _ (fun x hx => hall x (List.mem_cons_of_mem _ hx))]
    have hz := digit_value_zero d (hall d (List.mem_cons_self _ _))
    constructor
    · intro ⟨h1, h2⟩
      have h3 : d.toNat - 48 = 0 := by omega
      refine ⟨by omega, ?_⟩
      intro x hx
      rcases List.mem_cons.1 hx with rfl | hx
      · exact hz.1 h3
      · exact h2 x hx
    · intro ⟨h1, h2⟩
      have h3 := hz.2 (h2 d (List.mem_cons_self _ _))
      exact ⟨by omega, fun x hx => h2 x (List.mem_cons_of_mem _ hx)⟩

theorem leadingZeroInteger_iff (num : List Char) :
    leadingZeroInteger num = true ↔
      1 < num.length ∧ num.head? = some '0' ∧ ¬ num.contains '.' = true ∧
        num.any (fun c => c ≠ '0') = true := by
  unfold leadingZeroInteger
  simp only [Bool.and_eq_true, decide_eq_true_eq, Bool.not_eq_true', Bool.not_eq_true]
  constructor
  · intro ⟨⟨⟨h1, h2⟩, h3⟩, h4⟩
    exact ⟨h1, h2, h3, h4⟩
  · intro ⟨h1, h2, h3, h4⟩
    exact ⟨⟨⟨h1, h2⟩, h3⟩, h4⟩

/-- The branch of `tokenize` for a numeric literal, when `std::stoi` does not throw (the literal
does not begin with `0`, or its leading digits fit an `int`): it records the leading-zero
diagnostic and emits no token exactly when the literal has more than one character, begins with
`0`, holds no `.` and has a digit other than `0`; otherwise it emits one `NUMBER` token with the
text of the literal and records nothing. -/
theorem lexNumber_spec (source : List Char) (s : LexState)
    (hfit : (numberLiteral source s.i).headD (Char.ofNat 0) = '0' →
      ∃ value, stoi (numberLiteral source s.i) = .ok value) :
    (leadingZeroInteger (numberLiteral source s.i) = true →
      lexNumber source s =
        .ok { s with i := s.i + (numberLiteral source s.i).length,
                     errors := s.errors ++
                       [⟨"leading zeros in decimal integer literals are not permitted",
                         s.lineNumber, s.i⟩] }) ∧
    (leadingZeroInteger (numberLiteral source s.i) = false →
      lexNumber source s =
        .ok { s with i := s.i + (numberLiteral source s.i).length,
                     tokens := s.tokens ++
                       [⟨.NUMBER, String.mk (numberLiteral source s.i), s.lineNumber, ""⟩] }) := by
  obtain ⟨hlen, hchars, hdot⟩ := scanNumber_spec (source.drop s.i) false
  have hnumlen : (numberLiteral source s.i).length = (scanNumber (source.drop s.i) false).1 := by
    unfold numberLiteral
    rw [List.length_take]
    omega
  have hnum : (source.drop s.i).take (s.i + (scanNumber (source.drop s.i) false).1 - s.i) =
      numberLiteral source s.i := by
    unfold numberLiteral
    rw [Nat.add_sub_cancel_left]
  rw [Bool.false_or] at hdot
  change _ = (numberLiteral source s.i).contains '.' at hdot
  change ∀ c ∈ numberLiteral source s.i, _ at hchars
  unfold lexNumber
  simp only
  rw [hnum, ← hnumlen, hdot]
  generalize numberLiteral source s.i = num at hfit hchars
  have hcases : ∀ b : Bool, b = true ∨ b = false := fun b => by cases b <;> simp
  by_cases h0 : num.headD (Char.ofNat 0) = '0'
  · obtain ⟨value, hv⟩ := hfit h0
    rw [if_pos h0, hv]
    simp only
    have hhead : num.head? = some '0' := by
      cases num with
      | nil => simp at h0
      | cons c rest => simpa using h0
    by_cases hd : num.contains '.' = true
    · have hspec : ¬ leadingZeroInteger num = true := by
        rw [leadingZeroInteger_iff]
        exact fun h => h.2.2.1 hd
      rw [if_neg (fun h => h.2 hd)]
      exact ⟨fun h => absurd h hspec, fun _ => rfl⟩
    · have hdigits : ∀ c ∈ num, isdigit c = true := by
        intro c hc
        rcases hchars c hc with h | h
        · exact h
        · subst h
          exact absurd (List.contains_iff_exists_mem_beq.2 ⟨_, hc, by simp⟩) hd
      have htw : num.takeWhile isdigit = num := List.takeWhile_eq_self_iff.2 hdigits
      have hval : value = num.foldl (fun acc d => 10 * acc + (d.toNat - 48)) 0 := by
        unfold stoi at hv
        simp only [htw] at hv
        split at hv
        · cases hv
        · exact (Except.ok.inj hv).symm
      have hzero := foldl_digits_zero num 0 hdigits
      by_cases hnz : value ≠ 0
      · have hany : num.any (fun c => c ≠ '0') = true := by
          rcases hcases (num.any (fun c => c ≠ '0')) with h | h
          · exact h
          · exfalso
            apply hnz
            rw [hval, hzero]
            refine ⟨rfl, fun d hdm => ?_⟩
            have := List.any_eq_false.1 h d hdm
            simpa using this
        have hlong : 1 < num.length := by
          cases num with
          | nil => simp at hhead
          | cons c rest =>
            cases rest with
            | nil =>
              simp only [List.head?_cons, Option.some.injEq] at hhead
              subst hhead
              simp at hany
            | cons c2 rest2 => simp
        have hspec : leadingZeroInteger num = true :=
          (leadingZeroInteger_iff num).2 ⟨hlong, hhead, hd, hany⟩
        rw [if_pos ⟨hnz, hd⟩]
        exact ⟨fun _ => rfl, fun h => absurd hspec (by rw [h]; decide)⟩
      · have hv0 : value = 0 := by simpa using hnz
        have hall : ∀ d ∈ num, d = '0' := (hzero.1 (by rw [← hval]; exact hv0)).2
        have hspec : ¬ leadingZeroInteger num = true := by
          rw [leadingZeroInteger_iff]
          intro h
          obtain ⟨x, hx, hne⟩ := List.any_eq_true.1 h.2.2.2
          exact absurd (hall x hx) (by simpa using hne)
        rw [if_neg (fun h => hnz h.1)]
        exact ⟨fun h => absurd h hspec, fun _ => rfl⟩
  · rw [if_neg h0]
    have hspec : ¬ leadingZeroInteger num = true := by
      rw [leadingZeroInteger_iff]
      intro h
      apply h0
      cases num with
      | nil => simp at h
      | cons c rest => simpa using h.2.1
    exact ⟨fun h => absurd h hspec, fun _ => rfl⟩

theorem lexNumber_spec_witness :
    (leadingZeroInteger (numberLiteral "007".toList 0) = true →
      lexNumber "007".toList ⟨[], [], 1, 0, [0], false, false, []⟩ =
        .ok { (⟨[], [], 1, 0, [0], false, false, []⟩ : LexState) with
              i := 0 + (numberLiteral "007".toList 0).length,
              errors := [] ++
                [⟨"leading zeros in decimal integer literals are not permitted", 1, 0⟩] }) ∧
    (leadingZeroInteger (numberLiteral "007".toList 0) = false →
      lexNumber "007".toList ⟨[], [], 1, 0, [0], false, false, []⟩ =
        .ok { (⟨[], [], 1, 0, [0], false, false, []⟩ : LexState) with
              i := 0 + (numberLiteral "007".toList 0).length,
              tokens := [] ++ [⟨.NUMBER, String.mk (numberLiteral "007".toList 0), 1, ""⟩] }) :=
  lexNumber_spec "007".toList ⟨[], [], 1, 0, [0], false, false, []⟩
    (fun _ => ⟨7, by decide!⟩)

/-! ### The newlines the cursor passes -/

theorem newlinesBefore_add (source : List Char) (i k : Nat) :
    newlinesBefore source (i + k) =
      newlinesBefore source i + ((source.drop i).take k).count '\n' := by
  unfold newlinesBefore
  rw [List.take_add, List.count_append]

theorem newlinesBefore_succ_ne (source : List Char) (i : Nat) (h : charAt source i ≠ '\n') :
    newlinesBefore source (i + 1) = newlinesBefore source i := by
  rw [newlinesBefore_add]
  by_cases hlt : i < source.length
  · rw [drop_eq_charAt_cons source i hlt]
    simp only [List.take_succ_cons, List.take_zero]
    rw [List.count_eq_zero.2]
    · rfl
    · intro hmem
      simp only [List.mem_singleton] at hmem
      exact h hmem.symm
  · rw [List.drop_eq_nil_of_le (by omega)]
    simp

/-- A scanning loop whose condition rejects the newline passes no newline. -/
theorem newlinesBefore_scanWhile (p : Char → Bool) (source : List Char) (i : Nat)
    (hp : ∀ c, p c = true → c ≠ '\n') :
    newlinesBefore source (scanWhile p source i) = newlinesBefore source i := by
  unfold scanWhile
  rw [newlinesBefore_add]
  have e : (source.drop i).take ((source.drop i).takeWhile p).length =
      (source.drop i).takeWhile p :=
    (List.prefix_iff_eq_take.1 (List.takeWhile_prefix p)).symm
  rw [e, List.count_eq_zero.2]
  · rfl
  · intro hmem
    exact hp _ (List.mem_takeWhile_imp hmem) rfl

theorem processIndentation_cursor (source : List Char) (s : LexState) :
    (processIndentation source s).i = s.i + (leadingWhitespace source s.i).length := by
  unfold processIndentation leadingWhitespace
  simp only
  split
  · split
    · simp [LexState.report]
    · rw [compareIndent_i]; simp [LexState.report]
  · split
    · simp
    · rw [compareIndent_i]

/-- The indentation handling and the whitespace skip at the start of an iteration pass no
newline. -/
theorem beforeLexeme_newlines (source : List Char) (s : LexState) :
    newlinesBefore source (beforeLexeme source s).i = newlinesBefore source s.i := by
  have hskip : ∀ j, newlinesBefore source (skipNonLeadingWhitespace source j) =
      newlinesBefore source j := by
    intro j
    unfold skipNonLeadingWhitespace
    refine newlinesBefore_scanWhile _ source j ?_
    intro c hc hn
    subst hn
    revert hc
    decide
  have hlead : newlinesBefore source (s.i + (leadingWhitespace source s.i).length) =
      newlinesBefore source s.i := by
    refine newlinesBefore_scanWhile (fun c => c = ' ' || c = '\t') source s.i ?_
    intro c hc hn
    subst hn
    revert hc
    decide
  unfold beforeLexeme
  simp only
  split
  · simp only
    rw [hskip, processIndentation_cursor, hlead]
  · exact hskip s.i

theorem isalnum_ne_newline (c : Char) (h : (isalnum c || decide (c = '_')) = true) :
    c ≠ '\n' := by
  intro hn
  subst hn
  revert h
  decide

theorem lexWord_newlines (source : List Char) (s : LexState) :
    newlinesBefore source (lexWord source s).i = newlinesBefore source s.i := by
  have h1 : newlinesBefore source (scanWhile (fun c => isalnum c || c = '_') source s.i) =
      newlinesBefore source s.i :=
    newlinesBefore_scanWhile _ source s.i isalnum_ne_newline
  have h2 : newlinesBefore source (scanWhile (fun c => isalnum c || c = '_') source
      (skipNonLeadingWhitespace source (scanWhile (fun c => isalnum c || c = '_') source s.i))) =
      newlinesBefore source s.i := by
    rw [newlinesBefore_scanWhile _ source _ isalnum_ne_newline]
    unfold skipNonLeadingWhitespace
    rw [newlinesBefore_scanWhile _ source _ (by
      intro c hc hn
      subst hn
      revert hc
      decide)]
    exact h1
  unfold lexWord
  simp only
  split
  · split
    · split
      · exact h2
      · exact h2
    · exact h1
  · exact h1

theorem lexOperator_newlines (source : List Char) (s s1 : LexState)
    (h : lexOperator source s = some s1) :
    newlinesBefore source s1.i = newlinesBefore source s.i := by
  obtain ⟨lexeme, _, ⟨hmem, hpre, _, _⟩, hi⟩ := lexOperator_longest source s s1 h
  have hall : ∀ q ∈ operators, q.data.count '\n' = 0 := by decide!
  rw [hi, newlinesBefore_add]
  have e : (source.drop s.i).take lexeme.length = lexeme.data :=
    (List.prefix_iff_eq_take.1 hpre).symm
  rw [e, hall lexeme hmem]
  rfl

theorem lexNumber_newlines (source : List Char) (s s1 : LexState)
    (h : lexNumber source s = .ok s1) :
    newlinesBefore source s1.i = newlinesBefore source s.i := by
  have key : newlinesBefore source (s.i + (scanNumber (source.drop s.i) false).1) =
      newlinesBefore source s.i := by
    rw [newlinesBefore_add, List.count_eq_zero.2]
    · rfl
    · intro hmem
      rcases (scanNumber_spec (source.drop s.i) false).2.1 _ hmem with hd | hd
      · revert hd; decide
      · revert hd; decide
  unfold lexNumber at h
  simp only at h
  split at h
  · split at h
    · cases h
    · split at h
      · cases h; exact key
      · cases h; exact key
  · cases h; exact key

theorem lexToken_newlines (source : List Char) (s s1 : LexState)
    (h : lexToken source s = some (.ok s1))
    (hq : ¬ (charAt source s.i = '\"' ∨ charAt source s.i = '\''))
    (hn : charAt source s.i ≠ '\n') :
    newlinesBefore source s1.i = newlinesBefore source s.i := by
  unfold lexToken at h
  simp only at h
  split at h
  · cases h; exact lexWord_newlines source s
  · split at h
    · rename_i s2 hop
      cases h
      split at hop
      · exact lexOperator_newlines source s _ hop
      · cases hop
    · split at h
      · simp only [Option.some.injEq] at h
        exact lexNumber_newlines source s s1 h
      · split at h
        · cases h; exact newlinesBefore_succ_ne source s.i hn
        · cases h; exact newlinesBefore_succ_ne source s.i hn

theorem handleTripleQuotedString_not_quote (source : List Char) (idx : Nat) (line : Int)
    (hq : ¬ (charAt source idx = '\"' ∨ charAt source idx = '\'')) :
    handleTripleQuotedString source idx line = some (.str "", idx, line) := by
  unfold handleTripleQuotedString
  split
  · simp only
    rw [if_neg (fun h => hq h.1)]
  · rfl

/-- An iteration of the main loop of `tokenize` whose lexeme does not begin with a quote, and
which takes neither the branch of the newline nor the branch of the line continuation, leaves the
line counter as it is and passes no newline: the cursor stays on its physical line. -/
theorem lexStep_same_line (source : List Char) (s s1 : LexState)
    (h : lexStep source s = some (.ok s1))
    (hq : ¬ (charAt source (beforeLexeme source s).i = '\"' ∨
      charAt source (beforeLexeme source s).i = '\''))
    (hnl : ¬ readsNewline source s)
    (hcont : ¬ (charAt source (beforeLexeme source s).i = '\\' ∧
      (beforeLexeme source s).i + 1 < source.length ∧
      charAt source ((beforeLexeme source s).i + 1) = '\n')) :
    s1.lineNumber = s.lineNumber ∧
      newlinesBefore source s1.i = newlinesBefore source s.i := by
  have hb := beforeLexeme_newlines source s
  have hl := (beforeLexeme_lines source s).2
  unfold readsNewline at hnl
  unfold lexStep at h
  simp only at h
  generalize beforeLexeme source s = sa at h hb hl hq hnl hcont
  split at h
  · cases h; exact ⟨hl, hb⟩
  · rename_i hlt
    split at h
    · rename_i hc
      exact absurd ⟨by omega, hc⟩ hnl
    · rename_i hne
      split at h
      · cases h
        refine ⟨hl, ?_⟩
        simp only
        rw [newlinesBefore_scanWhile _ source sa.i (by
          intro c hc
          simpa using hc)]
        exact hb
      · rw [handleTripleQuotedString_not_quote source sa.i sa.lineNumber hq] at h
        simp only at h
        rw [if_neg (by decide)] at h
        have e1 := lexToken_lineNumber source _ s1 h
        have e2 := lexToken_newlines source _ s1 h hq hne
        simp only at e1 e2
        exact ⟨by rw [e1, hl], by rw [e2, hb]⟩

/-- An iteration of the main loop keeps the line counter accurate (if it was the line number of
the cursor position before, it is so afterwards) when its lexeme does not begin with a quote, and
also when the cursor passes no newline during the iteration, as with a string literal that ends
on the line on which it begins. -/
theorem lexStep_accurate (source : List Char) (s s1 : LexState)
    (h : lexStep source s = some (.ok s1))
    (hq : ¬ (charAt source (beforeLexeme source s).i = '\"' ∨
        charAt source (beforeLexeme source s).i = '\'') ∨
      newlinesBefore source s1.i = newlinesBefore source s.i)
    (hsync : s.lineNumber = lineOf source s.i) :
    s1.lineNumber = lineOf source s1.i := by
  have hb := beforeLexeme_newlines source s
  have hl := (beforeLexeme_lines source s).2
  unfold lineOf at hsync ⊢
  rcases hq with hq | hsame
  · by_cases hnl : readsNewline source s
    · rw [lexStep_newline source s hnl] at h
      simp only [Option.some.injEq, Except.ok.injEq] at h
      subst h
      simp only
      rw [newlinesBefore_succ source _ hnl.2, hb, hl, hsync]
      push_cast
      ring
    · by_cases hcont : charAt source (beforeLexeme source s).i = '\\' ∧
          (beforeLexeme source s).i + 1 < source.length ∧
          charAt source ((beforeLexeme source s).i + 1) = '\n'
      · rw [lexStep_backslash_newline source s hcont.2.1 hcont.1 hcont.2.2] at h
        simp only [Option.some.injEq, Except.ok.injEq] at h
        subst h
        simp only
        have e1 := newlinesBefore_succ source _ hcont.2.2
        have e2 := newlinesBefore_succ_ne source (beforeLexeme source s).i
          (by rw [hcont.1]; decide)
        have e3 : (beforeLexeme source s).i + 2 = (beforeLexeme source s).i + 1 + 1 := rfl
        rw [e3, e1, e2, hb, hl, hsync]
        push_cast
        ring
      · obtain ⟨a1, a2⟩ := lexStep_same_line source s s1 h hq hnl hcont
        rw [a1, a2, hsync]
  · have h1 := lexStep_linecount source s s1 h
    have h2 := (lexStep_lines source s s1 h).1
    rw [hsame] at h1 ⊢
    omega

/-- From a state in which the line counter is accurate, it stays accurate as long as every
iteration of the main loop either reads a lexeme that does not begin with a quote or passes no
newline. -/
theorem lexSteps_accurate (source : List Char) :
    ∀ (n : Nat) (s sn : LexState), s.lineNumber = lineOf source s.i →
      lexSteps source n s = some (.ok sn) →
      (∀ k sk, k < n → lexSteps source k s = some (.ok sk) →
        ¬ (charAt source (beforeLexeme source sk).i = '\"' ∨
          charAt source (beforeLexeme source sk).i = '\'') ∨
        ∀ s1, lexStep source sk = some (.ok s1) →
          newlinesBefore source s1.i = newlinesBefore source sk.i) →
      sn.lineNumber = lineOf source sn.i := by
  intro n
  induction n with
  | zero =>
    intro s sn hs h _
    simp only [lexSteps, Option.some.injEq, Except.ok.injEq] at h
    subst h
    exact hs
  | succ k ih =>
    intro s sn hs h hno
    have h0 := hno 0 s (Nat.succ_pos k) rfl
    unfold lexSteps at h
    split at h
    · rename_i hlt
      split at h
      · cases h
      · cases h
      · rename_i s2 hstep
        have h0' : ¬ (charAt source (beforeLexeme source s).i = '\"' ∨
            charAt source (beforeLexeme source s).i = '\'') ∨
            newlinesBefore source s2.i = newlinesBefore source s.i := by
          rcases h0 with hq | hsame
          · exact Or.inl hq
          · exact Or.inr (hsame s2 hstep)
        refine ih s2 sn (lexStep_accurate source s s2 hstep h0' hs) h ?_
        intro j sj hj hsj
        refine hno (j + 1) sj (by omega) ?_
        rw [lexSteps, if_pos hlt, hstep]
        exact hsj
    · simp only [Option.some.injEq, Except.ok.injEq] at h
      subst h
      exact hs

/-- The line counter is accurate when `tokenize` enters its main loop. -/
theorem initialState_accurate (lexer : Lexer) (source : List Char) :
    (initialState lexer).lineNumber = lineOf source (initialState lexer).i := by
  simp [initialState, lineOf, newlinesBefore]

/-! ### C14 and C30 in terms of the physical lines of the source -/

/-- C14 (amended). An iteration of the main loop of `tokenize`, entered with an accurate line
counter (its value is the line number of the cursor position), that reads (after the indentation
and whitespace handling, state `beforeLexeme`) a quote character `q` that does not open a triple
quote and whose text reaches a bare newline or the end of the source before an unescaped `q`
(`unterminatedAfter`): the iteration returns, emits no token, records exactly one diagnostic,
"Unterminated string literal" with the line number of the opener (one more than the number of
newlines before it) and the index of the opener, and moves the cursor forward. -/
theorem lexStep_unterminated_string (source : List Char) (s : LexState) (q : Char)
    (hsync : s.lineNumber = lineOf source s.i)
    (hq : charAt source (beforeLexeme source s).i = q)
    (hquote : q = '\"' ∨ q = '\'')
    (hsingle : ¬ (charAt source ((beforeLexeme source s).i + 1) = q ∧
      charAt source ((beforeLexeme source s).i + 2) = q))
    (hopen : unterminatedAfter q (source.drop ((beforeLexeme source s).i + 1)) = true) :
    ∃ s1, lexStep source s = some (.ok s1) ∧
      s1.tokens = (beforeLexeme source s).tokens ∧
      s1.errors = (beforeLexeme source s).errors ++
        [⟨"Unterminated string literal", lineOf source (beforeLexeme source s).i,
          (beforeLexeme source s).i⟩] ∧
      (beforeLexeme source s).i < s1.i := by
  obtain ⟨s1, h1, h2, h3, h4⟩ := lexStep_unterminated_counter source s q hq hquote hsingle hopen
  refine ⟨s1, h1, h2, ?_, h4⟩
  rw [h3, (beforeLexeme_lines source s).2, hsync]
  unfold lineOf
  rw [beforeLexeme_newlines]

theorem lexStep_unterminated_string_witness :
    lineOf "a\nx = \"hi\n".toList 6 = 2 ∧
    beforeLexeme "a\nx = \"hi\n".toList
        ⟨[⟨.IDENTIFIER, "a", 1, "global"⟩, ⟨.IDENTIFIER, "x", 2, "global"⟩,
          ⟨.OPERATOR, "=", 2, ""⟩], [], 2, 5, [0], false, false, []⟩ =
      ⟨[⟨.IDENTIFIER, "a", 1, "global"⟩, ⟨.IDENTIFIER, "x", 2, "global"⟩,
          ⟨.OPERATOR, "=", 2, ""⟩], [], 2, 6, [0], false, false, []⟩ ∧
    ∃ s1,
      lexStep "a\nx = \"hi\n".toList
        ⟨[⟨.IDENTIFIER, "a", 1, "global"⟩, ⟨.IDENTIFIER, "x", 2, "global"⟩,
          ⟨.OPERATOR, "=", 2, ""⟩], [], 2, 5, [0], false, false, []⟩ = some (.ok s1) ∧
      s1.tokens = (beforeLexeme "a\nx = \"hi\n".toList
        ⟨[⟨.IDENTIFIER, "a", 1, "global"⟩, ⟨.IDENTIFIER, "x", 2, "global"⟩,
          ⟨.OPERATOR, "=", 2, ""⟩], [], 2, 5, [0], false, false, []⟩).tokens ∧
      s1.errors = (beforeLexeme "a\nx = \"hi\n".toList
        ⟨[⟨.IDENTIFIER, "a", 1, "global"⟩, ⟨.IDENTIFIER, "x", 2, "global"⟩,
          ⟨.OPERATOR, "=", 2, ""⟩], [], 2, 5, [0], false, false, []⟩).errors ++
        [⟨"Unterminated string literal",
          lineOf "a\nx = \"hi\n".toList (beforeLexeme "a\nx = \"hi\n".toList
            ⟨[⟨.IDENTIFIER, "a", 1, "global"⟩, ⟨.IDENTIFIER, "x", 2, "global"⟩,
              ⟨.OPERATOR, "=", 2, ""⟩], [], 2, 5, [0], false, false, []⟩).i,
          (beforeLexeme "a\nx = \"hi\n".toList
            ⟨[⟨.IDENTIFIER, "a", 1, "global"⟩, ⟨.IDENTIFIER, "x", 2, "global"⟩,
              ⟨.OPERATOR, "=", 2, ""⟩], [], 2, 5, [0], false, false, []⟩).i⟩] ∧
      (beforeLexeme "a\nx = \"hi\n".toList
        ⟨[⟨.IDENTIFIER, "a", 1, "global"⟩, ⟨.IDENTIFIER, "x", 2, "global"⟩,
          ⟨.OPERATOR, "=", 2, ""⟩], [], 2, 5, [0], false, false, []⟩).i < s1.i :=
  ⟨by decide!, by decide!,
    lexStep_unterminated_string "a\nx = \"hi\n".toList
      ⟨[⟨.IDENTIFIER, "a", 1, "global"⟩, ⟨.IDENTIFIER, "x", 2, "global"⟩,
        ⟨.OPERATOR, "=", 2, ""⟩], [], 2, 5, [0], false, false, []⟩
      '\"' (by decide!) (by decide!) (Or.inl rfl) (by decide!) (by decide!)⟩

/-- The run from which the witness state of C14 is taken, and the run as a whole: the opener on
line 2 is reported with line 2. -/
theorem tokenize_unterminated_second_line :
    lexSteps "a\nx = \"hi\n".toList 4 (initialState Lexer.fresh) =
      some (.ok ⟨[⟨.IDENTIFIER, "a", 1, "global"⟩, ⟨.IDENTIFIER, "x", 2, "global"⟩,
        ⟨.OPERATOR, "=", 2, ""⟩], [], 2, 5, [0], false, false, []⟩) ∧
    tokenize Lexer.fresh "a\nx = \"hi\n".toList =
      .returned [⟨.IDENTIFIER, "a", 1, "global"⟩, ⟨.IDENTIFIER, "x", 2, "global"⟩,
          ⟨.OPERATOR, "=", 2, ""⟩]
        [⟨"Unterminated string literal", 2, 6⟩] ⟨[], [0], false, false⟩ :=
  ⟨by decide!, by decide!⟩

theorem lexSteps_i_le (source : List Char) :
    ∀ (n : Nat) (s sn : LexState), lexSteps source n s = some (.ok sn) → s.i ≤ sn.i := by
  intro n
  induction n with
  | zero =>
    intro s sn h
    simp only [lexSteps, Option.some.injEq, Except.ok.injEq] at h
    subst h
    exact le_refl _
  | succ k ih =>
    intro s sn h
    unfold lexSteps at h
    split at h
    · rename_i hlt
      split at h
      · cases h
      · cases h
      · rename_i s2 hstep
        obtain ⟨r, hr, hp⟩ := lexStep_some source s hlt
        rw [hstep] at hr
        have h1 := hp s2 (by injection hr with hr; exact hr.symm)
        have h2 := ih s2 sn h
        omega
    · simp only [Option.some.injEq, Except.ok.injEq] at h
      subst h
      exact le_refl _

/-- As long as the cursor has passed no newline, the lexer stays on the continued line and the
line counter does not move. -/
theorem lexSteps_on_line (source : List Char) :
    ∀ (n : Nat) (s sn : LexState), s.lineContinuation = true →
      lexSteps source n s = some (.ok sn) →
      newlinesBefore source sn.i = newlinesBefore source s.i →
      Continued s sn ∧ sn.lineNumber = s.lineNumber := by
  intro n
  induction n with
  | zero =>
    intro s sn hc h _
    simp only [lexSteps, Option.some.injEq, Except.ok.injEq] at h
    subst h
    exact ⟨continued_refl s hc, rfl⟩
  | succ k ih =>
    intro s sn hc h hnb
    unfold lexSteps at h
    split at h
    · rename_i hlt
      split at h
      · cases h
      · cases h
      · rename_i s2 hstep
        obtain ⟨r, hr, hp⟩ := lexStep_some source s hlt
        rw [hstep] at hr
        have hi1 : s.i < s2.i := hp s2 (by injection hr with hr; exact hr.symm)
        have hi2 := lexSteps_i_le source k s2 sn h
        have m1 := newlinesBefore_mono source (Nat.le_of_lt hi1)
        have m2 := newlinesBefore_mono source hi2
        have e2 : newlinesBefore source s2.i = newlinesBefore source s.i := by omega
        have hno : ¬ readsNewline source s := by
          intro hnl
          rw [lexStep_newline source s hnl] at hstep
          simp only [Option.some.injEq, Except.ok.injEq] at hstep
          subst hstep
          simp only at e2
          rw [newlinesBefore_succ source _ hnl.2, beforeLexeme_newlines] at e2
          omega
        obtain ⟨c1, c2, c3, c4, c5⟩ := lexStep_continued source s s2 hc hstep
        obtain ⟨d1, d2⟩ := ih s2 sn (c5 hno) h (by omega)
        have hcount := lexStep_linecount source s s2 hstep
        refine ⟨continued_step ⟨c1, c2, c3, c4⟩ d1, ?_⟩
        rw [d2]
        omega
    · simp only [Option.some.injEq, Except.ok.injEq] at h
      subst h
      exact ⟨continued_refl s hc, rfl⟩

/-- C30 (amended). When an iteration of the main loop of `tokenize` reads, at the start of a lexeme
(so outside a comment and outside a string), a backslash directly followed by a newline, it
passes both, increments the line counter and sets `atLineStart` and `lineContinuation`; the
cursor then stands at the start of the continued physical line. In every state `sn` the loop
reaches with the cursor on that line (no newline between the start of the line and the cursor),
`lineContinuation` is still set, the indent stack is unchanged, every token pushed since is
neither INDENT nor DEDENT and carries the incremented line number, and no diagnostic recorded
since is an indentation diagnostic. When the iteration entered in such a state reads the newline
that ends the line, it lexes nothing, increments the line counter, clears `lineContinuation`, sets
`atLineStart` and leaves the cursor at the start of the next physical line, so the iteration after
it begins with `processIndentation` there. An iteration entered in such a state that reads
neither that newline, nor a further backslash-newline, nor a lexeme beginning with a quote, leaves
the cursor on the line. -/
theorem continuation_line_not_indented (source : List Char) (s0 : LexState)
    (hlen : (beforeLexeme source s0).i + 1 < source.length)
    (hb : charAt source (beforeLexeme source s0).i = '\\')
    (hn : charAt source ((beforeLexeme source s0).i + 1) = '\n') :
    ∃ s, lexStep source s0 = some (.ok s) ∧
      s.lineNumber = s0.lineNumber + 1 ∧ s.i = (beforeLexeme source s0).i + 2 ∧
      s.atLineStart = true ∧ s.lineContinuation = true ∧
      ∀ n sn, lexSteps source n s = some (.ok sn) →
        newlinesBefore source sn.i = newlinesBefore source s.i →
        sn.lineContinuation = true ∧ sn.indentStack = s.indentStack ∧
        sn.lineNumber = s0.lineNumber + 1 ∧
        (∃ toks, sn.tokens = s.tokens ++ toks ∧
          ∀ t ∈ toks, t.type ≠ .INDENT ∧ t.type ≠ .DEDENT ∧
            t.lineNumber = s0.lineNumber + 1) ∧
        (∃ errs, sn.errors = s.errors ++ errs ∧ ∀ e ∈ errs, e.message ∉ indentationMessages) ∧
        (readsNewline source sn →
          newlinesBefore source (beforeLexeme source sn).i = newlinesBefore source s.i ∧
          ∃ s1, lexStep source sn = some (.ok s1) ∧
            s1.tokens = sn.tokens ∧ s1.errors = sn.errors ∧ s1.indentStack = sn.indentStack ∧
            s1.lineNumber = sn.lineNumber + 1 ∧
            s1.i = (beforeLexeme source sn).i + 1 ∧
            newlinesBefore source s1.i = newlinesBefore source s.i + 1 ∧
            s1.atLineStart = true ∧ s1.lineContinuation = false ∧
            beforeLexeme source s1 =
              { processIndentation source s1 with
                atLineStart := false,
                i := skipNonLeadingWhitespace source (processIndentation source s1).i }) ∧
        (∀ s1, lexStep source sn = some (.ok s1) →
          ¬ readsNewline source sn →
          ¬ (charAt source (beforeLexeme source sn).i = '\\' ∧
            (beforeLexeme source sn).i + 1 < source.length ∧
            charAt source ((beforeLexeme source sn).i + 1) = '\n') →
          ¬ (charAt source (beforeLexeme source sn).i = '\"' ∨
            charAt source (beforeLexeme source sn).i = '\'') →
          newlinesBefore source s1.i = newlinesBefore source s.i) := by
  have hline := (beforeLexeme_lines source s0).2
  refine ⟨_, lexStep_backslash_newline source s0 hlen hb hn, by simp only [hline], rfl, rfl, rfl,
    ?_⟩
  intro n sn hsteps hon
  obtain ⟨⟨d0, d1, d2, ⟨toks, d3, d4⟩, d5⟩, dl⟩ := lexSteps_on_line source n _ sn rfl hsteps hon
  simp only at dl hon d1 d3 d4 d5 ⊢
  rw [hline] at dl
  refine ⟨d0, d1, dl, ⟨toks, d3, ?_⟩, d5, ?_, ?_⟩
  · intro t hmem
    obtain ⟨c1, c2, c3, c4⟩ := d4 t hmem
    refine ⟨c1, c2, ?_⟩
    rw [hline] at c3
    rw [dl] at c4
    exact le_antisymm c4 c3
  · intro hnl
    have hbl := beforeLexeme_of_continuation source sn d0
    have hstep := lexStep_newline source sn hnl
    have hbn := beforeLexeme_newlines source sn
    refine ⟨by rw [hbn, hon], _, hstep, ?_, ?_, ?_, ?_, rfl, ?_, rfl, rfl, ?_⟩
    · rw [hbl]
    · rw [hbl]
    · rw [hbl]
    · rw [hbl]
    · simp only
      rw [newlinesBefore_succ source _ hnl.2, hbn, hon]
    · unfold beforeLexeme
      simp
  · intro s1 hstep hnl hcont hq
    rw [(lexStep_same_line source sn s1 hstep hq hnl hcont).2, hon]

theorem continuation_line_not_indented_witness :
    ∃ s, lexStep "x = 1 + \\\n        2\ny = 3".toList (⟨[⟨.IDENTIFIER, "x", 1, "global"⟩, ⟨.OPERATOR, "=", 1, ""⟩, ⟨.NUMBER, "1", 1, ""⟩,
        ⟨.OPERATOR, "+", 1, ""⟩], [], 1, 7, [0], false, false, []⟩ : LexState) = some (.ok s) ∧
      s.lineNumber = (1 : Int) + 1 ∧
      s.i = (beforeLexeme "x = 1 + \\\n        2\ny = 3".toList (⟨[⟨.IDENTIFIER, "x", 1, "global"⟩, ⟨.OPERATOR, "=", 1, ""⟩, ⟨.NUMBER, "1", 1, ""⟩,
        ⟨.OPERATOR, "+", 1, ""⟩], [], 1, 7, [0], false, false, []⟩ : LexState)).i + 2 ∧
      s.atLineStart = true ∧ s.lineContinuation = true ∧
      ∀ n sn, lexSteps "x = 1 + \\\n        2\ny = 3".toList n s = some (.ok sn) →
        newlinesBefore "x = 1 + \\\n        2\ny = 3".toList sn.i = newlinesBefore "x = 1 + \\\n        2\ny = 3".toList s.i →
        sn.lineContinuation = true ∧ sn.indentStack = s.indentStack ∧
        sn.lineNumber = (1 : Int) + 1 ∧
        (∃ toks, sn.tokens = s.tokens ++ toks ∧
          ∀ t ∈ toks, t.type ≠ .INDENT ∧ t.type ≠ .DEDENT ∧
            t.lineNumber = (1 : Int) + 1) ∧
        (∃ errs, sn.errors = s.errors ++ errs ∧ ∀ e ∈ errs, e.message ∉ indentationMessages) ∧
        (readsNewline "x = 1 + \\\n        2\ny = 3".toList sn →
          newlinesBefore "x = 1 + \\\n        2\ny = 3".toList (beforeLexeme "x = 1 + \\\n        2\ny = 3".toList sn).i = newlinesBefore "x = 1 + \\\n        2\ny = 3".toList s.i ∧
          ∃ s1, lexStep "x = 1 + \\\n        2\ny = 3".toList sn = some (.ok s1) ∧
            s1.tokens = sn.tokens ∧ s1.errors = sn.errors ∧ s1.indentStack = sn.indentStack ∧
            s1.lineNumber = sn.lineNumber + 1 ∧
            s1.i = (beforeLexeme "x = 1 + \\\n        2\ny = 3".toList sn).i + 1 ∧
            newlinesBefore "x = 1 + \\\n        2\ny = 3".toList s1.i = newlinesBefore "x = 1 + \\\n        2\ny = 3".toList s.i + 1 ∧
            s1.atLineStart = true ∧ s1.lineContinuation = false ∧
            beforeLexeme "x = 1 + \\\n        2\ny = 3".toList s1 =
              { processIndentation "x = 1 + \\\n        2\ny = 3".toList s1 with
                atLineStart := false,
                i := skipNonLeadingWhitespace "x = 1 + \\\n        2\ny = 3".toList (processIndentation "x = 1 + \\\n        2\ny = 3".toList s1).i }) ∧
        (∀ s1, lexStep "x = 1 + \\\n        2\ny = 3".toList sn = some (.ok s1) →
          ¬ readsNewline "x = 1 + \\\n        2\ny = 3".toList sn →
          ¬ (charAt "x = 1 + \\\n        2\ny = 3".toList (beforeLexeme "x = 1 + \\\n        2\ny = 3".toList sn).i = '\\' ∧
            (beforeLexeme "x = 1 + \\\n        2\ny = 3".toList sn).i + 1 < ("x = 1 + \\\n        2\ny = 3".toList).length ∧
            charAt "x = 1 + \\\n        2\ny = 3".toList ((beforeLexeme "x = 1 + \\\n        2\ny = 3".toList sn).i + 1) = '\n') →
          ¬ (charAt "x = 1 + \\\n        2\ny = 3".toList (beforeLexeme "x = 1 + \\\n        2\ny = 3".toList sn).i = '\"' ∨
            charAt "x = 1 + \\\n        2\ny = 3".toList (beforeLexeme "x = 1 + \\\n        2\ny = 3".toList sn).i = '\'') →
          newlinesBefore "x = 1 + \\\n        2\ny = 3".toList s1.i = newlinesBefore "x = 1 + \\\n        2\ny = 3".toList s.i) :=
  continuation_line_not_indented ("x = 1 + \\\n        2\ny = 3".toList)
    ⟨[⟨.IDENTIFIER, "x", 1, "global"⟩, ⟨.OPERATOR, "=", 1, ""⟩, ⟨.NUMBER, "1", 1, ""⟩,
        ⟨.OPERATOR, "+", 1, ""⟩], [], 1, 7, [0], false, false, []⟩
    (by decide!) (by decide!) (by decide!)

/-- The states of the example of C30 on its continued line: the iteration after the
backslash-newline lexes `2` with the cursor still on line 2 (one newline before it, as at the
start of the line), no layout token and `lineContinuation` set; the next iteration reads the
newline that ends the line and leaves the cursor at the start of line 3 with `atLineStart` set
and `lineContinuation` cleared. -/
theorem lexSteps_continuation_example_line :
    lexStep "x = 1 + \\\n        2\ny = 3".toList (⟨[⟨.IDENTIFIER, "x", 1, "global"⟩, ⟨.OPERATOR, "=", 1, ""⟩, ⟨.NUMBER, "1", 1, ""⟩,
        ⟨.OPERATOR, "+", 1, ""⟩], [], 1, 7, [0], false, false, []⟩ : LexState) =
      some (.ok ⟨[⟨.IDENTIFIER, "x", 1, "global"⟩, ⟨.OPERATOR, "=", 1, ""⟩,
        ⟨.NUMBER, "1", 1, ""⟩, ⟨.OPERATOR, "+", 1, ""⟩], [], 2, 10, [0], true, true, []⟩) ∧
    lexSteps "x = 1 + \\\n        2\ny = 3".toList 1
        ⟨[⟨.IDENTIFIER, "x", 1, "global"⟩, ⟨.OPERATOR, "=", 1, ""⟩,
          ⟨.NUMBER, "1", 1, ""⟩, ⟨.OPERATOR, "+", 1, ""⟩], [], 2, 10, [0], true, true, []⟩ =
      some (.ok ⟨[⟨.IDENTIFIER, "x", 1, "global"⟩, ⟨.OPERATOR, "=", 1, ""⟩,
        ⟨.NUMBER, "1", 1, ""⟩, ⟨.OPERATOR, "+", 1, ""⟩, ⟨.NUMBER, "2", 2, ""⟩],
        [], 2, 19, [0], true, true, []⟩) ∧
    newlinesBefore "x = 1 + \\\n        2\ny = 3".toList 19 = newlinesBefore "x = 1 + \\\n        2\ny = 3".toList 10 ∧
    charAt "x = 1 + \\\n        2\ny = 3".toList 19 = '\n' ∧
    lexSteps "x = 1 + \\\n        2\ny = 3".toList 2
        ⟨[⟨.IDENTIFIER, "x", 1, "global"⟩, ⟨.OPERATOR, "=", 1, ""⟩,
          ⟨.NUMBER, "1", 1, ""⟩, ⟨.OPERATOR, "+", 1, ""⟩], [], 2, 10, [0], true, true, []⟩ =
      some (.ok ⟨[⟨.IDENTIFIER, "x", 1, "global"⟩, ⟨.OPERATOR, "=", 1, ""⟩,
        ⟨.NUMBER, "1", 1, ""⟩, ⟨.OPERATOR, "+", 1, ""⟩, ⟨.NUMBER, "2", 2, ""⟩],
        [], 3, 20, [0], true, false, []⟩) := by
  refine ⟨?_, ?_, ?_, ?_, ?_⟩ <;> decide!

end PyCompiler
